import Mathlib

/-!
Verification of the Vantage chess engine core (Rust) against its
natural-language specification, via a shallow embedding in Lean 4.

Conventions of the embedding:
* Rust `u64` bitboards are `Nat` values kept below `2 ^ 64`; left shifts that
  may overflow are reduced with `% 2 ^ 64`, and `!x` (64-bit complement)
  becomes `compl64 x = mask64 ^^^ x`.
* Rust structs become Lean structures; `Vec<u64>` becomes `List Nat`.
* The process-wide Zobrist key table (a lazily initialized global in
  `src/hash/zobrist.rs`) is passed explicitly as a `ZobristKeys` argument.
* Loops that pop the least significant bit of a bitboard in ascending order
  are embedded as folds over `List.range 64` guarded by `Nat.testBit`, which
  performs the same per-square updates in the same (ascending) order.
-/

namespace Vantage

/-- Modulus of 64-bit arithmetic. -/
def mask64 : Nat := 2 ^ 64 - 1

/-- Embedding of Rust `!x` on `u64` (bitwise complement within 64 bits). -/
def compl64 (x : Nat) : Nat := mask64 ^^^ x

/-- Embedding of `u64::count_ones` (population count of a value below `2^64`). -/
def popcount : Nat → Nat
  | 0 => 0
  | n + 1 => (n + 1) % 2 + popcount ((n + 1) / 2)

/-- Colors, as in `src/board/mod.rs` (`White = 0`, `Black = 1`). -/
inductive Color where
  | White
  | Black
deriving DecidableEq

/-- Embedding of `Color::opposite`. -/
def Color.opposite : Color → Color
  | .White => .Black
  | .Black => .White

/-- Piece kinds, as in `src/board/mod.rs` (`Pawn = 0` … `King = 5`). -/
inductive Piece where
  | Pawn
  | Knight
  | Bishop
  | Rook
  | Queen
  | King
deriving DecidableEq

/-- List of both colors, for iteration (mirrors `COLORS` in the source). -/
def allColors : List Color := [.White, .Black]

/-- List of all piece kinds, for iteration (mirrors `PIECES` in the source). -/
def allPieces : List Piece := [.Pawn, .Knight, .Bishop, .Rook, .Queen, .King]

/-- Embedding of `Piece::value` from `src/board/mod.rs`. -/
def Piece.value : Piece → Int
  | .Pawn => 100
  | .Knight => 320
  | .Bishop => 330
  | .Rook => 500
  | .Queen => 900
  | .King => 0

/-- Embedding of `Piece::attacker_value` from `src/board/mod.rs`. -/
def Piece.attackerValue : Piece → Int
  | .Pawn => 1
  | .Knight => 2
  | .Bishop => 3
  | .Rook => 4
  | .Queen => 5
  | .King => 6

/-- Sentinel for an empty square in the mailbox (`EMPTY_SQ = 0xFF`). -/
def EMPTY_SQ : Nat := 0xFF

/-- Mailbox encoding `(color << 3) | piece` from `Board::place_piece_at_sq`. -/
def mailboxCode (c : Color) (p : Piece) : Nat :=
  (match c with | .White => 0 | .Black => 1) * 8 +
  (match p with
   | .Pawn => 0 | .Knight => 1 | .Bishop => 2
   | .Rook => 3 | .Queen => 4 | .King => 5)

/-- Castling-rights bits from `src/board/castle_bits.rs`:
bit 0 = White kingside, 1 = White queenside, 2 = Black kingside,
3 = Black queenside. -/
def CASTLE_WK : Nat := 1
def CASTLE_WQ : Nat := 2
def CASTLE_BK : Nat := 4
def CASTLE_BQ : Nat := 8

/-- Move flag constants from `src/moves/types.rs`. -/
def QUIET_MOVE : Nat := 0
def DOUBLE_PAWN_PUSH : Nat := 1
def KINGSIDE_CASTLE : Nat := 2
def QUEENSIDE_CASTLE : Nat := 3
def CAPTURE : Nat := 4
def EN_PASSANT : Nat := 5
def PROMOTION : Nat := 8
def PROMOTION_CAPTURE : Nat := 12

/-- Embedding of the `Move` struct from `src/moves/types.rs`.
Squares are indices `0..63` (`a1 = 0`, `h8 = 63`). -/
structure Move where
  from_sq : Nat
  to_sq : Nat
  piece : Piece
  promotion : Option Piece
  flags : Nat
deriving DecidableEq

/-- Embedding of `Move::is_capture`. -/
def Move.isCapture (m : Move) : Bool := m.flags &&& CAPTURE != 0

/-- Embedding of `Move::is_en_passant`. -/
def Move.isEnPassant (m : Move) : Bool := m.flags == EN_PASSANT

/-- Embedding of `Move::is_castling`. -/
def Move.isCastling (m : Move) : Bool :=
  m.flags == KINGSIDE_CASTLE || m.flags == QUEENSIDE_CASTLE

/-- Embedding of `Move::is_kingside_castle`. -/
def Move.isKingsideCastle (m : Move) : Bool := m.flags == KINGSIDE_CASTLE

/-- Embedding of `Move::is_queenside_castle`. -/
def Move.isQueensideCastle (m : Move) : Bool := m.flags == QUEENSIDE_CASTLE

/-- Embedding of `Move::is_promotion`. -/
def Move.isPromotion (m : Move) : Bool := m.flags &&& PROMOTION != 0

/-- Embedding of `Move::is_double_pawn_push`. -/
def Move.isDoublePawnPush (m : Move) : Bool := m.flags == DOUBLE_PAWN_PUSH

/-- Embedding of `Move::is_quiet`. -/
def Move.isQuiet (m : Move) : Bool := m.flags == QUIET_MOVE

/-- Embedding of the `Board` struct from `src/board/mod.rs`.
`pieceBB` maps (color, piece) to a `u64` bitboard; `pieceOnSq` is the mailbox
(`0xFF` = empty); `history` is the repetition-history vector of Zobrist keys. -/
structure Board where
  pieceBB : Color → Piece → Nat
  occWhite : Nat
  occBlack : Nat
  occAll : Nat
  pieceOnSq : Nat → Nat
  sideToMove : Color
  castlingRights : Nat
  enPassant : Option Nat
  halfmoveClock : Nat
  fullmoveNumber : Nat
  zobrist : Nat
  history : List Nat

/-- Embedding of `Board::bb`. -/
def Board.bb (b : Board) (c : Color) (p : Piece) : Nat := b.pieceBB c p

/-- Embedding of `Board::occupancy`. -/
def Board.occupancy (b : Board) (c : Color) : Nat :=
  match c with
  | .White => b.occWhite
  | .Black => b.occBlack

/-- Embedding of `Board::opponent_occupancy`. -/
def Board.opponentOccupancy (b : Board) (c : Color) : Nat :=
  b.occupancy c.opposite

/-- Embedding of `Board::occupied`. -/
def Board.occupied (b : Board) : Nat := b.occAll

/-- Embedding of `Board::pieces` (same as `bb` with arguments swapped). -/
def Board.pieces (b : Board) (p : Piece) (c : Color) : Nat := b.pieceBB c p

/-- Embedding of `Board::piece_at`: decode the mailbox entry at a square. -/
def Board.pieceAt (b : Board) (sq : Nat) : Option (Color × Piece) :=
  let v := b.pieceOnSq sq
  if v = EMPTY_SQ then none
  else some (if (v >>> 3) &&& 1 = 1 then Color.Black else Color.White,
    match v &&& 7 with
    | 0 => Piece.Pawn | 1 => Piece.Knight | 2 => Piece.Bishop
    | 3 => Piece.Rook | 4 => Piece.Queen | _ => Piece.King)

/-- Embedding of `Board::piece_type_at`. -/
def Board.pieceTypeAt (b : Board) (sq : Nat) : Option Piece :=
  (b.pieceAt sq).map Prod.snd

/-- Embedding of the Zobrist key table `ZobristKeys` from `src/hash/zobrist.rs`.
The Rust keys are drawn from a global RNG at startup; the embedding abstracts
over the key values. -/
structure ZobristKeys where
  piece : Color → Piece → Nat → Nat
  sideToMove : Nat
  castling : Nat → Nat
  epFile : Nat → Nat

/-- Embedding of `xor_castling_rights_delta` from `src/hash/zobrist.rs`:
XOR into `hash` the castling keys of every bit that differs between `old`
and `new` rights. -/
def xorCastlingRightsDelta (keys : ZobristKeys) (hash old new_ : Nat) : Nat :=
  let d := old ^^^ new_
  let h0 := if d &&& CASTLE_WK != 0 then hash ^^^ keys.castling 0 else hash
  let h1 := if d &&& CASTLE_WQ != 0 then h0 ^^^ keys.castling 1 else h0
  let h2 := if d &&& CASTLE_BK != 0 then h1 ^^^ keys.castling 2 else h1
  if d &&& CASTLE_BQ != 0 then h2 ^^^ keys.castling 3 else h2

/-- The file masks `FILE_A` and `FILE_H` used throughout the source. -/
def FILE_A : Nat := 0x0101010101010101
def FILE_H : Nat := 0x8080808080808080

/-- Embedding of `ep_file_to_hash` from `src/hash/zobrist.rs`: the en-passant
file contributes to the hash only when the EP square is on rank 3 or 6 and the
side to move has a pawn that could (pseudo-legally) capture onto it. -/
def epFileToHash (b : Board) : Option Nat :=
  match b.enPassant with
  | none => none
  | some s =>
    let r := s / 8
    if ¬(r = 2 ∨ r = 5) then none
    else
      let bbS : Nat := (1 <<< s) % 2 ^ 64
      let hasCapturingPawn :=
        match b.sideToMove with
        | .White =>
          let srcNe := (bbS >>> 9) &&& compl64 FILE_H
          let srcNw := (bbS >>> 7) &&& compl64 FILE_A
          (srcNe ||| srcNw) &&& b.bb .White .Pawn != 0
        | .Black =>
          let srcSe := ((bbS <<< 7) % 2 ^ 64) &&& compl64 FILE_A
          let srcSw := ((bbS <<< 9) % 2 ^ 64) &&& compl64 FILE_H
          (srcSe ||| srcSw) &&& b.bb .Black .Pawn != 0
      if hasCapturingPawn then some (s % 8) else none

/-- XOR of the per-square piece keys of one (color, piece) bitboard, visiting
squares in ascending order exactly like the pop-LSB loops of the source. -/
def xorPieceKeys (keys : ZobristKeys) (c : Color) (p : Piece) (bb : Nat) : Nat :=
  (List.range 64).foldl
    (fun acc sq => if bb.testBit sq then acc ^^^ keys.piece c p sq else acc) 0

/-- Embedding of `Board::compute_zobrist_full` from `src/board/mod.rs`:
from-scratch recomputation of the hash (pieces, side, castling, en passant). -/
def computeZobristFull (keys : ZobristKeys) (b : Board) : Nat :=
  let pieceHash := allColors.foldl (fun acc c =>
    allPieces.foldl (fun acc p => acc ^^^ xorPieceKeys keys c p (b.bb c p)) acc) 0
  let h1 := if b.sideToMove = Color.Black then pieceHash ^^^ keys.sideToMove
    else pieceHash
  let h2 := if b.castlingRights &&& CASTLE_WK != 0 then h1 ^^^ keys.castling 0 else h1
  let h3 := if b.castlingRights &&& CASTLE_WQ != 0 then h2 ^^^ keys.castling 1 else h2
  let h4 := if b.castlingRights &&& CASTLE_BK != 0 then h3 ^^^ keys.castling 2 else h3
  let h5 := if b.castlingRights &&& CASTLE_BQ != 0 then h4 ^^^ keys.castling 3 else h4
  match epFileToHash b with
  | some f => h5 ^^^ keys.epFile f
  | none => h5

/-- Embedding of `Board::repetition_count` from `src/board/mod.rs`: count the
history entries equal to the current Zobrist key with `u8` saturating
increments, then add one (saturating) for the current position. -/
def Board.repetitionCount (b : Board) : Nat :=
  let count := b.history.foldl
    (fun acc k => if k = b.zobrist then min (acc + 1) 255 else acc) 0
  min (count + 1) 255

/-- Embedding of `Board::is_threefold`. -/
def Board.isThreefold (b : Board) : Bool := b.repetitionCount ≥ 3

/-- Embedding of `is_fivefold` from `src/status.rs`. -/
def isFivefold (b : Board) : Bool := b.repetitionCount ≥ 5

/-- Embedding of `is_insufficient_material` from `src/status.rs`. -/
def isInsufficientMaterial (b : Board) : Bool :=
  let wp := b.bb .White .Pawn
  let bp := b.bb .Black .Pawn
  let wr := b.bb .White .Rook
  let br := b.bb .Black .Rook
  let wq := b.bb .White .Queen
  let bq := b.bb .Black .Queen
  if (wp ||| bp ||| wr ||| br ||| wq ||| bq) ≠ 0 then false
  else
    let wb := popcount (b.bb .White .Bishop)
    let wn := popcount (b.bb .White .Knight)
    let bbc := popcount (b.bb .Black .Bishop)
    let bn := popcount (b.bb .Black .Knight)
    let wMinors := wb + wn
    let bMinors := bbc + bn
    let totalMinors := wMinors + bMinors
    if totalMinors = 0 then true
    else if totalMinors = 1 then true
    else if totalMinors = 2 then
      if wn = 2 ∨ bn = 2 then true
      else if wMinors = 1 ∧ bMinors = 1 then true
      else false
    else false

/-- Embedding of `Color::from_u8` (values other than 0/1 panic in Rust and are
unreachable under the mailbox invariant). -/
def colorFromU8 (v : Nat) : Color := if v = 1 then .Black else .White

/-- Embedding of `Piece::from_u8` (values above 5 panic in Rust and are
unreachable under the mailbox invariant). -/
def pieceFromU8 (v : Nat) : Piece :=
  match v with
  | 0 => .Pawn | 1 => .Knight | 2 => .Bishop
  | 3 => .Rook | 4 => .Queen | _ => .King

/-- Embedding of `Board::set_bb` from `src/board/mod.rs`: store the new
bitboard, adjust the side and total occupancies by the XOR delta, rewrite the
mailbox at every toggled square (the Rust loop pops the delta's set bits in
ascending order; its net effect is this pointwise update), and XOR the piece
key of every toggled square into the Zobrist hash. -/
def setBB (keys : ZobristKeys) (b : Board) (c : Color) (p : Piece)
    (newBB : Nat) : Board :=
  let oldBB := b.pieceBB c p
  let delta := oldBB ^^^ newBB
  if delta = 0 then b
  else
    let occW := if c = Color.White then b.occWhite ^^^ delta else b.occWhite
    let occB := if c = Color.Black then b.occBlack ^^^ delta else b.occBlack
    { b with
      pieceBB := fun c' p' => if c' = c ∧ p' = p then newBB else b.pieceBB c' p'
      occWhite := occW
      occBlack := occB
      occAll := occW ||| occB
      pieceOnSq := fun sq =>
        if delta.testBit sq then
          (if newBB.testBit sq then mailboxCode c p else EMPTY_SQ)
        else b.pieceOnSq sq
      zobrist := b.zobrist ^^^ xorPieceKeys keys c p delta }

/-- Embedding of `remove_piece` from `src/moves/execute.rs`. -/
def removePiece (keys : ZobristKeys) (b : Board) (c : Color) (p : Piece)
    (idx : Nat) : Board :=
  setBB keys b c p (b.bb c p &&& compl64 ((1 <<< idx) % 2 ^ 64))

/-- Embedding of `place_piece` from `src/moves/execute.rs`. -/
def placePiece (keys : ZobristKeys) (b : Board) (c : Color) (p : Piece)
    (idx : Nat) : Board :=
  setBB keys b c p (b.bb c p ||| (1 <<< idx) % 2 ^ 64)

/-- Embedding of `rook_castle_squares` from `src/moves/execute.rs`. -/
def rookCastleSquares (kingToIdx : Nat) : Option (Nat × Nat) :=
  match kingToIdx with
  | 6 => some (7, 5)
  | 2 => some (0, 3)
  | 62 => some (63, 61)
  | 58 => some (56, 59)
  | _ => none

/-- Embedding of `rights_mask_to_clear_for_rook` from `src/moves/execute.rs`. -/
def rightsMaskToClearForRook (c : Color) (rookSq : Nat) : Nat :=
  match c, rookSq with
  | .White, 0 => CASTLE_WQ
  | .White, 7 => CASTLE_WK
  | .Black, 56 => CASTLE_BQ
  | .Black, 63 => CASTLE_BK
  | _, _ => 0

/-- Embedding of Rust `!x` on `u8`. -/
def compl8 (x : Nat) : Nat := 255 ^^^ x

/-- The recurring EP-hash adjustment of `src/moves/execute.rs`: if the current
position contributes an EP file to the hash, XOR that file key into the
Zobrist value (the same code pattern opens and closes `make_move_basic`,
`undo_move_basic`, `make_null_move` and `undo_null_move`). -/
def epXorHash (keys : ZobristKeys) (b : Board) : Board :=
  match epFileToHash b with
  | some f => { b with zobrist := b.zobrist ^^^ keys.epFile f }
  | none => b

/-- Assignment `board.en_passant = e`. -/
def setEp (b : Board) (e : Option Nat) : Board := { b with enPassant := e }

/-- The paired side flip of `execute.rs`: assign the side to move and XOR the
side key into the hash. -/
def setSideXor (keys : ZobristKeys) (b : Board) (c : Color) : Board :=
  { b with sideToMove := c, zobrist := b.zobrist ^^^ keys.sideToMove }

/-- The castling-rights update of `execute.rs`: when the rights change, apply
the hash delta and assign; otherwise just (re)assign the equal value. -/
def setRightsXor (keys : ZobristKeys) (b : Board) (newRights : Nat) : Board :=
  if b.castlingRights ≠ newRights then
    { b with castlingRights := newRights
             zobrist := xorCastlingRightsDelta keys b.zobrist
               b.castlingRights newRights }
  else { b with castlingRights := newRights }

/-- Clock assignments of `execute.rs`. -/
def setClocks (b : Board) (hm fm : Nat) : Board :=
  { b with halfmoveClock := hm, fullmoveNumber := fm }

/-- Halfmove-clock assignment (used by `undo_null_move`). -/
def setHalfmove (b : Board) (hm : Nat) : Board := { b with halfmoveClock := hm }

/-- History assignment (`board.history = …`). -/
def setHistory (b : Board) (h : List Nat) : Board := { b with history := h }

/-- History push (`board.history.push(k)`). -/
def pushHistory (b : Board) (k : Nat) : Board :=
  { b with history := b.history ++ [k] }

/-- History pop (`board.history.pop()`, result discarded). -/
def popHistory (b : Board) : Board := { b with history := b.history.dropLast }

/-- Capture resolution of `make_move_basic`: en-passant captures remove the
pawn behind the target square; otherwise a nonempty destination mailbox entry
is decoded and removed.  Returns the recorded capture and the updated board. -/
def resolveCapture (keys : ZobristKeys) (b : Board) (mv : Move)
    (color : Color) : Option (Color × Piece × Nat) × Board :=
  if mv.isEnPassant then
    let capSq := if color = Color.White then mv.to_sq - 8 else mv.to_sq + 8
    (some (color.opposite, .Pawn, capSq),
      removePiece keys b color.opposite .Pawn capSq)
  else
    let occupant := b.pieceOnSq mv.to_sq
    if occupant ≠ EMPTY_SQ then
      let capColor := colorFromU8 (occupant >>> 3)
      let capPiece := pieceFromU8 (occupant &&& 7)
      (some (capColor, capPiece, mv.to_sq),
        removePiece keys b capColor capPiece mv.to_sq)
    else (none, b)

/-- Double-push EP assignment of `make_move_basic` (step 6 of the spec). -/
def setDoublePushEp (b : Board) (mv : Move) (color : Color) : Board :=
  if mv.piece = Piece.Pawn ∧
      ((color = Color.White ∧ mv.from_sq / 8 = 1 ∧ mv.to_sq / 8 = 3) ∨
       (color = Color.Black ∧ mv.from_sq / 8 = 6 ∧ mv.to_sq / 8 = 4)) then
    setEp b (some (if color = Color.White then mv.from_sq + 8
      else mv.from_sq - 8))
  else b

/-- Embedding of the `Undo` struct from `src/moves/types.rs`. -/
structure Undo where
  from_sq : Nat
  to_sq : Nat
  piece : Piece
  color : Color
  prevSide : Color
  capture : Option (Color × Piece × Nat)
  castlingRook : Option (Nat × Nat)
  prevCastlingRights : Nat
  promotion : Option Piece
  prevEnPassant : Option Nat
  prevHalfmoveClock : Nat
  prevFullmoveNumber : Nat
  prevHistory : Option (List Nat)
deriving DecidableEq

/-- Embedding of the `NullMoveUndo` struct from `src/moves/types.rs`. -/
structure NullMoveUndo where
  prevEnPassant : Option Nat
  prevHalfmoveClock : Nat
  prevSide : Color
deriving DecidableEq

/-- Embedding of `make_move_basic` from `src/moves/execute.rs`, returning the
mutated board together with the `Undo` record.  The steps appear in source
order: XOR out the old EP contribution, clear EP, resolve the capture, set a
new EP square on double pushes, update castling rights (hash delta applied
once), move the piece (promotion replaces the pawn), move the castling rook,
update the clocks, flip the side, XOR in the new EP contribution, and finally
push the pre-move key into the (possibly truncated) repetition history.
`fmNew` uses the saved previous fullmove number, which equals the board's
(unchanged) fullmove number at that point of the source. -/
def makeMoveBasic (keys : ZobristKeys) (b0 : Board) (mv : Move) :
    Board × Undo :=
  let startZobrist := b0.zobrist
  let color := b0.sideToMove
  let piece := mv.piece
  let fromIdx := mv.from_sq
  let toIdx := mv.to_sq
  let prevEnPassant := b0.enPassant
  let b1 := epXorHash keys b0
  let b2 := setEp b1 none
  let prevHalfmoveClock := b2.halfmoveClock
  let prevFullmoveNumber := b2.fullmoveNumber
  let capRes := resolveCapture keys b2 mv color
  let capture := capRes.1
  let b3 := capRes.2
  let oldRights := b3.castlingRights
  let castlingRook := if mv.isCastling then rookCastleSquares toIdx else none
  let b4 := setDoublePushEp b3 mv color
  let maskKing :=
    if piece = Piece.King then
      match color with
      | .White => CASTLE_WK ||| CASTLE_WQ
      | .Black => CASTLE_BK ||| CASTLE_BQ
    else 0
  let maskRook :=
    if piece = Piece.Rook then rightsMaskToClearForRook color fromIdx else 0
  let maskCap :=
    match capture with
    | some (cc, cp, cs) =>
      if cp = Piece.Rook then rightsMaskToClearForRook cc cs else 0
    | none => 0
  let maskToClear := maskKing ||| maskRook ||| maskCap
  let newRights := oldRights &&& compl8 maskToClear
  let b5 := setRightsXor keys b4 newRights
  let b6 := removePiece keys b5 color piece fromIdx
  let placed : Piece := match mv.promotion with | some prom => prom | none => piece
  let b7 := placePiece keys b6 color placed toIdx
  let b8 := match castlingRook with
    | some (rf, rt) =>
      placePiece keys (removePiece keys b7 color .Rook rf) color .Rook rt
    | none => b7
  let hmNew :=
    if capture.isSome ∨ piece = Piece.Pawn then 0
    else (prevHalfmoveClock + 1) % 2 ^ 32
  let fmNew :=
    if color = Color.Black then (prevFullmoveNumber + 1) % 2 ^ 32
    else prevFullmoveNumber
  let b9 := setClocks b8 hmNew fmNew
  let b10 := setSideXor keys b9 color.opposite
  let b11 := epXorHash keys b10
  let irreversible := capture.isSome ∨ piece = Piece.Pawn ∨ mv.promotion.isSome
  let saved := if irreversible then some b11.history else none
  let b12 := if irreversible then setHistory b11 [] else b11
  let b13 := pushHistory b12 startZobrist
  (b13,
    { from_sq := mv.from_sq
      to_sq := mv.to_sq
      piece := piece
      color := color
      prevSide := color
      capture := capture
      castlingRook := castlingRook
      prevCastlingRights := b3.castlingRights
      promotion := mv.promotion
      prevEnPassant := prevEnPassant
      prevHalfmoveClock := prevHalfmoveClock
      prevFullmoveNumber := prevFullmoveNumber
      prevHistory := saved })

/-- Embedding of `undo_move_basic` from `src/moves/execute.rs`: reverse every
step of `makeMoveBasic` in reverse order, restoring castling rights, clocks,
pieces, the captured piece, the castling rook, the prior EP square, and the
repetition history (popping the pushed key, then restoring the snapshot on
irreversible moves). -/
def undoMoveBasic (keys : ZobristKeys) (b : Board) (u : Undo) : Board :=
  let b1 := epXorHash keys b
  let b2 := setSideXor keys b1 u.prevSide
  let b3 := setRightsXor keys b2 u.prevCastlingRights
  let b4 := setClocks b3 u.prevHalfmoveClock u.prevFullmoveNumber
  let b5 := match u.promotion with
    | some prom =>
      placePiece keys (removePiece keys b4 u.color prom u.to_sq) u.color
        .Pawn u.from_sq
    | none =>
      placePiece keys (removePiece keys b4 u.color u.piece u.to_sq) u.color
        u.piece u.from_sq
  let b6 := match u.capture with
    | some (cc, cp, cs) => placePiece keys b5 cc cp cs
    | none => b5
  let b7 := match u.castlingRook with
    | some (rf, rt) =>
      placePiece keys (removePiece keys b6 u.color .Rook rt) u.color .Rook rf
    | none => b6
  let b8 := setEp b7 u.prevEnPassant
  let b9 := epXorHash keys b8
  let b10 := popHistory b9
  match u.prevHistory with
  | some prevH => setHistory b10 prevH
  | none => b10

/-- Embedding of `make_null_move` from `src/moves/execute.rs`. -/
def makeNullMove (keys : ZobristKeys) (b : Board) : Board × NullMoveUndo :=
  let b1 := pushHistory b b.zobrist
  let u : NullMoveUndo :=
    { prevEnPassant := b1.enPassant
      prevHalfmoveClock := b1.halfmoveClock
      prevSide := b1.sideToMove }
  let b2 := epXorHash keys b1
  let b3 := setEp b2 none
  let b4 := setSideXor keys b3 b3.sideToMove.opposite
  (b4, u)

/-- Embedding of `undo_null_move` from `src/moves/execute.rs`. -/
def undoNullMove (keys : ZobristKeys) (b : Board) (u : NullMoveUndo) : Board :=
  let b1 := setSideXor keys b u.prevSide
  let b2 := setEp b1 u.prevEnPassant
  let b3 := epXorHash keys b2
  let b4 := setHalfmove b3 u.prevHalfmoveClock
  popHistory b4

/-! ### Transposition table sizing (`src/search/tt.rs`) -/

/-- Embedding of the entry count computed in `TranspositionTable::new`:
`(size_mb * 1024 * 1024) / size_of::<TTEntry>()`.  The concrete Rust entry
size is left as a parameter. -/
def ttEntriesFromMb (sizeMb entrySize : Nat) : Nat :=
  sizeMb * 1024 * 1024 / entrySize

/-- Embedding of the rounding loop of `TranspositionTable::new`
(`while capacity * 2 <= num_entries { capacity *= 2 }`).  The fuel bounds the
number of doublings; since the capacity doubles each step, `n` iterations are
always more than enough. -/
def ttCapacityLoop : Nat → Nat → Nat → Nat
  | 0, cap, _ => cap
  | fuel + 1, cap, n => if cap * 2 ≤ n then ttCapacityLoop fuel (cap * 2) n else cap

/-- Capacity chosen by `TranspositionTable::new` for a given entry count. -/
def ttCapacity (numEntries : Nat) : Nat := ttCapacityLoop numEntries 1 numEntries

/-- Embedding of the slot index computed in `TranspositionTable::save` and
`TranspositionTable::probe`: `(key as usize) & (entries.len() - 1)`. -/
def ttIndexOf (key capacity : Nat) : Nat := key &&& (capacity - 1)

theorem ttCapacityLoop_pow2 (fuel n cap : Nat) (h : ∃ k, cap = 2 ^ k) :
    ∃ k, ttCapacityLoop fuel cap n = 2 ^ k := by
  induction fuel generalizing cap with
  | zero => exact h
  | succ fuel ih =>
    rw [ttCapacityLoop]
    split
    · rcases h with ⟨k, rfl⟩
      exact ih (2 ^ k * 2) ⟨k + 1, by ring⟩
    · exact h

/-- C10: for every `size_mb` argument (and any entry size), including 0 and
values smaller than one entry, `TranspositionTable::new` produces a table
whose entry count is a power of two and at least 1, so the index
`key & (entries.len() - 1)` used by `save` and `probe` is always in bounds
and neither operation can panic on indexing. -/
theorem tt_capacity_pow2_index_in_bounds (sizeMb entrySize : Nat) :
    (∃ k, ttCapacity (ttEntriesFromMb sizeMb entrySize) = 2 ^ k) ∧
    1 ≤ ttCapacity (ttEntriesFromMb sizeMb entrySize) ∧
    ∀ key, ttIndexOf key (ttCapacity (ttEntriesFromMb sizeMb entrySize)) <
      ttCapacity (ttEntriesFromMb sizeMb entrySize) := by
  obtain ⟨k, hk⟩ := ttCapacityLoop_pow2 (ttEntriesFromMb sizeMb entrySize)
    (ttEntriesFromMb sizeMb entrySize) 1 ⟨0, rfl⟩
  unfold ttCapacity
  refine ⟨⟨k, hk⟩, ?_, ?_⟩
  · rw [hk]; exact Nat.one_le_two_pow
  · intro key
    have hle : ttIndexOf key (ttCapacityLoop (ttEntriesFromMb sizeMb entrySize)
        1 (ttEntriesFromMb sizeMb entrySize)) ≤
        ttCapacityLoop (ttEntriesFromMb sizeMb entrySize) 1
          (ttEntriesFromMb sizeMb entrySize) - 1 :=
      Nat.and_le_right
    have hpos : 1 ≤ ttCapacityLoop (ttEntriesFromMb sizeMb entrySize) 1
        (ttEntriesFromMb sizeMb entrySize) := by
      rw [hk]; exact Nat.one_le_two_pow
    omega

/-! ### Repetition counting (`src/board/mod.rs`, `src/status.rs`) -/

theorem nat_or_eq_zero_iff (a b : Nat) : a ||| b = 0 ↔ a = 0 ∧ b = 0 := by
  constructor
  · intro h
    have h' : ∀ i, (a ||| b).testBit i = Nat.testBit 0 i := fun i => by rw [h]
    constructor
    · apply Nat.eq_of_testBit_eq
      intro i
      have hb := h' i
      simp only [Nat.testBit_or, Nat.zero_testBit, Bool.or_eq_false_iff] at hb
      simp [hb.1]
    · apply Nat.eq_of_testBit_eq
      intro i
      have hb := h' i
      simp only [Nat.testBit_or, Nat.zero_testBit, Bool.or_eq_false_iff] at hb
      simp [hb.2]
  · rintro ⟨rfl, rfl⟩
    rfl

theorem repetition_fold_eq_min (z : Nat) (l : List Nat) (acc : Nat)
    (hacc : acc ≤ 255) :
    l.foldl (fun acc k => if k = z then min (acc + 1) 255 else acc) acc =
      min (acc + l.count z) 255 := by
  induction l generalizing acc with
  | nil => simp; omega
  | cons k l ih =>
    simp only [List.foldl_cons, List.count_cons]
    by_cases hkz : k = z
    · subst hkz
      rw [if_pos rfl, ih _ (by omega)]
      simp only [beq_self_eq_true, if_pos]
      omega
    · rw [if_neg hkz, ih acc hacc]
      have hne : (k == z) = false := by simp [hkz]
      rw [hne]
      simp

/-- C9 (amended): `repetition_count` returns `min 255 (1 + matches)` — the
count is kept in a saturating `u8` — where `matches` is the number of history
entries equal to the current Zobrist key; consequently `is_threefold` holds
iff at least two history entries match and `is_fivefold` iff at least four
match. -/
theorem repetition_count_saturating (b : Board) :
    b.repetitionCount = min 255 (1 + b.history.count b.zobrist) ∧
    (b.isThreefold = true ↔ 2 ≤ b.history.count b.zobrist) ∧
    (isFivefold b = true ↔ 4 ≤ b.history.count b.zobrist) := by
  have hfold := repetition_fold_eq_min b.zobrist b.history 0 (by omega)
  have hc : b.repetitionCount = min 255 (1 + b.history.count b.zobrist) := by
    simp only [Board.repetitionCount, hfold]
    omega
  refine ⟨hc, ?_, ?_⟩
  · unfold Board.isThreefold
    rw [hc]
    simp only [decide_eq_true_eq]
    omega
  · unfold isFivefold
    rw [hc]
    simp only [decide_eq_true_eq]
    omega

/-- Board with 255 history entries equal to the current key, refuting the
exact `1 + matches` reading of the claim (the `u8` count saturates at 255). -/
def boardRep255 : Board :=
  { pieceBB := fun _ _ => 0
    occWhite := 0
    occBlack := 0
    occAll := 0
    pieceOnSq := fun _ => EMPTY_SQ
    sideToMove := .White
    castlingRights := 0
    enPassant := none
    halfmoveClock := 0
    fullmoveNumber := 1
    zobrist := 0
    history := List.replicate 255 0 }

/-- C9 (counterexample): with 255 matching history entries the function
returns 255, not `1 + 255`: the claimed "exactly one plus the number of
matching entries" fails at the `u8` saturation bound. -/
theorem repetition_count_not_one_plus_matches :
    boardRep255.repetitionCount ≠
      1 + boardRep255.history.count boardRep255.zobrist := by
  have h255 := repetition_fold_eq_min 0 (List.replicate 255 0) 0 (by omega)
  have hcount : (List.replicate 255 0).count 0 = 255 := by
    rw [List.count_replicate]
    simp
  simp only [boardRep255, Board.repetitionCount, hcount] at h255 ⊢
  rw [h255]
  omega

/-! ### Insufficient material (`src/status.rs`) -/

theorem insuff_minor_arith (wb wn bbc bn : Nat) :
    (if wb + wn + (bbc + bn) = 0 then true
     else if wb + wn + (bbc + bn) = 1 then true
     else if wb + wn + (bbc + bn) = 2 then
       if wn = 2 ∨ bn = 2 then true
       else if wb + wn = 1 ∧ bbc + bn = 1 then true
       else false
     else false) = true ↔
    (wb + wn + (bbc + bn) = 0 ∨ wb + wn + (bbc + bn) = 1 ∨
     (wn = 2 ∧ wb + wn + (bbc + bn) = 2) ∨
     (bn = 2 ∧ wb + wn + (bbc + bn) = 2) ∨
     (wb + wn = 1 ∧ bbc + bn = 1)) := by
  split_ifs <;> simp <;> omega

/-- C8: `is_insufficient_material` is false whenever any pawn, rook, or queen
is on the board; otherwise it is true exactly for: no minor pieces, exactly
one minor, two knights on the same side, and one minor on each side (hence
false for two same-side minors that include a bishop and for three or more
minors). -/
theorem insufficient_material_characterization (b : Board) :
    isInsufficientMaterial b = true ↔
      (b.bb .White .Pawn = 0 ∧ b.bb .Black .Pawn = 0 ∧
       b.bb .White .Rook = 0 ∧ b.bb .Black .Rook = 0 ∧
       b.bb .White .Queen = 0 ∧ b.bb .Black .Queen = 0) ∧
      (popcount (b.bb .White .Bishop) + popcount (b.bb .White .Knight) +
         (popcount (b.bb .Black .Bishop) + popcount (b.bb .Black .Knight)) = 0 ∨
       popcount (b.bb .White .Bishop) + popcount (b.bb .White .Knight) +
         (popcount (b.bb .Black .Bishop) + popcount (b.bb .Black .Knight)) = 1 ∨
       (popcount (b.bb .White .Knight) = 2 ∧
        popcount (b.bb .White .Bishop) + popcount (b.bb .White .Knight) +
          (popcount (b.bb .Black .Bishop) + popcount (b.bb .Black .Knight)) = 2) ∨
       (popcount (b.bb .Black .Knight) = 2 ∧
        popcount (b.bb .White .Bishop) + popcount (b.bb .White .Knight) +
          (popcount (b.bb .Black .Bishop) + popcount (b.bb .Black .Knight)) = 2) ∨
       (popcount (b.bb .White .Bishop) + popcount (b.bb .White .Knight) = 1 ∧
        popcount (b.bb .Black .Bishop) + popcount (b.bb .Black .Knight) = 1)) := by
  by_cases hz : b.bb .White .Pawn = 0 ∧ b.bb .Black .Pawn = 0 ∧
      b.bb .White .Rook = 0 ∧ b.bb .Black .Rook = 0 ∧
      b.bb .White .Queen = 0 ∧ b.bb .Black .Queen = 0
  · obtain ⟨h1, h2, h3, h4, h5, h6⟩ := hz
    unfold isInsufficientMaterial
    rw [h1, h2, h3, h4, h5, h6]
    simp only [Nat.zero_or, ne_eq, not_true_eq_false]
    rw [if_neg not_false]
    rw [insuff_minor_arith]
    simp [h1, h2, h3, h4, h5, h6]
  · unfold isInsufficientMaterial
    have hne : (b.bb .White .Pawn ||| b.bb .Black .Pawn ||| b.bb .White .Rook |||
        b.bb .Black .Rook ||| b.bb .White .Queen ||| b.bb .Black .Queen) ≠ 0 := by
      simp only [ne_eq, nat_or_eq_zero_iff]
      tauto
    rw [if_pos hne]
    simp only [Bool.false_eq_true, false_iff, not_and]
    tauto

/-! ### Zobrist parity infrastructure (claim C2) -/

theorem nat_xor_left_comm (a b c : Nat) : a ^^^ (b ^^^ c) = b ^^^ (a ^^^ c) := by
  rw [← Nat.xor_assoc, Nat.xor_comm a b, Nat.xor_assoc]

theorem foldl_xor_ite_acc (k : Nat → Nat) (f : Nat → Bool) (l : List Nat)
    (acc : Nat) :
    l.foldl (fun a i => if f i then a ^^^ k i else a) acc =
      acc ^^^ l.foldl (fun a i => if f i then a ^^^ k i else a) 0 := by
  induction l generalizing acc with
  | nil => simp
  | cons i l ih =>
    simp only [List.foldl_cons]
    by_cases hf : f i
    · rw [if_pos hf, if_pos hf, ih (acc ^^^ k i), ih (0 ^^^ k i)]
      simp [Nat.xor_assoc]
    · rw [if_neg hf, if_neg hf]
      exact ih acc

theorem foldl_xor_ite_add (k : Nat → Nat) (f g : Nat → Bool) (l : List Nat) :
    l.foldl (fun a i => if (f i).xor (g i) then a ^^^ k i else a) 0 =
      l.foldl (fun a i => if f i then a ^^^ k i else a) 0 ^^^
        l.foldl (fun a i => if g i then a ^^^ k i else a) 0 := by
  induction l with
  | nil => simp
  | cons i l ih =>
    simp only [List.foldl_cons]
    rw [foldl_xor_ite_acc k (fun i => (f i).xor (g i)) l,
        foldl_xor_ite_acc k f l, foldl_xor_ite_acc k g l, ih]
    cases hf : f i <;> cases hg : g i <;>
      simp only [hf, hg, Bool.false_xor, Bool.true_xor, Bool.xor_false,
        Bool.xor_true, Bool.not_true, Bool.not_false, if_true, if_false,
        Bool.false_eq_true, ite_true, ite_false] <;>
      simp [Nat.xor_assoc, nat_xor_left_comm, Nat.xor_self, ← Nat.xor_assoc]

theorem xorPieceKeys_xor (keys : ZobristKeys) (c : Color) (p : Piece)
    (x y : Nat) :
    xorPieceKeys keys c p (x ^^^ y) =
      xorPieceKeys keys c p x ^^^ xorPieceKeys keys c p y := by
  unfold xorPieceKeys
  have hfun : (fun (a i : Nat) =>
        if (x ^^^ y).testBit i then a ^^^ keys.piece c p i else a) =
      fun a i => if (x.testBit i).xor (y.testBit i) then
        a ^^^ keys.piece c p i else a := by
    funext a i
    rw [Nat.testBit_xor]
  rw [hfun, foldl_xor_ite_add]

theorem xorPieceKeys_zero (keys : ZobristKeys) (c : Color) (p : Piece) :
    xorPieceKeys keys c p 0 = 0 := by
  unfold xorPieceKeys
  have hfun : (fun (a i : Nat) =>
      if (0 : Nat).testBit i then a ^^^ keys.piece c p i else a) =
      fun (a : Nat) (_ : Nat) => a := by
    funext a i
    simp [Nat.zero_testBit]
  rw [hfun]
  have hgen : ∀ (l : List Nat) (acc : Nat),
      l.foldl (fun (a : Nat) (_ : Nat) => a) acc = acc := by
    intro l
    induction l with
    | nil => intro acc; rfl
    | cons i l ih => intro acc; exact ih acc
  exact hgen _ 0

/-- Side-to-move contribution of the full hash recomputation. -/
def sideHash (keys : ZobristKeys) (c : Color) : Nat :=
  if c = Color.Black then keys.sideToMove else 0

/-- Castling contribution of the full hash recomputation. -/
def castleHash (keys : ZobristKeys) (rights : Nat) : Nat :=
  (if rights &&& CASTLE_WK != 0 then keys.castling 0 else 0) ^^^
  (if rights &&& CASTLE_WQ != 0 then keys.castling 1 else 0) ^^^
  (if rights &&& CASTLE_BK != 0 then keys.castling 2 else 0) ^^^
  (if rights &&& CASTLE_BQ != 0 then keys.castling 3 else 0)

/-- En-passant contribution of the full hash recomputation. -/
def epHashOpt (keys : ZobristKeys) (b : Board) : Nat :=
  match epFileToHash b with
  | some f => keys.epFile f
  | none => 0

/-- Piece contribution of the full hash recomputation, as a function of the
bitboard table alone. -/
def piecesHashOf (keys : ZobristKeys) (bb : Color → Piece → Nat) : Nat :=
  allColors.foldl (fun acc c =>
    allPieces.foldl (fun acc p => acc ^^^ xorPieceKeys keys c p (bb c p)) acc) 0

theorem computeZobristFull_factored (keys : ZobristKeys) (b : Board) :
    computeZobristFull keys b =
      piecesHashOf keys b.pieceBB ^^^ sideHash keys b.sideToMove ^^^
        castleHash keys b.castlingRights ^^^ epHashOpt keys b := by
  unfold computeZobristFull piecesHashOf sideHash castleHash epHashOpt Board.bb
  cases hep : epFileToHash b <;> split_ifs <;>
    simp_all [Nat.xor_assoc, nat_xor_left_comm]

theorem piecesHashOf_update (keys : ZobristKeys) (f : Color → Piece → Nat)
    (c : Color) (p : Piece) (n : Nat) :
    piecesHashOf keys (fun c' p' => if c' = c ∧ p' = p then n else f c' p') =
      piecesHashOf keys f ^^^ xorPieceKeys keys c p (f c p ^^^ n) := by
  have hsub : xorPieceKeys keys c p n =
      xorPieceKeys keys c p (f c p) ^^^ xorPieceKeys keys c p (f c p ^^^ n) := by
    rw [← xorPieceKeys_xor]
    congr 1
    rw [← Nat.xor_assoc, Nat.xor_self, Nat.zero_xor]
  cases c <;> cases p <;>
    simp [piecesHashOf, allColors, allPieces, hsub, Nat.xor_assoc,
      Nat.xor_comm, nat_xor_left_comm]

theorem setBB_sideToMove (keys : ZobristKeys) (b : Board) (c : Color)
    (p : Piece) (n : Nat) : (setBB keys b c p n).sideToMove = b.sideToMove := by
  by_cases hd : b.pieceBB c p ^^^ n = 0 <;> simp [setBB, hd]

theorem setBB_castlingRights (keys : ZobristKeys) (b : Board) (c : Color)
    (p : Piece) (n : Nat) :
    (setBB keys b c p n).castlingRights = b.castlingRights := by
  by_cases hd : b.pieceBB c p ^^^ n = 0 <;> simp [setBB, hd]

theorem setBB_enPassant (keys : ZobristKeys) (b : Board) (c : Color)
    (p : Piece) (n : Nat) : (setBB keys b c p n).enPassant = b.enPassant := by
  by_cases hd : b.pieceBB c p ^^^ n = 0 <;> simp [setBB, hd]

theorem setBB_halfmoveClock (keys : ZobristKeys) (b : Board) (c : Color)
    (p : Piece) (n : Nat) :
    (setBB keys b c p n).halfmoveClock = b.halfmoveClock := by
  by_cases hd : b.pieceBB c p ^^^ n = 0 <;> simp [setBB, hd]

theorem setBB_fullmoveNumber (keys : ZobristKeys) (b : Board) (c : Color)
    (p : Piece) (n : Nat) :
    (setBB keys b c p n).fullmoveNumber = b.fullmoveNumber := by
  by_cases hd : b.pieceBB c p ^^^ n = 0 <;> simp [setBB, hd]

theorem setBB_history (keys : ZobristKeys) (b : Board) (c : Color)
    (p : Piece) (n : Nat) : (setBB keys b c p n).history = b.history := by
  by_cases hd : b.pieceBB c p ^^^ n = 0 <;> simp [setBB, hd]

theorem setBB_zobrist (keys : ZobristKeys) (b : Board) (c : Color)
    (p : Piece) (n : Nat) :
    (setBB keys b c p n).zobrist =
      b.zobrist ^^^ xorPieceKeys keys c p (b.pieceBB c p ^^^ n) := by
  by_cases hd : b.pieceBB c p ^^^ n = 0 <;>
    simp [setBB, hd, xorPieceKeys_zero]

theorem setBB_pieceBB (keys : ZobristKeys) (b : Board) (c : Color)
    (p : Piece) (n : Nat) :
    (setBB keys b c p n).pieceBB =
      fun c' p' => if c' = c ∧ p' = p then n else b.pieceBB c' p' := by
  by_cases hd : b.pieceBB c p ^^^ n = 0
  · have hn : n = b.pieceBB c p := (Nat.xor_eq_zero.mp hd).symm
    simp only [setBB, hd, if_pos]
    funext c' p'
    by_cases hcp : c' = c ∧ p' = p
    · rw [if_pos hcp, hn, hcp.1, hcp.2]
    · rw [if_neg hcp]
  · simp [setBB, hd]

theorem epFileToHash_congr (b b' : Board) (hep : b.enPassant = b'.enPassant)
    (hside : b.sideToMove = b'.sideToMove)
    (hw : b.pieceBB Color.White Piece.Pawn = b'.pieceBB Color.White Piece.Pawn)
    (hb : b.pieceBB Color.Black Piece.Pawn = b'.pieceBB Color.Black Piece.Pawn) :
    epFileToHash b = epFileToHash b' := by
  unfold epFileToHash Board.bb
  rw [hep, hside, hw, hb]

theorem nat_xor_cancel_left (a b : Nat) : a ^^^ (a ^^^ b) = b := by
  rw [← Nat.xor_assoc, Nat.xor_self, Nat.zero_xor]

theorem and_pow_ne_bool (x i : Nat) : (x &&& 2 ^ i != 0) = x.testBit i := by
  rw [Nat.and_two_pow]
  cases hx : x.testBit i <;> simp [hx, Nat.pos_iff_ne_zero, Nat.pow_eq_zero]

theorem ite_xor_extract (c : Prop) [Decidable c] (a k : Nat) :
    (if c then a ^^^ k else a) = a ^^^ (if c then k else 0) := by
  split <;> simp

/-- The incremental castling-rights hash delta of `xor_castling_rights_delta`
equals the XOR of the full castling hashes of the old and new rights. -/
theorem castle_delta_spec (keys : ZobristKeys) (h old new_ : Nat) :
    xorCastlingRightsDelta keys h old new_ =
      h ^^^ (castleHash keys old ^^^ castleHash keys new_) := by
  have e1 : (CASTLE_WK : Nat) = 2 ^ 0 := rfl
  have e2 : (CASTLE_WQ : Nat) = 2 ^ 1 := rfl
  have e3 : (CASTLE_BK : Nat) = 2 ^ 2 := rfl
  have e4 : (CASTLE_BQ : Nat) = 2 ^ 3 := rfl
  unfold xorCastlingRightsDelta castleHash
  simp only [e1, e2, e3, e4, and_pow_ne_bool, Nat.testBit_xor]
  cases old.testBit 0 <;> cases new_.testBit 0 <;>
  cases old.testBit 1 <;> cases new_.testBit 1 <;>
  cases old.testBit 2 <;> cases new_.testBit 2 <;>
  cases old.testBit 3 <;> cases new_.testBit 3 <;>
    simp [Nat.xor_assoc, Nat.xor_comm, nat_xor_left_comm, nat_xor_cancel_left]
/-! #### Projection lemmas for the step helpers -/

@[simp] theorem epXorHash_pieceBB (keys : ZobristKeys) (b : Board) :
    (epXorHash keys b).pieceBB = b.pieceBB := by
  unfold epXorHash
  cases epFileToHash b <;> rfl

@[simp] theorem epXorHash_occWhite (keys : ZobristKeys) (b : Board) :
    (epXorHash keys b).occWhite = b.occWhite := by
  unfold epXorHash
  cases epFileToHash b <;> rfl

@[simp] theorem epXorHash_occBlack (keys : ZobristKeys) (b : Board) :
    (epXorHash keys b).occBlack = b.occBlack := by
  unfold epXorHash
  cases epFileToHash b <;> rfl

@[simp] theorem epXorHash_occAll (keys : ZobristKeys) (b : Board) :
    (epXorHash keys b).occAll = b.occAll := by
  unfold epXorHash
  cases epFileToHash b <;> rfl

@[simp] theorem epXorHash_pieceOnSq (keys : ZobristKeys) (b : Board) :
    (epXorHash keys b).pieceOnSq = b.pieceOnSq := by
  unfold epXorHash
  cases epFileToHash b <;> rfl

@[simp] theorem epXorHash_sideToMove (keys : ZobristKeys) (b : Board) :
    (epXorHash keys b).sideToMove = b.sideToMove := by
  unfold epXorHash
  cases epFileToHash b <;> rfl

@[simp] theorem epXorHash_castlingRights (keys : ZobristKeys) (b : Board) :
    (epXorHash keys b).castlingRights = b.castlingRights := by
  unfold epXorHash
  cases epFileToHash b <;> rfl

@[simp] theorem epXorHash_enPassant (keys : ZobristKeys) (b : Board) :
    (epXorHash keys b).enPassant = b.enPassant := by
  unfold epXorHash
  cases epFileToHash b <;> rfl

@[simp] theorem epXorHash_halfmoveClock (keys : ZobristKeys) (b : Board) :
    (epXorHash keys b).halfmoveClock = b.halfmoveClock := by
  unfold epXorHash
  cases epFileToHash b <;> rfl

@[simp] theorem epXorHash_fullmoveNumber (keys : ZobristKeys) (b : Board) :
    (epXorHash keys b).fullmoveNumber = b.fullmoveNumber := by
  unfold epXorHash
  cases epFileToHash b <;> rfl

@[simp] theorem epXorHash_history (keys : ZobristKeys) (b : Board) :
    (epXorHash keys b).history = b.history := by
  unfold epXorHash
  cases epFileToHash b <;> rfl

@[simp] theorem epXorHash_zobrist (keys : ZobristKeys) (b : Board) :
    (epXorHash keys b).zobrist = b.zobrist ^^^ epHashOpt keys b := by
  unfold epXorHash epHashOpt
  cases epFileToHash b <;> simp

@[simp] theorem setEp_pieceBB (b : Board) (e : Option Nat) :
    (setEp b e).pieceBB = b.pieceBB := rfl
@[simp] theorem setEp_occWhite (b : Board) (e : Option Nat) :
    (setEp b e).occWhite = b.occWhite := rfl
@[simp] theorem setEp_occBlack (b : Board) (e : Option Nat) :
    (setEp b e).occBlack = b.occBlack := rfl
@[simp] theorem setEp_occAll (b : Board) (e : Option Nat) :
    (setEp b e).occAll = b.occAll := rfl
@[simp] theorem setEp_pieceOnSq (b : Board) (e : Option Nat) :
    (setEp b e).pieceOnSq = b.pieceOnSq := rfl
@[simp] theorem setEp_sideToMove (b : Board) (e : Option Nat) :
    (setEp b e).sideToMove = b.sideToMove := rfl
@[simp] theorem setEp_castlingRights (b : Board) (e : Option Nat) :
    (setEp b e).castlingRights = b.castlingRights := rfl
@[simp] theorem setEp_enPassant (b : Board) (e : Option Nat) :
    (setEp b e).enPassant = e := rfl
@[simp] theorem setEp_halfmoveClock (b : Board) (e : Option Nat) :
    (setEp b e).halfmoveClock = b.halfmoveClock := rfl
@[simp] theorem setEp_fullmoveNumber (b : Board) (e : Option Nat) :
    (setEp b e).fullmoveNumber = b.fullmoveNumber := rfl
@[simp] theorem setEp_zobrist (b : Board) (e : Option Nat) :
    (setEp b e).zobrist = b.zobrist := rfl
@[simp] theorem setEp_history (b : Board) (e : Option Nat) :
    (setEp b e).history = b.history := rfl

@[simp] theorem setSideXor_pieceBB (keys : ZobristKeys) (b : Board) (c : Color) :
    (setSideXor keys b c).pieceBB = b.pieceBB := rfl
@[simp] theorem setSideXor_occWhite (keys : ZobristKeys) (b : Board) (c : Color) :
    (setSideXor keys b c).occWhite = b.occWhite := rfl
@[simp] theorem setSideXor_occBlack (keys : ZobristKeys) (b : Board) (c : Color) :
    (setSideXor keys b c).occBlack = b.occBlack := rfl
@[simp] theorem setSideXor_occAll (keys : ZobristKeys) (b : Board) (c : Color) :
    (setSideXor keys b c).occAll = b.occAll := rfl
@[simp] theorem setSideXor_pieceOnSq (keys : ZobristKeys) (b : Board) (c : Color) :
    (setSideXor keys b c).pieceOnSq = b.pieceOnSq := rfl
@[simp] theorem setSideXor_sideToMove (keys : ZobristKeys) (b : Board) (c : Color) :
    (setSideXor keys b c).sideToMove = c := rfl
@[simp] theorem setSideXor_castlingRights (keys : ZobristKeys) (b : Board)
    (c : Color) : (setSideXor keys b c).castlingRights = b.castlingRights := rfl
@[simp] theorem setSideXor_enPassant (keys : ZobristKeys) (b : Board) (c : Color) :
    (setSideXor keys b c).enPassant = b.enPassant := rfl
@[simp] theorem setSideXor_halfmoveClock (keys : ZobristKeys) (b : Board)
    (c : Color) : (setSideXor keys b c).halfmoveClock = b.halfmoveClock := rfl
@[simp] theorem setSideXor_fullmoveNumber (keys : ZobristKeys) (b : Board)
    (c : Color) : (setSideXor keys b c).fullmoveNumber = b.fullmoveNumber := rfl
@[simp] theorem setSideXor_zobrist (keys : ZobristKeys) (b : Board) (c : Color) :
    (setSideXor keys b c).zobrist = b.zobrist ^^^ keys.sideToMove := rfl
@[simp] theorem setSideXor_history (keys : ZobristKeys) (b : Board) (c : Color) :
    (setSideXor keys b c).history = b.history := rfl

@[simp] theorem setRightsXor_pieceBB (keys : ZobristKeys) (b : Board) (r : Nat) :
    (setRightsXor keys b r).pieceBB = b.pieceBB := by
  unfold setRightsXor
  split <;> rfl
@[simp] theorem setRightsXor_occWhite (keys : ZobristKeys) (b : Board) (r : Nat) :
    (setRightsXor keys b r).occWhite = b.occWhite := by
  unfold setRightsXor
  split <;> rfl
@[simp] theorem setRightsXor_occBlack (keys : ZobristKeys) (b : Board) (r : Nat) :
    (setRightsXor keys b r).occBlack = b.occBlack := by
  unfold setRightsXor
  split <;> rfl
@[simp] theorem setRightsXor_occAll (keys : ZobristKeys) (b : Board) (r : Nat) :
    (setRightsXor keys b r).occAll = b.occAll := by
  unfold setRightsXor
  split <;> rfl
@[simp] theorem setRightsXor_pieceOnSq (keys : ZobristKeys) (b : Board) (r : Nat) :
    (setRightsXor keys b r).pieceOnSq = b.pieceOnSq := by
  unfold setRightsXor
  split <;> rfl
@[simp] theorem setRightsXor_sideToMove (keys : ZobristKeys) (b : Board) (r : Nat) :
    (setRightsXor keys b r).sideToMove = b.sideToMove := by
  unfold setRightsXor
  split <;> rfl
@[simp] theorem setRightsXor_castlingRights (keys : ZobristKeys) (b : Board)
    (r : Nat) : (setRightsXor keys b r).castlingRights = r := by
  unfold setRightsXor
  split <;> rfl
@[simp] theorem setRightsXor_enPassant (keys : ZobristKeys) (b : Board) (r : Nat) :
    (setRightsXor keys b r).enPassant = b.enPassant := by
  unfold setRightsXor
  split <;> rfl
@[simp] theorem setRightsXor_halfmoveClock (keys : ZobristKeys) (b : Board)
    (r : Nat) : (setRightsXor keys b r).halfmoveClock = b.halfmoveClock := by
  unfold setRightsXor
  split <;> rfl
@[simp] theorem setRightsXor_fullmoveNumber (keys : ZobristKeys) (b : Board)
    (r : Nat) : (setRightsXor keys b r).fullmoveNumber = b.fullmoveNumber := by
  unfold setRightsXor
  split <;> rfl
@[simp] theorem setRightsXor_history (keys : ZobristKeys) (b : Board) (r : Nat) :
    (setRightsXor keys b r).history = b.history := by
  unfold setRightsXor
  split <;> rfl
@[simp] theorem setRightsXor_zobrist (keys : ZobristKeys) (b : Board) (r : Nat) :
    (setRightsXor keys b r).zobrist =
      b.zobrist ^^^ (castleHash keys b.castlingRights ^^^ castleHash keys r) := by
  unfold setRightsXor
  split
  · rw [castle_delta_spec]
  · rename_i hne
    have heq : b.castlingRights = r := by
      by_contra hc
      exact hne hc
    rw [heq, Nat.xor_self, Nat.xor_zero]

@[simp] theorem setClocks_pieceBB (b : Board) (hm fm : Nat) :
    (setClocks b hm fm).pieceBB = b.pieceBB := rfl
@[simp] theorem setClocks_occWhite (b : Board) (hm fm : Nat) :
    (setClocks b hm fm).occWhite = b.occWhite := rfl
@[simp] theorem setClocks_occBlack (b : Board) (hm fm : Nat) :
    (setClocks b hm fm).occBlack = b.occBlack := rfl
@[simp] theorem setClocks_occAll (b : Board) (hm fm : Nat) :
    (setClocks b hm fm).occAll = b.occAll := rfl
@[simp] theorem setClocks_pieceOnSq (b : Board) (hm fm : Nat) :
    (setClocks b hm fm).pieceOnSq = b.pieceOnSq := rfl
@[simp] theorem setClocks_sideToMove (b : Board) (hm fm : Nat) :
    (setClocks b hm fm).sideToMove = b.sideToMove := rfl
@[simp] theorem setClocks_castlingRights (b : Board) (hm fm : Nat) :
    (setClocks b hm fm).castlingRights = b.castlingRights := rfl
@[simp] theorem setClocks_enPassant (b : Board) (hm fm : Nat) :
    (setClocks b hm fm).enPassant = b.enPassant := rfl
@[simp] theorem setClocks_halfmoveClock (b : Board) (hm fm : Nat) :
    (setClocks b hm fm).halfmoveClock = hm := rfl
@[simp] theorem setClocks_fullmoveNumber (b : Board) (hm fm : Nat) :
    (setClocks b hm fm).fullmoveNumber = fm := rfl
@[simp] theorem setClocks_zobrist (b : Board) (hm fm : Nat) :
    (setClocks b hm fm).zobrist = b.zobrist := rfl
@[simp] theorem setClocks_history (b : Board) (hm fm : Nat) :
    (setClocks b hm fm).history = b.history := rfl

@[simp] theorem setHalfmove_pieceBB (b : Board) (hm : Nat) :
    (setHalfmove b hm).pieceBB = b.pieceBB := rfl
@[simp] theorem setHalfmove_sideToMove (b : Board) (hm : Nat) :
    (setHalfmove b hm).sideToMove = b.sideToMove := rfl
@[simp] theorem setHalfmove_castlingRights (b : Board) (hm : Nat) :
    (setHalfmove b hm).castlingRights = b.castlingRights := rfl
@[simp] theorem setHalfmove_enPassant (b : Board) (hm : Nat) :
    (setHalfmove b hm).enPassant = b.enPassant := rfl
@[simp] theorem setHalfmove_halfmoveClock (b : Board) (hm : Nat) :
    (setHalfmove b hm).halfmoveClock = hm := rfl
@[simp] theorem setHalfmove_fullmoveNumber (b : Board) (hm : Nat) :
    (setHalfmove b hm).fullmoveNumber = b.fullmoveNumber := rfl
@[simp] theorem setHalfmove_zobrist (b : Board) (hm : Nat) :
    (setHalfmove b hm).zobrist = b.zobrist := rfl
@[simp] theorem setHalfmove_history (b : Board) (hm : Nat) :
    (setHalfmove b hm).history = b.history := rfl
@[simp] theorem setHalfmove_occWhite (b : Board) (hm : Nat) :
    (setHalfmove b hm).occWhite = b.occWhite := rfl
@[simp] theorem setHalfmove_occBlack (b : Board) (hm : Nat) :
    (setHalfmove b hm).occBlack = b.occBlack := rfl
@[simp] theorem setHalfmove_occAll (b : Board) (hm : Nat) :
    (setHalfmove b hm).occAll = b.occAll := rfl
@[simp] theorem setHalfmove_pieceOnSq (b : Board) (hm : Nat) :
    (setHalfmove b hm).pieceOnSq = b.pieceOnSq := rfl

@[simp] theorem setHistory_pieceBB (b : Board) (h : List Nat) :
    (setHistory b h).pieceBB = b.pieceBB := rfl
@[simp] theorem setHistory_sideToMove (b : Board) (h : List Nat) :
    (setHistory b h).sideToMove = b.sideToMove := rfl
@[simp] theorem setHistory_castlingRights (b : Board) (h : List Nat) :
    (setHistory b h).castlingRights = b.castlingRights := rfl
@[simp] theorem setHistory_enPassant (b : Board) (h : List Nat) :
    (setHistory b h).enPassant = b.enPassant := rfl
@[simp] theorem setHistory_halfmoveClock (b : Board) (h : List Nat) :
    (setHistory b h).halfmoveClock = b.halfmoveClock := rfl
@[simp] theorem setHistory_fullmoveNumber (b : Board) (h : List Nat) :
    (setHistory b h).fullmoveNumber = b.fullmoveNumber := rfl
@[simp] theorem setHistory_zobrist (b : Board) (h : List Nat) :
    (setHistory b h).zobrist = b.zobrist := rfl
@[simp] theorem setHistory_history (b : Board) (h : List Nat) :
    (setHistory b h).history = h := rfl
@[simp] theorem setHistory_occWhite (b : Board) (h : List Nat) :
    (setHistory b h).occWhite = b.occWhite := rfl
@[simp] theorem setHistory_occBlack (b : Board) (h : List Nat) :
    (setHistory b h).occBlack = b.occBlack := rfl
@[simp] theorem setHistory_occAll (b : Board) (h : List Nat) :
    (setHistory b h).occAll = b.occAll := rfl
@[simp] theorem setHistory_pieceOnSq (b : Board) (h : List Nat) :
    (setHistory b h).pieceOnSq = b.pieceOnSq := rfl

@[simp] theorem pushHistory_pieceBB (b : Board) (k : Nat) :
    (pushHistory b k).pieceBB = b.pieceBB := rfl
@[simp] theorem pushHistory_sideToMove (b : Board) (k : Nat) :
    (pushHistory b k).sideToMove = b.sideToMove := rfl
@[simp] theorem pushHistory_castlingRights (b : Board) (k : Nat) :
    (pushHistory b k).castlingRights = b.castlingRights := rfl
@[simp] theorem pushHistory_enPassant (b : Board) (k : Nat) :
    (pushHistory b k).enPassant = b.enPassant := rfl
@[simp] theorem pushHistory_halfmoveClock (b : Board) (k : Nat) :
    (pushHistory b k).halfmoveClock = b.halfmoveClock := rfl
@[simp] theorem pushHistory_fullmoveNumber (b : Board) (k : Nat) :
    (pushHistory b k).fullmoveNumber = b.fullmoveNumber := rfl
@[simp] theorem pushHistory_zobrist (b : Board) (k : Nat) :
    (pushHistory b k).zobrist = b.zobrist := rfl
@[simp] theorem pushHistory_history (b : Board) (k : Nat) :
    (pushHistory b k).history = b.history ++ [k] := rfl
@[simp] theorem pushHistory_occWhite (b : Board) (k : Nat) :
    (pushHistory b k).occWhite = b.occWhite := rfl
@[simp] theorem pushHistory_occBlack (b : Board) (k : Nat) :
    (pushHistory b k).occBlack = b.occBlack := rfl
@[simp] theorem pushHistory_occAll (b : Board) (k : Nat) :
    (pushHistory b k).occAll = b.occAll := rfl
@[simp] theorem pushHistory_pieceOnSq (b : Board) (k : Nat) :
    (pushHistory b k).pieceOnSq = b.pieceOnSq := rfl

@[simp] theorem popHistory_pieceBB (b : Board) :
    (popHistory b).pieceBB = b.pieceBB := rfl
@[simp] theorem popHistory_sideToMove (b : Board) :
    (popHistory b).sideToMove = b.sideToMove := rfl
@[simp] theorem popHistory_castlingRights (b : Board) :
    (popHistory b).castlingRights = b.castlingRights := rfl
@[simp] theorem popHistory_enPassant (b : Board) :
    (popHistory b).enPassant = b.enPassant := rfl
@[simp] theorem popHistory_halfmoveClock (b : Board) :
    (popHistory b).halfmoveClock = b.halfmoveClock := rfl
@[simp] theorem popHistory_fullmoveNumber (b : Board) :
    (popHistory b).fullmoveNumber = b.fullmoveNumber := rfl
@[simp] theorem popHistory_zobrist (b : Board) :
    (popHistory b).zobrist = b.zobrist := rfl
@[simp] theorem popHistory_history (b : Board) :
    (popHistory b).history = b.history.dropLast := rfl
@[simp] theorem popHistory_occWhite (b : Board) :
    (popHistory b).occWhite = b.occWhite := rfl
@[simp] theorem popHistory_occBlack (b : Board) :
    (popHistory b).occBlack = b.occBlack := rfl
@[simp] theorem popHistory_occAll (b : Board) :
    (popHistory b).occAll = b.occAll := rfl
@[simp] theorem popHistory_pieceOnSq (b : Board) :
    (popHistory b).pieceOnSq = b.pieceOnSq := rfl

@[simp] theorem setDoublePushEp_pieceBB (b : Board) (mv : Move) (c : Color) :
    (setDoublePushEp b mv c).pieceBB = b.pieceBB := by
  unfold setDoublePushEp
  split <;> rfl
@[simp] theorem setDoublePushEp_sideToMove (b : Board) (mv : Move) (c : Color) :
    (setDoublePushEp b mv c).sideToMove = b.sideToMove := by
  unfold setDoublePushEp
  split <;> rfl
@[simp] theorem setDoublePushEp_castlingRights (b : Board) (mv : Move)
    (c : Color) : (setDoublePushEp b mv c).castlingRights = b.castlingRights := by
  unfold setDoublePushEp
  split <;> rfl
@[simp] theorem setDoublePushEp_halfmoveClock (b : Board) (mv : Move)
    (c : Color) : (setDoublePushEp b mv c).halfmoveClock = b.halfmoveClock := by
  unfold setDoublePushEp
  split <;> rfl
@[simp] theorem setDoublePushEp_fullmoveNumber (b : Board) (mv : Move)
    (c : Color) : (setDoublePushEp b mv c).fullmoveNumber = b.fullmoveNumber := by
  unfold setDoublePushEp
  split <;> rfl
@[simp] theorem setDoublePushEp_zobrist (b : Board) (mv : Move) (c : Color) :
    (setDoublePushEp b mv c).zobrist = b.zobrist := by
  unfold setDoublePushEp
  split <;> rfl
@[simp] theorem setDoublePushEp_history (b : Board) (mv : Move) (c : Color) :
    (setDoublePushEp b mv c).history = b.history := by
  unfold setDoublePushEp
  split <;> rfl
@[simp] theorem setDoublePushEp_occWhite (b : Board) (mv : Move) (c : Color) :
    (setDoublePushEp b mv c).occWhite = b.occWhite := by
  unfold setDoublePushEp
  split <;> rfl
@[simp] theorem setDoublePushEp_occBlack (b : Board) (mv : Move) (c : Color) :
    (setDoublePushEp b mv c).occBlack = b.occBlack := by
  unfold setDoublePushEp
  split <;> rfl
@[simp] theorem setDoublePushEp_occAll (b : Board) (mv : Move) (c : Color) :
    (setDoublePushEp b mv c).occAll = b.occAll := by
  unfold setDoublePushEp
  split <;> rfl
@[simp] theorem setDoublePushEp_pieceOnSq (b : Board) (mv : Move) (c : Color) :
    (setDoublePushEp b mv c).pieceOnSq = b.pieceOnSq := by
  unfold setDoublePushEp
  split <;> rfl

theorem setDoublePushEp_enPassant (b : Board) (mv : Move) (c : Color) :
    (setDoublePushEp b mv c).enPassant =
      if mv.piece = Piece.Pawn ∧
          ((c = Color.White ∧ mv.from_sq / 8 = 1 ∧ mv.to_sq / 8 = 3) ∨
           (c = Color.Black ∧ mv.from_sq / 8 = 6 ∧ mv.to_sq / 8 = 4)) then
        some (if c = Color.White then mv.from_sq + 8 else mv.from_sq - 8)
      else b.enPassant := by
  unfold setDoublePushEp
  split <;> simp_all [setEp]

/-! #### Branch lemmas for capture resolution -/

theorem resolveCapture_of_ep (keys : ZobristKeys) (b : Board) (mv : Move)
    (color : Color) (h : mv.isEnPassant = true) :
    resolveCapture keys b mv color =
      (some (color.opposite, Piece.Pawn,
        if color = Color.White then mv.to_sq - 8 else mv.to_sq + 8),
       removePiece keys b color.opposite Piece.Pawn
        (if color = Color.White then mv.to_sq - 8 else mv.to_sq + 8)) := by
  unfold resolveCapture
  rw [if_pos h]

theorem resolveCapture_of_occupant (keys : ZobristKeys) (b : Board) (mv : Move)
    (color : Color) (h1 : mv.isEnPassant = false)
    (h2 : b.pieceOnSq mv.to_sq ≠ EMPTY_SQ) :
    resolveCapture keys b mv color =
      (some (colorFromU8 (b.pieceOnSq mv.to_sq >>> 3),
        pieceFromU8 (b.pieceOnSq mv.to_sq &&& 7), mv.to_sq),
       removePiece keys b (colorFromU8 (b.pieceOnSq mv.to_sq >>> 3))
        (pieceFromU8 (b.pieceOnSq mv.to_sq &&& 7)) mv.to_sq) := by
  unfold resolveCapture
  rw [if_neg (by simp [h1]), if_pos h2]

theorem resolveCapture_of_empty (keys : ZobristKeys) (b : Board) (mv : Move)
    (color : Color) (h1 : mv.isEnPassant = false)
    (h2 : b.pieceOnSq mv.to_sq = EMPTY_SQ) :
    resolveCapture keys b mv color = (none, b) := by
  unfold resolveCapture
  rw [if_neg (by simp [h1]), if_neg (by simp [h2])]

/-- In every branch of `resolveCapture`, the returned board is the input board
with the recorded capture (if any) removed. -/
theorem resolveCapture_snd (keys : ZobristKeys) (b : Board) (mv : Move)
    (color : Color) :
    (resolveCapture keys b mv color).2 =
      match (resolveCapture keys b mv color).1 with
      | some (cc, cp, cs) => removePiece keys b cc cp cs
      | none => b := by
  unfold resolveCapture
  by_cases h1 : mv.isEnPassant = true
  · simp [h1]
  · by_cases h2 : b.pieceOnSq mv.to_sq = EMPTY_SQ <;> simp [h1, h2]

/-! #### EP-hash congruence through steps that cannot affect it -/

theorem epHashOpt_congr (keys : ZobristKeys) (X Y : Board)
    (hep : X.enPassant = Y.enPassant) (hs : X.sideToMove = Y.sideToMove)
    (hw : X.pieceBB Color.White Piece.Pawn = Y.pieceBB Color.White Piece.Pawn)
    (hb : X.pieceBB Color.Black Piece.Pawn = Y.pieceBB Color.Black Piece.Pawn) :
    epHashOpt keys X = epHashOpt keys Y := by
  unfold epHashOpt
  rw [epFileToHash_congr X Y hep hs hw hb]

@[simp] theorem epHashOpt_popHistory (keys : ZobristKeys) (X : Board) :
    epHashOpt keys (popHistory X) = epHashOpt keys X :=
  epHashOpt_congr keys _ _ rfl rfl rfl rfl

@[simp] theorem epHashOpt_pushHistory (keys : ZobristKeys) (X : Board) (k : Nat) :
    epHashOpt keys (pushHistory X k) = epHashOpt keys X :=
  epHashOpt_congr keys _ _ rfl rfl rfl rfl

@[simp] theorem epHashOpt_setHistory (keys : ZobristKeys) (X : Board)
    (h : List Nat) : epHashOpt keys (setHistory X h) = epHashOpt keys X :=
  epHashOpt_congr keys _ _ rfl rfl rfl rfl

@[simp] theorem epHashOpt_setClocks (keys : ZobristKeys) (X : Board)
    (hm fm : Nat) : epHashOpt keys (setClocks X hm fm) = epHashOpt keys X :=
  epHashOpt_congr keys _ _ rfl rfl rfl rfl

@[simp] theorem epHashOpt_setHalfmove (keys : ZobristKeys) (X : Board)
    (hm : Nat) : epHashOpt keys (setHalfmove X hm) = epHashOpt keys X :=
  epHashOpt_congr keys _ _ rfl rfl rfl rfl

@[simp] theorem epHashOpt_epXorHash (keys : ZobristKeys) (X : Board) :
    epHashOpt keys (epXorHash keys X) = epHashOpt keys X :=
  epHashOpt_congr keys _ _ (by simp) (by simp) (by simp) (by simp)

@[simp] theorem epHashOpt_setRightsXor (keys : ZobristKeys) (X : Board)
    (r : Nat) : epHashOpt keys (setRightsXor keys X r) = epHashOpt keys X :=
  epHashOpt_congr keys _ _ (by simp) (by simp) (by simp) (by simp)

@[simp] theorem epHashOpt_setEp_none (keys : ZobristKeys) (X : Board) :
    epHashOpt keys (setEp X none) = 0 := by
  unfold epHashOpt epFileToHash
  simp

theorem epHashOpt_of_ep_none (keys : ZobristKeys) (X : Board)
    (h : X.enPassant = none) : epHashOpt keys X = 0 := by
  unfold epHashOpt epFileToHash
  rw [h]

theorem parity_of_delta (keys : ZobristKeys) (b b' : Board)
    (hd : b'.zobrist ^^^ computeZobristFull keys b' =
      b.zobrist ^^^ computeZobristFull keys b)
    (h : b.zobrist = computeZobristFull keys b) :
    b'.zobrist = computeZobristFull keys b' := by
  rw [h, Nat.xor_self] at hd
  exact Nat.xor_eq_zero.mp hd

theorem sideHash_opposite (keys : ZobristKeys) (c : Color) :
    sideHash keys c.opposite = sideHash keys c ^^^ keys.sideToMove := by
  cases c <;> simp [sideHash, Color.opposite]

/-- Null-move hash delta: the zobrist-with-full-hash XOR is unchanged. -/
theorem makeNullMove_delta (keys : ZobristKeys) (b : Board) :
    (makeNullMove keys b).1.zobrist ^^^
      computeZobristFull keys (makeNullMove keys b).1 =
      b.zobrist ^^^ computeZobristFull keys b := by
  rw [computeZobristFull_factored, computeZobristFull_factored]
  simp only [makeNullMove]
  have h0 : epHashOpt keys (setSideXor keys
      (setEp (epXorHash keys (pushHistory b b.zobrist)) none)
      b.sideToMove.opposite) = 0 :=
    epHashOpt_of_ep_none _ _ (by simp)
  simp [h0, sideHash_opposite, Nat.xor_assoc, Nat.xor_comm, nat_xor_left_comm,
    nat_xor_cancel_left, Nat.xor_self]

/-- Null-move undo preserves hash parity when applied as in the engine: to a
post-null-move state (whose EP square is cleared) with the record produced by
the null move (whose saved side is the opposite of the current one). -/
theorem undoNullMove_delta (keys : ZobristKeys) (b : Board) (u : NullMoveUndo)
    (hside : u.prevSide = b.sideToMove.opposite) (hep : b.enPassant = none) :
    (undoNullMove keys b u).zobrist ^^^
      computeZobristFull keys (undoNullMove keys b u) =
      b.zobrist ^^^ computeZobristFull keys b := by
  rw [computeZobristFull_factored, computeZobristFull_factored]
  have hz : epHashOpt keys b = 0 := by
    unfold epHashOpt epFileToHash
    rw [hep]
  simp only [undoNullMove]
  have hepstep : epHashOpt keys
      (setEp (setSideXor keys b u.prevSide) u.prevEnPassant) =
      epHashOpt keys (undoNullMove keys b u) := by
    apply epHashOpt_congr <;> simp [undoNullMove]
  simp only [popHistory_zobrist, setHalfmove_zobrist, epXorHash_zobrist,
    setEp_zobrist, setSideXor_zobrist, popHistory_pieceOnSq]
  simp [hz, hside, sideHash_opposite, Nat.xor_assoc, Nat.xor_comm,
    nat_xor_left_comm, nat_xor_cancel_left, Nat.xor_self]

/-- The hash contributions of `compute_zobrist_full` that do not depend on the
en-passant state: pieces, side to move, and castling rights. -/
def fullNoEp (keys : ZobristKeys) (b : Board) : Nat :=
  piecesHashOf keys b.pieceBB ^^^ sideHash keys b.sideToMove ^^^
    castleHash keys b.castlingRights

/-- Parity measure of the incremental hash against the EP-independent part of
the full recomputation; invariant across the interior steps of
`make_move_basic` (between its two en-passant hash adjustments). -/
def parityNoEp (keys : ZobristKeys) (b : Board) : Nat :=
  b.zobrist ^^^ fullNoEp keys b

theorem parityNoEp_setEp (keys : ZobristKeys) (X : Board) (e : Option Nat) :
    parityNoEp keys (setEp X e) = parityNoEp keys X := rfl

theorem parityNoEp_setClocks (keys : ZobristKeys) (X : Board) (hm fm : Nat) :
    parityNoEp keys (setClocks X hm fm) = parityNoEp keys X := rfl

theorem parityNoEp_setBB (keys : ZobristKeys) (X : Board) (c : Color)
    (p : Piece) (n : Nat) :
    parityNoEp keys (setBB keys X c p n) = parityNoEp keys X := by
  unfold parityNoEp fullNoEp
  rw [setBB_zobrist, setBB_pieceBB, setBB_sideToMove, setBB_castlingRights,
    piecesHashOf_update]
  simp [Nat.xor_assoc, Nat.xor_comm, nat_xor_left_comm, nat_xor_cancel_left,
    Nat.xor_self]

theorem parityNoEp_resolveCapture (keys : ZobristKeys) (X : Board) (mv : Move)
    (c : Color) :
    parityNoEp keys (resolveCapture keys X mv c).2 = parityNoEp keys X := by
  by_cases h1 : mv.isEnPassant = true
  · simp [resolveCapture, h1, removePiece, parityNoEp_setBB]
  · by_cases h2 : X.pieceOnSq mv.to_sq = EMPTY_SQ <;>
      simp [resolveCapture, h1, h2, removePiece, parityNoEp_setBB]

theorem resolveCapture_snd_sideToMove (keys : ZobristKeys) (X : Board)
    (mv : Move) (c : Color) :
    ((resolveCapture keys X mv c).2).sideToMove = X.sideToMove := by
  by_cases h1 : mv.isEnPassant = true
  · simp [resolveCapture, h1, removePiece, setBB_sideToMove]
  · by_cases h2 : X.pieceOnSq mv.to_sq = EMPTY_SQ <;>
      simp [resolveCapture, h1, h2, removePiece, setBB_sideToMove]

theorem parityNoEp_setDoublePushEp (keys : ZobristKeys) (X : Board) (mv : Move)
    (c : Color) :
    parityNoEp keys (setDoublePushEp X mv c) = parityNoEp keys X := by
  unfold setDoublePushEp
  split
  · exact parityNoEp_setEp keys _ _
  · rfl

theorem parityNoEp_setRightsXor (keys : ZobristKeys) (X : Board) (r : Nat) :
    parityNoEp keys (setRightsXor keys X r) = parityNoEp keys X := by
  unfold parityNoEp fullNoEp setRightsXor
  by_cases h : X.castlingRights = r
  · simp [h]
  · simp [h, castle_delta_spec, Nat.xor_assoc, Nat.xor_comm,
      nat_xor_left_comm, nat_xor_cancel_left, Nat.xor_self]

theorem parityNoEp_setSideXor (keys : ZobristKeys) (X : Board) (c : Color)
    (h : c = X.sideToMove.opposite) :
    parityNoEp keys (setSideXor keys X c) = parityNoEp keys X := by
  subst h
  unfold parityNoEp fullNoEp setSideXor
  simp [sideHash_opposite, Nat.xor_assoc, Nat.xor_comm, nat_xor_left_comm,
    nat_xor_cancel_left, Nat.xor_self]

/-- Entering the EP-independent regime: after the first `ep_xor_hash` of
`make_move_basic` the no-EP parity equals the original full parity. -/
theorem parityNoEp_enter (keys : ZobristKeys) (b : Board) :
    parityNoEp keys (epXorHash keys b) =
      b.zobrist ^^^ computeZobristFull keys b := by
  rw [computeZobristFull_factored]
  unfold parityNoEp fullNoEp
  simp [Nat.xor_assoc, Nat.xor_comm, nat_xor_left_comm, nat_xor_cancel_left,
    Nat.xor_self]

/-- Leaving the EP-independent regime: after the second `ep_xor_hash` the full
parity equals the no-EP parity of the board before it. -/
theorem parity_exit_epXorHash (keys : ZobristKeys) (b : Board) :
    (epXorHash keys b).zobrist ^^^
      computeZobristFull keys (epXorHash keys b) = parityNoEp keys b := by
  rw [computeZobristFull_factored]
  unfold parityNoEp fullNoEp
  simp [Nat.xor_assoc, Nat.xor_comm, nat_xor_left_comm, nat_xor_cancel_left,
    Nat.xor_self]

theorem parity_pushHistory (keys : ZobristKeys) (X : Board) (k : Nat) :
    (pushHistory X k).zobrist ^^^ computeZobristFull keys (pushHistory X k) =
      X.zobrist ^^^ computeZobristFull keys X := by
  rw [computeZobristFull_factored, computeZobristFull_factored]
  simp

theorem parity_ite_setHistory (keys : ZobristKeys) (c : Prop) [Decidable c]
    (X : Board) (l : List Nat) :
    (if c then setHistory X l else X).zobrist ^^^
      computeZobristFull keys (if c then setHistory X l else X) =
      X.zobrist ^^^ computeZobristFull keys X := by
  split
  · rw [computeZobristFull_factored, computeZobristFull_factored]
    simp
  · rfl

theorem parity_setHistory (keys : ZobristKeys) (X : Board) (l : List Nat) :
    (setHistory X l).zobrist ^^^ computeZobristFull keys (setHistory X l) =
      X.zobrist ^^^ computeZobristFull keys X := by
  rw [computeZobristFull_factored, computeZobristFull_factored]
  simp

theorem parity_popHistory (keys : ZobristKeys) (X : Board) :
    (popHistory X).zobrist ^^^ computeZobristFull keys (popHistory X) =
      X.zobrist ^^^ computeZobristFull keys X := by
  rw [computeZobristFull_factored, computeZobristFull_factored]
  simp

/-- Undoing a move preserves hash parity when applied as in the engine: the
saved previous side in the `Undo` record is the opposite of the current side
to move (always the case for the record produced by the preceding
`make_move_basic`). -/
theorem undoMoveBasic_delta (keys : ZobristKeys) (b : Board) (u : Undo)
    (hside : u.prevSide = b.sideToMove.opposite) :
    (undoMoveBasic keys b u).zobrist ^^^
      computeZobristFull keys (undoMoveBasic keys b u) =
      b.zobrist ^^^ computeZobristFull keys b := by
  rcases hph : u.prevHistory with _ | prevH <;>
  rcases hprom : u.promotion with _ | prom <;>
  rcases hcap : u.capture with _ | ⟨cc, cp, cs⟩ <;>
  rcases hcr : u.castlingRook with _ | ⟨rf, rt⟩ <;>
  · simp only [undoMoveBasic, hph, hprom, hcap, hcr]
    simp only [parity_setHistory, parity_popHistory, parity_exit_epXorHash]
    simp only [removePiece, placePiece, Board.bb, hside, parityNoEp_setEp,
      parityNoEp_setBB, parityNoEp_setClocks, parityNoEp_setRightsXor,
      parityNoEp_setSideXor, parityNoEp_enter, setBB_sideToMove,
      setClocks_sideToMove, setRightsXor_sideToMove, setEp_sideToMove,
      epXorHash_sideToMove, setSideXor_sideToMove]

/-- Making any move preserves hash parity: the incremental Zobrist updates of
`make_move_basic` match the change of the from-scratch recomputation. -/
theorem makeMoveBasic_delta (keys : ZobristKeys) (b : Board) (mv : Move) :
    (makeMoveBasic keys b mv).1.zobrist ^^^
      computeZobristFull keys (makeMoveBasic keys b mv).1 =
      b.zobrist ^^^ computeZobristFull keys b := by
  rcases hcr : (if mv.isCastling = true then rookCastleSquares mv.to_sq
      else none) with _ | ⟨rf, rt⟩ <;>
  · simp only [makeMoveBasic, hcr]
    rw [parity_pushHistory, parity_ite_setHistory, parity_exit_epXorHash]
    simp only [removePiece, placePiece, Board.bb, parityNoEp_setSideXor,
      parityNoEp_setClocks, parityNoEp_setBB, parityNoEp_resolveCapture,
      parityNoEp_setRightsXor, parityNoEp_setDoublePushEp, parityNoEp_setEp,
      parityNoEp_enter, setBB_sideToMove, setClocks_sideToMove,
      setRightsXor_sideToMove, setDoublePushEp_sideToMove, setEp_sideToMove,
      epXorHash_sideToMove, resolveCapture_snd_sideToMove]

/-- One board-mutating engine call, under the call discipline of the engine:
`undo_move_basic` is invoked with the `Undo` record saved by the matching
`make_move_basic` (whose saved previous side is therefore the opposite of the
current side to move), and `undo_null_move` is invoked on the board produced
by the matching `make_null_move` with interior make/undo pairs unwound (so the
en-passant square is clear, as `make_null_move` left it). -/
inductive HashStep (keys : ZobristKeys) : Board → Board → Prop where
  | make (b : Board) (mv : Move) : HashStep keys b (makeMoveBasic keys b mv).1
  | undo (b : Board) (u : Undo)
      (hside : u.prevSide = b.sideToMove.opposite) :
      HashStep keys b (undoMoveBasic keys b u)
  | nullMake (b : Board) : HashStep keys b (makeNullMove keys b).1
  | nullUndo (b : Board) (u : NullMoveUndo)
      (hside : u.prevSide = b.sideToMove.opposite)
      (hep : b.enPassant = none) : HashStep keys b (undoNullMove keys b u)

/-- Reachability by a finite sequence of engine calls. -/
inductive Reaches (keys : ZobristKeys) : Board → Board → Prop where
  | refl (b : Board) : Reaches keys b b
  | step (b1 b2 b3 : Board) : Reaches keys b1 b2 → HashStep keys b2 b3 →
      Reaches keys b1 b3

/-- **C2.** For every position reachable from a position satisfying the hash
invariant by any sequence of `make_move_basic` / `undo_move_basic` /
`make_null_move` / `undo_null_move` calls (applied with the call discipline of
the engine, captured by `HashStep`), the incrementally maintained `zobrist`
field equals the from-scratch recomputation `compute_zobrist_full` at every
boundary between these operations. -/
theorem zobrist_parity_invariant (keys : ZobristKeys) (b0 b : Board)
    (hreach : Reaches keys b0 b)
    (h0 : b0.zobrist = computeZobristFull keys b0) :
    b.zobrist = computeZobristFull keys b := by
  induction hreach with
  | refl => exact h0
  | step b2 b3 hr hstep ih =>
    cases hstep with
    | make mv =>
      exact parity_of_delta keys _ _ (makeMoveBasic_delta keys b2 mv) ih
    | undo u hside =>
      exact parity_of_delta keys _ _ (undoMoveBasic_delta keys b2 u hside) ih
    | nullMake =>
      exact parity_of_delta keys _ _ (makeNullMove_delta keys b2) ih
    | nullUndo u hside hep =>
      exact parity_of_delta keys _ _ (undoNullMove_delta keys b2 u hside hep) ih

/-- All-zero key set used to exhibit the invariant on a concrete run. -/
def c2Keys : ZobristKeys :=
  { piece := fun _ _ _ => 0, sideToMove := 0, castling := fun _ => 0,
    epFile := fun _ => 0 }

/-- Empty board satisfying the hash invariant, for the concrete run. -/
def c2Board : Board :=
  { pieceBB := fun _ _ => 0, occWhite := 0, occBlack := 0, occAll := 0,
    pieceOnSq := fun _ => EMPTY_SQ, sideToMove := Color.White,
    castlingRights := 0, enPassant := none, halfmoveClock := 0,
    fullmoveNumber := 1, zobrist := 0, history := [] }

/-- A quiet pawn push used for the concrete run. -/
def c2Move : Move :=
  { from_sq := 8, to_sq := 16, piece := Piece.Pawn, promotion := none,
    flags := QUIET_MOVE }

/-- Concrete run of the C2 invariant: a `make_move_basic` call starting from a
board that satisfies the invariant produces a board that still satisfies it. -/
theorem zobrist_parity_invariant_witness :
    (makeMoveBasic c2Keys c2Board c2Move).1.zobrist =
      computeZobristFull c2Keys (makeMoveBasic c2Keys c2Board c2Move).1 :=
  zobrist_parity_invariant c2Keys c2Board _
    (Reaches.step _ _ _ (Reaches.refl _) (HashStep.make _ c2Move))
    (by rfl)

/-! ### C6: the en-passant key inclusion rule of the full hash -/

theorem nat_ne_zero_iff_testBit (x : Nat) : x ≠ 0 ↔ ∃ i, x.testBit i = true := by
  constructor
  · intro h
    obtain ⟨i, hi, _⟩ := Nat.exists_most_significant_bit h
    exact ⟨i, hi⟩
  · rintro ⟨i, hi⟩ h0
    rw [h0, Nat.zero_testBit] at hi
    exact Bool.false_ne_true hi

theorem and_ne_zero_iff_testBit (x y : Nat) :
    x &&& y ≠ 0 ↔ ∃ i, x.testBit i = true ∧ y.testBit i = true := by
  rw [nat_ne_zero_iff_testBit]
  constructor <;> rintro ⟨i, hi⟩ <;> refine ⟨i, ?_⟩ <;>
    simp_all [Nat.testBit_and]

theorem testBit_two_pow_iff (i j : Nat) : (2 ^ i).testBit j = true ↔ j = i := by
  rw [Nat.testBit_two_pow]
  simp [eq_comm]

theorem mask64_testBit (i : Nat) : mask64.testBit i = decide (i < 64) :=
  Nat.testBit_two_pow_sub_one 64 i

theorem FILE_A_testBit (i : Nat) (h : i < 64) :
    FILE_A.testBit i = decide (i % 8 = 0) := by
  interval_cases i <;> decide

theorem FILE_H_testBit (i : Nat) (h : i < 64) :
    FILE_H.testBit i = decide (i % 8 = 7) := by
  interval_cases i <;> decide

theorem compl64_FILE_A_testBit (i : Nat) :
    (compl64 FILE_A).testBit i = (decide (i < 64) && !decide (i % 8 = 0)) := by
  by_cases hi : i < 64
  · rw [compl64, Nat.testBit_xor, mask64_testBit, FILE_A_testBit i hi]
    simp [hi]
  · have hf : FILE_A.testBit i = false :=
      Nat.testBit_lt_two_pow (lt_of_lt_of_le
        (show FILE_A < 2 ^ 64 by norm_num [FILE_A])
        (Nat.pow_le_pow_right (by norm_num) (by omega)))
    rw [compl64, Nat.testBit_xor, mask64_testBit, hf]
    simp [hi]

theorem compl64_FILE_H_testBit (i : Nat) :
    (compl64 FILE_H).testBit i = (decide (i < 64) && !decide (i % 8 = 7)) := by
  by_cases hi : i < 64
  · rw [compl64, Nat.testBit_xor, mask64_testBit, FILE_H_testBit i hi]
    simp [hi]
  · have hf : FILE_H.testBit i = false :=
      Nat.testBit_lt_two_pow (lt_of_lt_of_le
        (show FILE_H < 2 ^ 64 by norm_num [FILE_H])
        (Nat.pow_le_pow_right (by norm_num) (by omega)))
    rw [compl64, Nat.testBit_xor, mask64_testBit, hf]
    simp [hi]

/-- The source-square condition actually tested by `ep_file_to_hash`
(`has_capturing_pawn`): for White it coincides with the pseudo-legal pawn
attack relation, but for Black the two board-edge wrap masks are applied to
the opposite files (the `<<7` source set is masked with `!FILE_A` and the
`<<9` set with `!FILE_H`, while the geometric wrap exclusions for sources
`s+7` and `s+9` are file H and file A respectively). -/
def epAttackerCode (c : Color) (sq s : Nat) : Prop :=
  match c with
  | .White => (sq + 9 = s ∧ sq % 8 ≠ 7) ∨ (sq + 7 = s ∧ sq % 8 ≠ 0)
  | .Black => (sq = s + 7 ∧ sq % 8 ≠ 0) ∨ (sq = s + 9 ∧ sq % 8 ≠ 7)

/-- Modelled from the spec: a pawn of color `c` on square `sq` pseudo-legally
attacks square `s` (ignoring pins and king safety) — one rank forward in
`c`'s direction of movement and one file sideways, without wrapping around
the board edge. -/
def pawnAttacksSpec (c : Color) (sq s : Nat) : Prop :=
  match c with
  | .White => (sq + 9 = s ∧ sq % 8 ≠ 7) ∨ (sq + 7 = s ∧ sq % 8 ≠ 0)
  | .Black => (sq = s + 7 ∧ sq % 8 ≠ 7) ∨ (sq = s + 9 ∧ sq % 8 ≠ 0)

instance instDecEpAttackerCode (c : Color) (sq s : Nat) :
    Decidable (epAttackerCode c sq s) :=
  match c with
  | .White => inferInstanceAs
      (Decidable ((sq + 9 = s ∧ sq % 8 ≠ 7) ∨ (sq + 7 = s ∧ sq % 8 ≠ 0)))
  | .Black => inferInstanceAs
      (Decidable ((sq = s + 7 ∧ sq % 8 ≠ 0) ∨ (sq = s + 9 ∧ sq % 8 ≠ 7)))

instance instDecPawnAttacksSpec (c : Color) (sq s : Nat) :
    Decidable (pawnAttacksSpec c sq s) :=
  match c with
  | .White => inferInstanceAs
      (Decidable ((sq + 9 = s ∧ sq % 8 ≠ 7) ∨ (sq + 7 = s ∧ sq % 8 ≠ 0)))
  | .Black => inferInstanceAs
      (Decidable ((sq = s + 7 ∧ sq % 8 ≠ 7) ∨ (sq = s + 9 ∧ sq % 8 ≠ 0)))

theorem white_ep_sources_testBit (s i : Nat) (hs : s < 48) :
    ((2 ^ s >>> 9) &&& compl64 FILE_H |||
      (2 ^ s >>> 7) &&& compl64 FILE_A).testBit i = true ↔
      ((i + 9 = s ∧ i % 8 ≠ 7) ∨ (i + 7 = s ∧ i % 8 ≠ 0)) := by
  rw [Nat.testBit_or, Nat.testBit_and, Nat.testBit_and, Nat.testBit_shiftRight,
    Nat.testBit_shiftRight, Nat.testBit_two_pow, Nat.testBit_two_pow,
    compl64_FILE_H_testBit, compl64_FILE_A_testBit]
  simp only [Bool.or_eq_true, Bool.and_eq_true, decide_eq_true_eq,
    Bool.not_eq_true', decide_eq_false_iff_not]
  omega

theorem black_ep_sources_testBit (s i : Nat) (hs : s < 48) :
    (((2 ^ s <<< 7) % 2 ^ 64) &&& compl64 FILE_A |||
      ((2 ^ s <<< 9) % 2 ^ 64) &&& compl64 FILE_H).testBit i = true ↔
      ((i = s + 7 ∧ i % 8 ≠ 0) ∨ (i = s + 9 ∧ i % 8 ≠ 7)) := by
  have h7 : (2:Nat) ^ s <<< 7 = 2 ^ (s + 7) := by rw [Nat.shiftLeft_eq, pow_add]
  have h9 : (2:Nat) ^ s <<< 9 = 2 ^ (s + 9) := by rw [Nat.shiftLeft_eq, pow_add]
  rw [h7, h9, Nat.testBit_or, Nat.testBit_and, Nat.testBit_and,
    Nat.testBit_mod_two_pow, Nat.testBit_mod_two_pow, Nat.testBit_two_pow,
    Nat.testBit_two_pow, compl64_FILE_A_testBit, compl64_FILE_H_testBit]
  simp only [Bool.or_eq_true, Bool.and_eq_true, decide_eq_true_eq,
    Bool.not_eq_true', decide_eq_false_iff_not]
  omega

/-- Exact case analysis of `ep_file_to_hash` on a rank-3/6 en-passant square:
the file key is reported precisely when a pawn of the side to move sits on a
source square of the code's (White-correct, Black-mask-swapped) test. -/
theorem epFileToHash_cases (b : Board) (s : Nat)
    (heps : b.enPassant = some s) (hrank : s / 8 = 2 ∨ s / 8 = 5) :
    (epFileToHash b = some (s % 8) ∧
      (∃ sq, (b.pieceBB b.sideToMove Piece.Pawn).testBit sq = true ∧
        epAttackerCode b.sideToMove sq s)) ∨
    (epFileToHash b = none ∧
      ¬ (∃ sq, (b.pieceBB b.sideToMove Piece.Pawn).testBit sq = true ∧
        epAttackerCode b.sideToMove sq s)) := by
  have hs : s < 48 := by omega
  have hbbS : (1 <<< s) % 2 ^ 64 = 2 ^ s := by
    rw [Nat.shiftLeft_eq, one_mul]
    exact Nat.mod_eq_of_lt (Nat.pow_lt_pow_right one_lt_two (by omega))
  rcases hside : b.sideToMove with _ | _ <;>
  · simp only [epFileToHash, heps, hside, hbbS, Board.bb]
    rw [if_neg (not_not_intro hrank)]
    split
    · rename_i hc
      refine Or.inl ⟨rfl, ?_⟩
      rw [bne_iff_ne, and_ne_zero_iff_testBit] at hc
      obtain ⟨i, hsrc, hp⟩ := hc
      refine ⟨i, hp, ?_⟩
      first
      | exact (white_ep_sources_testBit s i hs).mp hsrc
      | exact (black_ep_sources_testBit s i hs).mp hsrc
    · rename_i hc
      refine Or.inr ⟨rfl, ?_⟩
      rintro ⟨sq, hp, hatt⟩
      apply hc
      rw [bne_iff_ne, and_ne_zero_iff_testBit]
      refine ⟨sq, ?_, hp⟩
      first
      | exact (white_ep_sources_testBit s sq hs).mpr hatt
      | exact (black_ep_sources_testBit s sq hs).mpr hatt

/-- **C6 (amended).** For a position with `en_passant = Some(s)` on rank 3/6,
`compute_zobrist_full` includes the en-passant file key exactly when the side
to move has a pawn on one of the source squares of the code's capturability
test `epAttackerCode` — which equals the pseudo-legal pawn attack relation
for White but applies the two board-edge wrap masks to the opposite files for
Black — and omitting the key leaves the hash identical to the same position
with `en_passant = None`. -/
theorem ep_key_characterization (keys : ZobristKeys) (b : Board) (s : Nat)
    (heps : b.enPassant = some s) (hrank : s / 8 = 2 ∨ s / 8 = 5) :
    ((∃ sq, (b.pieceBB b.sideToMove Piece.Pawn).testBit sq = true ∧
        epAttackerCode b.sideToMove sq s) →
      epFileToHash b = some (s % 8) ∧
      computeZobristFull keys b =
        computeZobristFull keys (setEp b none) ^^^ keys.epFile (s % 8)) ∧
    ((¬ ∃ sq, (b.pieceBB b.sideToMove Piece.Pawn).testBit sq = true ∧
        epAttackerCode b.sideToMove sq s) →
      epFileToHash b = none ∧
      computeZobristFull keys b = computeZobristFull keys (setEp b none)) := by
  rcases epFileToHash_cases b s heps hrank with ⟨hf, hex⟩ | ⟨hf, hex⟩
  · refine ⟨fun _ => ⟨hf, ?_⟩, fun hne => absurd hex hne⟩
    rw [computeZobristFull_factored, computeZobristFull_factored]
    have h1 : epHashOpt keys b = keys.epFile (s % 8) := by
      unfold epHashOpt
      rw [hf]
    rw [h1, epHashOpt_setEp_none]
    simp [Nat.xor_assoc]
  · refine ⟨fun hx => absurd hx hex, fun _ => ⟨hf, ?_⟩⟩
    rw [computeZobristFull_factored, computeZobristFull_factored]
    have h1 : epHashOpt keys b = 0 := by
      unfold epHashOpt
      rw [hf]
    rw [h1, epHashOpt_setEp_none]
    simp

/-- Keys that are zero except for the en-passant file keys, separating the
en-passant contribution in concrete hash computations. -/
def c6Keys : ZobristKeys :=
  { piece := fun _ _ _ => 0, sideToMove := 0, castling := fun _ => 0,
    epFile := fun _ => 1 }

/-- Black to move, en-passant target a3 (square 16), single black pawn on
h3 (square 23): no black pawn pseudo-legally attacks the target. -/
def c6Board : Board :=
  { pieceBB := fun c p => if c = Color.Black ∧ p = Piece.Pawn then 2 ^ 23
      else 0
    occWhite := 0, occBlack := 2 ^ 23, occAll := 2 ^ 23
    pieceOnSq := fun sq => if sq = 23 then mailboxCode Color.Black Piece.Pawn
      else EMPTY_SQ
    sideToMove := Color.Black, castlingRights := 0, enPassant := some 16
    halfmoveClock := 0, fullmoveNumber := 1, zobrist := 1, history := [] }

/-- **C6 counterexample.** In `c6Board` (Black to move, en-passant square a3,
lone black pawn on h3) no pawn of the side to move pseudo-legally attacks the
en-passant square, yet the full hash differs from that of the same position
with the en-passant square cleared: the Black branch of `ep_file_to_hash`
masks its `<<7` source set with `!FILE_A` instead of `!FILE_H`, so the h3
pawn is counted as an attacker of a3. -/
theorem ep_key_included_without_attacker :
    (¬ ∃ sq, (c6Board.pieceBB c6Board.sideToMove Piece.Pawn).testBit sq =
        true ∧ pawnAttacksSpec c6Board.sideToMove sq 16) ∧
    c6Board.enPassant = some 16 ∧
    computeZobristFull c6Keys c6Board ≠
      computeZobristFull c6Keys (setEp c6Board none) := by
  refine ⟨?_, rfl, by decide⟩
  rintro ⟨sq, hbit, hatt⟩
  have hb : (c6Board.pieceBB c6Board.sideToMove Piece.Pawn) = 2 ^ 23 := rfl
  rw [hb, testBit_two_pow_iff] at hbit
  subst hbit
  exact absurd hatt (by decide)

/-- Witness board for the amended C6 theorem: Black to move, en-passant
target a3 (square 16), black pawn on b4 (square 25), which attacks a3. -/
def c6WitnessBoard : Board :=
  { pieceBB := fun c p => if c = Color.Black ∧ p = Piece.Pawn then 2 ^ 25
      else 0
    occWhite := 0, occBlack := 2 ^ 25, occAll := 2 ^ 25
    pieceOnSq := fun sq => if sq = 25 then mailboxCode Color.Black Piece.Pawn
      else EMPTY_SQ
    sideToMove := Color.Black, castlingRights := 0, enPassant := some 16
    halfmoveClock := 0, fullmoveNumber := 1, zobrist := 0, history := [] }

/-- Concrete instance of the amended C6 theorem: with a black pawn on b4
attacking the a3 en-passant square, the file key is included in the hash. -/
theorem ep_key_characterization_witness :
    epFileToHash c6WitnessBoard = some (16 % 8) ∧
    computeZobristFull c6Keys c6WitnessBoard =
      computeZobristFull c6Keys (setEp c6WitnessBoard none) ^^^
        c6Keys.epFile (16 % 8) :=
  (ep_key_characterization c6Keys c6WitnessBoard 16 rfl (by decide)).1
    ⟨25, by decide, by decide⟩

/-! ### C5: the iterative-deepening driver of `search` -/

/-- `INF` from `src/search/search.rs`. -/
def INF : Int := 32000

/-- `MATE_SCORE` from `src/search/search.rs`. -/
def MATE_SCORE : Int := 31000

/-- `MATE_THRESHOLD` from `src/search/search.rs`. -/
def MATE_THRESHOLD : Int := MATE_SCORE - 1000

/-- Oracle-parameterized embedding of the iterative-deepening loop of
`search` (src/search/search.rs).  `iter d` abstracts the aspiration-window
search at depth `d`: the final score and best move delivered by that
iteration's re-search loop, together with the state of `time.stop_signal`
when the iteration returns.  `afford d` abstracts the time-prediction check
performed before starting depth `d` (`true` when there is no time limit or
the predicted next iteration fits the allocation; the code only consults it
for `d > 1`).  `last` carries `(last_completed_best_score,
last_completed_best_move)`; the transposition table, history aging, node
counting and UCI output do not affect the returned pair and are not
modelled. -/
def idLoop (iter : Nat → Int × Option Move × Bool) (afford : Nat → Bool) :
    Nat → Nat → Int × Option Move → Int × Option Move
  | 0, _, last => last
  | fuel + 1, depth, last =>
    if 1 < depth ∧ afford depth = false then last
    else
      let r := iter depth
      if r.2.2 = true then last
      else if MATE_THRESHOLD ≤ |r.1| then (r.1, r.2.1)
      else idLoop iter afford fuel (depth + 1) (r.1, r.2.1)

/-- The returned pair of `search`: run the deepening loop for depths
`1..=maxDepth` starting from the defaults `(0, None)`. -/
def searchID (iter : Nat → Int × Option Move × Bool) (afford : Nat → Bool)
    (maxDepth : Nat) : Int × Option Move :=
  idLoop iter afford maxDepth 1 (0, none)

/-- Reference function: the depth of the deepest iteration the loop commits
when started at `depth` with `fuel` remaining depths (`none` when the very
first reachable iteration is cut off or interrupted). -/
def lastCompleted (iter : Nat → Int × Option Move × Bool)
    (afford : Nat → Bool) : Nat → Nat → Option Nat
  | 0, _ => none
  | fuel + 1, depth =>
    if 1 < depth ∧ afford depth = false then none
    else if (iter depth).2.2 = true then none
    else if MATE_THRESHOLD ≤ |(iter depth).1| then some depth
    else
      match lastCompleted iter afford fuel (depth + 1) with
      | some d => some d
      | none => some depth

/-- Depth `e` runs to completion when the loop is entered at `start`: every
intermediate depth passes the affordability check, finishes without the stop
signal, scores below the mate threshold (so the loop keeps deepening), and
iteration `e` itself finishes without the stop signal. -/
def ChainOK (iter : Nat → Int × Option Move × Bool) (afford : Nat → Bool)
    (start e : Nat) : Prop :=
  (∀ j, start ≤ j → j ≤ e → 1 < j → afford j = true) ∧
  (∀ j, start ≤ j → j < e →
    (iter j).2.2 = false ∧ |(iter j).1| < MATE_THRESHOLD) ∧
  (iter e).2.2 = false

/-- Iteration `d` of the full run completes before the stop signal fires. -/
def Committed (iter : Nat → Int × Option Move × Bool) (afford : Nat → Bool)
    (maxDepth d : Nat) : Prop :=
  1 ≤ d ∧ d ≤ maxDepth ∧ ChainOK iter afford 1 d

theorem ChainOK_tail (iter : Nat → Int × Option Move × Bool)
    (afford : Nat → Bool) (start e : Nat)
    (h : ChainOK iter afford start e) :
    ChainOK iter afford (start + 1) e :=
  ⟨fun j h1 h2 h3 => h.1 j (by omega) h2 h3,
   fun j h1 h2 => h.2.1 j (by omega) h2, h.2.2⟩

theorem ChainOK_cons (iter : Nat → Int × Option Move × Bool)
    (afford : Nat → Bool) (start e : Nat) (_he : start < e)
    (ha : 1 < start → afford start = true)
    (hs : (iter start).2.2 = false) (hm : |(iter start).1| < MATE_THRESHOLD)
    (h : ChainOK iter afford (start + 1) e) :
    ChainOK iter afford start e := by
  refine ⟨fun j h1 h2 h3 => ?_, fun j h1 h2 => ?_, h.2.2⟩
  · rcases Nat.eq_or_lt_of_le h1 with rfl | hlt
    · exact ha h3
    · exact h.1 j (by omega) h2 h3
  · rcases Nat.eq_or_lt_of_le h1 with rfl | hlt
    · exact ⟨hs, hm⟩
    · exact h.2.1 j (by omega) h2

/-- The loop returns the accumulator exactly when `lastCompleted` finds no
committed depth, and otherwise the outcome of the deepest committed depth. -/
theorem idLoop_eq_lastCompleted (iter : Nat → Int × Option Move × Bool)
    (afford : Nat → Bool) (fuel : Nat) :
    ∀ depth last, idLoop iter afford fuel depth last =
      match lastCompleted iter afford fuel depth with
      | some d => ((iter d).1, (iter d).2.1)
      | none => last := by
  induction fuel with
  | zero => intro depth last; rfl
  | succ n ih =>
    intro depth last
    simp only [idLoop, lastCompleted]
    by_cases hg : 1 < depth ∧ afford depth = false
    · rw [if_pos hg, if_pos hg]
    · rw [if_neg hg, if_neg hg]
      by_cases hstop : (iter depth).2.2 = true
      · rw [if_pos hstop, if_pos hstop]
      · rw [if_neg hstop, if_neg hstop]
        by_cases hmate : MATE_THRESHOLD ≤ |(iter depth).1|
        · rw [if_pos hmate, if_pos hmate]
        · rw [if_neg hmate, if_neg hmate, ih]
          rcases lastCompleted iter afford n (depth + 1) with _ | d <;> rfl

theorem lastCompleted_none (iter : Nat → Int × Option Move × Bool)
    (afford : Nat → Bool) (fuel : Nat) :
    ∀ depth, lastCompleted iter afford fuel depth = none →
      ∀ e, depth ≤ e → e < depth + fuel → ¬ ChainOK iter afford depth e := by
  induction fuel with
  | zero => intro depth _ e h1 h2; omega
  | succ n ih =>
    intro depth hnone e h1 h2 hch
    rw [lastCompleted] at hnone
    by_cases hg : 1 < depth ∧ afford depth = false
    · have hT : afford depth = true := hch.1 depth le_rfl h1 hg.1
      rw [hg.2] at hT
      exact Bool.false_ne_true hT
    · rw [if_neg hg] at hnone
      by_cases hstop : (iter depth).2.2 = true
      · have hF : (iter depth).2.2 = false := by
          rcases Nat.lt_or_ge depth e with hlt | hge
          · exact (hch.2.1 depth le_rfl hlt).1
          · obtain rfl : depth = e := by omega
            exact hch.2.2
        rw [hstop] at hF
        exact Bool.noConfusion hF
      · rw [if_neg hstop] at hnone
        by_cases hmate : MATE_THRESHOLD ≤ |(iter depth).1|
        · rw [if_pos hmate] at hnone
          exact Option.noConfusion hnone
        · rw [if_neg hmate] at hnone
          rcases hrec : lastCompleted iter afford n (depth + 1) with _ | d <;>
            rw [hrec] at hnone <;> exact Option.noConfusion hnone

theorem lastCompleted_some (iter : Nat → Int × Option Move × Bool)
    (afford : Nat → Bool) (fuel : Nat) :
    ∀ depth d, lastCompleted iter afford fuel depth = some d →
      depth ≤ d ∧ d < depth + fuel ∧ ChainOK iter afford depth d ∧
      ∀ e, depth ≤ e → e < depth + fuel → ChainOK iter afford depth e →
        e ≤ d := by
  induction fuel with
  | zero =>
    intro depth d h
    exact absurd h (by rw [lastCompleted]; exact fun hx => Option.noConfusion hx)
  | succ n ih =>
    intro depth d hsome
    rw [lastCompleted] at hsome
    by_cases hg : 1 < depth ∧ afford depth = false
    · rw [if_pos hg] at hsome
      exact Option.noConfusion hsome
    · rw [if_neg hg] at hsome
      have ha : 1 < depth → afford depth = true := by
        intro h1
        by_contra hf
        exact hg ⟨h1, by simpa using hf⟩
      by_cases hstop : (iter depth).2.2 = true
      · rw [if_pos hstop] at hsome
        exact Option.noConfusion hsome
      · rw [if_neg hstop] at hsome
        have hs : (iter depth).2.2 = false := by simpa using hstop
        by_cases hmate : MATE_THRESHOLD ≤ |(iter depth).1|
        · rw [if_pos hmate] at hsome
          have hd : depth = d := Option.some.inj hsome
          subst hd
          refine ⟨le_rfl, by omega, ⟨fun j h1 h2 h3 => ?_, ?_, hs⟩, ?_⟩
          · obtain rfl : j = depth := by omega
            exact ha h3
          · intro j h1 h2
            omega
          · intro e h1 h2 hch
            by_contra hgt
            have := (hch.2.1 depth le_rfl (by omega)).2
            omega
        · rw [if_neg hmate] at hsome
          have hm : |(iter depth).1| < MATE_THRESHOLD := by omega
          rcases hrec : lastCompleted iter afford n (depth + 1) with _ | d'
          · rw [hrec] at hsome
            have hd : depth = d := Option.some.inj hsome
            subst hd
            refine ⟨le_rfl, by omega, ⟨fun j h1 h2 h3 => ?_, ?_, hs⟩, ?_⟩
            · obtain rfl : j = depth := by omega
              exact ha h3
            · intro j h1 h2
              omega
            · intro e h1 h2 hch
              by_contra hgt
              exact lastCompleted_none iter afford n (depth + 1) hrec e
                (by omega) (by omega) (ChainOK_tail iter afford depth e hch)
          · rw [hrec] at hsome
            have hd : d' = d := Option.some.inj hsome
            subst hd
            obtain ⟨hd1, hd2, hd3, hd4⟩ := ih (depth + 1) d' hrec
            refine ⟨by omega, by omega,
              ChainOK_cons iter afford depth d' (by omega) ha hs hm hd3, ?_⟩
            intro e h1 h2 hch
            rcases Nat.lt_or_ge depth e with hlt | hge
            · exact hd4 e (by omega) (by omega)
                (ChainOK_tail iter afford depth e hch)
            · omega

/-- **C5.** The pair returned by `search` is exactly the result of the
deepest iterative-deepening iteration that ran to completion before the stop
signal was raised: a committed depth's outcome is returned only for the
greatest committed depth, an iteration interrupted by the stop signal is
never committed (`Committed` requires its stop flag to be clear), and when no
iteration commits the result is `(0, None)`. -/
theorem search_returns_last_completed_iteration
    (iter : Nat → Int × Option Move × Bool) (afford : Nat → Bool)
    (maxDepth : Nat) :
    ((∀ d, ¬ Committed iter afford maxDepth d) →
      searchID iter afford maxDepth = (0, none)) ∧
    (∀ d, Committed iter afford maxDepth d →
      (∀ e, Committed iter afford maxDepth e → e ≤ d) →
      searchID iter afford maxDepth = ((iter d).1, (iter d).2.1)) := by
  constructor
  · intro hno
    rw [searchID, idLoop_eq_lastCompleted]
    rcases hlc : lastCompleted iter afford maxDepth 1 with _ | d
    · rfl
    · obtain ⟨h1, h2, h3, _⟩ := lastCompleted_some iter afford maxDepth 1 d hlc
      exact absurd ⟨h1, by omega, h3⟩ (hno d)
  · intro d hd hmax
    obtain ⟨hda, hdb, hdc⟩ := hd
    rw [searchID, idLoop_eq_lastCompleted]
    rcases hlc : lastCompleted iter afford maxDepth 1 with _ | d'
    · exact absurd hdc (lastCompleted_none iter afford maxDepth 1 hlc d
        hda (by omega))
    · obtain ⟨h1, h2, h3, h4⟩ := lastCompleted_some iter afford maxDepth 1 d' hlc
      have hle : d' ≤ d := hmax d' ⟨h1, by omega, h3⟩
      have hge : d ≤ d' := h4 d hda (by omega) hdc
      obtain rfl : d = d' := le_antisymm hge hle
      rfl

/-! ### C1: the make/undo involution -/

/-- Extensionality for `Board`. -/
theorem Board.ext' (X Y : Board)
    (h1 : X.pieceBB = Y.pieceBB) (h2 : X.occWhite = Y.occWhite)
    (h3 : X.occBlack = Y.occBlack) (h4 : X.occAll = Y.occAll)
    (h5 : X.pieceOnSq = Y.pieceOnSq) (h6 : X.sideToMove = Y.sideToMove)
    (h7 : X.castlingRights = Y.castlingRights)
    (h8 : X.enPassant = Y.enPassant)
    (h9 : X.halfmoveClock = Y.halfmoveClock)
    (h10 : X.fullmoveNumber = Y.fullmoveNumber)
    (h11 : X.zobrist = Y.zobrist) (h12 : X.history = Y.history) : X = Y := by
  cases X
  cases Y
  simp_all

theorem setBB_occWhite (keys : ZobristKeys) (b : Board) (c : Color) (p : Piece)
    (n : Nat) :
    (setBB keys b c p n).occWhite =
      (if c = Color.White then b.occWhite ^^^ (b.pieceBB c p ^^^ n)
       else b.occWhite) := by
  by_cases hd : b.pieceBB c p ^^^ n = 0 <;> simp [setBB, hd]

theorem setBB_occBlack (keys : ZobristKeys) (b : Board) (c : Color) (p : Piece)
    (n : Nat) :
    (setBB keys b c p n).occBlack =
      (if c = Color.Black then b.occBlack ^^^ (b.pieceBB c p ^^^ n)
       else b.occBlack) := by
  by_cases hd : b.pieceBB c p ^^^ n = 0
  · simp [setBB, hd]
  · rcases c with _ | _ <;> simp [setBB, hd]

theorem setBB_occAll (keys : ZobristKeys) (b : Board) (c : Color) (p : Piece)
    (n : Nat) :
    (setBB keys b c p n).occAll =
      (if b.pieceBB c p ^^^ n = 0 then b.occAll
       else (setBB keys b c p n).occWhite ||| (setBB keys b c p n).occBlack) := by
  by_cases hd : b.pieceBB c p ^^^ n = 0 <;> simp [setBB, hd]

theorem setBB_pieceOnSq (keys : ZobristKeys) (b : Board) (c : Color)
    (p : Piece) (n : Nat) :
    (setBB keys b c p n).pieceOnSq = fun sq =>
      if (b.pieceBB c p ^^^ n).testBit sq then
        (if n.testBit sq then mailboxCode c p else EMPTY_SQ)
      else b.pieceOnSq sq := by
  by_cases hd : b.pieceBB c p ^^^ n = 0
  · funext sq
    simp [setBB, hd]
  · simp [setBB, hd]

theorem shift_mod_eq_pow (i : Nat) (h : i < 64) :
    (1 <<< i) % 2 ^ 64 = 2 ^ i := by
  rw [Nat.shiftLeft_eq, one_mul]
  exact Nat.mod_eq_of_lt (Nat.pow_lt_pow_right one_lt_two h)

theorem and_compl_pow_testBit (bb i j : Nat) (hb : bb < 2 ^ 64) :
    (bb &&& compl64 (2 ^ i)).testBit j = (bb.testBit j && !decide (j = i)) := by
  rw [Nat.testBit_and, compl64, Nat.testBit_xor, mask64_testBit,
    Nat.testBit_two_pow]
  by_cases hj : j < 64
  · by_cases hij : i = j <;> simp [hj, hij, eq_comm]
  · have hz : bb.testBit j = false :=
      Nat.testBit_lt_two_pow (lt_of_lt_of_le hb
        (Nat.pow_le_pow_right (by norm_num) (by omega)))
    simp [hj, hz]

/-- Putting the removed bit back restores the bitboard. -/
theorem and_compl_or_pow (bb i : Nat) (hb : bb < 2 ^ 64)
    (h : bb.testBit i = true) :
    (bb &&& compl64 (2 ^ i)) ||| 2 ^ i = bb := by
  apply Nat.eq_of_testBit_eq
  intro j
  rw [Nat.testBit_or, and_compl_pow_testBit bb i j hb, Nat.testBit_two_pow]
  by_cases hj : j = i
  · subst hj
    simp [h]
  · simp [hj, Ne.symm hj]

/-- Removing a freshly placed bit restores the bitboard. -/
theorem or_pow_and_compl (bb i : Nat) (hb : bb < 2 ^ 64) (hi : i < 64)
    (h : bb.testBit i = false) :
    (bb ||| 2 ^ i) &&& compl64 (2 ^ i) = bb := by
  have hb2 : bb ||| 2 ^ i < 2 ^ 64 :=
    Nat.or_lt_two_pow hb (Nat.pow_lt_pow_right one_lt_two hi)
  apply Nat.eq_of_testBit_eq
  intro j
  rw [and_compl_pow_testBit _ i j hb2, Nat.testBit_or, Nat.testBit_two_pow]
  by_cases hj : j = i
  · subst hj
    simp [h]
  · simp [hj, Ne.symm hj]

theorem remove_delta_eq_pow (bb i : Nat) (hb : bb < 2 ^ 64)
    (h : bb.testBit i = true) :
    bb ^^^ (bb &&& compl64 (2 ^ i)) = 2 ^ i := by
  apply Nat.eq_of_testBit_eq
  intro j
  rw [Nat.testBit_xor, and_compl_pow_testBit bb i j hb, Nat.testBit_two_pow]
  by_cases hj : j = i
  · subst hj
    simp [h]
  · cases hbj : bb.testBit j <;> simp [hj, Ne.symm hj, hbj]

theorem place_delta_eq_pow (bb i : Nat) (h : bb.testBit i = false) :
    bb ^^^ (bb ||| 2 ^ i) = 2 ^ i := by
  apply Nat.eq_of_testBit_eq
  intro j
  rw [Nat.testBit_xor, Nat.testBit_or, Nat.testBit_two_pow]
  by_cases hj : j = i
  · subst hj
    simp [h]
  · cases hbj : bb.testBit j <;> simp [hj, Ne.symm hj, hbj]

theorem and_compl_lt (bb m : Nat) (hb : bb < 2 ^ 64) :
    bb &&& m < 2 ^ 64 :=
  lt_of_le_of_lt Nat.and_le_left hb

theorem or_pow_lt (bb i : Nat) (hb : bb < 2 ^ 64) (hi : i < 64) :
    bb ||| 2 ^ i < 2 ^ 64 :=
  Nat.or_lt_two_pow hb (Nat.pow_lt_pow_right one_lt_two hi)

theorem epXorHash_of_none (keys : ZobristKeys) (X : Board)
    (h : epFileToHash X = none) : epXorHash keys X = X := by
  unfold epXorHash
  rw [h]

theorem epXorHash_of_some (keys : ZobristKeys) (X : Board) (f : Nat)
    (h : epFileToHash X = some f) :
    epXorHash keys X = { X with zobrist := X.zobrist ^^^ keys.epFile f } := by
  unfold epXorHash
  rw [h]

/-- The en-passant hash adjustment is an involution. -/
theorem epXorHash_epXorHash (keys : ZobristKeys) (X : Board) :
    epXorHash keys (epXorHash keys X) = X := by
  rcases h : epFileToHash X with _ | f
  · rw [epXorHash_of_none keys X h, epXorHash_of_none keys X h]
  · rw [epXorHash_of_some keys X f h]
    have h2 : epFileToHash { X with zobrist := X.zobrist ^^^ keys.epFile f } =
        some f := by
      rw [epFileToHash_congr { X with zobrist := X.zobrist ^^^ keys.epFile f }
        X rfl rfl rfl rfl, h]
    rw [epXorHash_of_some keys _ f h2]
    refine Board.ext' _ _ rfl rfl rfl rfl rfl rfl rfl rfl rfl rfl ?_ rfl
    simp [Nat.xor_assoc]

theorem setSideXor_setSideXor (keys : ZobristKeys) (X : Board) (c' c : Color)
    (h : X.sideToMove = c) :
    setSideXor keys (setSideXor keys X c') c = X := by
  refine Board.ext' _ _ (by simp) (by simp) (by simp) (by simp) (by simp)
    (by simp [h]) (by simp) (by simp) (by simp) (by simp) ?_ (by simp)
  simp [Nat.xor_assoc]

theorem setRightsXor_setRightsXor (keys : ZobristKeys) (X : Board)
    (r' r : Nat) (h : X.castlingRights = r) :
    setRightsXor keys (setRightsXor keys X r') r = X := by
  refine Board.ext' _ _ (by simp) (by simp) (by simp) (by simp) (by simp)
    (by simp) (by simp [h]) (by simp) (by simp) (by simp) ?_ (by simp)
  simp [h, Nat.xor_assoc, Nat.xor_comm, nat_xor_left_comm, nat_xor_cancel_left,
    Nat.xor_self]

theorem setClocks_setClocks (X : Board) (a f hm fm : Nat)
    (h1 : X.halfmoveClock = hm) (h2 : X.fullmoveNumber = fm) :
    setClocks (setClocks X a f) hm fm = X := by
  refine Board.ext' _ _ rfl rfl rfl rfl rfl rfl rfl rfl ?_ ?_ rfl rfl
  · simp [h1]
  · simp [h2]

theorem setEp_setEp (X : Board) (e' e : Option Nat) :
    setEp (setEp X e') e = setEp X e := rfl

theorem setEp_self (X : Board) (e : Option Nat) (h : X.enPassant = e) :
    setEp X e = X := by
  refine Board.ext' _ _ rfl rfl rfl rfl rfl rfl rfl ?_ rfl rfl rfl rfl
  simp [h]

theorem setEp_setDoublePushEp (X : Board) (mv : Move) (c : Color)
    (e : Option Nat) : setEp (setDoublePushEp X mv c) e = setEp X e := by
  unfold setDoublePushEp
  split
  · rfl
  · rfl

theorem setHistory_setHistory (X : Board) (l' l : List Nat) :
    setHistory (setHistory X l') l = setHistory X l := rfl

theorem setHistory_self (X : Board) (l : List Nat) (h : X.history = l) :
    setHistory X l = X := by
  refine Board.ext' _ _ rfl rfl rfl rfl rfl rfl rfl rfl rfl rfl rfl ?_
  simp [h]

theorem popHistory_pushHistory (X : Board) (k : Nat) :
    popHistory (pushHistory X k) = X := by
  refine Board.ext' _ _ rfl rfl rfl rfl rfl rfl rfl rfl rfl rfl rfl ?_
  simp

theorem setBB_of_delta_zero (keys : ZobristKeys) (b : Board) (c : Color)
    (p : Piece) (n : Nat) (h : b.pieceBB c p ^^^ n = 0) :
    setBB keys b c p n = b := by
  simp [setBB, h]

theorem setBB_pieceBB_same (keys : ZobristKeys) (b : Board) (c : Color)
    (p : Piece) (n : Nat) : (setBB keys b c p n).pieceBB c p = n := by
  simp [setBB_pieceBB]

theorem setBB_pieceBB_other (keys : ZobristKeys) (b : Board) (c : Color)
    (p : Piece) (n : Nat) (c' : Color) (p' : Piece)
    (h : ¬(c' = c ∧ p' = p)) :
    (setBB keys b c p n).pieceBB c' p' = b.pieceBB c' p' := by
  simp [setBB_pieceBB, h]

theorem setBB_pushHistory (keys : ZobristKeys) (X : Board) (c : Color)
    (p : Piece) (n k : Nat) :
    setBB keys (pushHistory X k) c p n = pushHistory (setBB keys X c p n) k := by
  refine Board.ext' _ _ ?_ ?_ ?_ ?_ ?_ ?_ ?_ ?_ ?_ ?_ ?_ ?_ <;>
    simp [setBB_pieceBB, setBB_occWhite, setBB_occBlack, setBB_occAll,
      setBB_pieceOnSq, setBB_zobrist, setBB_sideToMove, setBB_castlingRights,
      setBB_enPassant, setBB_halfmoveClock, setBB_fullmoveNumber, setBB_history]

theorem setBB_setHistory (keys : ZobristKeys) (X : Board) (c : Color)
    (p : Piece) (n : Nat) (l : List Nat) :
    setBB keys (setHistory X l) c p n = setHistory (setBB keys X c p n) l := by
  refine Board.ext' _ _ ?_ ?_ ?_ ?_ ?_ ?_ ?_ ?_ ?_ ?_ ?_ ?_ <;>
    simp [setBB_pieceBB, setBB_occWhite, setBB_occBlack, setBB_occAll,
      setBB_pieceOnSq, setBB_zobrist, setBB_sideToMove, setBB_castlingRights,
      setBB_enPassant, setBB_halfmoveClock, setBB_fullmoveNumber, setBB_history]

theorem setBB_setClocks (keys : ZobristKeys) (X : Board) (c : Color)
    (p : Piece) (n hm fm : Nat) :
    setBB keys (setClocks X hm fm) c p n =
      setClocks (setBB keys X c p n) hm fm := by
  refine Board.ext' _ _ ?_ ?_ ?_ ?_ ?_ ?_ ?_ ?_ ?_ ?_ ?_ ?_ <;>
    simp [setBB_pieceBB, setBB_occWhite, setBB_occBlack, setBB_occAll,
      setBB_pieceOnSq, setBB_zobrist, setBB_sideToMove, setBB_castlingRights,
      setBB_enPassant, setBB_halfmoveClock, setBB_fullmoveNumber, setBB_history]

theorem setBB_setEp (keys : ZobristKeys) (X : Board) (c : Color) (p : Piece)
    (n : Nat) (e : Option Nat) :
    setBB keys (setEp X e) c p n = setEp (setBB keys X c p n) e := by
  refine Board.ext' _ _ ?_ ?_ ?_ ?_ ?_ ?_ ?_ ?_ ?_ ?_ ?_ ?_ <;>
    simp [setBB_pieceBB, setBB_occWhite, setBB_occBlack, setBB_occAll,
      setBB_pieceOnSq, setBB_zobrist, setBB_sideToMove, setBB_castlingRights,
      setBB_enPassant, setBB_halfmoveClock, setBB_fullmoveNumber, setBB_history]

theorem setBB_setDoublePushEp (keys : ZobristKeys) (X : Board) (c : Color)
    (p : Piece) (n : Nat) (mv : Move) (col : Color) :
    setBB keys (setDoublePushEp X mv col) c p n =
      setDoublePushEp (setBB keys X c p n) mv col := by
  refine Board.ext' _ _ ?_ ?_ ?_ ?_ ?_ ?_ ?_ ?_ ?_ ?_ ?_ ?_ <;>
    simp [setBB_pieceBB, setBB_occWhite, setBB_occBlack, setBB_occAll,
      setBB_pieceOnSq, setBB_zobrist, setBB_sideToMove, setBB_castlingRights,
      setBB_enPassant, setBB_halfmoveClock, setBB_fullmoveNumber,
      setBB_history, setDoublePushEp_enPassant]

theorem setBB_setRightsXor (keys : ZobristKeys) (X : Board) (c : Color)
    (p : Piece) (n r : Nat) :
    setBB keys (setRightsXor keys X r) c p n =
      setRightsXor keys (setBB keys X c p n) r := by
  refine Board.ext' _ _ ?_ ?_ ?_ ?_ ?_ ?_ ?_ ?_ ?_ ?_ ?_ ?_ <;>
    simp [setBB_pieceBB, setBB_occWhite, setBB_occBlack, setBB_occAll,
      setBB_pieceOnSq, setBB_zobrist, setBB_sideToMove, setBB_castlingRights,
      setBB_enPassant, setBB_halfmoveClock, setBB_fullmoveNumber,
      setBB_history, Nat.xor_assoc, Nat.xor_comm, nat_xor_left_comm]

theorem setBB_setSideXor (keys : ZobristKeys) (X : Board) (c : Color)
    (p : Piece) (n : Nat) (col : Color) :
    setBB keys (setSideXor keys X col) c p n =
      setSideXor keys (setBB keys X c p n) col := by
  refine Board.ext' _ _ ?_ ?_ ?_ ?_ ?_ ?_ ?_ ?_ ?_ ?_ ?_ ?_ <;>
    simp [setBB_pieceBB, setBB_occWhite, setBB_occBlack, setBB_occAll,
      setBB_pieceOnSq, setBB_zobrist, setBB_sideToMove, setBB_castlingRights,
      setBB_enPassant, setBB_halfmoveClock, setBB_fullmoveNumber,
      setBB_history, Nat.xor_assoc, Nat.xor_comm, nat_xor_left_comm]

theorem epXorHash_pushHistory (keys : ZobristKeys) (X : Board) (k : Nat) :
    epXorHash keys (pushHistory X k) = pushHistory (epXorHash keys X) k := by
  have hc : epFileToHash (pushHistory X k) = epFileToHash X :=
    epFileToHash_congr (pushHistory X k) X rfl rfl rfl rfl
  rcases h : epFileToHash X with _ | f
  · rw [epXorHash_of_none keys _ (hc.trans h), epXorHash_of_none keys X h]
  · rw [epXorHash_of_some keys _ f (hc.trans h), epXorHash_of_some keys X f h]
    exact Board.ext' _ _ rfl rfl rfl rfl rfl rfl rfl rfl rfl rfl rfl rfl

theorem epXorHash_setHistory (keys : ZobristKeys) (X : Board) (l : List Nat) :
    epXorHash keys (setHistory X l) = setHistory (epXorHash keys X) l := by
  have hc : epFileToHash (setHistory X l) = epFileToHash X :=
    epFileToHash_congr (setHistory X l) X rfl rfl rfl rfl
  rcases h : epFileToHash X with _ | f
  · rw [epXorHash_of_none keys _ (hc.trans h), epXorHash_of_none keys X h]
  · rw [epXorHash_of_some keys _ f (hc.trans h), epXorHash_of_some keys X f h]
    exact Board.ext' _ _ rfl rfl rfl rfl rfl rfl rfl rfl rfl rfl rfl rfl

/-- Writing the original bitboard back through `set_bb` undoes a `set_bb` on
the same (color, piece) slot, provided the original occupancy total and the
mailbox at the toggled squares were consistent. -/
theorem setBB_restore (keys : ZobristKeys) (X : Board) (c : Color) (p : Piece)
    (m : Nat)
    (hocc : X.occAll = X.occWhite ||| X.occBlack)
    (hmb : ∀ sq, (X.pieceBB c p ^^^ m).testBit sq = true →
      X.pieceOnSq sq =
        (if (X.pieceBB c p).testBit sq then mailboxCode c p else EMPTY_SQ)) :
    setBB keys (setBB keys X c p m) c p (X.pieceBB c p) = X := by
  by_cases hd : X.pieceBB c p ^^^ m = 0
  · rw [setBB_of_delta_zero keys X c p m hd]
    exact setBB_of_delta_zero keys X c p _ (by rw [Nat.xor_self])
  · have hread : (setBB keys X c p m).pieceBB c p = m :=
      setBB_pieceBB_same keys X c p m
    have hsym : m ^^^ X.pieceBB c p = X.pieceBB c p ^^^ m := Nat.xor_comm _ _
    have hBB : (setBB keys (setBB keys X c p m) c p
        (X.pieceBB c p)).pieceBB = X.pieceBB := by
      rw [setBB_pieceBB, setBB_pieceBB]
      funext c' p'
      by_cases hcp : c' = c ∧ p' = p
      · simp [hcp.1, hcp.2]
      · simp [hcp]
    have hW : (setBB keys (setBB keys X c p m) c p
        (X.pieceBB c p)).occWhite = X.occWhite := by
      simp only [setBB_occWhite, hread, setBB_occBlack]
      by_cases hc : c = Color.White <;>
        simp [hc, Nat.xor_assoc, Nat.xor_comm, nat_xor_left_comm,
          nat_xor_cancel_left, Nat.xor_self]
    have hB : (setBB keys (setBB keys X c p m) c p
        (X.pieceBB c p)).occBlack = X.occBlack := by
      simp only [setBB_occBlack, hread]
      by_cases hc : c = Color.Black <;>
        simp [hc, Nat.xor_assoc, Nat.xor_comm, nat_xor_left_comm,
          nat_xor_cancel_left, Nat.xor_self]
    have hA : (setBB keys (setBB keys X c p m) c p
        (X.pieceBB c p)).occAll = X.occAll := by
      rw [setBB_occAll, hread, if_neg (by rw [hsym]; exact hd), hW, hB, hocc]
    have hSq : (setBB keys (setBB keys X c p m) c p
        (X.pieceBB c p)).pieceOnSq = X.pieceOnSq := by
      funext sq
      simp only [setBB_pieceOnSq, hread, hsym]
      by_cases ht : (X.pieceBB c p ^^^ m).testBit sq = true
      · rw [if_pos ht, hmb sq ht]
      · rw [if_neg ht, if_neg ht]
    have hZ : (setBB keys (setBB keys X c p m) c p
        (X.pieceBB c p)).zobrist = X.zobrist := by
      rw [setBB_zobrist, setBB_zobrist, hread, hsym]
      simp [Nat.xor_assoc, Nat.xor_self]
    exact Board.ext' _ _ hBB hW hB hA hSq
      (by simp [setBB_sideToMove]) (by simp [setBB_castlingRights])
      (by simp [setBB_enPassant]) (by simp [setBB_halfmoveClock])
      (by simp [setBB_fullmoveNumber]) hZ (by simp [setBB_history])

/-- Two `set_bb` writes on different slots with square-disjoint deltas
commute. -/
theorem setBB_setBB_comm (keys : ZobristKeys) (X : Board) (c1 c2 : Color)
    (p1 p2 : Piece) (n1 n2 : Nat)
    (hslot : ¬(c2 = c1 ∧ p2 = p1))
    (hdisj : (X.pieceBB c1 p1 ^^^ n1) &&& (X.pieceBB c2 p2 ^^^ n2) = 0) :
    setBB keys (setBB keys X c1 p1 n1) c2 p2 n2 =
      setBB keys (setBB keys X c2 p2 n2) c1 p1 n1 := by
  have hslot' : ¬(c1 = c2 ∧ p1 = p2) :=
    fun hx => hslot ⟨hx.1.symm, hx.2.symm⟩
  have hr21 : (setBB keys X c1 p1 n1).pieceBB c2 p2 = X.pieceBB c2 p2 :=
    setBB_pieceBB_other keys X c1 p1 n1 c2 p2 hslot
  have hr12 : (setBB keys X c2 p2 n2).pieceBB c1 p1 = X.pieceBB c1 p1 :=
    setBB_pieceBB_other keys X c2 p2 n2 c1 p1 hslot'
  have hnb : ∀ sq, (X.pieceBB c1 p1 ^^^ n1).testBit sq = true →
      (X.pieceBB c2 p2 ^^^ n2).testBit sq = true → False := by
    intro sq ha hb
    have h0 : (0 : Nat).testBit sq = true := by
      rw [← hdisj, Nat.testBit_and, ha, hb]
      rfl
    rw [Nat.zero_testBit] at h0
    exact Bool.noConfusion h0
  by_cases e1 : X.pieceBB c1 p1 ^^^ n1 = 0
  · rw [setBB_of_delta_zero keys X c1 p1 n1 e1,
      setBB_of_delta_zero keys _ c1 p1 n1 (by rw [hr12]; exact e1)]
  · by_cases e2 : X.pieceBB c2 p2 ^^^ n2 = 0
    · rw [setBB_of_delta_zero keys X c2 p2 n2 e2,
        setBB_of_delta_zero keys _ c2 p2 n2 (by rw [hr21]; exact e2)]
    · have hBB : (setBB keys (setBB keys X c1 p1 n1) c2 p2 n2).pieceBB =
          (setBB keys (setBB keys X c2 p2 n2) c1 p1 n1).pieceBB := by
        simp only [setBB_pieceBB]
        funext c' p'
        by_cases h1 : c' = c1 ∧ p' = p1
        · obtain ⟨ha, hb⟩ := h1
          subst ha
          subst hb
          simp [hslot']
        · by_cases h2 : c' = c2 ∧ p' = p2
          · obtain ⟨ha, hb⟩ := h2
            subst ha
            subst hb
            simp [hslot, h1]
          · simp [h1, h2]
      have hW : (setBB keys (setBB keys X c1 p1 n1) c2 p2 n2).occWhite =
          (setBB keys (setBB keys X c2 p2 n2) c1 p1 n1).occWhite := by
        simp only [setBB_occWhite, hr21, hr12]
        by_cases hc1 : c1 = Color.White <;>
          by_cases hc2 : c2 = Color.White <;>
          simp [hc1, hc2, Nat.xor_assoc, Nat.xor_comm, nat_xor_left_comm]
      have hB : (setBB keys (setBB keys X c1 p1 n1) c2 p2 n2).occBlack =
          (setBB keys (setBB keys X c2 p2 n2) c1 p1 n1).occBlack := by
        simp only [setBB_occBlack, hr21, hr12]
        by_cases hc1 : c1 = Color.Black <;>
          by_cases hc2 : c2 = Color.Black <;>
          simp [hc1, hc2, Nat.xor_assoc, Nat.xor_comm, nat_xor_left_comm]
      have hA : (setBB keys (setBB keys X c1 p1 n1) c2 p2 n2).occAll =
          (setBB keys (setBB keys X c2 p2 n2) c1 p1 n1).occAll := by
        rw [setBB_occAll, hr21, if_neg e2, hW, hB]
        rw [setBB_occAll, hr12, if_neg e1]
      have hSq : (setBB keys (setBB keys X c1 p1 n1) c2 p2 n2).pieceOnSq =
          (setBB keys (setBB keys X c2 p2 n2) c1 p1 n1).pieceOnSq := by
        simp only [setBB_pieceOnSq, hr21, hr12]
        funext sq
        by_cases t1 : (X.pieceBB c1 p1 ^^^ n1).testBit sq = true
        · have t2 : ¬((X.pieceBB c2 p2 ^^^ n2).testBit sq = true) :=
            fun hx => hnb sq t1 hx
          simp [t1, t2]
        · by_cases t2 : (X.pieceBB c2 p2 ^^^ n2).testBit sq = true <;>
            simp [t1, t2]
      have hZ : (setBB keys (setBB keys X c1 p1 n1) c2 p2 n2).zobrist =
          (setBB keys (setBB keys X c2 p2 n2) c1 p1 n1).zobrist := by
        simp only [setBB_zobrist, hr21, hr12]
        simp [Nat.xor_assoc, Nat.xor_comm, nat_xor_left_comm]
      exact Board.ext' _ _ hBB hW hB hA hSq
        (by simp [setBB_sideToMove]) (by simp [setBB_castlingRights])
        (by simp [setBB_enPassant]) (by simp [setBB_halfmoveClock])
        (by simp [setBB_fullmoveNumber]) hZ (by simp [setBB_history])

theorem Color.opposite_ne (c : Color) : c.opposite ≠ c := by
  cases c <;> simp [Color.opposite]

theorem remove_delta_subset (bb i : Nat) (hb : bb < 2 ^ 64) :
    ∀ j, (bb ^^^ (bb &&& compl64 (2 ^ i))).testBit j = true → j = i := by
  intro j hj
  rw [Nat.testBit_xor, and_compl_pow_testBit bb i j hb] at hj
  by_cases hij : j = i
  · exact hij
  · simp [hij] at hj

theorem place_delta_subset (bb i : Nat) :
    ∀ j, (bb ^^^ (bb ||| 2 ^ i)).testBit j = true → j = i := by
  intro j hj
  by_cases hij : j = i
  · exact hij
  · rw [Nat.testBit_xor, Nat.testBit_or, Nat.testBit_two_pow] at hj
    have hd : decide (i = j) = false := by simp [Ne.symm hij]
    rw [hd] at hj
    cases hb : bb.testBit j <;> rw [hb] at hj <;> simp at hj

theorem setBB_comm_of_single (keys : ZobristKeys) (X : Board) (c1 c2 : Color)
    (p1 p2 : Piece) (n1 n2 i1 i2 : Nat)
    (hslot : ¬(c2 = c1 ∧ p2 = p1)) (hi : i1 ≠ i2)
    (hs1 : ∀ j, (X.pieceBB c1 p1 ^^^ n1).testBit j = true → j = i1)
    (hs2 : ∀ j, (X.pieceBB c2 p2 ^^^ n2).testBit j = true → j = i2) :
    setBB keys (setBB keys X c1 p1 n1) c2 p2 n2 =
      setBB keys (setBB keys X c2 p2 n2) c1 p1 n1 := by
  apply setBB_setBB_comm keys X c1 c2 p1 p2 n1 n2 hslot
  apply Nat.eq_of_testBit_eq
  intro j
  rw [Nat.testBit_and, Nat.zero_testBit]
  by_cases t1 : (X.pieceBB c1 p1 ^^^ n1).testBit j = true
  · by_cases t2 : (X.pieceBB c2 p2 ^^^ n2).testBit j = true
    · exact absurd ((hs1 j t1).symm.trans (hs2 j t2)) hi
    · simp [t1, t2]
  · simp [t1]

/-- Re-placing a removed piece restores the board. -/
theorem place_remove_cancel (keys : ZobristKeys) (X : Board) (c : Color)
    (p : Piece) (i : Nat)
    (hb : X.pieceBB c p < 2 ^ 64) (hi : i < 64)
    (hbit : (X.pieceBB c p).testBit i = true)
    (hmb : X.pieceOnSq i = mailboxCode c p)
    (hocc : X.occAll = X.occWhite ||| X.occBlack) :
    placePiece keys (removePiece keys X c p i) c p i = X := by
  unfold placePiece removePiece Board.bb
  rw [shift_mod_eq_pow i hi, setBB_pieceBB_same,
    and_compl_or_pow (X.pieceBB c p) i hb hbit]
  apply setBB_restore keys X c p _ hocc
  intro sq hsq
  rw [remove_delta_eq_pow (X.pieceBB c p) i hb hbit, testBit_two_pow_iff]
    at hsq
  subst hsq
  rw [if_pos hbit]
  exact hmb

/-- Removing a freshly placed piece restores the board. -/
theorem remove_place_cancel (keys : ZobristKeys) (X : Board) (c : Color)
    (p : Piece) (i : Nat)
    (hb : X.pieceBB c p < 2 ^ 64) (hi : i < 64)
    (hbit : (X.pieceBB c p).testBit i = false)
    (hmb : X.pieceOnSq i = EMPTY_SQ)
    (hocc : X.occAll = X.occWhite ||| X.occBlack) :
    removePiece keys (placePiece keys X c p i) c p i = X := by
  unfold placePiece removePiece Board.bb
  rw [shift_mod_eq_pow i hi, setBB_pieceBB_same,
    or_pow_and_compl (X.pieceBB c p) i hb hi hbit]
  apply setBB_restore keys X c p _ hocc
  intro sq hsq
  rw [place_delta_eq_pow (X.pieceBB c p) i hbit, testBit_two_pow_iff] at hsq
  subst hsq
  rw [if_neg (by simp [hbit])]
  exact hmb

theorem removePiece_pieceBB_other (keys : ZobristKeys) (X : Board) (c : Color)
    (p : Piece) (i : Nat) (c' : Color) (p' : Piece)
    (h : ¬(c' = c ∧ p' = p)) :
    (removePiece keys X c p i).pieceBB c' p' = X.pieceBB c' p' := by
  unfold removePiece
  exact setBB_pieceBB_other keys X c p _ c' p' h

theorem placePiece_pieceBB_other (keys : ZobristKeys) (X : Board) (c : Color)
    (p : Piece) (i : Nat) (c' : Color) (p' : Piece)
    (h : ¬(c' = c ∧ p' = p)) :
    (placePiece keys X c p i).pieceBB c' p' = X.pieceBB c' p' := by
  unfold placePiece
  exact setBB_pieceBB_other keys X c p _ c' p' h

theorem removePiece_removePiece_comm (keys : ZobristKeys) (X : Board)
    (c1 c2 : Color) (p1 p2 : Piece) (i1 i2 : Nat)
    (hslot : ¬(c2 = c1 ∧ p2 = p1)) (hi : i1 ≠ i2)
    (hi1 : i1 < 64) (hi2 : i2 < 64)
    (hlt1 : X.pieceBB c1 p1 < 2 ^ 64) (hlt2 : X.pieceBB c2 p2 < 2 ^ 64) :
    removePiece keys (removePiece keys X c1 p1 i1) c2 p2 i2 =
      removePiece keys (removePiece keys X c2 p2 i2) c1 p1 i1 := by
  have hslot' : ¬(c1 = c2 ∧ p1 = p2) := fun hx => hslot ⟨hx.1.symm, hx.2.symm⟩
  unfold removePiece Board.bb
  rw [setBB_pieceBB_other keys X c1 p1 _ c2 p2 hslot,
    setBB_pieceBB_other keys X c2 p2 _ c1 p1 hslot',
    shift_mod_eq_pow i1 hi1, shift_mod_eq_pow i2 hi2]
  exact setBB_comm_of_single keys X c1 c2 p1 p2 _ _ i1 i2 hslot hi
    (remove_delta_subset _ i1 hlt1) (remove_delta_subset _ i2 hlt2)

theorem placePiece_placePiece_comm (keys : ZobristKeys) (X : Board)
    (c1 c2 : Color) (p1 p2 : Piece) (i1 i2 : Nat)
    (hslot : ¬(c2 = c1 ∧ p2 = p1)) (hi : i1 ≠ i2)
    (hi1 : i1 < 64) (hi2 : i2 < 64) :
    placePiece keys (placePiece keys X c1 p1 i1) c2 p2 i2 =
      placePiece keys (placePiece keys X c2 p2 i2) c1 p1 i1 := by
  have hslot' : ¬(c1 = c2 ∧ p1 = p2) := fun hx => hslot ⟨hx.1.symm, hx.2.symm⟩
  unfold placePiece Board.bb
  rw [setBB_pieceBB_other keys X c1 p1 _ c2 p2 hslot,
    setBB_pieceBB_other keys X c2 p2 _ c1 p1 hslot',
    shift_mod_eq_pow i1 hi1, shift_mod_eq_pow i2 hi2]
  exact setBB_comm_of_single keys X c1 c2 p1 p2 _ _ i1 i2 hslot hi
    (place_delta_subset _ i1) (place_delta_subset _ i2)

theorem removePiece_placePiece_comm (keys : ZobristKeys) (X : Board)
    (c1 c2 : Color) (p1 p2 : Piece) (i1 i2 : Nat)
    (hslot : ¬(c2 = c1 ∧ p2 = p1)) (hi : i1 ≠ i2)
    (hi1 : i1 < 64) (hi2 : i2 < 64)
    (hlt2 : X.pieceBB c2 p2 < 2 ^ 64) :
    removePiece keys (placePiece keys X c1 p1 i1) c2 p2 i2 =
      placePiece keys (removePiece keys X c2 p2 i2) c1 p1 i1 := by
  have hslot' : ¬(c1 = c2 ∧ p1 = p2) := fun hx => hslot ⟨hx.1.symm, hx.2.symm⟩
  unfold placePiece removePiece Board.bb
  rw [setBB_pieceBB_other keys X c1 p1 _ c2 p2 hslot,
    setBB_pieceBB_other keys X c2 p2 _ c1 p1 hslot',
    shift_mod_eq_pow i1 hi1, shift_mod_eq_pow i2 hi2]
  exact setBB_comm_of_single keys X c1 c2 p1 p2 _ _ i1 i2 hslot hi
    (place_delta_subset _ i1) (remove_delta_subset _ i2 hlt2)

theorem placePiece_removePiece_comm (keys : ZobristKeys) (X : Board)
    (c1 c2 : Color) (p1 p2 : Piece) (i1 i2 : Nat)
    (hslot : ¬(c2 = c1 ∧ p2 = p1)) (hi : i1 ≠ i2)
    (hi1 : i1 < 64) (hi2 : i2 < 64)
    (hlt1 : X.pieceBB c1 p1 < 2 ^ 64) :
    placePiece keys (removePiece keys X c1 p1 i1) c2 p2 i2 =
      removePiece keys (placePiece keys X c2 p2 i2) c1 p1 i1 := by
  have hslot' : ¬(c1 = c2 ∧ p1 = p2) := fun hx => hslot ⟨hx.1.symm, hx.2.symm⟩
  unfold placePiece removePiece Board.bb
  rw [setBB_pieceBB_other keys X c1 p1 _ c2 p2 hslot,
    setBB_pieceBB_other keys X c2 p2 _ c1 p1 hslot',
    shift_mod_eq_pow i1 hi1, shift_mod_eq_pow i2 hi2]
  exact setBB_comm_of_single keys X c1 c2 p1 p2 _ _ i1 i2 hslot hi
    (remove_delta_subset _ i1 hlt1) (place_delta_subset _ i2)

theorem setSideXor_pushHistory (keys : ZobristKeys) (X : Board) (c : Color)
    (k : Nat) :
    setSideXor keys (pushHistory X k) c = pushHistory (setSideXor keys X c) k := by
  refine Board.ext' _ _ ?_ ?_ ?_ ?_ ?_ ?_ ?_ ?_ ?_ ?_ ?_ ?_ <;> simp

theorem setSideXor_setHistory (keys : ZobristKeys) (X : Board) (c : Color)
    (l : List Nat) :
    setSideXor keys (setHistory X l) c = setHistory (setSideXor keys X c) l := by
  refine Board.ext' _ _ ?_ ?_ ?_ ?_ ?_ ?_ ?_ ?_ ?_ ?_ ?_ ?_ <;> simp

theorem setRightsXor_pushHistory (keys : ZobristKeys) (X : Board) (r k : Nat) :
    setRightsXor keys (pushHistory X k) r =
      pushHistory (setRightsXor keys X r) k := by
  refine Board.ext' _ _ ?_ ?_ ?_ ?_ ?_ ?_ ?_ ?_ ?_ ?_ ?_ ?_ <;> simp

theorem setRightsXor_setHistory (keys : ZobristKeys) (X : Board) (r : Nat)
    (l : List Nat) :
    setRightsXor keys (setHistory X l) r =
      setHistory (setRightsXor keys X r) l := by
  refine Board.ext' _ _ ?_ ?_ ?_ ?_ ?_ ?_ ?_ ?_ ?_ ?_ ?_ ?_ <;> simp

theorem setRightsXor_setClocks (keys : ZobristKeys) (X : Board)
    (r hm fm : Nat) :
    setRightsXor keys (setClocks X hm fm) r =
      setClocks (setRightsXor keys X r) hm fm := by
  refine Board.ext' _ _ ?_ ?_ ?_ ?_ ?_ ?_ ?_ ?_ ?_ ?_ ?_ ?_ <;> simp

theorem setClocks_pushHistory (X : Board) (hm fm k : Nat) :
    setClocks (pushHistory X k) hm fm = pushHistory (setClocks X hm fm) k := by
  refine Board.ext' _ _ ?_ ?_ ?_ ?_ ?_ ?_ ?_ ?_ ?_ ?_ ?_ ?_ <;> simp

theorem setClocks_setHistory (X : Board) (hm fm : Nat) (l : List Nat) :
    setClocks (setHistory X l) hm fm = setHistory (setClocks X hm fm) l := by
  refine Board.ext' _ _ ?_ ?_ ?_ ?_ ?_ ?_ ?_ ?_ ?_ ?_ ?_ ?_ <;> simp

theorem setEp_pushHistory (X : Board) (e : Option Nat) (k : Nat) :
    setEp (pushHistory X k) e = pushHistory (setEp X e) k := by
  refine Board.ext' _ _ ?_ ?_ ?_ ?_ ?_ ?_ ?_ ?_ ?_ ?_ ?_ ?_ <;> simp

theorem setEp_setHistory (X : Board) (e : Option Nat) (l : List Nat) :
    setEp (setHistory X l) e = setHistory (setEp X e) l := by
  refine Board.ext' _ _ ?_ ?_ ?_ ?_ ?_ ?_ ?_ ?_ ?_ ?_ ?_ ?_ <;> simp

theorem removePiece_pushHistory (keys : ZobristKeys) (X : Board) (c : Color)
    (p : Piece) (i k : Nat) :
    removePiece keys (pushHistory X k) c p i =
      pushHistory (removePiece keys X c p i) k := by
  unfold removePiece Board.bb
  rw [pushHistory_pieceBB, setBB_pushHistory]

theorem removePiece_setHistory (keys : ZobristKeys) (X : Board) (c : Color)
    (p : Piece) (i : Nat) (l : List Nat) :
    removePiece keys (setHistory X l) c p i =
      setHistory (removePiece keys X c p i) l := by
  unfold removePiece Board.bb
  rw [setHistory_pieceBB, setBB_setHistory]

theorem placePiece_pushHistory (keys : ZobristKeys) (X : Board) (c : Color)
    (p : Piece) (i k : Nat) :
    placePiece keys (pushHistory X k) c p i =
      pushHistory (placePiece keys X c p i) k := by
  unfold placePiece Board.bb
  rw [pushHistory_pieceBB, setBB_pushHistory]

theorem placePiece_setHistory (keys : ZobristKeys) (X : Board) (c : Color)
    (p : Piece) (i : Nat) (l : List Nat) :
    placePiece keys (setHistory X l) c p i =
      setHistory (placePiece keys X c p i) l := by
  unfold placePiece Board.bb
  rw [setHistory_pieceBB, setBB_setHistory]

theorem setRightsXor_removePiece (keys : ZobristKeys) (X : Board) (r : Nat)
    (c : Color) (p : Piece) (i : Nat) :
    setRightsXor keys (removePiece keys X c p i) r =
      removePiece keys (setRightsXor keys X r) c p i := by
  unfold removePiece Board.bb
  rw [setRightsXor_pieceBB, setBB_setRightsXor]

theorem setRightsXor_placePiece (keys : ZobristKeys) (X : Board) (r : Nat)
    (c : Color) (p : Piece) (i : Nat) :
    setRightsXor keys (placePiece keys X c p i) r =
      placePiece keys (setRightsXor keys X r) c p i := by
  unfold placePiece Board.bb
  rw [setRightsXor_pieceBB, setBB_setRightsXor]

theorem setEp_removePiece (keys : ZobristKeys) (X : Board) (e : Option Nat)
    (c : Color) (p : Piece) (i : Nat) :
    setEp (removePiece keys X c p i) e =
      removePiece keys (setEp X e) c p i := by
  unfold removePiece Board.bb
  rw [setEp_pieceBB, setBB_setEp]

theorem setEp_placePiece (keys : ZobristKeys) (X : Board) (e : Option Nat)
    (c : Color) (p : Piece) (i : Nat) :
    setEp (placePiece keys X c p i) e =
      placePiece keys (setEp X e) c p i := by
  unfold placePiece Board.bb
  rw [setEp_pieceBB, setBB_setEp]

theorem removePiece_sideToMove (keys : ZobristKeys) (X : Board) (c : Color)
    (p : Piece) (i : Nat) :
    (removePiece keys X c p i).sideToMove = X.sideToMove := by
  unfold removePiece
  exact setBB_sideToMove keys X c p _

theorem placePiece_sideToMove (keys : ZobristKeys) (X : Board) (c : Color)
    (p : Piece) (i : Nat) :
    (placePiece keys X c p i).sideToMove = X.sideToMove := by
  unfold placePiece
  exact setBB_sideToMove keys X c p _

theorem removePiece_castlingRights (keys : ZobristKeys) (X : Board)
    (c : Color) (p : Piece) (i : Nat) :
    (removePiece keys X c p i).castlingRights = X.castlingRights := by
  unfold removePiece
  exact setBB_castlingRights keys X c p _

theorem placePiece_castlingRights (keys : ZobristKeys) (X : Board)
    (c : Color) (p : Piece) (i : Nat) :
    (placePiece keys X c p i).castlingRights = X.castlingRights := by
  unfold placePiece
  exact setBB_castlingRights keys X c p _

theorem removePiece_halfmoveClock (keys : ZobristKeys) (X : Board)
    (c : Color) (p : Piece) (i : Nat) :
    (removePiece keys X c p i).halfmoveClock = X.halfmoveClock := by
  unfold removePiece
  exact setBB_halfmoveClock keys X c p _

theorem placePiece_halfmoveClock (keys : ZobristKeys) (X : Board)
    (c : Color) (p : Piece) (i : Nat) :
    (placePiece keys X c p i).halfmoveClock = X.halfmoveClock := by
  unfold placePiece
  exact setBB_halfmoveClock keys X c p _

theorem removePiece_fullmoveNumber (keys : ZobristKeys) (X : Board)
    (c : Color) (p : Piece) (i : Nat) :
    (removePiece keys X c p i).fullmoveNumber = X.fullmoveNumber := by
  unfold removePiece
  exact setBB_fullmoveNumber keys X c p _

theorem placePiece_fullmoveNumber (keys : ZobristKeys) (X : Board)
    (c : Color) (p : Piece) (i : Nat) :
    (placePiece keys X c p i).fullmoveNumber = X.fullmoveNumber := by
  unfold placePiece
  exact setBB_fullmoveNumber keys X c p _

theorem removePiece_enPassant (keys : ZobristKeys) (X : Board) (c : Color)
    (p : Piece) (i : Nat) :
    (removePiece keys X c p i).enPassant = X.enPassant := by
  unfold removePiece
  exact setBB_enPassant keys X c p _

theorem placePiece_enPassant (keys : ZobristKeys) (X : Board) (c : Color)
    (p : Piece) (i : Nat) :
    (placePiece keys X c p i).enPassant = X.enPassant := by
  unfold placePiece
  exact setBB_enPassant keys X c p _

theorem removePiece_history (keys : ZobristKeys) (X : Board) (c : Color)
    (p : Piece) (i : Nat) :
    (removePiece keys X c p i).history = X.history := by
  unfold removePiece
  exact setBB_history keys X c p _

theorem placePiece_history (keys : ZobristKeys) (X : Board) (c : Color)
    (p : Piece) (i : Nat) :
    (placePiece keys X c p i).history = X.history := by
  unfold placePiece
  exact setBB_history keys X c p _

theorem hocc_setBB (keys : ZobristKeys) (X : Board) (c : Color) (p : Piece)
    (n : Nat) (h : X.occAll = X.occWhite ||| X.occBlack) :
    (setBB keys X c p n).occAll =
      (setBB keys X c p n).occWhite ||| (setBB keys X c p n).occBlack := by
  rw [setBB_occAll]
  split
  · rename_i hd
    rw [setBB_occWhite, setBB_occBlack, hd]
    simp [h]
  · rfl

theorem hocc_removePiece (keys : ZobristKeys) (X : Board) (c : Color)
    (p : Piece) (i : Nat) (h : X.occAll = X.occWhite ||| X.occBlack) :
    (removePiece keys X c p i).occAll =
      (removePiece keys X c p i).occWhite |||
        (removePiece keys X c p i).occBlack := by
  unfold removePiece
  exact hocc_setBB keys X c p _ h

theorem hocc_placePiece (keys : ZobristKeys) (X : Board) (c : Color)
    (p : Piece) (i : Nat) (h : X.occAll = X.occWhite ||| X.occBlack) :
    (placePiece keys X c p i).occAll =
      (placePiece keys X c p i).occWhite |||
        (placePiece keys X c p i).occBlack := by
  unfold placePiece
  exact hocc_setBB keys X c p _ h

theorem removePiece_pieceBB_same (keys : ZobristKeys) (X : Board) (c : Color)
    (p : Piece) (i : Nat) (hi : i < 64) :
    (removePiece keys X c p i).pieceBB c p =
      X.pieceBB c p &&& compl64 (2 ^ i) := by
  unfold removePiece Board.bb
  rw [shift_mod_eq_pow i hi]
  exact setBB_pieceBB_same keys X c p _

theorem placePiece_pieceBB_same (keys : ZobristKeys) (X : Board) (c : Color)
    (p : Piece) (i : Nat) (hi : i < 64) :
    (placePiece keys X c p i).pieceBB c p = X.pieceBB c p ||| 2 ^ i := by
  unfold placePiece Board.bb
  rw [shift_mod_eq_pow i hi]
  exact setBB_pieceBB_same keys X c p _

theorem removePiece_pieceOnSq (keys : ZobristKeys) (X : Board) (c : Color)
    (p : Piece) (i : Nat) (hi : i < 64) (hb : X.pieceBB c p < 2 ^ 64)
    (hbit : (X.pieceBB c p).testBit i = true) :
    (removePiece keys X c p i).pieceOnSq = fun sq =>
      if sq = i then EMPTY_SQ else X.pieceOnSq sq := by
  unfold removePiece Board.bb
  rw [shift_mod_eq_pow i hi, setBB_pieceOnSq,
    remove_delta_eq_pow (X.pieceBB c p) i hb hbit]
  funext sq
  by_cases hsq : sq = i
  · subst hsq
    rw [if_pos (by rw [Nat.testBit_two_pow]; simp), if_pos rfl,
      if_neg (by rw [and_compl_pow_testBit _ _ _ hb]; simp)]
  · rw [if_neg (by rw [Nat.testBit_two_pow]; simp [Ne.symm hsq]), if_neg hsq]

theorem placePiece_pieceOnSq (keys : ZobristKeys) (X : Board) (c : Color)
    (p : Piece) (i : Nat) (hi : i < 64)
    (hbit : (X.pieceBB c p).testBit i = false) :
    (placePiece keys X c p i).pieceOnSq = fun sq =>
      if sq = i then mailboxCode c p else X.pieceOnSq sq := by
  unfold placePiece Board.bb
  rw [shift_mod_eq_pow i hi, setBB_pieceOnSq,
    place_delta_eq_pow (X.pieceBB c p) i hbit]
  funext sq
  by_cases hsq : sq = i
  · subst hsq
    rw [if_pos (by rw [Nat.testBit_two_pow]; simp), if_pos rfl,
      if_pos (by rw [Nat.testBit_or, Nat.testBit_two_pow]; simp)]
  · rw [if_neg (by rw [Nat.testBit_two_pow]; simp [Ne.symm hsq]), if_neg hsq]

theorem resolveCapture_snd_castlingRights (keys : ZobristKeys) (X : Board)
    (mv : Move) (c : Color) :
    ((resolveCapture keys X mv c).2).castlingRights = X.castlingRights := by
  by_cases h1 : mv.isEnPassant = true
  · simp [resolveCapture, h1, removePiece, setBB_castlingRights]
  · by_cases h2 : X.pieceOnSq mv.to_sq = EMPTY_SQ <;>
      simp [resolveCapture, h1, h2, removePiece, setBB_castlingRights]

theorem resolveCapture_snd_history (keys : ZobristKeys) (X : Board)
    (mv : Move) (c : Color) :
    ((resolveCapture keys X mv c).2).history = X.history := by
  by_cases h1 : mv.isEnPassant = true
  · simp [resolveCapture, h1, removePiece, setBB_history]
  · by_cases h2 : X.pieceOnSq mv.to_sq = EMPTY_SQ <;>
      simp [resolveCapture, h1, h2, removePiece, setBB_history]

/-- The `Undo` record returned by `make_move_basic`, in terms of the input
board. -/
theorem makeMoveBasic_snd (keys : ZobristKeys) (b : Board) (mv : Move) :
    (makeMoveBasic keys b mv).2 =
      { from_sq := mv.from_sq
        to_sq := mv.to_sq
        piece := mv.piece
        color := b.sideToMove
        prevSide := b.sideToMove
        capture := (resolveCapture keys (setEp (epXorHash keys b) none) mv
          b.sideToMove).1
        castlingRook := if mv.isCastling then rookCastleSquares mv.to_sq
          else none
        prevCastlingRights := b.castlingRights
        promotion := mv.promotion
        prevEnPassant := b.enPassant
        prevHalfmoveClock := b.halfmoveClock
        prevFullmoveNumber := b.fullmoveNumber
        prevHistory :=
          if (resolveCapture keys (setEp (epXorHash keys b) none) mv
              b.sideToMove).1.isSome ∨ mv.piece = Piece.Pawn ∨
              mv.promotion.isSome then some b.history else none } := by
  rcases hcr : (if mv.isCastling = true then rookCastleSquares mv.to_sq
      else none) with _ | ⟨rf, rt⟩ <;>
  · simp only [makeMoveBasic, hcr]
    simp [Undo.mk.injEq, hcr, resolveCapture_snd_castlingRights,
      resolveCapture_snd_history, removePiece_history, placePiece_history,
      removePiece, placePiece, setBB_history]

theorem removePiece_setDoublePushEp (keys : ZobristKeys) (X : Board)
    (c : Color) (p : Piece) (i : Nat) (mv : Move) (col : Color) :
    removePiece keys (setDoublePushEp X mv col) c p i =
      setDoublePushEp (removePiece keys X c p i) mv col := by
  unfold removePiece Board.bb
  rw [setDoublePushEp_pieceBB, setBB_setDoublePushEp]

theorem placePiece_setDoublePushEp (keys : ZobristKeys) (X : Board)
    (c : Color) (p : Piece) (i : Nat) (mv : Move) (col : Color) :
    placePiece keys (setDoublePushEp X mv col) c p i =
      setDoublePushEp (placePiece keys X c p i) mv col := by
  unfold placePiece Board.bb
  rw [setDoublePushEp_pieceBB, setBB_setDoublePushEp]

set_option maxHeartbeats 1000000 in
/-- Involution for quiet (non-capture, non-promotion, non-castling, non-EP)
moves. -/
theorem undo_make_quiet (keys : ZobristKeys) (b : Board) (mv : Move)
    (hoccb : b.occAll = b.occWhite ||| b.occBlack)
    (hlt : ∀ c p, b.pieceBB c p < 2 ^ 64)
    (hfrom64 : mv.from_sq < 64) (hto64 : mv.to_sq < 64)
    (hne : mv.from_sq ≠ mv.to_sq)
    (hfrom : (b.pieceBB b.sideToMove mv.piece).testBit mv.from_sq = true)
    (hmbfrom : b.pieceOnSq mv.from_sq = mailboxCode b.sideToMove mv.piece)
    (htoself : (b.pieceBB b.sideToMove mv.piece).testBit mv.to_sq = false)
    (hepb : mv.isEnPassant = false) (hcas : mv.isCastling = false)
    (hprom : mv.promotion = none)
    (hempty : b.pieceOnSq mv.to_sq = EMPTY_SQ) :
    undoMoveBasic keys (makeMoveBasic keys b mv).1
      (makeMoveBasic keys b mv).2 = b := by
  have hm2mb : (setEp (epXorHash keys b) none).pieceOnSq mv.to_sq =
      EMPTY_SQ := by simp [hempty]
  have hrc := resolveCapture_of_empty keys (setEp (epXorHash keys b) none) mv
    b.sideToMove hepb hm2mb
  have hcrn : (if mv.isCastling = true then rookCastleSquares mv.to_sq
      else none) = none := by simp [hcas]
  have hm4bb : (setDoublePushEp (setEp (epXorHash keys b) none) mv
      b.sideToMove).pieceBB = b.pieceBB := by simp
  have hm4sq : (setDoublePushEp (setEp (epXorHash keys b) none) mv
      b.sideToMove).pieceOnSq = b.pieceOnSq := by simp
  have hm4occ : (setDoublePushEp (setEp (epXorHash keys b) none) mv
      b.sideToMove).occAll =
      (setDoublePushEp (setEp (epXorHash keys b) none) mv
        b.sideToMove).occWhite |||
      (setDoublePushEp (setEp (epXorHash keys b) none) mv
        b.sideToMove).occBlack := by simp [hoccb]
  have hC2 := place_remove_cancel keys
    (setDoublePushEp (setEp (epXorHash keys b) none) mv b.sideToMove)
    b.sideToMove mv.piece mv.from_sq
    (by rw [hm4bb]; exact hlt _ _) hfrom64 (by rw [hm4bb]; exact hfrom)
    (by rw [hm4sq]; exact hmbfrom) hm4occ
  have hX1bb : (removePiece keys (setDoublePushEp (setEp (epXorHash keys b)
        none) mv b.sideToMove) b.sideToMove mv.piece mv.from_sq).pieceBB
        b.sideToMove mv.piece =
      b.pieceBB b.sideToMove mv.piece &&& compl64 (2 ^ mv.from_sq) := by
    rw [removePiece_pieceBB_same keys _ _ _ _ hfrom64, hm4bb]
  have hX1lt : (removePiece keys (setDoublePushEp (setEp (epXorHash keys b)
        none) mv b.sideToMove) b.sideToMove mv.piece mv.from_sq).pieceBB
        b.sideToMove mv.piece < 2 ^ 64 := by
    rw [hX1bb]
    exact and_compl_lt _ _ (hlt _ _)
  have hX1bit : ((removePiece keys (setDoublePushEp (setEp (epXorHash keys b)
        none) mv b.sideToMove) b.sideToMove mv.piece mv.from_sq).pieceBB
        b.sideToMove mv.piece).testBit mv.to_sq = false := by
    rw [hX1bb, and_compl_pow_testBit _ _ _ (hlt _ _), htoself]
    rfl
  have hX1mb : (removePiece keys (setDoublePushEp (setEp (epXorHash keys b)
        none) mv b.sideToMove) b.sideToMove mv.piece
        mv.from_sq).pieceOnSq mv.to_sq = EMPTY_SQ := by
    rw [removePiece_pieceOnSq keys _ _ _ _ hfrom64
      (by rw [hm4bb]; exact hlt _ _) (by rw [hm4bb]; exact hfrom)]
    simp [Ne.symm hne, hempty]
  have hX1occ := hocc_removePiece keys _ b.sideToMove mv.piece mv.from_sq
    hm4occ
  have hC1 := remove_place_cancel keys
    (removePiece keys (setDoublePushEp (setEp (epXorHash keys b) none) mv
      b.sideToMove) b.sideToMove mv.piece mv.from_sq)
    b.sideToMove mv.piece mv.to_sq hX1lt hto64 hX1bit hX1mb hX1occ
  rw [makeMoveBasic_snd]
  simp only [makeMoveBasic, hrc, hcrn, hprom, hepb, Option.isSome_none,
    Option.isSome_some, Bool.false_eq_true, false_or, or_false]
  by_cases hP : mv.piece = Piece.Pawn <;>
    [(rw [if_pos hP, if_pos hP, if_pos hP]);
     (rw [if_neg hP, if_neg hP, if_neg hP])] <;>
  · simp only [undoMoveBasic]
    simp only [epXorHash_pushHistory, epXorHash_setHistory,
      epXorHash_epXorHash, setSideXor_pushHistory, setSideXor_setHistory,
      setSideXor_setSideXor, setRightsXor_pushHistory,
      setRightsXor_setHistory, setRightsXor_setClocks,
      setRightsXor_removePiece, setRightsXor_placePiece,
      setRightsXor_setRightsXor, setClocks_pushHistory, setClocks_setHistory,
      setClocks_setClocks, setEp_pushHistory, setEp_setHistory,
      setEp_removePiece, setEp_placePiece, setEp_setDoublePushEp,
      setEp_setEp, setEp_self, removePiece_pushHistory,
      removePiece_setHistory, placePiece_pushHistory, placePiece_setHistory,
      hC1, hC2, popHistory_pushHistory, setHistory_setHistory,
      setHistory_self, epXorHash_sideToMove, setEp_sideToMove,
      setDoublePushEp_sideToMove, setRightsXor_sideToMove,
      setClocks_sideToMove, removePiece_sideToMove, placePiece_sideToMove,
      epXorHash_castlingRights, setEp_castlingRights,
      setDoublePushEp_castlingRights, epXorHash_halfmoveClock,
      setEp_halfmoveClock, setDoublePushEp_halfmoveClock,
      setRightsXor_halfmoveClock, removePiece_halfmoveClock,
      placePiece_halfmoveClock, epXorHash_fullmoveNumber,
      setEp_fullmoveNumber, setDoublePushEp_fullmoveNumber,
      setRightsXor_fullmoveNumber, removePiece_fullmoveNumber,
      placePiece_fullmoveNumber, epXorHash_enPassant]

set_option maxHeartbeats 1000000 in
/-- Involution for plain capture moves (non-EP, non-promotion,
non-castling): the captured piece `(cc, cp)` read off the mailbox is
removed at the destination and restored by the undo. -/
theorem undo_make_capture (keys : ZobristKeys) (b : Board) (mv : Move)
    (cc : Color) (cp : Piece)
    (hoccb : b.occAll = b.occWhite ||| b.occBlack)
    (hlt : ∀ c p, b.pieceBB c p < 2 ^ 64)
    (hfrom64 : mv.from_sq < 64) (hto64 : mv.to_sq < 64)
    (hne : mv.from_sq ≠ mv.to_sq)
    (hfrom : (b.pieceBB b.sideToMove mv.piece).testBit mv.from_sq = true)
    (hmbfrom : b.pieceOnSq mv.from_sq = mailboxCode b.sideToMove mv.piece)
    (htoself : (b.pieceBB b.sideToMove mv.piece).testBit mv.to_sq = false)
    (hepb : mv.isEnPassant = false) (hcas : mv.isCastling = false)
    (hprom : mv.promotion = none)
    (hnemp : b.pieceOnSq mv.to_sq ≠ EMPTY_SQ)
    (hcc : colorFromU8 (b.pieceOnSq mv.to_sq >>> 3) = cc)
    (hcp : pieceFromU8 (b.pieceOnSq mv.to_sq &&& 7) = cp)
    (hccop : cc = b.sideToMove.opposite)
    (hcapbit : (b.pieceBB cc cp).testBit mv.to_sq = true)
    (hcapmb : mailboxCode cc cp = b.pieceOnSq mv.to_sq) :
    undoMoveBasic keys (makeMoveBasic keys b mv).1
      (makeMoveBasic keys b mv).2 = b := by
  have hslot : ¬(b.sideToMove = cc ∧ mv.piece = cp) := by
    rintro ⟨h1, -⟩
    rw [hccop] at h1
    exact Color.opposite_ne b.sideToMove h1.symm
  have hm2bb : (setEp (epXorHash keys b) none).pieceBB = b.pieceBB := by simp
  have hm2sq : (setEp (epXorHash keys b) none).pieceOnSq = b.pieceOnSq := by
    simp
  have hm2occ : (setEp (epXorHash keys b) none).occAll =
      (setEp (epXorHash keys b) none).occWhite |||
        (setEp (epXorHash keys b) none).occBlack := by simp [hoccb]
  have hm2mb : (setEp (epXorHash keys b) none).pieceOnSq mv.to_sq ≠
      EMPTY_SQ := by rw [hm2sq]; exact hnemp
  have hrc := resolveCapture_of_occupant keys (setEp (epXorHash keys b) none)
    mv b.sideToMove hepb hm2mb
  rw [show (setEp (epXorHash keys b) none).pieceOnSq mv.to_sq =
      b.pieceOnSq mv.to_sq from by rw [hm2sq], hcc, hcp] at hrc
  have hcrn : (if mv.isCastling = true then rookCastleSquares mv.to_sq
      else none) = none := by simp [hcas]
  have hm3bbM : (removePiece keys (setEp (epXorHash keys b) none) cc cp
        mv.to_sq).pieceBB b.sideToMove mv.piece =
      b.pieceBB b.sideToMove mv.piece := by
    rw [removePiece_pieceBB_other keys _ cc cp _ b.sideToMove mv.piece hslot,
      hm2bb]
  have hm3sq : (removePiece keys (setEp (epXorHash keys b) none) cc cp
        mv.to_sq).pieceOnSq =
      fun sq => if sq = mv.to_sq then EMPTY_SQ else b.pieceOnSq sq := by
    rw [removePiece_pieceOnSq keys _ cc cp _ hto64
      (by rw [hm2bb]; exact hlt _ _) (by rw [hm2bb]; exact hcapbit), hm2sq]
  have hm3occ := hocc_removePiece keys (setEp (epXorHash keys b) none) cc cp
    mv.to_sq hm2occ
  have hm4bbM : (setDoublePushEp (removePiece keys (setEp (epXorHash keys b)
        none) cc cp mv.to_sq) mv b.sideToMove).pieceBB b.sideToMove
        mv.piece = b.pieceBB b.sideToMove mv.piece := by
    rw [setDoublePushEp_pieceBB, hm3bbM]
  have hm4sq : (setDoublePushEp (removePiece keys (setEp (epXorHash keys b)
        none) cc cp mv.to_sq) mv b.sideToMove).pieceOnSq =
      fun sq => if sq = mv.to_sq then EMPTY_SQ else b.pieceOnSq sq := by
    rw [setDoublePushEp_pieceOnSq, hm3sq]
  have hm4occ : (setDoublePushEp (removePiece keys (setEp (epXorHash keys b)
        none) cc cp mv.to_sq) mv b.sideToMove).occAll =
      (setDoublePushEp (removePiece keys (setEp (epXorHash keys b) none) cc
        cp mv.to_sq) mv b.sideToMove).occWhite |||
      (setDoublePushEp (removePiece keys (setEp (epXorHash keys b) none) cc
        cp mv.to_sq) mv b.sideToMove).occBlack := by
    simp only [setDoublePushEp_occAll, setDoublePushEp_occWhite,
      setDoublePushEp_occBlack]
    exact hm3occ
  have hC2 := place_remove_cancel keys
    (setDoublePushEp (removePiece keys (setEp (epXorHash keys b) none) cc cp
      mv.to_sq) mv b.sideToMove)
    b.sideToMove mv.piece mv.from_sq
    (by rw [hm4bbM]; exact hlt _ _) hfrom64 (by rw [hm4bbM]; exact hfrom)
    (by rw [hm4sq]; simp [hne, hmbfrom]) hm4occ
  have hX1bb : (removePiece keys (setDoublePushEp (removePiece keys (setEp
        (epXorHash keys b) none) cc cp mv.to_sq) mv b.sideToMove)
        b.sideToMove mv.piece mv.from_sq).pieceBB b.sideToMove mv.piece =
      b.pieceBB b.sideToMove mv.piece &&& compl64 (2 ^ mv.from_sq) := by
    rw [removePiece_pieceBB_same keys _ _ _ _ hfrom64, hm4bbM]
  have hX1lt : (removePiece keys (setDoublePushEp (removePiece keys (setEp
        (epXorHash keys b) none) cc cp mv.to_sq) mv b.sideToMove)
        b.sideToMove mv.piece mv.from_sq).pieceBB b.sideToMove mv.piece <
      2 ^ 64 := by
    rw [hX1bb]
    exact and_compl_lt _ _ (hlt _ _)
  have hX1bit : ((removePiece keys (setDoublePushEp (removePiece keys (setEp
        (epXorHash keys b) none) cc cp mv.to_sq) mv b.sideToMove)
        b.sideToMove mv.piece mv.from_sq).pieceBB b.sideToMove
        mv.piece).testBit mv.to_sq = false := by
    rw [hX1bb, and_compl_pow_testBit _ _ _ (hlt _ _), htoself]
    rfl
  have hX1mb : (removePiece keys (setDoublePushEp (removePiece keys (setEp
        (epXorHash keys b) none) cc cp mv.to_sq) mv b.sideToMove)
        b.sideToMove mv.piece mv.from_sq).pieceOnSq mv.to_sq = EMPTY_SQ := by
    rw [removePiece_pieceOnSq keys _ _ _ _ hfrom64
      (by rw [hm4bbM]; exact hlt _ _) (by rw [hm4bbM]; exact hfrom)]
    simp [Ne.symm hne, hm4sq, hm3sq]
  have hX1occ := hocc_removePiece keys _ b.sideToMove mv.piece mv.from_sq
    hm4occ
  have hC1 := remove_place_cancel keys
    (removePiece keys (setDoublePushEp (removePiece keys (setEp (epXorHash
      keys b) none) cc cp mv.to_sq) mv b.sideToMove) b.sideToMove mv.piece
      mv.from_sq)
    b.sideToMove mv.piece mv.to_sq hX1lt hto64 hX1bit hX1mb hX1occ
  have hC3 := place_remove_cancel keys (setEp (epXorHash keys b) none) cc cp
    mv.to_sq (by rw [hm2bb]; exact hlt _ _) hto64
    (by rw [hm2bb]; exact hcapbit) (by rw [hm2sq]; exact hcapmb.symm) hm2occ
  have hcond : ((some ((cc, cp, mv.to_sq)) :
        Option (Color × Piece × Nat)).isSome = true ∨
      mv.piece = Piece.Pawn ∨ (none : Option Piece).isSome = true) :=
    Or.inl rfl
  rw [makeMoveBasic_snd]
  simp only [makeMoveBasic, hrc, hcrn, hprom, hepb]
  rw [if_pos hcond, if_pos hcond]
  simp only [undoMoveBasic]
  simp only [epXorHash_pushHistory, epXorHash_setHistory,
    epXorHash_epXorHash, setSideXor_pushHistory, setSideXor_setHistory,
    setSideXor_setSideXor, setRightsXor_pushHistory,
    setRightsXor_setHistory, setRightsXor_setClocks,
    setRightsXor_removePiece, setRightsXor_placePiece,
    setRightsXor_setRightsXor, setClocks_pushHistory, setClocks_setHistory,
    setClocks_setClocks, setEp_pushHistory, setEp_setHistory,
    setEp_removePiece, setEp_placePiece, setEp_setDoublePushEp,
    setEp_setEp, setEp_self, removePiece_pushHistory,
    removePiece_setHistory, placePiece_pushHistory, placePiece_setHistory,
    placePiece_setDoublePushEp, hC1, hC2, hC3, popHistory_pushHistory,
    setHistory_setHistory, setHistory_self, epXorHash_sideToMove,
    setEp_sideToMove, setDoublePushEp_sideToMove, setRightsXor_sideToMove,
    setClocks_sideToMove, removePiece_sideToMove, placePiece_sideToMove,
    epXorHash_castlingRights, setEp_castlingRights,
    setDoublePushEp_castlingRights, removePiece_castlingRights,
    placePiece_castlingRights, epXorHash_halfmoveClock,
    setEp_halfmoveClock, setDoublePushEp_halfmoveClock,
    setRightsXor_halfmoveClock, removePiece_halfmoveClock,
    placePiece_halfmoveClock, epXorHash_fullmoveNumber,
    setEp_fullmoveNumber, setDoublePushEp_fullmoveNumber,
    setRightsXor_fullmoveNumber, removePiece_fullmoveNumber,
    placePiece_fullmoveNumber, epXorHash_enPassant]

set_option maxHeartbeats 1000000 in
/-- Involution for en-passant captures: the opposing pawn removed from
`capSq` (one rank behind the destination) is restored by the undo. -/
theorem undo_make_ep (keys : ZobristKeys) (b : Board) (mv : Move)
    (capSq : Nat)
    (hoccb : b.occAll = b.occWhite ||| b.occBlack)
    (hlt : ∀ c p, b.pieceBB c p < 2 ^ 64)
    (hfrom64 : mv.from_sq < 64) (hto64 : mv.to_sq < 64)
    (hne : mv.from_sq ≠ mv.to_sq)
    (hfrom : (b.pieceBB b.sideToMove mv.piece).testBit mv.from_sq = true)
    (hmbfrom : b.pieceOnSq mv.from_sq = mailboxCode b.sideToMove mv.piece)
    (htoself : (b.pieceBB b.sideToMove mv.piece).testBit mv.to_sq = false)
    (hept : mv.isEnPassant = true) (hcas : mv.isCastling = false)
    (hprom : mv.promotion = none)
    (hempty : b.pieceOnSq mv.to_sq = EMPTY_SQ)
    (hcap : (if b.sideToMove = Color.White then mv.to_sq - 8
      else mv.to_sq + 8) = capSq)
    (hcap64 : capSq < 64)
    (hfromcap : mv.from_sq ≠ capSq) (htocap : mv.to_sq ≠ capSq)
    (hcapbit : (b.pieceBB b.sideToMove.opposite Piece.Pawn).testBit capSq =
      true)
    (hcapmb : b.pieceOnSq capSq =
      mailboxCode b.sideToMove.opposite Piece.Pawn) :
    undoMoveBasic keys (makeMoveBasic keys b mv).1
      (makeMoveBasic keys b mv).2 = b := by
  have hslot : ¬(b.sideToMove = b.sideToMove.opposite ∧
      mv.piece = Piece.Pawn) := by
    rintro ⟨h1, -⟩
    exact Color.opposite_ne b.sideToMove h1.symm
  have hm2bb : (setEp (epXorHash keys b) none).pieceBB = b.pieceBB := by simp
  have hm2sq : (setEp (epXorHash keys b) none).pieceOnSq = b.pieceOnSq := by
    simp
  have hm2occ : (setEp (epXorHash keys b) none).occAll =
      (setEp (epXorHash keys b) none).occWhite |||
        (setEp (epXorHash keys b) none).occBlack := by simp [hoccb]
  have hrc := resolveCapture_of_ep keys (setEp (epXorHash keys b) none)
    mv b.sideToMove hept
  rw [hcap] at hrc
  have hcrn : (if mv.isCastling = true then rookCastleSquares mv.to_sq
      else none) = none := by simp [hcas]
  have hm3bbM : (removePiece keys (setEp (epXorHash keys b) none)
        b.sideToMove.opposite Piece.Pawn capSq).pieceBB b.sideToMove
        mv.piece = b.pieceBB b.sideToMove mv.piece := by
    rw [removePiece_pieceBB_other keys _ _ _ _ b.sideToMove mv.piece hslot,
      hm2bb]
  have hm3sq : (removePiece keys (setEp (epXorHash keys b) none)
        b.sideToMove.opposite Piece.Pawn capSq).pieceOnSq =
      fun sq => if sq = capSq then EMPTY_SQ else b.pieceOnSq sq := by
    rw [removePiece_pieceOnSq keys _ _ _ _ hcap64
      (by rw [hm2bb]; exact hlt _ _) (by rw [hm2bb]; exact hcapbit), hm2sq]
  have hm3occ := hocc_removePiece keys (setEp (epXorHash keys b) none)
    b.sideToMove.opposite Piece.Pawn capSq hm2occ
  have hm4bbM : (setDoublePushEp (removePiece keys (setEp (epXorHash keys b)
        none) b.sideToMove.opposite Piece.Pawn capSq) mv
        b.sideToMove).pieceBB b.sideToMove mv.piece =
      b.pieceBB b.sideToMove mv.piece := by
    rw [setDoublePushEp_pieceBB, hm3bbM]
  have hm4sq : (setDoublePushEp (removePiece keys (setEp (epXorHash keys b)
        none) b.sideToMove.opposite Piece.Pawn capSq) mv
        b.sideToMove).pieceOnSq =
      fun sq => if sq = capSq then EMPTY_SQ else b.pieceOnSq sq := by
    rw [setDoublePushEp_pieceOnSq, hm3sq]
  have hm4occ : (setDoublePushEp (removePiece keys (setEp (epXorHash keys b)
        none) b.sideToMove.opposite Piece.Pawn capSq) mv
        b.sideToMove).occAll =
      (setDoublePushEp (removePiece keys (setEp (epXorHash keys b) none)
        b.sideToMove.opposite Piece.Pawn capSq) mv b.sideToMove).occWhite |||
      (setDoublePushEp (removePiece keys (setEp (epXorHash keys b) none)
        b.sideToMove.opposite Piece.Pawn capSq) mv b.sideToMove).occBlack := by
    simp only [setDoublePushEp_occAll, setDoublePushEp_occWhite,
      setDoublePushEp_occBlack]
    exact hm3occ
  have hC2 := place_remove_cancel keys
    (setDoublePushEp (removePiece keys (setEp (epXorHash keys b) none)
      b.sideToMove.opposite Piece.Pawn capSq) mv b.sideToMove)
    b.sideToMove mv.piece mv.from_sq
    (by rw [hm4bbM]; exact hlt _ _) hfrom64 (by rw [hm4bbM]; exact hfrom)
    (by rw [hm4sq]; simp [hfromcap, hmbfrom]) hm4occ
  have hX1bb : (removePiece keys (setDoublePushEp (removePiece keys (setEp
        (epXorHash keys b) none) b.sideToMove.opposite Piece.Pawn capSq) mv
        b.sideToMove) b.sideToMove mv.piece mv.from_sq).pieceBB b.sideToMove
        mv.piece =
      b.pieceBB b.sideToMove mv.piece &&& compl64 (2 ^ mv.from_sq) := by
    rw [removePiece_pieceBB_same keys _ _ _ _ hfrom64, hm4bbM]
  have hX1lt : (removePiece keys (setDoublePushEp (removePiece keys (setEp
        (epXorHash keys b) none) b.sideToMove.opposite Piece.Pawn capSq) mv
        b.sideToMove) b.sideToMove mv.piece mv.from_sq).pieceBB b.sideToMove
        mv.piece < 2 ^ 64 := by
    rw [hX1bb]
    exact and_compl_lt _ _ (hlt _ _)
  have hX1bit : ((removePiece keys (setDoublePushEp (removePiece keys (setEp
        (epXorHash keys b) none) b.sideToMove.opposite Piece.Pawn capSq) mv
        b.sideToMove) b.sideToMove mv.piece mv.from_sq).pieceBB b.sideToMove
        mv.piece).testBit mv.to_sq = false := by
    rw [hX1bb, and_compl_pow_testBit _ _ _ (hlt _ _), htoself]
    rfl
  have hX1mb : (removePiece keys (setDoublePushEp (removePiece keys (setEp
        (epXorHash keys b) none) b.sideToMove.opposite Piece.Pawn capSq) mv
        b.sideToMove) b.sideToMove mv.piece mv.from_sq).pieceOnSq mv.to_sq =
      EMPTY_SQ := by
    rw [removePiece_pieceOnSq keys _ _ _ _ hfrom64
      (by rw [hm4bbM]; exact hlt _ _) (by rw [hm4bbM]; exact hfrom)]
    simp [Ne.symm hne, hm4sq, hm3sq, htocap, hempty]
  have hX1occ := hocc_removePiece keys _ b.sideToMove mv.piece mv.from_sq
    hm4occ
  have hC1 := remove_place_cancel keys
    (removePiece keys (setDoublePushEp (removePiece keys (setEp (epXorHash
      keys b) none) b.sideToMove.opposite Piece.Pawn capSq) mv b.sideToMove)
      b.sideToMove mv.piece mv.from_sq)
    b.sideToMove mv.piece mv.to_sq hX1lt hto64 hX1bit hX1mb hX1occ
  have hC3 := place_remove_cancel keys (setEp (epXorHash keys b) none)
    b.sideToMove.opposite Piece.Pawn capSq
    (by rw [hm2bb]; exact hlt _ _) hcap64
    (by rw [hm2bb]; exact hcapbit) (by rw [hm2sq]; exact hcapmb) hm2occ
  have hcond : ((some ((b.sideToMove.opposite, Piece.Pawn, capSq)) :
        Option (Color × Piece × Nat)).isSome = true ∨
      mv.piece = Piece.Pawn ∨ (none : Option Piece).isSome = true) :=
    Or.inl rfl
  rw [makeMoveBasic_snd]
  simp only [makeMoveBasic, hrc, hcrn, hprom, hept]
  rw [if_pos hcond, if_pos hcond]
  simp only [undoMoveBasic]
  simp only [epXorHash_pushHistory, epXorHash_setHistory,
    epXorHash_epXorHash, setSideXor_pushHistory, setSideXor_setHistory,
    setSideXor_setSideXor, setRightsXor_pushHistory,
    setRightsXor_setHistory, setRightsXor_setClocks,
    setRightsXor_removePiece, setRightsXor_placePiece,
    setRightsXor_setRightsXor, setClocks_pushHistory, setClocks_setHistory,
    setClocks_setClocks, setEp_pushHistory, setEp_setHistory,
    setEp_removePiece, setEp_placePiece, setEp_setDoublePushEp,
    setEp_setEp, setEp_self, removePiece_pushHistory,
    removePiece_setHistory, placePiece_pushHistory, placePiece_setHistory,
    placePiece_setDoublePushEp, hC1, hC2, hC3, popHistory_pushHistory,
    setHistory_setHistory, setHistory_self, epXorHash_sideToMove,
    setEp_sideToMove, setDoublePushEp_sideToMove, setRightsXor_sideToMove,
    setClocks_sideToMove, removePiece_sideToMove, placePiece_sideToMove,
    epXorHash_castlingRights, setEp_castlingRights,
    setDoublePushEp_castlingRights, removePiece_castlingRights,
    placePiece_castlingRights, epXorHash_halfmoveClock,
    setEp_halfmoveClock, setDoublePushEp_halfmoveClock,
    setRightsXor_halfmoveClock, removePiece_halfmoveClock,
    placePiece_halfmoveClock, epXorHash_fullmoveNumber,
    setEp_fullmoveNumber, setDoublePushEp_fullmoveNumber,
    setRightsXor_fullmoveNumber, removePiece_fullmoveNumber,
    placePiece_fullmoveNumber, epXorHash_enPassant]

set_option maxHeartbeats 1000000 in
/-- Involution for non-capture promotions: the promoted piece `prom` placed
on the destination is removed and the pawn restored on the origin. -/
theorem undo_make_promo (keys : ZobristKeys) (b : Board) (mv : Move)
    (prom : Piece)
    (hoccb : b.occAll = b.occWhite ||| b.occBlack)
    (hlt : ∀ c p, b.pieceBB c p < 2 ^ 64)
    (hfrom64 : mv.from_sq < 64) (hto64 : mv.to_sq < 64)
    (hne : mv.from_sq ≠ mv.to_sq)
    (hpp : mv.piece = Piece.Pawn)
    (hfrom : (b.pieceBB b.sideToMove Piece.Pawn).testBit mv.from_sq = true)
    (hmbfrom : b.pieceOnSq mv.from_sq = mailboxCode b.sideToMove Piece.Pawn)
    (htoprom : (b.pieceBB b.sideToMove prom).testBit mv.to_sq = false)
    (hepb : mv.isEnPassant = false) (hcas : mv.isCastling = false)
    (hprom : mv.promotion = some prom) (hpromne : prom ≠ Piece.Pawn)
    (hempty : b.pieceOnSq mv.to_sq = EMPTY_SQ) :
    undoMoveBasic keys (makeMoveBasic keys b mv).1
      (makeMoveBasic keys b mv).2 = b := by
  have hslot : ¬(b.sideToMove = b.sideToMove ∧ prom = Piece.Pawn) := by
    rintro ⟨-, h2⟩
    exact hpromne h2
  have hm2mb : (setEp (epXorHash keys b) none).pieceOnSq mv.to_sq =
      EMPTY_SQ := by simp [hempty]
  have hrc := resolveCapture_of_empty keys (setEp (epXorHash keys b) none) mv
    b.sideToMove hepb hm2mb
  have hcrn : (if mv.isCastling = true then rookCastleSquares mv.to_sq
      else none) = none := by simp [hcas]
  have hm4bb : (setDoublePushEp (setEp (epXorHash keys b) none) mv
      b.sideToMove).pieceBB = b.pieceBB := by simp
  have hm4sq : (setDoublePushEp (setEp (epXorHash keys b) none) mv
      b.sideToMove).pieceOnSq = b.pieceOnSq := by simp
  have hm4occ : (setDoublePushEp (setEp (epXorHash keys b) none) mv
      b.sideToMove).occAll =
      (setDoublePushEp (setEp (epXorHash keys b) none) mv
        b.sideToMove).occWhite |||
      (setDoublePushEp (setEp (epXorHash keys b) none) mv
        b.sideToMove).occBlack := by simp [hoccb]
  have hC2 := place_remove_cancel keys
    (setDoublePushEp (setEp (epXorHash keys b) none) mv b.sideToMove)
    b.sideToMove Piece.Pawn mv.from_sq
    (by rw [hm4bb]; exact hlt _ _) hfrom64 (by rw [hm4bb]; exact hfrom)
    (by rw [hm4sq]; exact hmbfrom) hm4occ
  have hX1bb : (removePiece keys (setDoublePushEp (setEp (epXorHash keys b)
        none) mv b.sideToMove) b.sideToMove Piece.Pawn mv.from_sq).pieceBB
        b.sideToMove prom = b.pieceBB b.sideToMove prom := by
    rw [removePiece_pieceBB_other keys _ _ _ _ b.sideToMove prom hslot,
      hm4bb]
  have hX1lt : (removePiece keys (setDoublePushEp (setEp (epXorHash keys b)
        none) mv b.sideToMove) b.sideToMove Piece.Pawn mv.from_sq).pieceBB
        b.sideToMove prom < 2 ^ 64 := by
    rw [hX1bb]
    exact hlt _ _
  have hX1bit : ((removePiece keys (setDoublePushEp (setEp (epXorHash keys b)
        none) mv b.sideToMove) b.sideToMove Piece.Pawn mv.from_sq).pieceBB
        b.sideToMove prom).testBit mv.to_sq = false := by
    rw [hX1bb]
    exact htoprom
  have hX1mb : (removePiece keys (setDoublePushEp (setEp (epXorHash keys b)
        none) mv b.sideToMove) b.sideToMove Piece.Pawn
        mv.from_sq).pieceOnSq mv.to_sq = EMPTY_SQ := by
    rw [removePiece_pieceOnSq keys _ _ _ _ hfrom64
      (by rw [hm4bb]; exact hlt _ _) (by rw [hm4bb]; exact hfrom)]
    simp [Ne.symm hne, hempty]
  have hX1occ := hocc_removePiece keys _ b.sideToMove Piece.Pawn mv.from_sq
    hm4occ
  have hC1 := remove_place_cancel keys
    (removePiece keys (setDoublePushEp (setEp (epXorHash keys b) none) mv
      b.sideToMove) b.sideToMove Piece.Pawn mv.from_sq)
    b.sideToMove prom mv.to_sq hX1lt hto64 hX1bit hX1mb hX1occ
  have hcond : ((none : Option (Color × Piece × Nat)).isSome = true ∨
      True ∨ (some prom : Option Piece).isSome = true) :=
    Or.inr (Or.inl trivial)
  rw [makeMoveBasic_snd]
  simp only [makeMoveBasic, hrc, hcrn, hprom, hepb, hpp]
  rw [if_pos hcond, if_pos hcond]
  simp only [undoMoveBasic]
  simp only [epXorHash_pushHistory, epXorHash_setHistory,
    epXorHash_epXorHash, setSideXor_pushHistory, setSideXor_setHistory,
    setSideXor_setSideXor, setRightsXor_pushHistory,
    setRightsXor_setHistory, setRightsXor_setClocks,
    setRightsXor_removePiece, setRightsXor_placePiece,
    setRightsXor_setRightsXor, setClocks_pushHistory, setClocks_setHistory,
    setClocks_setClocks, setEp_pushHistory, setEp_setHistory,
    setEp_removePiece, setEp_placePiece, setEp_setDoublePushEp,
    setEp_setEp, setEp_self, removePiece_pushHistory,
    removePiece_setHistory, placePiece_pushHistory, placePiece_setHistory,
    hC1, hC2, popHistory_pushHistory, setHistory_setHistory,
    setHistory_self, epXorHash_sideToMove, setEp_sideToMove,
    setDoublePushEp_sideToMove, setRightsXor_sideToMove,
    setClocks_sideToMove, removePiece_sideToMove, placePiece_sideToMove,
    epXorHash_castlingRights, setEp_castlingRights,
    setDoublePushEp_castlingRights, epXorHash_halfmoveClock,
    setEp_halfmoveClock, setDoublePushEp_halfmoveClock,
    setRightsXor_halfmoveClock, removePiece_halfmoveClock,
    placePiece_halfmoveClock, epXorHash_fullmoveNumber,
    setEp_fullmoveNumber, setDoublePushEp_fullmoveNumber,
    setRightsXor_fullmoveNumber, removePiece_fullmoveNumber,
    placePiece_fullmoveNumber, epXorHash_enPassant]

set_option maxHeartbeats 1000000 in
/-- Involution for capture promotions: both the captured piece `(cc, cp)`
and the promoted piece `prom` are rolled back by the undo. -/
theorem undo_make_capture_promo (keys : ZobristKeys) (b : Board) (mv : Move)
    (cc : Color) (cp : Piece) (prom : Piece)
    (hoccb : b.occAll = b.occWhite ||| b.occBlack)
    (hlt : ∀ c p, b.pieceBB c p < 2 ^ 64)
    (hfrom64 : mv.from_sq < 64) (hto64 : mv.to_sq < 64)
    (hne : mv.from_sq ≠ mv.to_sq)
    (hpp : mv.piece = Piece.Pawn)
    (hfrom : (b.pieceBB b.sideToMove Piece.Pawn).testBit mv.from_sq = true)
    (hmbfrom : b.pieceOnSq mv.from_sq = mailboxCode b.sideToMove Piece.Pawn)
    (htoprom : (b.pieceBB b.sideToMove prom).testBit mv.to_sq = false)
    (hepb : mv.isEnPassant = false) (hcas : mv.isCastling = false)
    (hprom : mv.promotion = some prom) (hpromne : prom ≠ Piece.Pawn)
    (hnemp : b.pieceOnSq mv.to_sq ≠ EMPTY_SQ)
    (hcc : colorFromU8 (b.pieceOnSq mv.to_sq >>> 3) = cc)
    (hcp : pieceFromU8 (b.pieceOnSq mv.to_sq &&& 7) = cp)
    (hccop : cc = b.sideToMove.opposite)
    (hcapbit : (b.pieceBB cc cp).testBit mv.to_sq = true)
    (hcapmb : mailboxCode cc cp = b.pieceOnSq mv.to_sq) :
    undoMoveBasic keys (makeMoveBasic keys b mv).1
      (makeMoveBasic keys b mv).2 = b := by
  have hslotM : ¬(b.sideToMove = cc ∧ Piece.Pawn = cp) := by
    rintro ⟨h1, -⟩
    rw [hccop] at h1
    exact Color.opposite_ne b.sideToMove h1.symm
  have hslotP : ¬(b.sideToMove = cc ∧ prom = cp) := by
    rintro ⟨h1, -⟩
    rw [hccop] at h1
    exact Color.opposite_ne b.sideToMove h1.symm
  have hslotPP : ¬(b.sideToMove = b.sideToMove ∧ prom = Piece.Pawn) := by
    rintro ⟨-, h2⟩
    exact hpromne h2
  have hm2bb : (setEp (epXorHash keys b) none).pieceBB = b.pieceBB := by simp
  have hm2sq : (setEp (epXorHash keys b) none).pieceOnSq = b.pieceOnSq := by
    simp
  have hm2occ : (setEp (epXorHash keys b) none).occAll =
      (setEp (epXorHash keys b) none).occWhite |||
        (setEp (epXorHash keys b) none).occBlack := by simp [hoccb]
  have hm2mb : (setEp (epXorHash keys b) none).pieceOnSq mv.to_sq ≠
      EMPTY_SQ := by rw [hm2sq]; exact hnemp
  have hrc := resolveCapture_of_occupant keys (setEp (epXorHash keys b) none)
    mv b.sideToMove hepb hm2mb
  rw [show (setEp (epXorHash keys b) none).pieceOnSq mv.to_sq =
      b.pieceOnSq mv.to_sq from by rw [hm2sq], hcc, hcp] at hrc
  have hcrn : (if mv.isCastling = true then rookCastleSquares mv.to_sq
      else none) = none := by simp [hcas]
  have hm3bbM : (removePiece keys (setEp (epXorHash keys b) none) cc cp
        mv.to_sq).pieceBB b.sideToMove Piece.Pawn =
      b.pieceBB b.sideToMove Piece.Pawn := by
    rw [removePiece_pieceBB_other keys _ cc cp _ b.sideToMove Piece.Pawn
      hslotM, hm2bb]
  have hm3bbP : (removePiece keys (setEp (epXorHash keys b) none) cc cp
        mv.to_sq).pieceBB b.sideToMove prom =
      b.pieceBB b.sideToMove prom := by
    rw [removePiece_pieceBB_other keys _ cc cp _ b.sideToMove prom hslotP,
      hm2bb]
  have hm3sq : (removePiece keys (setEp (epXorHash keys b) none) cc cp
        mv.to_sq).pieceOnSq =
      fun sq => if sq = mv.to_sq then EMPTY_SQ else b.pieceOnSq sq := by
    rw [removePiece_pieceOnSq keys _ cc cp _ hto64
      (by rw [hm2bb]; exact hlt _ _) (by rw [hm2bb]; exact hcapbit), hm2sq]
  have hm3occ := hocc_removePiece keys (setEp (epXorHash keys b) none) cc cp
    mv.to_sq hm2occ
  have hm4bbM : (setDoublePushEp (removePiece keys (setEp (epXorHash keys b)
        none) cc cp mv.to_sq) mv b.sideToMove).pieceBB b.sideToMove
        Piece.Pawn = b.pieceBB b.sideToMove Piece.Pawn := by
    rw [setDoublePushEp_pieceBB, hm3bbM]
  have hm4bbP : (setDoublePushEp (removePiece keys (setEp (epXorHash keys b)
        none) cc cp mv.to_sq) mv b.sideToMove).pieceBB b.sideToMove prom =
      b.pieceBB b.sideToMove prom := by
    rw [setDoublePushEp_pieceBB, hm3bbP]
  have hm4sq : (setDoublePushEp (removePiece keys (setEp (epXorHash keys b)
        none) cc cp mv.to_sq) mv b.sideToMove).pieceOnSq =
      fun sq => if sq = mv.to_sq then EMPTY_SQ else b.pieceOnSq sq := by
    rw [setDoublePushEp_pieceOnSq, hm3sq]
  have hm4occ : (setDoublePushEp (removePiece keys (setEp (epXorHash keys b)
        none) cc cp mv.to_sq) mv b.sideToMove).occAll =
      (setDoublePushEp (removePiece keys (setEp (epXorHash keys b) none) cc
        cp mv.to_sq) mv b.sideToMove).occWhite |||
      (setDoublePushEp (removePiece keys (setEp (epXorHash keys b) none) cc
        cp mv.to_sq) mv b.sideToMove).occBlack := by
    simp only [setDoublePushEp_occAll, setDoublePushEp_occWhite,
      setDoublePushEp_occBlack]
    exact hm3occ
  have hC2 := place_remove_cancel keys
    (setDoublePushEp (removePiece keys (setEp (epXorHash keys b) none) cc cp
      mv.to_sq) mv b.sideToMove)
    b.sideToMove Piece.Pawn mv.from_sq
    (by rw [hm4bbM]; exact hlt _ _) hfrom64 (by rw [hm4bbM]; exact hfrom)
    (by rw [hm4sq]; simp [hne, hmbfrom]) hm4occ
  have hX1bbP : (removePiece keys (setDoublePushEp (removePiece keys (setEp
        (epXorHash keys b) none) cc cp mv.to_sq) mv b.sideToMove)
        b.sideToMove Piece.Pawn mv.from_sq).pieceBB b.sideToMove prom =
      b.pieceBB b.sideToMove prom := by
    rw [removePiece_pieceBB_other keys _ _ _ _ b.sideToMove prom hslotPP,
      hm4bbP]
  have hX1lt : (removePiece keys (setDoublePushEp (removePiece keys (setEp
        (epXorHash keys b) none) cc cp mv.to_sq) mv b.sideToMove)
        b.sideToMove Piece.Pawn mv.from_sq).pieceBB b.sideToMove prom <
      2 ^ 64 := by
    rw [hX1bbP]
    exact hlt _ _
  have hX1bit : ((removePiece keys (setDoublePushEp (removePiece keys (setEp
        (epXorHash keys b) none) cc cp mv.to_sq) mv b.sideToMove)
        b.sideToMove Piece.Pawn mv.from_sq).pieceBB b.sideToMove
        prom).testBit mv.to_sq = false := by
    rw [hX1bbP]
    exact htoprom
  have hX1mb : (removePiece keys (setDoublePushEp (removePiece keys (setEp
        (epXorHash keys b) none) cc cp mv.to_sq) mv b.sideToMove)
        b.sideToMove Piece.Pawn mv.from_sq).pieceOnSq mv.to_sq =
      EMPTY_SQ := by
    rw [removePiece_pieceOnSq keys _ _ _ _ hfrom64
      (by rw [hm4bbM]; exact hlt _ _) (by rw [hm4bbM]; exact hfrom)]
    simp [Ne.symm hne, hm4sq, hm3sq]
  have hX1occ := hocc_removePiece keys _ b.sideToMove Piece.Pawn mv.from_sq
    hm4occ
  have hC1 := remove_place_cancel keys
    (removePiece keys (setDoublePushEp (removePiece keys (setEp (epXorHash
      keys b) none) cc cp mv.to_sq) mv b.sideToMove) b.sideToMove Piece.Pawn
      mv.from_sq)
    b.sideToMove prom mv.to_sq hX1lt hto64 hX1bit hX1mb hX1occ
  have hC3 := place_remove_cancel keys (setEp (epXorHash keys b) none) cc cp
    mv.to_sq (by rw [hm2bb]; exact hlt _ _) hto64
    (by rw [hm2bb]; exact hcapbit) (by rw [hm2sq]; exact hcapmb.symm) hm2occ
  have hcond : ((some ((cc, cp, mv.to_sq)) :
        Option (Color × Piece × Nat)).isSome = true ∨
      True ∨ (some prom : Option Piece).isSome = true) := Or.inl rfl
  rw [makeMoveBasic_snd]
  simp only [makeMoveBasic, hrc, hcrn, hprom, hepb, hpp]
  rw [if_pos hcond, if_pos hcond]
  simp only [undoMoveBasic]
  simp only [epXorHash_pushHistory, epXorHash_setHistory,
    epXorHash_epXorHash, setSideXor_pushHistory, setSideXor_setHistory,
    setSideXor_setSideXor, setRightsXor_pushHistory,
    setRightsXor_setHistory, setRightsXor_setClocks,
    setRightsXor_removePiece, setRightsXor_placePiece,
    setRightsXor_setRightsXor, setClocks_pushHistory, setClocks_setHistory,
    setClocks_setClocks, setEp_pushHistory, setEp_setHistory,
    setEp_removePiece, setEp_placePiece, setEp_setDoublePushEp,
    setEp_setEp, setEp_self, removePiece_pushHistory,
    removePiece_setHistory, placePiece_pushHistory, placePiece_setHistory,
    placePiece_setDoublePushEp, hC1, hC2, hC3, popHistory_pushHistory,
    setHistory_setHistory, setHistory_self, epXorHash_sideToMove,
    setEp_sideToMove, setDoublePushEp_sideToMove, setRightsXor_sideToMove,
    setClocks_sideToMove, removePiece_sideToMove, placePiece_sideToMove,
    epXorHash_castlingRights, setEp_castlingRights,
    setDoublePushEp_castlingRights, removePiece_castlingRights,
    placePiece_castlingRights, epXorHash_halfmoveClock,
    setEp_halfmoveClock, setDoublePushEp_halfmoveClock,
    setRightsXor_halfmoveClock, removePiece_halfmoveClock,
    placePiece_halfmoveClock, epXorHash_fullmoveNumber,
    setEp_fullmoveNumber, setDoublePushEp_fullmoveNumber,
    setRightsXor_fullmoveNumber, removePiece_fullmoveNumber,
    placePiece_fullmoveNumber, epXorHash_enPassant]

set_option maxHeartbeats 1600000 in
/-- Involution for castling moves: the king pair and the rook pair
`(rf, rt)` both cancel against the undo's reversed operations. -/
theorem undo_make_castle (keys : ZobristKeys) (b : Board) (mv : Move)
    (rf rt : Nat)
    (hoccb : b.occAll = b.occWhite ||| b.occBlack)
    (hlt : ∀ c p, b.pieceBB c p < 2 ^ 64)
    (hfrom64 : mv.from_sq < 64) (hto64 : mv.to_sq < 64)
    (hne : mv.from_sq ≠ mv.to_sq)
    (hfrom : (b.pieceBB b.sideToMove mv.piece).testBit mv.from_sq = true)
    (hmbfrom : b.pieceOnSq mv.from_sq = mailboxCode b.sideToMove mv.piece)
    (htoself : (b.pieceBB b.sideToMove mv.piece).testBit mv.to_sq = false)
    (hepb : mv.isEnPassant = false) (hcast : mv.isCastling = true)
    (hprom : mv.promotion = none)
    (hpR : mv.piece ≠ Piece.Rook) (hpPawn : mv.piece ≠ Piece.Pawn)
    (hempty : b.pieceOnSq mv.to_sq = EMPTY_SQ)
    (hrk : rookCastleSquares mv.to_sq = some (rf, rt))
    (hrf64 : rf < 64) (hrt64 : rt < 64) (hrfrt : rf ≠ rt)
    (hrf_f : rf ≠ mv.from_sq) (hrf_t : rf ≠ mv.to_sq)
    (hrt_f : rt ≠ mv.from_sq) (hrt_t : rt ≠ mv.to_sq)
    (hrfbit : (b.pieceBB b.sideToMove Piece.Rook).testBit rf = true)
    (hrtself : (b.pieceBB b.sideToMove Piece.Rook).testBit rt = false)
    (hmbrf : b.pieceOnSq rf = mailboxCode b.sideToMove Piece.Rook)
    (hemptyRt : b.pieceOnSq rt = EMPTY_SQ) :
    undoMoveBasic keys (makeMoveBasic keys b mv).1
      (makeMoveBasic keys b mv).2 = b := by
  have hslotKR : ¬(b.sideToMove = b.sideToMove ∧
      mv.piece = Piece.Rook) := by
    rintro ⟨-, h2⟩
    exact hpR h2
  have hslotRK : ¬(b.sideToMove = b.sideToMove ∧
      Piece.Rook = mv.piece) := by
    rintro ⟨-, h2⟩
    exact hpR h2.symm
  have hm2mb : (setEp (epXorHash keys b) none).pieceOnSq mv.to_sq =
      EMPTY_SQ := by simp [hempty]
  have hrc := resolveCapture_of_empty keys (setEp (epXorHash keys b) none) mv
    b.sideToMove hepb hm2mb
  have hcr : (if mv.isCastling = true then rookCastleSquares mv.to_sq
      else none) = some (rf, rt) := by rw [if_pos hcast, hrk]
  have hm4bb : (setDoublePushEp (setEp (epXorHash keys b) none) mv
      b.sideToMove).pieceBB = b.pieceBB := by simp
  have hm4sq : (setDoublePushEp (setEp (epXorHash keys b) none) mv
      b.sideToMove).pieceOnSq = b.pieceOnSq := by simp
  have hm4occ : (setDoublePushEp (setEp (epXorHash keys b) none) mv
      b.sideToMove).occAll =
      (setDoublePushEp (setEp (epXorHash keys b) none) mv
        b.sideToMove).occWhite |||
      (setDoublePushEp (setEp (epXorHash keys b) none) mv
        b.sideToMove).occBlack := by simp [hoccb]
  have hC2 := place_remove_cancel keys
    (setDoublePushEp (setEp (epXorHash keys b) none) mv b.sideToMove)
    b.sideToMove mv.piece mv.from_sq
    (by rw [hm4bb]; exact hlt _ _) hfrom64 (by rw [hm4bb]; exact hfrom)
    (by rw [hm4sq]; exact hmbfrom) hm4occ
  have hX1bbK : (removePiece keys (setDoublePushEp (setEp (epXorHash keys b)
        none) mv b.sideToMove) b.sideToMove mv.piece mv.from_sq).pieceBB
        b.sideToMove mv.piece =
      b.pieceBB b.sideToMove mv.piece &&& compl64 (2 ^ mv.from_sq) := by
    rw [removePiece_pieceBB_same keys _ _ _ _ hfrom64, hm4bb]
  have hX1bbR : (removePiece keys (setDoublePushEp (setEp (epXorHash keys b)
        none) mv b.sideToMove) b.sideToMove mv.piece mv.from_sq).pieceBB
        b.sideToMove Piece.Rook = b.pieceBB b.sideToMove Piece.Rook := by
    rw [removePiece_pieceBB_other keys _ _ _ _ b.sideToMove Piece.Rook
      hslotRK, hm4bb]
  have hX1lt : (removePiece keys (setDoublePushEp (setEp (epXorHash keys b)
        none) mv b.sideToMove) b.sideToMove mv.piece mv.from_sq).pieceBB
        b.sideToMove mv.piece < 2 ^ 64 := by
    rw [hX1bbK]
    exact and_compl_lt _ _ (hlt _ _)
  have hX1bit : ((removePiece keys (setDoublePushEp (setEp (epXorHash keys b)
        none) mv b.sideToMove) b.sideToMove mv.piece mv.from_sq).pieceBB
        b.sideToMove mv.piece).testBit mv.to_sq = false := by
    rw [hX1bbK, and_compl_pow_testBit _ _ _ (hlt _ _), htoself]
    rfl
  have hX1mb : (removePiece keys (setDoublePushEp (setEp (epXorHash keys b)
        none) mv b.sideToMove) b.sideToMove mv.piece
        mv.from_sq).pieceOnSq mv.to_sq = EMPTY_SQ := by
    rw [removePiece_pieceOnSq keys _ _ _ _ hfrom64
      (by rw [hm4bb]; exact hlt _ _) (by rw [hm4bb]; exact hfrom)]
    simp [Ne.symm hne, hempty]
  have hX1occ := hocc_removePiece keys _ b.sideToMove mv.piece mv.from_sq
    hm4occ
  have hC1 := remove_place_cancel keys
    (removePiece keys (setDoublePushEp (setEp (epXorHash keys b) none) mv
      b.sideToMove) b.sideToMove mv.piece mv.from_sq)
    b.sideToMove mv.piece mv.to_sq hX1lt hto64 hX1bit hX1mb hX1occ
  have hY2ltK : (placePiece keys (removePiece keys (setDoublePushEp (setEp
        (epXorHash keys b) none) mv b.sideToMove) b.sideToMove mv.piece
        mv.from_sq) b.sideToMove mv.piece mv.to_sq).pieceBB b.sideToMove
        mv.piece < 2 ^ 64 := by
    rw [placePiece_pieceBB_same keys _ _ _ _ hto64, hX1bbK]
    exact or_pow_lt _ _ (and_compl_lt _ _ (hlt _ _)) hto64
  have hY2bbR : (placePiece keys (removePiece keys (setDoublePushEp (setEp
        (epXorHash keys b) none) mv b.sideToMove) b.sideToMove mv.piece
        mv.from_sq) b.sideToMove mv.piece mv.to_sq).pieceBB b.sideToMove
        Piece.Rook = b.pieceBB b.sideToMove Piece.Rook := by
    rw [placePiece_pieceBB_other keys _ _ _ _ b.sideToMove Piece.Rook
      hslotRK, hX1bbR]
  have hY1ltK : (removePiece keys (placePiece keys (removePiece keys
        (setDoublePushEp (setEp (epXorHash keys b) none) mv b.sideToMove)
        b.sideToMove mv.piece mv.from_sq) b.sideToMove mv.piece mv.to_sq)
        b.sideToMove Piece.Rook rf).pieceBB b.sideToMove mv.piece <
      2 ^ 64 := by
    rw [removePiece_pieceBB_other keys _ _ _ _ b.sideToMove mv.piece
      hslotKR]
    exact hY2ltK
  have hS1 := removePiece_placePiece_comm keys
    (removePiece keys (placePiece keys (removePiece keys (setDoublePushEp
      (setEp (epXorHash keys b) none) mv b.sideToMove) b.sideToMove mv.piece
      mv.from_sq) b.sideToMove mv.piece mv.to_sq) b.sideToMove Piece.Rook rf)
    b.sideToMove b.sideToMove Piece.Rook mv.piece rt mv.to_sq
    hslotKR hrt_t hrt64 hto64 hY1ltK
  have hS2 := removePiece_removePiece_comm keys
    (placePiece keys (removePiece keys (setDoublePushEp (setEp (epXorHash
      keys b) none) mv b.sideToMove) b.sideToMove mv.piece mv.from_sq)
      b.sideToMove mv.piece mv.to_sq)
    b.sideToMove b.sideToMove Piece.Rook mv.piece rf mv.to_sq
    hslotKR hrf_t hrf64 hto64 (by rw [hY2bbR]; exact hlt _ _) hY2ltK
  have hS3 := placePiece_placePiece_comm keys
    (removePiece keys (removePiece keys (setDoublePushEp (setEp (epXorHash
      keys b) none) mv b.sideToMove) b.sideToMove mv.piece mv.from_sq)
      b.sideToMove Piece.Rook rf)
    b.sideToMove b.sideToMove Piece.Rook mv.piece rt mv.from_sq
    hslotKR hrt_f hrt64 hfrom64
  have hS4 := placePiece_removePiece_comm keys
    (removePiece keys (setDoublePushEp (setEp (epXorHash keys b) none) mv
      b.sideToMove) b.sideToMove mv.piece mv.from_sq)
    b.sideToMove b.sideToMove Piece.Rook mv.piece rf mv.from_sq
    hslotKR hrf_f hrf64 hfrom64 (by rw [hX1bbR]; exact hlt _ _)
  have hX2bb : (removePiece keys (setDoublePushEp (setEp (epXorHash keys b)
        none) mv b.sideToMove) b.sideToMove Piece.Rook rf).pieceBB
        b.sideToMove Piece.Rook =
      b.pieceBB b.sideToMove Piece.Rook &&& compl64 (2 ^ rf) := by
    rw [removePiece_pieceBB_same keys _ _ _ _ hrf64, hm4bb]
  have hX2lt : (removePiece keys (setDoublePushEp (setEp (epXorHash keys b)
        none) mv b.sideToMove) b.sideToMove Piece.Rook rf).pieceBB
        b.sideToMove Piece.Rook < 2 ^ 64 := by
    rw [hX2bb]
    exact and_compl_lt _ _ (hlt _ _)
  have hX2bit : ((removePiece keys (setDoublePushEp (setEp (epXorHash keys b)
        none) mv b.sideToMove) b.sideToMove Piece.Rook rf).pieceBB
        b.sideToMove Piece.Rook).testBit rt = false := by
    rw [hX2bb, and_compl_pow_testBit _ _ _ (hlt _ _), hrtself]
    rfl
  have hX2mb : (removePiece keys (setDoublePushEp (setEp (epXorHash keys b)
        none) mv b.sideToMove) b.sideToMove Piece.Rook rf).pieceOnSq rt =
      EMPTY_SQ := by
    rw [removePiece_pieceOnSq keys _ _ _ _ hrf64
      (by rw [hm4bb]; exact hlt _ _) (by rw [hm4bb]; exact hrfbit)]
    simp [Ne.symm hrfrt, hemptyRt]
  have hX2occ := hocc_removePiece keys _ b.sideToMove Piece.Rook rf hm4occ
  have hC4 := remove_place_cancel keys
    (removePiece keys (setDoublePushEp (setEp (epXorHash keys b) none) mv
      b.sideToMove) b.sideToMove Piece.Rook rf)
    b.sideToMove Piece.Rook rt hX2lt hrt64 hX2bit hX2mb hX2occ
  have hC5 := place_remove_cancel keys
    (setDoublePushEp (setEp (epXorHash keys b) none) mv b.sideToMove)
    b.sideToMove Piece.Rook rf
    (by rw [hm4bb]; exact hlt _ _) hrf64 (by rw [hm4bb]; exact hrfbit)
    (by rw [hm4sq]; exact hmbrf) hm4occ
  have hcondn : ¬((none : Option (Color × Piece × Nat)).isSome = true ∨
      mv.piece = Piece.Pawn ∨ (none : Option Piece).isSome = true) := by
    simp [hpPawn]
  rw [makeMoveBasic_snd]
  simp only [makeMoveBasic, hrc, hcr, hprom, hepb]
  rw [if_neg hcondn, if_neg hcondn]
  simp only [undoMoveBasic]
  simp only [epXorHash_pushHistory, epXorHash_setHistory,
    epXorHash_epXorHash, setSideXor_pushHistory, setSideXor_setHistory,
    setSideXor_setSideXor, setRightsXor_pushHistory,
    setRightsXor_setHistory, setRightsXor_setClocks,
    setRightsXor_removePiece, setRightsXor_placePiece,
    setRightsXor_setRightsXor, setClocks_pushHistory, setClocks_setHistory,
    setClocks_setClocks, setEp_pushHistory, setEp_setHistory,
    setEp_removePiece, setEp_placePiece, setEp_setDoublePushEp,
    setEp_setEp, setEp_self, removePiece_pushHistory,
    removePiece_setHistory, placePiece_pushHistory, placePiece_setHistory,
    hS1, hS2, hC1, hS3, hS4, hC2, hC4, hC5, popHistory_pushHistory,
    setHistory_setHistory, setHistory_self, epXorHash_sideToMove,
    setEp_sideToMove, setDoublePushEp_sideToMove, setRightsXor_sideToMove,
    setClocks_sideToMove, removePiece_sideToMove, placePiece_sideToMove,
    epXorHash_castlingRights, setEp_castlingRights,
    setDoublePushEp_castlingRights, epXorHash_halfmoveClock,
    setEp_halfmoveClock, setDoublePushEp_halfmoveClock,
    setRightsXor_halfmoveClock, removePiece_halfmoveClock,
    placePiece_halfmoveClock, epXorHash_fullmoveNumber,
    setEp_fullmoveNumber, setDoublePushEp_fullmoveNumber,
    setRightsXor_fullmoveNumber, removePiece_fullmoveNumber,
    placePiece_fullmoveNumber, epXorHash_enPassant]

/-- C1: for every board with consistent occupancy/mailbox/bitboard state and
every legal move `mv` (the legality side conditions are the explicit
hypotheses: the mover sits on `from_sq`, the destination does not hold a
piece of the same kind, promotions are pawn moves to a promoted piece type,
en-passant captures hold an opposing pawn behind an empty destination, and
castling moves a non-rook, non-pawn piece alongside a rook travelling
between its own squares), `undo_move_basic` applied to the board and `Undo`
record returned by `make_move_basic` restores the original board
bitwise-equal in every field: piece bitboards, occupancies, mailbox, side
to move, castling rights, en-passant square, halfmove clock, fullmove
number, the Zobrist hash, and the history vector. -/
theorem make_undo_involution (keys : ZobristKeys) (b : Board) (mv : Move)
    (hoccb : b.occAll = b.occWhite ||| b.occBlack)
    (hlt : ∀ c p, b.pieceBB c p < 2 ^ 64)
    (hfrom64 : mv.from_sq < 64) (hto64 : mv.to_sq < 64)
    (hne : mv.from_sq ≠ mv.to_sq)
    (hfrom : (b.pieceBB b.sideToMove mv.piece).testBit mv.from_sq = true)
    (hmbfrom : b.pieceOnSq mv.from_sq = mailboxCode b.sideToMove mv.piece)
    (htoself : (b.pieceBB b.sideToMove mv.piece).testBit mv.to_sq = false)
    (hepcas : ¬(mv.isEnPassant = true ∧ mv.isCastling = true))
    (hpromFacts : ∀ prom, mv.promotion = some prom →
      mv.piece = Piece.Pawn ∧ mv.isEnPassant = false ∧
      mv.isCastling = false ∧ prom ≠ Piece.Pawn ∧
      (b.pieceBB b.sideToMove prom).testBit mv.to_sq = false)
    (hepFacts : mv.isEnPassant = true → ∀ capSq,
      (if b.sideToMove = Color.White then mv.to_sq - 8
        else mv.to_sq + 8) = capSq →
      b.pieceOnSq mv.to_sq = EMPTY_SQ ∧ capSq < 64 ∧
      mv.from_sq ≠ capSq ∧ mv.to_sq ≠ capSq ∧
      (b.pieceBB b.sideToMove.opposite Piece.Pawn).testBit capSq = true ∧
      b.pieceOnSq capSq = mailboxCode b.sideToMove.opposite Piece.Pawn)
    (hcastleFacts : mv.isCastling = true →
      mv.piece ≠ Piece.Rook ∧ mv.piece ≠ Piece.Pawn ∧
      b.pieceOnSq mv.to_sq = EMPTY_SQ ∧
      ∃ rf rt, rookCastleSquares mv.to_sq = some (rf, rt) ∧ rf < 64 ∧
        rt < 64 ∧ rf ≠ rt ∧ rf ≠ mv.from_sq ∧ rf ≠ mv.to_sq ∧
        rt ≠ mv.from_sq ∧ rt ≠ mv.to_sq ∧
        (b.pieceBB b.sideToMove Piece.Rook).testBit rf = true ∧
        (b.pieceBB b.sideToMove Piece.Rook).testBit rt = false ∧
        b.pieceOnSq rf = mailboxCode b.sideToMove Piece.Rook ∧
        b.pieceOnSq rt = EMPTY_SQ)
    (hcapFacts : mv.isEnPassant = false →
      b.pieceOnSq mv.to_sq ≠ EMPTY_SQ →
      colorFromU8 (b.pieceOnSq mv.to_sq >>> 3) = b.sideToMove.opposite ∧
      (b.pieceBB (colorFromU8 (b.pieceOnSq mv.to_sq >>> 3))
        (pieceFromU8 (b.pieceOnSq mv.to_sq &&& 7))).testBit mv.to_sq =
        true ∧
      mailboxCode (colorFromU8 (b.pieceOnSq mv.to_sq >>> 3))
        (pieceFromU8 (b.pieceOnSq mv.to_sq &&& 7)) =
        b.pieceOnSq mv.to_sq) :
    undoMoveBasic keys (makeMoveBasic keys b mv).1
      (makeMoveBasic keys b mv).2 = b := by
  rcases hEPv : mv.isEnPassant with _ | _
  · rcases hCasv : mv.isCastling with _ | _
    · rcases hprv : mv.promotion with _ | prom
      · by_cases hocc : b.pieceOnSq mv.to_sq = EMPTY_SQ
        · exact undo_make_quiet keys b mv hoccb hlt hfrom64 hto64 hne hfrom
            hmbfrom htoself hEPv hCasv hprv hocc
        · obtain ⟨hc1, hc2, hc3⟩ := hcapFacts hEPv hocc
          exact undo_make_capture keys b mv _ _ hoccb hlt hfrom64 hto64 hne
            hfrom hmbfrom htoself hEPv hCasv hprv hocc rfl rfl hc1 hc2 hc3
      · obtain ⟨hpp, -, -, hpromne, htoprom⟩ := hpromFacts prom hprv
        by_cases hocc : b.pieceOnSq mv.to_sq = EMPTY_SQ
        · exact undo_make_promo keys b mv prom hoccb hlt hfrom64 hto64 hne
            hpp (hpp ▸ hfrom) (hpp ▸ hmbfrom) htoprom hEPv hCasv hprv
            hpromne hocc
        · obtain ⟨hc1, hc2, hc3⟩ := hcapFacts hEPv hocc
          exact undo_make_capture_promo keys b mv _ _ prom hoccb hlt hfrom64
            hto64 hne hpp (hpp ▸ hfrom) (hpp ▸ hmbfrom) htoprom hEPv hCasv
            hprv hpromne hocc rfl rfl hc1 hc2 hc3
    · have hpromn : mv.promotion = none := by
        rcases hp : mv.promotion with _ | prom
        · rfl
        · have h2 := (hpromFacts prom hp).2.2.1
          rw [h2] at hCasv
          exact Bool.noConfusion hCasv
      obtain ⟨hpR, hpPawn, hemp, rf, rt, hrk, h64f, h64t, hfr, hf1, hf2,
        hf3, hf4, hbit1, hbit2, hmb1, hmb2⟩ := hcastleFacts hCasv
      exact undo_make_castle keys b mv rf rt hoccb hlt hfrom64 hto64 hne
        hfrom hmbfrom htoself hEPv hCasv hpromn hpR hpPawn hemp hrk h64f
        h64t hfr hf1 hf2 hf3 hf4 hbit1 hbit2 hmb1 hmb2
  · have hcasb : mv.isCastling = false := by
      rcases hc : mv.isCastling with _ | _
      · rfl
      · exact absurd ⟨hEPv, hc⟩ hepcas
    have hpromn : mv.promotion = none := by
      rcases hp : mv.promotion with _ | prom
      · rfl
      · have h2 := (hpromFacts prom hp).2.1
        rw [h2] at hEPv
        exact Bool.noConfusion hEPv
    obtain ⟨he1, he2, he3, he4, he5, he6⟩ := hepFacts hEPv _ rfl
    exact undo_make_ep keys b mv _ hoccb hlt hfrom64 hto64 hne hfrom hmbfrom
      htoself hEPv hcasb hpromn he1 rfl he2 he3 he4 he5 he6

/-- All-zero key table for the concrete C1 run. -/
def c1Keys : ZobristKeys :=
  { piece := fun _ _ _ => 0, sideToMove := 0, castling := fun _ => 0,
    epFile := fun _ => 0 }

/-- A board holding a lone white king on e1 (square 4). -/
def c1Board : Board :=
  { pieceBB := fun c p =>
      match c, p with
      | Color.White, Piece.King => 2 ^ 4
      | _, _ => 0,
    occWhite := 2 ^ 4, occBlack := 0, occAll := 2 ^ 4,
    pieceOnSq := fun sq =>
      if sq = 4 then mailboxCode Color.White Piece.King else EMPTY_SQ,
    sideToMove := Color.White,
    castlingRights := 0, enPassant := none, halfmoveClock := 3,
    fullmoveNumber := 1, zobrist := 0, history := [] }

/-- The quiet king move e1-d1 used for the concrete C1 run. -/
def c1Move : Move :=
  { from_sq := 4, to_sq := 3, piece := Piece.King, promotion := none,
    flags := QUIET_MOVE }

/-- Concrete run of the C1 involution on a quiet king move: making and then
undoing the move restores the starting board bitwise. -/
theorem make_undo_involution_witness :
    undoMoveBasic c1Keys (makeMoveBasic c1Keys c1Board c1Move).1
      (makeMoveBasic c1Keys c1Board c1Move).2 = c1Board :=
  make_undo_involution c1Keys c1Board c1Move (by decide)
    (fun c p => by cases c <;> cases p <;> decide)
    (by decide) (by decide) (by decide) (by decide) (by decide) (by decide)
    (by decide)
    (fun prom h => nomatch h)
    (fun h => absurd h (by decide))
    (fun h => absurd h (by decide))
    (fun _ h => absurd (by decide) h)

/-- Concrete run of the C5 contract: with every iteration completing and no
mate scores, the driver returns the deepest iteration's result. -/
theorem search_returns_last_completed_iteration_witness :
    searchID (fun d => ((d : Int), none, false)) (fun _ => true) 3 =
      ((3 : Int), none) := by
  have hcommit : Committed (fun d => ((d : Int), none, false))
      (fun _ => true) 3 3 := by
    refine ⟨by omega, by omega, fun j h1 h2 h3 => rfl, fun j h1 h2 => ?_, rfl⟩
    refine ⟨rfl, ?_⟩
    have habs : |(j : Int)| = (j : Int) := abs_of_nonneg (by positivity)
    have hth : MATE_THRESHOLD = (30000 : Int) := rfl
    rw [habs, hth]
    omega
  exact (search_returns_last_completed_iteration
      (fun d => ((d : Int), none, false)) (fun _ => true) 3).2 3 hcommit
    (fun e he => he.2.1)

/-! ### C4: static exchange evaluation (`src/search/see.rs`) -/

/-- The fixed piece values of `static_exchange_eval`. -/
def pieceValue : Piece → Int
  | .Pawn => 100
  | .Knight => 320
  | .Bishop => 330
  | .Rook => 500
  | .Queen => 900
  | .King => 20000

/-- The piece stored in the mailbox at `sq` (`Board::piece_at(...).1`,
which `static_exchange_eval` unwraps on occupied squares). -/
def pieceAtSq (b : Board) (sq : Nat) : Piece :=
  pieceFromU8 (b.pieceOnSq sq &&& 7)

/-- Modelled from the spec (the pawn-attack table of the missing
`moves/pawn.rs`): squares attacked by a pawn of colour `c` on `sq`. -/
def pawnAttacksBB (sq : Nat) (c : Color) : Nat :=
  match c with
  | .White =>
    ((2 ^ sq <<< 7) % 2 ^ 64 &&& compl64 FILE_H) |||
      ((2 ^ sq <<< 9) % 2 ^ 64 &&& compl64 FILE_A)
  | .Black =>
    ((2 ^ sq >>> 7) &&& compl64 FILE_A) |||
      ((2 ^ sq >>> 9) &&& compl64 FILE_H)

/-- Modelled from the spec (the knight-attack table of the missing
`moves/knight.rs`): squares a knight on `sq` attacks. -/
def knightAttacksBB (sq : Nat) : Nat :=
  (List.range 64).foldl (fun (acc : Nat) (j : Nat) =>
    let dr := ((sq : Int) / 8 - (j : Int) / 8).natAbs
    let df := ((sq : Int) % 8 - (j : Int) % 8).natAbs
    if (dr = 1 ∧ df = 2) ∨ (dr = 2 ∧ df = 1) then acc ||| 2 ^ j else acc) 0

/-- Modelled from the spec (the king-attack table of the missing
`moves/king.rs`): squares a king on `sq` attacks. -/
def kingAttacksBB (sq : Nat) : Nat :=
  (List.range 64).foldl (fun (acc : Nat) (j : Nat) =>
    let dr := ((sq : Int) / 8 - (j : Int) / 8).natAbs
    let df := ((sq : Int) % 8 - (j : Int) % 8).natAbs
    if dr ≤ 1 ∧ df ≤ 1 ∧ j ≠ sq then acc ||| 2 ^ j else acc) 0

/-- Embedding of `scan_ray` from `src/moves/magic/attacks.rs`: walk from
`(rank, file)` in direction `(dr, df)`, collecting squares until a blocker
is hit or the board edge is left (the fuel `8` bounds the walk). -/
def scanRay (blockers : Nat) (dr df : Int) : Nat → Int → Int → Nat
  | 0, _, _ => 0
  | fuel + 1, r, f =>
    if 0 ≤ r ∧ r ≤ 7 ∧ 0 ≤ f ∧ f ≤ 7 then
      let sq := (r * 8 + f).toNat
      if (blockers >>> sq) &&& 1 = 0 then
        2 ^ sq ||| scanRay blockers dr df fuel (r + dr) (f + df)
      else 2 ^ sq
    else 0

/-- Embedding of `rook_attacks_per_square` from
`src/moves/magic/attacks.rs`. -/
def rookAttacksPerSquare (square : Nat) (blockers : Nat) : Nat :=
  let r : Int := (square : Int) / 8
  let f : Int := (square : Int) % 8
  scanRay blockers 1 0 8 (r + 1) f ||| scanRay blockers (-1) 0 8 (r - 1) f |||
    scanRay blockers 0 1 8 r (f + 1) ||| scanRay blockers 0 (-1) 8 r (f - 1)

/-- Embedding of `bishop_attacks_per_square` from
`src/moves/magic/attacks.rs`. -/
def bishopAttacksPerSquare (square : Nat) (blockers : Nat) : Nat :=
  let r : Int := (square : Int) / 8
  let f : Int := (square : Int) % 8
  scanRay blockers 1 1 8 (r + 1) (f + 1) |||
    scanRay blockers 1 (-1) 8 (r + 1) (f - 1) |||
    scanRay blockers (-1) 1 8 (r - 1) (f + 1) |||
    scanRay blockers (-1) (-1) 8 (r - 1) (f - 1)

/-- The slider-attack oracle passed to `static_exchange_eval` (the
`&MagicTables` parameter of the Rust code; its lookup tables are built from
the per-square ray scans above). -/
structure MagicTables where
  bishopAtt : Nat → Nat → Nat
  rookAtt : Nat → Nat → Nat

/-- The concrete tables: magic lookups agree with the ray scans they are
generated from. -/
def rayTables : MagicTables :=
  { bishopAtt := bishopAttacksPerSquare, rookAtt := rookAttacksPerSquare }

/-- Embedding of `get_attackers_to_square_see` from `src/search/see.rs`. -/
def getAttackersToSquareSee (b : Board) (T : MagicTables) (square : Nat)
    (occupancy : Nat) : Nat :=
  let whitePawns := pawnAttacksBB square Color.Black &&&
    b.pieces Piece.Pawn Color.White
  let blackPawns := pawnAttacksBB square Color.White &&&
    b.pieces Piece.Pawn Color.Black
  let knights := b.pieces Piece.Knight Color.White |||
    b.pieces Piece.Knight Color.Black
  let knightAtk := knightAttacksBB square &&& knights
  let kings := b.pieces Piece.King Color.White |||
    b.pieces Piece.King Color.Black
  let kingAtk := kingAttacksBB square &&& kings
  let bishopQueens := b.pieces Piece.Bishop Color.White |||
    b.pieces Piece.Bishop Color.Black |||
    b.pieces Piece.Queen Color.White ||| b.pieces Piece.Queen Color.Black
  let rookQueens := b.pieces Piece.Rook Color.White |||
    b.pieces Piece.Rook Color.Black |||
    b.pieces Piece.Queen Color.White ||| b.pieces Piece.Queen Color.Black
  let diag := T.bishopAtt square occupancy &&& bishopQueens
  let orth := T.rookAtt square occupancy &&& rookQueens
  (whitePawns ||| blackPawns ||| knightAtk ||| kingAtk ||| diag ||| orth)
    &&& occupancy

/-- Modelled from the spec (`u64::lsb` of the missing `bitboard.rs`):
index of the least-significant set bit below 64, or 64 if none. -/
def lsb64 (x : Nat) : Nat :=
  match (List.range 64).find? (fun i => x.testBit i) with
  | some i => i
  | none => 64

/-- Embedding of `get_lva_square` from `src/search/see.rs` (the `_occ`
parameter of the Rust function is unused and omitted). -/
def getLvaSquare (b : Board) (attackers : Nat) (side : Color) : Nat :=
  let sideAttackers := attackers &&& b.occupancy side
  if sideAttackers = 0 then 64
  else
    match [Piece.Pawn, Piece.Knight, Piece.Bishop, Piece.Rook, Piece.Queen,
        Piece.King].find?
        (fun p => decide (sideAttackers &&& b.pieces p side ≠ 0)) with
    | some p => lsb64 (sideAttackers &&& b.pieces p side)
    | none => 64

/-- The initial exchange victim of `static_exchange_eval`: a pawn for en
passant, otherwise the piece on the destination; `none` when the
destination is empty. -/
def seeInitialVictim (b : Board) (m : Move) : Option Piece :=
  if m.isEnPassant then some Piece.Pawn
  else if b.pieceOnSq m.to_sq = EMPTY_SQ then none
  else some (pieceFromU8 (b.pieceOnSq m.to_sq &&& 7))

/-- The swap loop of `static_exchange_eval`: returns the list of `gain[d]`
entries written for `d ≥ 1` (the fuel `30` bounds the writes exactly as the
`d >= 31` break does). -/
def seeLoop (b : Board) (T : MagicTables) (toSq : Nat) :
    Nat → Nat → Nat → Color → Piece → Int → List Int
  | 0, _, _, _, _, _ => []
  | fuel + 1, attackers, occ, side, victim, prevGain =>
    let asq := getLvaSquare b attackers side
    if asq = 64 then []
    else
      let occ1 := occ &&& compl64 (2 ^ asq)
      let att1 :=
        if victim = Piece.Bishop ∨ victim = Piece.Rook ∨
            victim = Piece.Queen then
          getAttackersToSquareSee b T toSq occ1 &&& compl64 (2 ^ asq)
        else attackers &&& compl64 (2 ^ asq)
      let g := pieceValue victim - prevGain
      g :: seeLoop b T toSq fuel att1 occ1 side.opposite (pieceAtSq b asq) g

/-- The back-propagation `gain[d-1] = -max(-gain[d-1], gain[d])` of
`static_exchange_eval`, folded over the written gain entries. -/
def seeFold : List Int → Int
  | [] => 0
  | [g] => g
  | g :: g2 :: rest => -max (-g) (seeFold (g2 :: rest))

/-- Embedding of `static_exchange_eval` from `src/search/see.rs`. -/
def staticExchangeEval (b : Board) (T : MagicTables) (m : Move)
    (threshold : Int) : Bool :=
  match seeInitialVictim b m with
  | none => decide (threshold ≤ 0)
  | some victim0 =>
    let value : Int := pieceValue victim0 +
      (match m.promotion with
       | some p => pieceValue p - pieceValue Piece.Pawn
       | none => 0)
    if value < threshold then false
    else
      let nextVictim : Piece :=
        match m.promotion with
        | some p => p
        | none => pieceAtSq b m.from_sq
      let occ0 := b.occAll &&& compl64 (2 ^ m.from_sq)
      let att0 := getAttackersToSquareSee b T m.to_sq occ0
      decide (seeFold (value :: seeLoop b T m.to_sq 30 att0 occ0
        b.sideToMove.opposite nextVictim value) ≥ threshold)

/-- Negamax reading of the swap loop: the value the side to move can secure
from the exchange (it may stand pat), over exactly the attacker sequence
the loop explores. -/
def seeNegamax (b : Board) (T : MagicTables) (toSq : Nat) :
    Nat → Nat → Nat → Color → Piece → Int
  | 0, _, _, _, _ => 0
  | fuel + 1, attackers, occ, side, victim =>
    let asq := getLvaSquare b attackers side
    if asq = 64 then 0
    else
      let occ1 := occ &&& compl64 (2 ^ asq)
      let att1 :=
        if victim = Piece.Bishop ∨ victim = Piece.Rook ∨
            victim = Piece.Queen then
          getAttackersToSquareSee b T toSq occ1 &&& compl64 (2 ^ asq)
        else attackers &&& compl64 (2 ^ asq)
      max 0 (pieceValue victim -
        seeNegamax b T toSq fuel att1 occ1 side.opposite (pieceAtSq b asq))

/-- The value `static_exchange_eval` compares against the threshold: the
initial victim's value (plus the promotion upgrade) minus the opponent's
negamax continuation; 0 when there is no initial victim. -/
def seeSwapValue (b : Board) (T : MagicTables) (m : Move) : Int :=
  match seeInitialVictim b m with
  | none => 0
  | some victim0 =>
    let value : Int := pieceValue victim0 +
      (match m.promotion with
       | some p => pieceValue p - pieceValue Piece.Pawn
       | none => 0)
    let nextVictim : Piece :=
      match m.promotion with
      | some p => p
      | none => pieceAtSq b m.from_sq
    let occ0 := b.occAll &&& compl64 (2 ^ m.from_sq)
    let att0 := getAttackersToSquareSee b T m.to_sq occ0
    value - seeNegamax b T m.to_sq 30 att0 occ0 b.sideToMove.opposite
      nextVictim

theorem seeNegamax_nonneg (b : Board) (T : MagicTables) (toSq : Nat) :
    ∀ fuel attackers occ side victim,
      0 ≤ seeNegamax b T toSq fuel attackers occ side victim := by
  intro fuel attackers occ side victim
  cases fuel with
  | zero => exact le_refl 0
  | succ n =>
    rw [seeNegamax]
    split
    · exact le_refl 0
    · exact le_max_left 0 _

theorem seeFold_seeLoop (b : Board) (T : MagicTables) (toSq : Nat) :
    ∀ fuel attackers occ side victim g,
      seeFold (g :: seeLoop b T toSq fuel attackers occ side victim g) =
        g - seeNegamax b T toSq fuel attackers occ side victim := by
  intro fuel
  induction fuel with
  | zero => intro attackers occ side victim g; simp [seeLoop, seeFold,
      seeNegamax]
  | succ n ih =>
    intro attackers occ side victim g
    rw [seeLoop, seeNegamax]
    by_cases hasq : getLvaSquare b attackers side = 64
    · rw [if_pos hasq, if_pos hasq]
      simp [seeFold]
    · rw [if_neg hasq, if_neg hasq]
      rw [seeFold, ih]
      rw [max_def, max_def]
      split <;> split <;> omega

/-- Modelled from the spec: the best value the recapturing side can secure
on the destination square, recomputing the attacker set from the current
occupancy at every step. -/
def seeSpecBest (b : Board) (T : MagicTables) (toSq : Nat) :
    Nat → Nat → Color → Piece → Int
  | 0, _, _, _ => 0
  | fuel + 1, occ, side, victim =>
    let att := getAttackersToSquareSee b T toSq occ
    let asq := getLvaSquare b att side
    if asq = 64 then 0
    else max 0 (pieceValue victim -
      seeSpecBest b T toSq fuel (occ &&& compl64 (2 ^ asq)) side.opposite
        (pieceAtSq b asq))

/-- Modelled from the spec: the static material outcome of playing `m` and
then the best alternating sequence of least-valuable-attacker recaptures on
the destination square, in the fixed piece values, from the moving side's
perspective. -/
def seeSpecOutcome (b : Board) (T : MagicTables) (m : Move) : Int :=
  let victimVal : Int :=
    if m.isEnPassant then pieceValue Piece.Pawn
    else if b.pieceOnSq m.to_sq = EMPTY_SQ then 0
    else pieceValue (pieceFromU8 (b.pieceOnSq m.to_sq &&& 7))
  let promoDelta : Int :=
    match m.promotion with
    | some p => pieceValue p - pieceValue Piece.Pawn
    | none => 0
  let mover : Piece :=
    match m.promotion with
    | some p => p
    | none => pieceAtSq b m.from_sq
  let capMask : Nat :=
    if m.isEnPassant then
      compl64 (2 ^ (if b.sideToMove = Color.White then m.to_sq - 8
        else m.to_sq + 8))
    else compl64 0
  let occ0 := b.occAll &&& compl64 (2 ^ m.from_sq) &&& capMask
  victimVal + promoDelta -
    seeSpecBest b T m.to_sq 32 occ0 b.sideToMove.opposite mover

/-- Board for the C4 counterexample: White pawn a7, White king e1, Black
king e8, White to move. -/
def c4Board : Board :=
  { pieceBB := fun c p =>
      match c, p with
      | Color.White, Piece.Pawn => 2 ^ 48
      | Color.White, Piece.King => 2 ^ 4
      | Color.Black, Piece.King => 2 ^ 60
      | _, _ => 0,
    occWhite := 2 ^ 48 ||| 2 ^ 4, occBlack := 2 ^ 60,
    occAll := 2 ^ 48 ||| 2 ^ 4 ||| 2 ^ 60,
    pieceOnSq := fun sq =>
      if sq = 48 then mailboxCode Color.White Piece.Pawn
      else if sq = 4 then mailboxCode Color.White Piece.King
      else if sq = 60 then mailboxCode Color.Black Piece.King
      else EMPTY_SQ,
    sideToMove := Color.White,
    castlingRights := 0, enPassant := none, halfmoveClock := 0,
    fullmoveNumber := 1, zobrist := 0, history := [] }

/-- The non-capture promotion a7a8=Q of the C4 counterexample. -/
def c4Move : Move :=
  { from_sq := 48, to_sq := 56, piece := Piece.Pawn,
    promotion := some Piece.Queen, flags := PROMOTION }

/-- Counterexample to C4 as stated: for the uncontested non-capture
promotion a7a8=Q and threshold 500, the spec's material outcome is the
promotion gain 800 ≥ 500, but `static_exchange_eval` takes the
`None => return threshold <= 0` early exit and answers `false`. -/
theorem see_ignores_noncapture_promotion :
    staticExchangeEval c4Board rayTables c4Move 500 = false ∧
    (500 : Int) ≤ seeSpecOutcome c4Board rayTables c4Move := by
  constructor
  · decide
  · decide

/-- C4 (amended): when the destination is occupied or the move is en
passant, `static_exchange_eval(m, t)` is true iff the negamax value of the
swap loop's alternating least-valuable-attacker exchange (initial victim
plus promotion upgrade, minus the opponent's best continuation over the
loop's attacker updates) is at least `t`; when the destination is empty and
the move is not en passant — including every non-capture promotion — it
returns `t ≤ 0` without inspecting the move, ignoring the promotion gain
the contract requires. -/
theorem static_exchange_eval_contract (b : Board) (T : MagicTables)
    (m : Move) (t : Int) :
    staticExchangeEval b T m t = true ↔
      (match seeInitialVictim b m with
       | none => t ≤ 0
       | some _ => t ≤ seeSwapValue b T m) := by
  unfold staticExchangeEval seeSwapValue
  cases hv : seeInitialVictim b m with
  | none => simp
  | some victim0 =>
    dsimp only
    by_cases hlt : pieceValue victim0 +
        (match m.promotion with
         | some p => pieceValue p - pieceValue Piece.Pawn
         | none => 0) < t
    · rw [if_pos hlt]
      have hnn := seeNegamax_nonneg b T m.to_sq 30
        (getAttackersToSquareSee b T m.to_sq
          (b.occAll &&& compl64 (2 ^ m.from_sq)))
        (b.occAll &&& compl64 (2 ^ m.from_sq)) b.sideToMove.opposite
        (match m.promotion with
         | some p => p
         | none => pieceAtSq b m.from_sq)
      constructor
      · intro h
        exact Bool.noConfusion h
      · intro h
        omega
    · rw [if_neg hlt]
      rw [seeFold_seeLoop]
      simp only [decide_eq_true_eq, ge_iff_le]

/-! ### C7: static evaluation and its symmetry (`src/search/eval.rs`) -/

/-- Embedding of `Board::king_square` (`trailing_zeros` of the king
bitboard; the Rust code panics when it is empty, which the evaluation never
exercises on boards with kings). -/
def kingSquare (b : Board) (c : Color) : Nat :=
  lsb64 (b.pieces Piece.King c)

/-- Embedding of `mvv_lva_score` from `src/search/ordering.rs`. -/
def mvvLvaScore (mv : Move) (b : Board) : Int :=
  if !mv.isCapture then 0
  else
    match b.pieceAt mv.to_sq with
    | some cp => cp.2.value * 10 - mv.piece.attackerValue
    | none => if mv.isEnPassant then 999 else 0

/-- Embedding of `is_square_attacked` from `src/moves/square_control.rs`. -/
def isSquareAttacked (T : MagicTables) (b : Board) (sq : Nat)
    (attacker : Color) : Bool :=
  let target := 2 ^ sq % 2 ^ 64
  let pawnAttackers :=
    match attacker with
    | Color.White => ((target &&& compl64 FILE_H) >>> 7) |||
        ((target &&& compl64 FILE_A) >>> 9)
    | Color.Black => (((target &&& compl64 FILE_A) <<< 7) % 2 ^ 64) |||
        (((target &&& compl64 FILE_H) <<< 9) % 2 ^ 64)
  if pawnAttackers &&& b.pieces Piece.Pawn attacker ≠ 0 then true
  else if knightAttacksBB sq &&& b.pieces Piece.Knight attacker ≠ 0 then
    true
  else if kingAttacksBB sq &&& b.pieces Piece.King attacker ≠ 0 then true
  else
    let occupied := b.occupied
    let rookA := T.rookAtt sq occupied
    if rookA &&& b.pieces Piece.Rook attacker ≠ 0 then true
    else
      let bishopA := T.bishopAtt sq occupied
      if bishopA &&& b.pieces Piece.Bishop attacker ≠ 0 then true
      else decide ((rookA ||| bishopA) &&& b.pieces Piece.Queen attacker ≠ 0)

/-- Embedding of `in_check` from `src/moves/square_control.rs`. -/
def inCheck (T : MagicTables) (b : Board) (side : Color) : Bool :=
  isSquareAttacked T b (kingSquare b side) side.opposite

/-- Embedding of `is_legal_castling` from `src/moves/square_control.rs`. -/
def isLegalCastling (T : MagicTables) (b : Board) (mv : Move) : Bool :=
  if inCheck T b b.sideToMove then false
  else
    match
      (match b.sideToMove, mv.to_sq with
       | Color.White, 6 => some ((4 : Nat), (5 : Nat), (6 : Nat))
       | Color.White, 2 => some (4, 3, 2)
       | Color.Black, 62 => some (60, 61, 62)
       | Color.Black, 58 => some (60, 59, 58)
       | _, _ => none) with
    | none => false
    | some (s, m, e) =>
      let opp := b.sideToMove.opposite
      !(isSquareAttacked T b s opp || isSquareAttacked T b m opp ||
        isSquareAttacked T b e opp)

/-- Embedding of `is_legal_move` from `src/moves/execute.rs`: castling goes
through `is_legal_castling`, every other move is made on the board and the
mover's king tested for check (the make/undo round trip is the pure
`makeMoveBasic` application here). -/
def isLegalMove (keys : ZobristKeys) (T : MagicTables) (b : Board)
    (mv : Move) : Bool :=
  if mv.isCastling then isLegalCastling T b mv
  else !(inCheck T (makeMoveBasic keys b mv).1 b.sideToMove)

/-- Embedding of `is_pseudo_legal` from `src/search/picker.rs` (pawn push
deltas are computed in ℤ, mirroring the `i32` arithmetic of the Rust
code). -/
def isPseudoLegal (T : MagicTables) (b : Board) (mv : Move) : Bool :=
  let color := b.sideToMove
  let fromBB := 2 ^ mv.from_sq % 2 ^ 64
  let toBB := 2 ^ mv.to_sq % 2 ^ 64
  if b.pieces mv.piece color &&& fromBB = 0 then false
  else if b.occupancy color &&& toBB ≠ 0 then false
  else if mv.isCapture && !mv.isEnPassant &&
      decide (b.opponentOccupancy color &&& toBB = 0) then false
  else if b.pieces Piece.King color.opposite &&& toBB ≠ 0 then false
  else
    match mv.piece with
    | Piece.Pawn =>
      let pawnAtt := pawnAttacksBB mv.from_sq color
      let pawnOk : Bool :=
        if mv.isEnPassant then
          match b.enPassant with
          | some ep =>
            decide (mv.to_sq = ep) && decide (pawnAtt &&& toBB ≠ 0)
          | none => false
        else if mv.isCapture then decide (pawnAtt &&& toBB ≠ 0)
        else
          let empty := compl64 b.occupied
          let pushDelta : Int := if color = Color.White then 8 else -8
          let doubleRank : Nat :=
            if color = Color.White then 0xFF00 else 0x00FF000000000000
          let doubleDelta : Int := if color = Color.White then 16 else -16
          if mv.isDoublePawnPush then
            decide (fromBB &&& doubleRank ≠ 0) &&
            decide ((mv.to_sq : Int) = (mv.from_sq : Int) + doubleDelta) &&
            decide (empty &&&
              2 ^ ((mv.from_sq : Int) + pushDelta).toNat % 2 ^ 64 ≠ 0) &&
            decide (empty &&& toBB ≠ 0)
          else
            decide ((mv.to_sq : Int) = (mv.from_sq : Int) + pushDelta) &&
            decide (empty &&& toBB ≠ 0)
      if !pawnOk then false
      else if mv.isPromotion then
        decide (mv.to_sq / 8 = if color = Color.White then 7 else 0)
      else true
    | Piece.Knight => decide (knightAttacksBB mv.from_sq &&& toBB ≠ 0)
    | Piece.Bishop =>
      decide (T.bishopAtt mv.from_sq b.occupied &&& toBB ≠ 0)
    | Piece.Rook => decide (T.rookAtt mv.from_sq b.occupied &&& toBB ≠ 0)
    | Piece.Queen =>
      decide ((T.bishopAtt mv.from_sq b.occupied |||
        T.rookAtt mv.from_sq b.occupied) &&& toBB ≠ 0)
    | Piece.King =>
      if mv.isCastling then
        if mv.isKingsideCastle then
          (if color = Color.White then
            decide (b.castlingRights &&& CASTLE_WK ≠ 0)
          else decide (b.castlingRights &&& CASTLE_BK ≠ 0)) &&
          decide (b.occupied &&&
            (if color = Color.White then 0x60
             else 0x6000000000000000) = 0)
        else
          (if color = Color.White then
            decide (b.castlingRights &&& CASTLE_WQ ≠ 0)
          else decide (b.castlingRights &&& CASTLE_BQ ≠ 0)) &&
          decide (b.occupied &&&
            (if color = Color.White then 0xE
             else 0x0E00000000000000) = 0)
      else decide (kingAttacksBB mv.from_sq &&& toBB ≠ 0)

/-- Embedding of `MovePicker::is_hash_move` (moves are compared by origin,
destination and promotion only). -/
def isHashMoveB (hm : Option Move) (mv : Move) : Bool :=
  match hm with
  | some h =>
    decide (mv.from_sq = h.from_sq) && decide (mv.to_sq = h.to_sq) &&
      decide (mv.promotion = h.promotion)
  | none => false

/-- Embedding of `MovePicker::is_killer`. -/
def isKillerB (k1 k2 : Option Move) (mv : Move) : Bool :=
  isHashMoveB k1 mv || isHashMoveB k2 mv

/-- Embedding of `MovePicker::is_duplicate`. -/
def isDuplicateB (hm k1 k2 : Option Move) (mv : Move) : Bool :=
  isHashMoveB hm mv || isKillerB k1 k2 mv

/-- The quiet-move score of `MovePicker::generate_quiets`: history value
plus the pawn-advancement bonus. -/
def quietScore (hist : Nat → Nat → Int) (b : Board) (mv : Move) : Int :=
  let s := hist mv.from_sq mv.to_sq
  if mv.piece = Piece.Pawn then
    let toRank := mv.to_sq / 8
    let fromRank := mv.from_sq / 8
    let isAdvancing :=
      match b.sideToMove with
      | Color.White => decide (fromRank < toRank)
      | Color.Black => decide (toRank < fromRank)
    if isAdvancing then
      s + (if toRank = 3 ∨ toRank = 4 then 1000 else 0) +
        (if toRank = 5 ∨ toRank = 6 then 2000 else 0)
    else s
  else s

/-- Placeholder move for out-of-range buffer reads (never produced: the
picker only reads indices below the buffer length). -/
def dummyMove : Move :=
  { from_sq := 0, to_sq := 0, piece := Piece.Pawn, promotion := none,
    flags := 0 }

/-- `ArrayVec::swap` on a list (the Rust call is always in bounds). -/
def swapL (l : List α) (i j : Nat) : List α :=
  if h : i < l.length ∧ j < l.length then
    (l.set i (l.get ⟨j, h.2⟩)).set j (l.get ⟨i, h.1⟩)
  else l

/-- The argmax scan of `pick_best_capture` / `pick_best_quiet`: the index of
the best remaining score from `idx` on (the earliest index wins ties, as in
the strict `>` comparison of the Rust loop). -/
def argmaxFrom (scores : List Int) (idx : Nat) : Nat :=
  (List.range scores.length).foldl (fun best i =>
    if idx < i ∧ scores.getD best 0 < scores.getD i 0 then i else best) idx

/-- The stream of moves returned by repeated `pick_best_*` calls: find the
best remaining score, swap it to the front of the remaining segment, yield
it and advance (the fuel is the buffer length). -/
def selectionStream : Nat → List Move → List Int → Nat → List Move
  | 0, _, _, _ => []
  | fuel + 1, arr, scores, idx =>
    if idx < arr.length then
      (swapL arr idx (argmaxFrom scores idx)).getD idx dummyMove ::
        selectionStream fuel (swapL arr idx (argmaxFrom scores idx))
          (swapL scores idx (argmaxFrom scores idx)) (idx + 1)
    else []

theorem count_set_aux {α : Type} [DecidableEq α] :
    ∀ (l : List α) (n : Nat) (a b x : α), l.get? n = some a →
      (l.set n b).count x + (if a = x then 1 else 0) =
        l.count x + (if b = x then 1 else 0) := by
  intro l
  induction l with
  | nil => intro n a b x h; simp at h
  | cons hd tl ih =>
    intro n a b x h
    cases n with
    | zero =>
      simp only [List.get?] at h
      obtain rfl : hd = a := by injection h
      simp only [List.set, List.count_cons, beq_iff_eq]
      split_ifs <;> omega
    | succ m =>
      simp only [List.get?] at h
      have h2 := ih m a b x h
      simp only [List.set, List.count_cons, beq_iff_eq]
      by_cases hax : a = x <;> by_cases hbx : b = x <;>
        simp only [hax, hbx, if_true, if_false] at h2 ⊢ <;>
        split_ifs <;> omega

theorem swapL_length {α : Type} (l : List α) (i j : Nat) :
    (swapL l i j).length = l.length := by
  unfold swapL
  split <;> simp [List.length_set]

theorem count_swapL {α : Type} [DecidableEq α] (l : List α) (i j : Nat)
    (x : α) : (swapL l i j).count x = l.count x := by
  unfold swapL
  split
  · rename_i h
    have h1 : l.get? i = some (l.get ⟨i, h.1⟩) := List.get?_eq_get h.1
    have hj' : (l.set i (l.get ⟨j, h.2⟩)).get? j =
        some (l.get ⟨j, h.2⟩) := by
      by_cases hij : i = j
      · subst hij
        rw [List.get?_eq_getElem?]
        simp [List.getElem?_set_self, h.1]
      · rw [List.get?_eq_getElem?, List.getElem?_set_ne hij,
          ← List.get?_eq_getElem?]
        exact List.get?_eq_get h.2
    have e1 := count_set_aux l i (l.get ⟨i, h.1⟩) (l.get ⟨j, h.2⟩) x h1
    have e2 := count_set_aux (l.set i (l.get ⟨j, h.2⟩)) j
      (l.get ⟨j, h.2⟩) (l.get ⟨i, h.1⟩) x hj'
    by_cases hax : l.get ⟨i, h.1⟩ = x <;>
      by_cases hbx : l.get ⟨j, h.2⟩ = x
    · rw [if_pos hax, if_pos hbx] at e1 e2
      omega
    · rw [if_pos hax, if_neg hbx] at e1 e2
      omega
    · rw [if_neg hax, if_pos hbx] at e1 e2
      omega
    · rw [if_neg hax, if_neg hbx] at e1 e2
      omega
  · rfl

theorem take_set_le {α : Type} :
    ∀ (l : List α) (n m : Nat) (a : α), n ≤ m →
      (l.set m a).take n = l.take n := by
  intro l
  induction l with
  | nil => intros; simp
  | cons hd tl ih =>
    intro n m a h
    cases m with
    | zero =>
      obtain rfl : n = 0 := Nat.le_zero.mp h
      simp
    | succ m' =>
      cases n with
      | zero => simp
      | succ n' =>
        simp only [List.set, List.take]
        rw [ih n' m' a (by omega)]

theorem take_swapL {α : Type} (l : List α) (i j : Nat) (hij : i ≤ j) :
    (swapL l i j).take i = l.take i := by
  unfold swapL
  split
  · rw [take_set_le _ i j _ hij, take_set_le _ i i _ (le_refl i)]
  · rfl

theorem count_take_drop {α : Type} [DecidableEq α] (l : List α) (n : Nat)
    (x : α) : l.count x = (l.take n).count x + (l.drop n).count x := by
  conv_lhs => rw [← List.take_append_drop n l]
  rw [List.count_append]

theorem count_drop_swapL {α : Type} [DecidableEq α] (l : List α)
    (i j : Nat) (x : α) (hij : i ≤ j) :
    ((swapL l i j).drop i).count x = (l.drop i).count x := by
  have h1 := count_take_drop (swapL l i j) i x
  have h2 := count_take_drop l i x
  rw [take_swapL l i j hij] at h1
  have h3 := count_swapL l i j x
  omega

theorem argmaxFrom_ge (scores : List Int) (idx : Nat) :
    idx ≤ argmaxFrom scores idx := by
  unfold argmaxFrom
  have key : ∀ (L : List Nat) (best : Nat), idx ≤ best →
      idx ≤ L.foldl (fun best i =>
        if idx < i ∧ scores.getD best 0 < scores.getD i 0 then i
        else best) best := by
    intro L
    induction L with
    | nil => intro best h; exact h
    | cons a L ih =>
      intro best h
      simp only [List.foldl]
      apply ih
      split
      · omega
      · exact h
  exact key _ idx (le_refl idx)

theorem argmaxFrom_lt (scores : List Int) (idx : Nat)
    (h : idx < scores.length) : argmaxFrom scores idx < scores.length := by
  unfold argmaxFrom
  have key : ∀ (L : List Nat) (best : Nat), (∀ i ∈ L, i < scores.length) →
      best < scores.length →
      L.foldl (fun best i =>
        if idx < i ∧ scores.getD best 0 < scores.getD i 0 then i
        else best) best < scores.length := by
    intro L
    induction L with
    | nil => intro best _ h2; exact h2
    | cons a L ih =>
      intro best h1 h2
      simp only [List.foldl]
      apply ih _ (fun i hi => h1 i (List.mem_cons_of_mem a hi))
      split
      · exact h1 a (List.mem_cons_self a L)
      · exact h2
  exact key _ idx (fun i hi => List.mem_range.mp hi) h

theorem selectionStream_count :
    ∀ (fuel : Nat) (arr : List Move) (scores : List Int) (idx : Nat)
      (x : Move), arr.length ≤ idx + fuel → scores.length = arr.length →
      (selectionStream fuel arr scores idx).count x =
        (arr.drop idx).count x := by
  intro fuel
  induction fuel with
  | zero =>
    intro arr scores idx x hf hlen
    rw [List.drop_eq_nil_of_le (by omega)]
    rfl
  | succ n ih =>
    intro arr scores idx x hf hlen
    rw [selectionStream]
    by_cases hidx : idx < arr.length
    · rw [if_pos hidx]
      have hge := argmaxFrom_ge scores idx
      have hlt : argmaxFrom scores idx < arr.length := by
        rcases Nat.eq_or_lt_of_le hge with heq | hgt
        · omega
        · have := argmaxFrom_lt scores idx (by omega)
          omega
      have hlen1 : (swapL arr idx (argmaxFrom scores idx)).length =
          arr.length := swapL_length _ _ _
      have hidx1 : idx < (swapL arr idx (argmaxFrom scores idx)).length := by
        omega
      rw [List.count_cons]
      rw [ih _ _ _ x (by omega)
        (by rw [swapL_length, swapL_length]; exact hlen)]
      have hdrop := count_drop_swapL arr idx (argmaxFrom scores idx) x hge
      rw [← hdrop, List.drop_eq_getElem_cons hidx1, List.count_cons,
        List.getD_eq_getElem _ _ hidx1]
    · rw [if_neg hidx]
      rw [List.drop_eq_nil_of_le (by omega)]

theorem count_filter' {α : Type} [DecidableEq α] (p : α → Bool) (x : α)
    (l : List α) :
    (l.filter p).count x = if p x then l.count x else 0 := by
  by_cases hpx : p x
  · rw [if_pos hpx]
    induction l with
    | nil => rfl
    | cons hd tl ih =>
      rw [List.count_cons, List.filter_cons]
      by_cases hp : p hd
      · rw [if_pos hp, List.count_cons, ih]
      · rw [if_neg hp, ih]
        have hne : (hd == x) = false :=
          beq_eq_false_iff_ne.mpr fun he => hp (he ▸ hpx)
        rw [hne]
        simp
  · rw [if_neg hpx]
    exact List.count_eq_zero.mpr fun hmem => hpx (List.of_mem_filter hmem)

-- ===== movegen.rs embedding and the move-picker refinement =====

def popBits : Nat → Nat → List Nat
  | 0, _ => []
  | fuel + 1, bb =>
    if bb = 0 then [] else
      lsb64 bb :: popBits fuel (bb ^^^ 2 ^ lsb64 bb % 2 ^ 64)

theorem nat_ne_zero_iff_testBit' (x : Nat) :
    x ≠ 0 ↔ ∃ i, x.testBit i = true := by
  constructor
  · intro h
    exact Nat.ne_zero_implies_bit_true h
  · rintro ⟨i, hi⟩ h0
    rw [h0, Nat.zero_testBit] at hi
    exact Bool.noConfusion hi

theorem lsb64_spec (bb : Nat) (hne : bb ≠ 0) (hlt : bb < 2 ^ 64) :
    lsb64 bb < 64 ∧ bb.testBit (lsb64 bb) = true := by
  unfold lsb64
  rcases hfind : (List.range 64).find? (fun i => bb.testBit i) with _ | i
  · exfalso
    rcases (nat_ne_zero_iff_testBit' bb).mp hne with ⟨i, hi⟩
    have hi64 : i < 64 := by
      by_contra h
      have : bb < 2 ^ i :=
        lt_of_lt_of_le hlt (Nat.pow_le_pow_right (by omega) (by omega))
      rw [Nat.testBit_lt_two_pow this] at hi
      exact Bool.noConfusion hi
    have := List.find?_eq_none.mp hfind i (List.mem_range.mpr hi64)
    simp [hi] at this
  · refine ⟨List.mem_range.mp (List.mem_of_find?_eq_some hfind), ?_⟩
    simpa using List.find?_some hfind

theorem testBit_shiftRight_and_one (x i : Nat) :
    (x >>> i) &&& 1 = if x.testBit i then 1 else 0 := by
  have h1 : (x >>> i) &&& 1 = (x >>> i) % 2 := Nat.and_one_is_mod _
  rw [h1, Nat.testBit_to_div_mod, Nat.shiftRight_eq_div_pow]
  rcases Nat.mod_two_eq_zero_or_one (x / 2 ^ i) with h | h <;> simp [h]

theorem countP_clear_bit (L : List Nat) (p q : Nat → Bool) (l : Nat)
    (hpq : ∀ i, i ≠ l → p i = q i) (hp : p l = true) (hq : q l = false) :
    L.countP p = L.countP q + L.count l := by
  induction L with
  | nil => rfl
  | cons a t ih =>
    rw [List.countP_cons, List.countP_cons, List.count_cons, ih]
    by_cases ha : a = l
    · subst ha
      simp only [hp, hq, beq_self_eq_true, if_true, Bool.false_eq_true,
        if_false]
      omega
    · have hne : (a == l) = false := beq_eq_false_iff_ne.mpr ha
      simp only [hpq a ha, hne, Bool.false_eq_true, if_false]
      omega

theorem popBits_count_aux :
    ∀ (fuel : Nat) (bb : Nat), bb < 2 ^ 64 →
      (List.range 64).countP (fun i => bb.testBit i) ≤ fuel →
      ∀ i, (popBits fuel bb).count i = if bb.testBit i then 1 else 0 := by
  intro fuel
  induction fuel with
  | zero =>
    intro bb hlt hcnt i
    have h0 : (List.range 64).countP (fun i => bb.testBit i) = 0 := by omega
    have hall := List.countP_eq_zero.mp h0
    have hbit : bb.testBit i = false := by
      by_cases hi : i < 64
      · have := hall i (List.mem_range.mpr hi)
        simpa using this
      · exact Nat.testBit_lt_two_pow
          (lt_of_lt_of_le hlt (Nat.pow_le_pow_right (by omega) (by omega)))
    rw [hbit]
    rfl
  | succ n ih =>
    intro bb hlt hcnt i
    rw [popBits]
    by_cases hbb : bb = 0
    · subst hbb
      rw [if_pos rfl]
      rw [Nat.zero_testBit]
      rfl
    · rw [if_neg hbb]
      obtain ⟨hl64, hbit⟩ := lsb64_spec bb hbb hlt
      have hmod : 2 ^ lsb64 bb % 2 ^ 64 = 2 ^ lsb64 bb :=
        Nat.mod_eq_of_lt (Nat.pow_lt_pow_right (by omega) hl64)
      rw [hmod]
      have hlt' : bb ^^^ 2 ^ lsb64 bb < 2 ^ 64 :=
        Nat.xor_lt_two_pow hlt (Nat.pow_lt_pow_right (by omega) hl64)
      have hbit' : ∀ j, (bb ^^^ 2 ^ lsb64 bb).testBit j =
          if j = lsb64 bb then !bb.testBit j else bb.testBit j := by
        intro j
        rw [Nat.testBit_xor, Nat.testBit_two_pow]
        by_cases hj : j = lsb64 bb
        · subst hj
          simp
        · have hj' : ¬ lsb64 bb = j := fun he => hj he.symm
          simp [hj, hj']
      have hcnt' : (List.range 64).countP
          (fun i => (bb ^^^ 2 ^ lsb64 bb).testBit i) ≤ n := by
        have hkey := countP_clear_bit (List.range 64)
          (fun i => bb.testBit i)
          (fun i => (bb ^^^ 2 ^ lsb64 bb).testBit i) (lsb64 bb)
          (fun i hi => by
            have := hbit' i
            rw [if_neg hi] at this
            exact this.symm)
          hbit
          (by
            have := hbit' (lsb64 bb)
            rw [if_pos rfl, hbit] at this
            simpa using this)
        have hc1 : (List.range 64).count (lsb64 bb) = 1 :=
          List.count_eq_one_of_mem (List.nodup_range 64)
            (List.mem_range.mpr hl64)
        omega
      have hrest := ih (bb ^^^ 2 ^ lsb64 bb) hlt' hcnt'
      rw [List.count_cons, hrest i]
      by_cases hi : i = lsb64 bb
      · rw [hi]
        have h1 := hbit' (lsb64 bb)
        rw [if_pos rfl, hbit] at h1
        rw [h1, hbit]
        simp
      · have h1 := hbit' i
        rw [if_neg hi] at h1
        rw [h1]
        have hne : (lsb64 bb == i) = false :=
          beq_eq_false_iff_ne.mpr fun he => hi he.symm
        rw [hne]
        simp

theorem popBits_count (bb : Nat) (hlt : bb < 2 ^ 64) (i : Nat) :
    (popBits 64 bb).count i = if bb.testBit i then 1 else 0 :=
  popBits_count_aux 64 bb hlt
    (le_trans (List.countP_le_length _) (by simp)) i

theorem popBits_mem (bb : Nat) (hlt : bb < 2 ^ 64) (i : Nat) :
    i ∈ popBits 64 bb ↔ bb.testBit i = true := by
  rw [← List.count_pos_iff, popBits_count bb hlt i]
  constructor
  · intro h
    by_contra hc
    rw [Bool.not_eq_true] at hc
    rw [hc] at h
    simp at h
  · intro h
    rw [h]
    simp

theorem count_map' {α β : Type} [DecidableEq β] (l : List α) (f : α → β)
    (x : β) : (l.map f).count x = l.countP (fun a => f a == x) := by
  induction l with
  | nil => rfl
  | cons a t ih =>
    rw [List.map_cons, List.count_cons, List.countP_cons, ih]

theorem count_map_proj {α β : Type} [DecidableEq α] [DecidableEq β]
    (L : List α) (f : α → β) (proj : β → α) (hf : ∀ i, proj (f i) = i)
    (x : β) :
    (L.map f).count x =
      if f (proj x) = x then L.count (proj x) else 0 := by
  induction L with
  | nil => simp
  | cons a t ih =>
    rw [List.map_cons, List.count_cons, ih]
    by_cases hc : f (proj x) = x
    · rw [if_pos hc, if_pos hc, List.count_cons]
      by_cases hfa : f a = x
      · have hax : a = proj x := by rw [← hf a, hfa]
        have h1 : (f a == x) = true := beq_iff_eq.mpr hfa
        have h2 : (a == proj x) = true := beq_iff_eq.mpr hax
        rw [h1, h2]
      · have h1 : (f a == x) = false := beq_eq_false_iff_ne.mpr hfa
        have h2 : (a == proj x) = false := by
          refine beq_eq_false_iff_ne.mpr fun he => hfa ?_
          rw [he, hc]
        rw [h1, h2]
    · rw [if_neg hc, if_neg hc]
      have h1 : (f a == x) = false := by
        refine beq_eq_false_iff_ne.mpr fun he => hc ?_
        have : proj x = a := by rw [← he, hf]
        rw [this, he]
      rw [h1]
      simp

theorem count_flatMap_proj {α β : Type} [DecidableEq α] [DecidableEq β]
    (L : List α) (f : α → List β) (proj : β → α)
    (hf : ∀ i m, m ∈ f i → proj m = i) (x : β) :
    (L.flatMap f).count x = L.count (proj x) * (f (proj x)).count x := by
  induction L with
  | nil => simp
  | cons a t ih =>
    rw [List.flatMap_cons, List.count_append, ih, List.count_cons]
    by_cases ha : a = proj x
    · have h2 : (a == proj x) = true := beq_iff_eq.mpr ha
      rw [h2, if_pos rfl, ← ha, Nat.add_mul, Nat.one_mul]
      ring
    · have h0 : (f a).count x = 0 := by
        rw [List.count_eq_zero]
        intro hmem
        exact ha (hf a x hmem).symm
      have hne : (a == proj x) = false := beq_eq_false_iff_ne.mpr ha
      rw [h0, hne]
      simp

theorem count_map_eq_count_of_unique {α γ : Type} [DecidableEq α]
    [DecidableEq γ] :
    ∀ (S : List α) (g : α → γ) (t : γ) (c : α), g c = t →
      (∀ m ∈ S, g m = t → m = c) →
      (S.map g).count t = S.count c := by
  intro S g t c hgc
  induction S with
  | nil => intro _; rfl
  | cons a s ih =>
    intro h
    rw [List.map_cons, List.count_cons, List.count_cons,
      ih (fun m hm hgm => h m (List.mem_cons_of_mem a hm) hgm)]
    by_cases hga : g a = t
    · have hac : a = c := h a (List.mem_cons_self a s) hga
      have h1 : (g a == t) = true := beq_iff_eq.mpr hga
      have h2 : (a == c) = true := beq_iff_eq.mpr hac
      rw [h1, h2]
    · have h1 : (g a == t) = false := beq_eq_false_iff_ne.mpr hga
      have h2 : (a == c) = false := by
        refine beq_eq_false_iff_ne.mpr fun he => hga ?_
        rw [he, hgc]
      rw [h1, h2]

theorem count_map_eq_zero {α γ : Type} [DecidableEq γ] (S : List α)
    (g : α → γ) (t : γ) (h : ∀ m ∈ S, g m ≠ t) : (S.map g).count t = 0 := by
  rw [List.count_eq_zero]
  intro hmem
  rcases List.mem_map.mp hmem with ⟨m, hm, hgm⟩
  exact h m hm hgm

theorem two_le_length_of_two_mem {α : Type} : ∀ (l : List α) (a b : α),
    a ∈ l → b ∈ l → a ≠ b → 2 ≤ l.length := by
  intro l a b ha hb hab
  match l with
  | [] => cases ha
  | [x] =>
    rw [List.mem_singleton] at ha hb
    exact absurd (ha.trans hb.symm) hab
  | x :: y :: t =>
    rw [List.length_cons, List.length_cons]
    omega

theorem testBit_true_lt (x i : Nat) (hx : x < 2 ^ 64)
    (h : x.testBit i = true) : i < 64 := by
  by_contra hge
  rw [Nat.testBit_lt_two_pow
    (lt_of_lt_of_le hx (Nat.pow_le_pow_right (by omega) (by omega)))] at h
  exact Bool.noConfusion h

-- ===== new movegen.rs embedding =====

/-- Rank masks from `src/moves/movegen.rs`. -/
def RANK1 : Nat := 0xFF
def RANK2 : Nat := 0xFF00
def RANK7 : Nat := 0x00FF000000000000
def RANK8 : Nat := 0xFF00000000000000

/-- Castling path masks from `src/moves/movegen.rs`. -/
def WHITE_KINGSIDE_BETWEEN : Nat := 0x60
def WHITE_QUEENSIDE_BETWEEN : Nat := 0xE
def BLACK_KINGSIDE_BETWEEN : Nat := 0x6000000000000000
def BLACK_QUEENSIDE_BETWEEN : Nat := 0x0E00000000000000

/-- Embedding of the `PROMOS` array from `src/moves/movegen.rs`. -/
def PROMOS : List Piece := [Piece.Queen, Piece.Rook, Piece.Bishop,
  Piece.Knight]

/-- Embedding of `Board::has_kingside_castle` from `src/board/mod.rs`. -/
def hasKingsideCastle (b : Board) (c : Color) : Bool :=
  match c with
  | Color.White => b.castlingRights &&& CASTLE_WK != 0
  | Color.Black => b.castlingRights &&& CASTLE_BK != 0

/-- Embedding of `Board::has_queenside_castle` from `src/board/mod.rs`. -/
def hasQueensideCastle (b : Board) (c : Color) : Bool :=
  match c with
  | Color.White => b.castlingRights &&& CASTLE_WQ != 0
  | Color.Black => b.castlingRights &&& CASTLE_BQ != 0

/-- Embedding of `kingside_between` from `src/moves/movegen.rs`. -/
def kingsideBetween : Color → Nat
  | Color.White => WHITE_KINGSIDE_BETWEEN
  | Color.Black => BLACK_KINGSIDE_BETWEEN

/-- Embedding of `queenside_between` from `src/moves/movegen.rs`. -/
def queensideBetween : Color → Nat
  | Color.White => WHITE_QUEENSIDE_BETWEEN
  | Color.Black => BLACK_QUEENSIDE_BETWEEN

/-- Embedding of `push_piece_moves` from `src/moves/movegen.rs`: pop the
target squares, flagging a capture exactly when the `enemy` bit of the
destination is set. -/
def pushPieceMoves (fromSq : Nat) (targets enemy : Nat) (pc : Piece) :
    List Move :=
  (popBits 64 targets).map (fun toSq =>
    { from_sq := fromSq, to_sq := toSq, piece := pc, promotion := none,
      flags := if (enemy >>> toSq) &&& 1 ≠ 0 then CAPTURE else QUIET_MOVE })

/-- Embedding of `push_captures_only` from `src/moves/movegen.rs`. -/
def pushCapturesOnly (fromSq : Nat) (targets enemy : Nat) (pc : Piece) :
    List Move :=
  (popBits 64 (targets &&& enemy)).map (fun toSq =>
    { from_sq := fromSq, to_sq := toSq, piece := pc, promotion := none,
      flags := CAPTURE })

/-- Embedding of `push_quiets_only` from `src/moves/movegen.rs`. -/
def pushQuietsOnly (fromSq : Nat) (targets empty : Nat) (pc : Piece) :
    List Move :=
  (popBits 64 (targets &&& empty)).map (fun toSq =>
    { from_sq := fromSq, to_sq := toSq, piece := pc, promotion := none,
      flags := QUIET_MOVE })

/-- The shared loop shape of `generate_knight_moves`,
`generate_bishop_moves`, `generate_rook_moves` and `generate_queen_moves`:
for every piece of the side to move, push the moves to
`attacks & !friendly & !enemy_king`, flagged on `enemy_without_king`. -/
def genPieceMoves (b : Board) (pc : Piece) (att : Nat → Nat) : List Move :=
  let color := b.sideToMove
  let friendly := b.occupancy color
  let enemyKing := b.pieces Piece.King color.opposite
  let enemyWithoutKing := b.opponentOccupancy color &&& compl64 enemyKing
  (popBits 64 (b.pieces pc color)).flatMap (fun fromSq =>
    pushPieceMoves fromSq
      (att fromSq &&& compl64 friendly &&& compl64 enemyKing)
      enemyWithoutKing pc)

/-- The shared loop shape of the split `generate_*_captures` functions. -/
def genPieceCaptures (b : Board) (pc : Piece) (att : Nat → Nat) :
    List Move :=
  let color := b.sideToMove
  let enemyKing := b.pieces Piece.King color.opposite
  let enemyWithoutKing := b.opponentOccupancy color &&& compl64 enemyKing
  (popBits 64 (b.pieces pc color)).flatMap (fun fromSq =>
    pushCapturesOnly fromSq
      (att fromSq &&& compl64 (b.occupancy color) &&& compl64 enemyKing)
      enemyWithoutKing pc)

/-- The shared loop shape of the split `generate_*_quiets` functions (the
raw attack set, masked to empty squares by `push_quiets_only`). -/
def genPieceQuiets (b : Board) (pc : Piece) (att : Nat → Nat) :
    List Move :=
  (popBits 64 (b.pieces pc b.sideToMove)).flatMap (fun fromSq =>
    pushQuietsOnly fromSq (att fromSq) (compl64 b.occupied) pc)

/-- Embedding of `generate_knight_moves` from `src/moves/movegen.rs`. -/
def generateKnightMoves (b : Board) : List Move :=
  genPieceMoves b Piece.Knight knightAttacksBB

/-- Embedding of `generate_bishop_moves`. -/
def generateBishopMoves (b : Board) (T : MagicTables) : List Move :=
  genPieceMoves b Piece.Bishop (fun sq => T.bishopAtt sq b.occupied)

/-- Embedding of `generate_rook_moves`. -/
def generateRookMoves (b : Board) (T : MagicTables) : List Move :=
  genPieceMoves b Piece.Rook (fun sq => T.rookAtt sq b.occupied)

/-- Embedding of `generate_queen_moves` (`queen_attacks` is the union of
the two slider lookups, as in `magic/structs.rs`). -/
def generateQueenMoves (b : Board) (T : MagicTables) : List Move :=
  genPieceMoves b Piece.Queen
    (fun sq => T.bishopAtt sq b.occupied ||| T.rookAtt sq b.occupied)

/-- The castling block shared verbatim by `generate_king_moves` and
`generate_king_quiets`: the king-side castle is emitted only if it passes
`is_legal_castling`, the queen-side castle is emitted on rights and empty
path alone. -/
def kingCastleMoves (b : Board) (T : MagicTables) (fromSq : Nat) :
    List Move :=
  let color := b.sideToMove
  let occ := b.occupied
  (if hasKingsideCastle b color && (occ &&& kingsideBetween color == 0) then
    let mv : Move :=
      { from_sq := fromSq, to_sq := fromSq + 2, piece := Piece.King,
        promotion := none, flags := KINGSIDE_CASTLE }
    if isLegalCastling T b mv then [mv] else []
  else []) ++
  (if hasQueensideCastle b color && (occ &&& queensideBetween color == 0)
  then
    [{ from_sq := fromSq, to_sq := fromSq - 2, piece := Piece.King,
       promotion := none, flags := QUEENSIDE_CASTLE }]
  else [])

/-- Embedding of `generate_king_moves` from `src/moves/movegen.rs` (the
`from` square is `trailing_zeros` of the king bitboard; capture flags are
taken from the full opponent occupancy, whose king square is excluded from
the targets). -/
def generateKingMoves (b : Board) (T : MagicTables) : List Move :=
  let color := b.sideToMove
  let kingBB := b.pieces Piece.King color
  if kingBB = 0 then []
  else
    let fromSq := lsb64 kingBB
    let friendly := b.occupancy color
    let enemyKing := b.pieces Piece.King color.opposite
    let enemy := b.opponentOccupancy color
    pushPieceMoves fromSq
      (kingAttacksBB fromSq &&& compl64 friendly &&& compl64 enemyKing)
      enemy Piece.King ++ kingCastleMoves b T fromSq

/-- Embedding of `generate_king_captures`. -/
def generateKingCaptures (b : Board) : List Move :=
  let color := b.sideToMove
  let kingBB := b.pieces Piece.King color
  if kingBB = 0 then []
  else
    let fromSq := lsb64 kingBB
    let enemyKing := b.pieces Piece.King color.opposite
    let enemy := b.opponentOccupancy color &&& compl64 enemyKing
    pushCapturesOnly fromSq
      (kingAttacksBB fromSq &&& compl64 (b.occupancy color) &&&
        compl64 enemyKing) enemy Piece.King

/-- Embedding of `generate_king_quiets`. -/
def generateKingQuiets (b : Board) (T : MagicTables) : List Move :=
  let color := b.sideToMove
  let kingBB := b.pieces Piece.King color
  if kingBB = 0 then []
  else
    let fromSq := lsb64 kingBB
    pushQuietsOnly fromSq (kingAttacksBB fromSq) (compl64 b.occupied)
      Piece.King ++ kingCastleMoves b T fromSq

/-- The quiet single-push block shared verbatim by `generate_pawn_moves`
and `generate_pawn_quiets`. -/
def pawnSinglePushes (b : Board) : List Move :=
  let color := b.sideToMove
  let pawns := b.pieces Piece.Pawn color
  let empty := compl64 b.occupied
  let promoRank := if color = Color.White then RANK8 else RANK1
  let singlePushes :=
    if color = Color.White then
      ((pawns <<< 8) % 2 ^ 64 &&& empty) &&& compl64 promoRank
    else ((pawns >>> 8) &&& empty) &&& compl64 promoRank
  (popBits 64 singlePushes).map (fun toSq =>
    { from_sq := if color = Color.White then toSq - 8 else toSq + 8,
      to_sq := toSq, piece := Piece.Pawn, promotion := none,
      flags := QUIET_MOVE })

/-- The quiet double-push block shared verbatim by `generate_pawn_moves`
and `generate_pawn_quiets`. -/
def pawnDoublePushes (b : Board) : List Move :=
  let color := b.sideToMove
  let pawns := b.pieces Piece.Pawn color
  let empty := compl64 b.occupied
  let doublePushes :=
    if color = Color.White then
      ((((pawns &&& RANK2) <<< 8) % 2 ^ 64 &&& empty) <<< 8) % 2 ^ 64 &&&
        empty
    else (((pawns &&& RANK7) >>> 8) &&& empty) >>> 8 &&& empty
  (popBits 64 doublePushes).map (fun toSq =>
    { from_sq := if color = Color.White then toSq - 16 else toSq + 16,
      to_sq := toSq, piece := Piece.Pawn, promotion := none,
      flags := DOUBLE_PAWN_PUSH })

/-- The non-promotion pawn-capture loop: `generate_pawn_moves` iterates
every pawn of `attackers = pawns`, `generate_pawn_captures` only
`pawns & !start_rank` (the promotion-rank pawns attack the promotion rank
only, so the two agree). -/
def pawnNormalCaptures (b : Board) (attackers : Nat) : List Move :=
  let color := b.sideToMove
  let enemyWithoutKing := b.opponentOccupancy color &&&
    compl64 (b.pieces Piece.King color.opposite)
  let promoRank := if color = Color.White then RANK8 else RANK1
  (popBits 64 attackers).flatMap (fun fromSq =>
    (popBits 64 (pawnAttacksBB fromSq color &&& enemyWithoutKing &&&
        compl64 promoRank)).map (fun toSq =>
      { from_sq := fromSq, to_sq := toSq, piece := Piece.Pawn,
        promotion := none, flags := CAPTURE }))

/-- The promotion-push block shared by `generate_pawn_moves` and
`generate_pawn_captures`. -/
def pawnPromoPushes (b : Board) : List Move :=
  let color := b.sideToMove
  let pawns := b.pieces Piece.Pawn color
  let empty := compl64 b.occupied
  let startRank := if color = Color.White then RANK7 else RANK2
  let promoPushes :=
    if color = Color.White then
      ((pawns &&& startRank) <<< 8) % 2 ^ 64 &&& empty
    else (pawns &&& startRank) >>> 8 &&& empty
  (popBits 64 promoPushes).flatMap (fun toSq =>
    PROMOS.map (fun promo =>
      { from_sq := if color = Color.White then toSq - 8 else toSq + 8,
        to_sq := toSq, piece := Piece.Pawn, promotion := some promo,
        flags := PROMOTION }))

/-- The promotion-capture block shared by `generate_pawn_moves` and
`generate_pawn_captures`. -/
def pawnPromoCaptures (b : Board) : List Move :=
  let color := b.sideToMove
  let pawns := b.pieces Piece.Pawn color
  let enemyWithoutKing := b.opponentOccupancy color &&&
    compl64 (b.pieces Piece.King color.opposite)
  let startRank := if color = Color.White then RANK7 else RANK2
  let promoRank := if color = Color.White then RANK8 else RANK1
  (popBits 64 (pawns &&& startRank)).flatMap (fun fromSq =>
    (popBits 64 (pawnAttacksBB fromSq color &&& enemyWithoutKing &&&
        promoRank)).flatMap (fun toSq =>
      PROMOS.map (fun promo =>
        { from_sq := fromSq, to_sq := toSq, piece := Piece.Pawn,
          promotion := some promo, flags := PROMOTION_CAPTURE })))

/-- The en-passant block shared by `generate_pawn_moves` and
`generate_pawn_captures`. -/
def pawnEnPassantMoves (b : Board) : List Move :=
  let color := b.sideToMove
  let pawns := b.pieces Piece.Pawn color
  let empty := compl64 b.occupied
  match b.enPassant with
  | some ep =>
    if empty &&& 2 ^ ep % 2 ^ 64 ≠ 0 then
      let capSq := if color = Color.White then ep - 8 else ep + 8
      if b.pieces Piece.Pawn color.opposite &&& 2 ^ capSq % 2 ^ 64 ≠ 0 then
        ((popBits 64 pawns).filter (fun fromSq =>
          pawnAttacksBB fromSq color &&& 2 ^ ep % 2 ^ 64 ≠ 0)).map
          (fun fromSq =>
            { from_sq := fromSq, to_sq := ep, piece := Piece.Pawn,
              promotion := none, flags := EN_PASSANT })
      else []
    else []
  | none => []

/-- Embedding of `generate_pawn_moves` from `src/moves/movegen.rs` (its
six blocks in source order; the blocks shared with the split generators
are the named helpers above). -/
def generatePawnMoves (b : Board) : List Move :=
  pawnSinglePushes b ++ pawnDoublePushes b ++
    pawnNormalCaptures b (b.pieces Piece.Pawn b.sideToMove) ++
    pawnPromoPushes b ++ pawnPromoCaptures b ++ pawnEnPassantMoves b

/-- Embedding of `generate_pawn_captures`. -/
def generatePawnCaptures (b : Board) : List Move :=
  pawnNormalCaptures b (b.pieces Piece.Pawn b.sideToMove &&&
      compl64 (if b.sideToMove = Color.White then RANK7 else RANK2)) ++
    pawnPromoPushes b ++ pawnPromoCaptures b ++ pawnEnPassantMoves b

/-- Embedding of `generate_pawn_quiets`. -/
def generatePawnQuiets (b : Board) : List Move :=
  pawnSinglePushes b ++ pawnDoublePushes b

/-- Embedding of `generate_knight_captures` .. `generate_queen_quiets`. -/
def generateKnightCaptures (b : Board) : List Move :=
  genPieceCaptures b Piece.Knight knightAttacksBB
def generateKnightQuiets (b : Board) : List Move :=
  genPieceQuiets b Piece.Knight knightAttacksBB
def generateBishopCaptures (b : Board) (T : MagicTables) : List Move :=
  genPieceCaptures b Piece.Bishop (fun sq => T.bishopAtt sq b.occupied)
def generateBishopQuiets (b : Board) (T : MagicTables) : List Move :=
  genPieceQuiets b Piece.Bishop (fun sq => T.bishopAtt sq b.occupied)
def generateRookCaptures (b : Board) (T : MagicTables) : List Move :=
  genPieceCaptures b Piece.Rook (fun sq => T.rookAtt sq b.occupied)
def generateRookQuiets (b : Board) (T : MagicTables) : List Move :=
  genPieceQuiets b Piece.Rook (fun sq => T.rookAtt sq b.occupied)
def generateQueenCaptures (b : Board) (T : MagicTables) : List Move :=
  genPieceCaptures b Piece.Queen
    (fun sq => T.bishopAtt sq b.occupied ||| T.rookAtt sq b.occupied)
def generateQueenQuiets (b : Board) (T : MagicTables) : List Move :=
  genPieceQuiets b Piece.Queen
    (fun sq => T.bishopAtt sq b.occupied ||| T.rookAtt sq b.occupied)

/-- Embedding of `generate_pseudo_legal` from `src/moves/movegen.rs`. -/
def generatePseudoLegal (b : Board) (T : MagicTables) : List Move :=
  generatePawnMoves b ++ generateKnightMoves b ++
    generateBishopMoves b T ++ generateRookMoves b T ++
    generateQueenMoves b T ++ generateKingMoves b T

/-- Embedding of `generate_pseudo_legal_captures`. -/
def generatePseudoLegalCaptures (b : Board) (T : MagicTables) :
    List Move :=
  generatePawnCaptures b ++ generateKnightCaptures b ++
    generateBishopCaptures b T ++ generateRookCaptures b T ++
    generateQueenCaptures b T ++ generateKingCaptures b

/-- Embedding of `generate_pseudo_legal_quiets`. -/
def generatePseudoLegalQuiets (b : Board) (T : MagicTables) :
    List Move :=
  generatePawnQuiets b ++ generateKnightQuiets b ++
    generateBishopQuiets b T ++ generateRookQuiets b T ++
    generateQueenQuiets b T ++ generateKingQuiets b T

-- ===== closed forms for the push loops =====

theorem mask64_testBit' (i : Nat) : mask64.testBit i = decide (i < 64) :=
  Nat.testBit_two_pow_sub_one 64 i

theorem compl64_testBit (x i : Nat) :
    (compl64 x).testBit i = ((decide (i < 64)).xor (x.testBit i)) := by
  rw [compl64, Nat.testBit_xor, mask64_testBit' i]

theorem flag_shift_eq (enemy toSq : Nat) :
    (if (enemy >>> toSq) &&& 1 ≠ 0 then CAPTURE else QUIET_MOVE) =
      (if enemy.testBit toSq then CAPTURE else QUIET_MOVE) := by
  rw [testBit_shiftRight_and_one]
  by_cases hE : enemy.testBit toSq <;> simp [hE]

theorem count_pushPieceMoves (fromSq targets enemy : Nat) (pc : Piece)
    (ht : targets < 2 ^ 64) (m : Move) :
    (pushPieceMoves fromSq targets enemy pc).count m =
      if targets.testBit m.to_sq = true ∧
         ({ from_sq := fromSq, to_sq := m.to_sq, piece := pc,
            promotion := none,
            flags := if enemy.testBit m.to_sq then CAPTURE
              else QUIET_MOVE } : Move) = m
      then 1 else 0 := by
  unfold pushPieceMoves
  simp only [flag_shift_eq]
  rw [count_map_proj _ _ (fun m => m.to_sq) (fun i => rfl) m,
    popBits_count targets ht m.to_sq]
  split_ifs <;> simp_all

theorem count_pushCapturesOnly (fromSq targets enemy : Nat) (pc : Piece)
    (ht : targets < 2 ^ 64) (m : Move) :
    (pushCapturesOnly fromSq targets enemy pc).count m =
      if (targets.testBit m.to_sq && enemy.testBit m.to_sq) = true ∧
         ({ from_sq := fromSq, to_sq := m.to_sq, piece := pc,
            promotion := none, flags := CAPTURE } : Move) = m
      then 1 else 0 := by
  unfold pushCapturesOnly
  rw [count_map_proj _ _ (fun m => m.to_sq) (fun i => rfl) m,
    popBits_count (targets &&& enemy)
      (lt_of_le_of_lt (Nat.and_le_left) ht) m.to_sq]
  simp only [Nat.testBit_and]
  split_ifs <;> simp_all

theorem count_pushQuietsOnly (fromSq targets empty : Nat) (pc : Piece)
    (ht : targets < 2 ^ 64) (m : Move) :
    (pushQuietsOnly fromSq targets empty pc).count m =
      if (targets.testBit m.to_sq && empty.testBit m.to_sq) = true ∧
         ({ from_sq := fromSq, to_sq := m.to_sq, piece := pc,
            promotion := none, flags := QUIET_MOVE } : Move) = m
      then 1 else 0 := by
  unfold pushQuietsOnly
  rw [count_map_proj _ _ (fun m => m.to_sq) (fun i => rfl) m,
    popBits_count (targets &&& empty)
      (lt_of_le_of_lt (Nat.and_le_left) ht) m.to_sq]
  simp only [Nat.testBit_and]
  split_ifs <;> simp_all

/-- The per-square split of one `push_piece_moves` call into its
captures-only and quiets-only counterparts, under the board partition
facts: every square is friendly, enemy or empty, and the enemy king is
part of the enemy occupancy. -/
theorem push_split (fromSq attRaw friendly ek opp occAll : Nat)
    (pc : Piece)
    (hatt : attRaw < 2 ^ 64)
    (hoccAll : ∀ i, occAll.testBit i =
      (friendly.testBit i || opp.testBit i))
    (hekSub : ∀ i, ek.testBit i = true → opp.testBit i = true)
    (m : Move) :
    (pushPieceMoves fromSq
        (attRaw &&& compl64 friendly &&& compl64 ek)
        (opp &&& compl64 ek) pc).count m =
      (pushCapturesOnly fromSq
          (attRaw &&& compl64 friendly &&& compl64 ek)
          (opp &&& compl64 ek) pc).count m +
        (pushQuietsOnly fromSq attRaw (compl64 occAll) pc).count m := by
  have htg : attRaw &&& compl64 friendly &&& compl64 ek < 2 ^ 64 :=
    lt_of_le_of_lt (le_trans Nat.and_le_left Nat.and_le_left) hatt
  rw [count_pushPieceMoves _ _ _ _ htg m,
    count_pushCapturesOnly _ _ _ _ htg m,
    count_pushQuietsOnly _ _ _ _ hatt m]
  by_cases ht64 : m.to_sq < 64
  · simp only [Nat.testBit_and, compl64_testBit, hoccAll m.to_sq,
      decide_eq_true_eq, ht64, decide_True, Bool.true_xor]
    by_cases hA : attRaw.testBit m.to_sq <;>
      by_cases hF : friendly.testBit m.to_sq <;>
      by_cases hK : ek.testBit m.to_sq <;>
      by_cases hO : opp.testBit m.to_sq <;>
      simp only [hA, hF, hK, hO, Bool.not_true, Bool.not_false,
        Bool.and_true, Bool.and_false, Bool.true_and, Bool.false_and,
        Bool.or_true, Bool.or_false, Bool.true_or, Bool.false_or,
        Bool.xor_false, Bool.xor_true, if_true, if_false] <;>
      first
        | (exact absurd (hekSub m.to_sq hK) hO)
        | simp
  · have hAfalse : attRaw.testBit m.to_sq = false :=
      Nat.testBit_lt_two_pow
        (lt_of_lt_of_le hatt (Nat.pow_le_pow_right (by omega) (by omega)))
    have htg' : (attRaw &&& compl64 friendly &&& compl64 ek).testBit
        m.to_sq = false := by
      simp [Nat.testBit_and, hAfalse]
    simp [htg', hAfalse]

-- ===== membership helpers and attack-set bounds =====

theorem pushPieceMoves_from (fromSq targets enemy : Nat) (pc : Piece) :
    ∀ mv ∈ pushPieceMoves fromSq targets enemy pc, mv.from_sq = fromSq := by
  intro mv hmv
  rcases List.mem_map.mp hmv with ⟨i, _, rfl⟩
  rfl

theorem pushCapturesOnly_from (fromSq targets enemy : Nat) (pc : Piece) :
    ∀ mv ∈ pushCapturesOnly fromSq targets enemy pc,
      mv.from_sq = fromSq := by
  intro mv hmv
  rcases List.mem_map.mp hmv with ⟨i, _, rfl⟩
  rfl

theorem pushQuietsOnly_from (fromSq targets empty : Nat) (pc : Piece) :
    ∀ mv ∈ pushQuietsOnly fromSq targets empty pc,
      mv.from_sq = fromSq := by
  intro mv hmv
  rcases List.mem_map.mp hmv with ⟨i, _, rfl⟩
  rfl

theorem pushPieceMoves_flag_congr (fromSq targets e1 e2 : Nat) (pc : Piece)
    (ht : targets < 2 ^ 64)
    (h : ∀ i, targets.testBit i = true → e1.testBit i = e2.testBit i) :
    pushPieceMoves fromSq targets e1 pc =
      pushPieceMoves fromSq targets e2 pc := by
  unfold pushPieceMoves
  apply List.map_congr_left
  intro i hi
  have hbit := (popBits_mem targets ht i).mp hi
  have := h i hbit
  rw [testBit_shiftRight_and_one, testBit_shiftRight_and_one, this]

theorem foldl_or_pow_lt (L : List Nat) (g : Nat → Nat → Nat)
    (hg : ∀ acc j, j ∈ L → g acc j = acc ∨ g acc j = acc ||| 2 ^ j)
    (hL : ∀ j ∈ L, j < 64) :
    ∀ acc, acc < 2 ^ 64 → L.foldl g acc < 2 ^ 64 := by
  induction L with
  | nil => intro acc h; exact h
  | cons a t ih =>
    intro acc h
    rw [List.foldl_cons]
    apply ih
      (fun acc j hj => hg acc j (List.mem_cons_of_mem a hj))
      (fun j hj => hL j (List.mem_cons_of_mem a hj))
    rcases hg acc a (List.mem_cons_self a t) with h1 | h1 <;> rw [h1]
    · exact h
    · exact Nat.or_lt_two_pow h
        (Nat.pow_lt_pow_right (by omega) (hL a (List.mem_cons_self a t)))

theorem knightAttacksBB_lt (sq : Nat) : knightAttacksBB sq < 2 ^ 64 := by
  unfold knightAttacksBB
  apply foldl_or_pow_lt _ _
    (fun acc j _ => by
      dsimp only
      split_ifs
      · exact Or.inr rfl
      · exact Or.inl rfl)
    (fun j hj => List.mem_range.mp hj)
  decide

theorem kingAttacksBB_lt (sq : Nat) : kingAttacksBB sq < 2 ^ 64 := by
  unfold kingAttacksBB
  apply foldl_or_pow_lt _ _
    (fun acc j _ => by
      dsimp only
      split_ifs
      · exact Or.inr rfl
      · exact Or.inl rfl)
    (fun j hj => List.mem_range.mp hj)
  decide

theorem pawnAttacksBB_lt (sq : Nat) (c : Color) :
    pawnAttacksBB sq c < 2 ^ 64 := by
  have hA : compl64 FILE_A < 2 ^ 64 := by decide
  have hH : compl64 FILE_H < 2 ^ 64 := by decide
  have hm : (0 : Nat) < 2 ^ 64 := by decide
  cases c
  · exact Nat.or_lt_two_pow
      (lt_of_le_of_lt Nat.and_le_left (Nat.mod_lt _ hm))
      (lt_of_le_of_lt Nat.and_le_left (Nat.mod_lt _ hm))
  · exact Nat.or_lt_two_pow
      (lt_of_le_of_lt Nat.and_le_right hA)
      (lt_of_le_of_lt Nat.and_le_right hH)

-- ===== per-piece split =====

theorem genPiece_split (b : Board) (pc : Piece) (att : Nat → Nat)
    (hatt : ∀ sq, att sq < 2 ^ 64)
    (hoccAll : ∀ i, b.occupied.testBit i =
      ((b.occupancy b.sideToMove).testBit i ||
        (b.opponentOccupancy b.sideToMove).testBit i))
    (hekSub : ∀ i, (b.pieces Piece.King b.sideToMove.opposite).testBit i =
        true → (b.opponentOccupancy b.sideToMove).testBit i = true)
    (m : Move) :
    (genPieceMoves b pc att).count m =
      (genPieceCaptures b pc att).count m +
        (genPieceQuiets b pc att).count m := by
  unfold genPieceMoves genPieceCaptures genPieceQuiets
  dsimp only
  rw [count_flatMap_proj _ _ (fun mv => mv.from_sq)
      (fun i mv hmv => pushPieceMoves_from _ _ _ _ mv hmv) m,
    count_flatMap_proj _ _ (fun mv => mv.from_sq)
      (fun i mv hmv => pushCapturesOnly_from _ _ _ _ mv hmv) m,
    count_flatMap_proj _ _ (fun mv => mv.from_sq)
      (fun i mv hmv => pushQuietsOnly_from _ _ _ _ mv hmv) m,
    push_split m.from_sq (att m.from_sq) (b.occupancy b.sideToMove)
      (b.pieces Piece.King b.sideToMove.opposite)
      (b.opponentOccupancy b.sideToMove) b.occupied pc
      (hatt m.from_sq) hoccAll hekSub m,
    Nat.mul_add]

-- ===== king split =====

theorem king_split (b : Board) (T : MagicTables)
    (hoccAll : ∀ i, b.occupied.testBit i =
      ((b.occupancy b.sideToMove).testBit i ||
        (b.opponentOccupancy b.sideToMove).testBit i))
    (hekSub : ∀ i, (b.pieces Piece.King b.sideToMove.opposite).testBit i =
        true → (b.opponentOccupancy b.sideToMove).testBit i = true)
    (m : Move) :
    (generateKingMoves b T).count m =
      (generateKingCaptures b).count m +
        (generateKingQuiets b T).count m := by
  unfold generateKingMoves generateKingCaptures generateKingQuiets
  dsimp only
  by_cases h0 : b.pieces Piece.King b.sideToMove = 0
  · rw [if_pos h0, if_pos h0, if_pos h0]
    rfl
  · rw [if_neg h0, if_neg h0, if_neg h0]
    rw [List.count_append, List.count_append]
    have htg : kingAttacksBB (lsb64 (b.pieces Piece.King b.sideToMove)) &&&
        compl64 (b.occupancy b.sideToMove) &&&
        compl64 (b.pieces Piece.King b.sideToMove.opposite) < 2 ^ 64 :=
      lt_of_le_of_lt (le_trans Nat.and_le_left Nat.and_le_left)
        (kingAttacksBB_lt _)
    have hcongr := pushPieceMoves_flag_congr
      (lsb64 (b.pieces Piece.King b.sideToMove))
      (kingAttacksBB (lsb64 (b.pieces Piece.King b.sideToMove)) &&&
        compl64 (b.occupancy b.sideToMove) &&&
        compl64 (b.pieces Piece.King b.sideToMove.opposite))
      (b.opponentOccupancy b.sideToMove)
      (b.opponentOccupancy b.sideToMove &&&
        compl64 (b.pieces Piece.King b.sideToMove.opposite))
      Piece.King htg
      (fun i hi => by
        rw [Nat.testBit_and, Nat.testBit_and] at hi
        rcases (Bool.and_eq_true _ _).mp hi with ⟨_, hcompl⟩
        rw [Nat.testBit_and, hcompl, Bool.and_true])
    rw [hcongr,
      push_split (lsb64 (b.pieces Piece.King b.sideToMove))
        (kingAttacksBB (lsb64 (b.pieces Piece.King b.sideToMove)))
        (b.occupancy b.sideToMove)
        (b.pieces Piece.King b.sideToMove.opposite)
        (b.opponentOccupancy b.sideToMove) b.occupied Piece.King
        (kingAttacksBB_lt _) hoccAll hekSub m]
    omega

-- ===== pawn split =====

theorem rank_attacks_promo_white :
    ∀ f0, f0 < 64 → RANK7.testBit f0 = true →
      pawnAttacksBB f0 Color.White &&& compl64 RANK8 = 0 := by decide

theorem rank_attacks_promo_black :
    ∀ f0, f0 < 64 → RANK2.testBit f0 = true →
      pawnAttacksBB f0 Color.Black &&& compl64 RANK1 = 0 := by decide

theorem pawnNormalCaptures_from (b : Board) (attackers : Nat) :
    ∀ mv ∈ pawnNormalCaptures b attackers,
      ∀ i, mv ∈ (popBits 64 (pawnAttacksBB i b.sideToMove &&&
          (b.opponentOccupancy b.sideToMove &&&
            compl64 (b.pieces Piece.King b.sideToMove.opposite)) &&&
          compl64 (if b.sideToMove = Color.White then RANK8
            else RANK1))).map (fun toSq =>
        ({ from_sq := i, to_sq := toSq, piece := Piece.Pawn,
           promotion := none, flags := CAPTURE } : Move)) →
        mv.from_sq = i := by
  intro mv _ i hmv
  rcases List.mem_map.mp hmv with ⟨j, _, rfl⟩
  rfl

theorem pawnNormalCaptures_split (b : Board)
    (hp : b.pieces Piece.Pawn b.sideToMove < 2 ^ 64) (m : Move) :
    (pawnNormalCaptures b (b.pieces Piece.Pawn b.sideToMove)).count m =
      (pawnNormalCaptures b (b.pieces Piece.Pawn b.sideToMove &&&
        compl64 (if b.sideToMove = Color.White then RANK7
          else RANK2))).count m := by
  unfold pawnNormalCaptures
  dsimp only
  rw [count_flatMap_proj _ _ (fun mv => mv.from_sq)
      (fun i mv hmv => by
        rcases List.mem_map.mp hmv with ⟨j, _, rfl⟩
        rfl) m,
    count_flatMap_proj _ _ (fun mv => mv.from_sq)
      (fun i mv hmv => by
        rcases List.mem_map.mp hmv with ⟨j, _, rfl⟩
        rfl) m,
    popBits_count _ hp,
    popBits_count _ (lt_of_le_of_lt Nat.and_le_left hp)]
  by_cases h64 : m.from_sq < 64
  · by_cases hstart :
        (if b.sideToMove = Color.White then RANK7
          else RANK2).testBit m.from_sq
    · have hzero : pawnAttacksBB m.from_sq b.sideToMove &&&
          (b.opponentOccupancy b.sideToMove &&&
            compl64 (b.pieces Piece.King b.sideToMove.opposite)) &&&
          compl64 (if b.sideToMove = Color.White then RANK8
            else RANK1) = 0 := by
        have hap : pawnAttacksBB m.from_sq b.sideToMove &&&
            compl64 (if b.sideToMove = Color.White then RANK8
              else RANK1) = 0 := by
          cases hside : b.sideToMove
          · rw [hside] at hstart
            simp only [if_pos rfl] at hstart ⊢
            exact rank_attacks_promo_white m.from_sq h64 hstart
          · rw [hside] at hstart
            simp only [reduceCtorEq, if_false] at hstart ⊢
            exact rank_attacks_promo_black m.from_sq h64 hstart
        apply Nat.eq_of_testBit_eq
        intro j
        have happ : (pawnAttacksBB m.from_sq b.sideToMove &&&
            compl64 (if b.sideToMove = Color.White then RANK8
              else RANK1)).testBit j = false := by
          rw [hap, Nat.zero_testBit]
        simp only [Nat.testBit_and, Nat.zero_testBit] at happ ⊢
        rcases Bool.and_eq_false_iff.mp happ with h | h <;> rw [h] <;>
          simp
      rw [hzero]
      have : popBits 64 0 = ([] : List Nat) := rfl
      rw [this]
      simp
    · have hbit : (b.pieces Piece.Pawn b.sideToMove &&&
          compl64 (if b.sideToMove = Color.White then RANK7
            else RANK2)).testBit m.from_sq =
          (b.pieces Piece.Pawn b.sideToMove).testBit m.from_sq := by
        rw [Nat.testBit_and, compl64_testBit]
        have h1 : decide (m.from_sq < 64) = true := decide_eq_true h64
        rw [h1]
        rw [Bool.true_xor]
        have h2 : (if b.sideToMove = Color.White then RANK7
            else RANK2).testBit m.from_sq = false :=
          Bool.not_eq_true _ ▸ (by simpa using hstart)
        rw [h2]
        simp
      rw [hbit]
  · have h1 : (b.pieces Piece.Pawn b.sideToMove).testBit m.from_sq =
        false :=
      Nat.testBit_lt_two_pow
        (lt_of_lt_of_le hp (Nat.pow_le_pow_right (by omega) (by omega)))
    have h2 : (b.pieces Piece.Pawn b.sideToMove &&&
        compl64 (if b.sideToMove = Color.White then RANK7
          else RANK2)).testBit m.from_sq = false := by
      rw [Nat.testBit_and, h1]
      simp
    rw [h1, h2]

theorem pawn_split (b : Board)
    (hp : b.pieces Piece.Pawn b.sideToMove < 2 ^ 64) (m : Move) :
    (generatePawnMoves b).count m =
      (generatePawnCaptures b).count m +
        (generatePawnQuiets b).count m := by
  unfold generatePawnMoves generatePawnCaptures generatePawnQuiets
  simp only [List.count_append]
  rw [pawnNormalCaptures_split b hp m]
  omega

-- ===== the split refinement: captures ++ quiets ≡ pseudo-legal =====

/-- 64-bit-ness of the slider-attack tables. -/
def TablesWf (T : MagicTables) : Prop :=
  ∀ sq occ, T.bishopAtt sq occ < 2 ^ 64 ∧ T.rookAtt sq occ < 2 ^ 64

theorem generate_split (b : Board) (T : MagicTables)
    (hT : TablesWf T)
    (hpawn : b.pieces Piece.Pawn b.sideToMove < 2 ^ 64)
    (hoccAll : ∀ i, b.occupied.testBit i =
      ((b.occupancy b.sideToMove).testBit i ||
        (b.opponentOccupancy b.sideToMove).testBit i))
    (hekSub : ∀ i, (b.pieces Piece.King b.sideToMove.opposite).testBit i =
        true → (b.opponentOccupancy b.sideToMove).testBit i = true)
    (m : Move) :
    (generatePseudoLegal b T).count m =
      (generatePseudoLegalCaptures b T).count m +
        (generatePseudoLegalQuiets b T).count m := by
  unfold generatePseudoLegal generatePseudoLegalCaptures
    generatePseudoLegalQuiets generateKnightMoves generateKnightCaptures
    generateKnightQuiets generateBishopMoves generateBishopCaptures
    generateBishopQuiets generateRookMoves generateRookCaptures
    generateRookQuiets generateQueenMoves generateQueenCaptures
    generateQueenQuiets
  simp only [List.count_append]
  rw [pawn_split b hpawn m,
    genPiece_split b Piece.Knight knightAttacksBB
      (fun sq => knightAttacksBB_lt sq) hoccAll hekSub m,
    genPiece_split b Piece.Bishop (fun sq => T.bishopAtt sq b.occupied)
      (fun sq => (hT sq b.occupied).1) hoccAll hekSub m,
    genPiece_split b Piece.Rook (fun sq => T.rookAtt sq b.occupied)
      (fun sq => (hT sq b.occupied).2) hoccAll hekSub m,
    genPiece_split b Piece.Queen
      (fun sq => T.bishopAtt sq b.occupied ||| T.rookAtt sq b.occupied)
      (fun sq => Nat.or_lt_two_pow (hT sq b.occupied).1
        (hT sq b.occupied).2) hoccAll hekSub m,
    king_split b T hoccAll hekSub m]
  omega

-- ===== soundness: generated moves pass is_pseudo_legal =====

theorem and_ne_zero_iff_testBit' (x y : Nat) :
    x &&& y ≠ 0 ↔ ∃ i, x.testBit i = true ∧ y.testBit i = true := by
  rw [nat_ne_zero_iff_testBit']
  constructor
  · rintro ⟨i, hi⟩
    rw [Nat.testBit_and] at hi
    exact ⟨i, ((Bool.and_eq_true _ _).mp hi).1,
      ((Bool.and_eq_true _ _).mp hi).2⟩
  · rintro ⟨i, h1, h2⟩
    exact ⟨i, by rw [Nat.testBit_and, h1, h2]; rfl⟩

theorem and_pow_mod_ne_zero (x i : Nat) (hi : i < 64)
    (h : x.testBit i = true) : x &&& 2 ^ i % 2 ^ 64 ≠ 0 := by
  rw [Nat.mod_eq_of_lt (Nat.pow_lt_pow_right (by omega) hi)]
  exact (and_ne_zero_iff_testBit' x (2 ^ i)).mpr
    ⟨i, h, by simp [Nat.testBit_two_pow]⟩

theorem and_pow_mod_eq_zero (x i : Nat) (h : x.testBit i = false) :
    x &&& 2 ^ i % 2 ^ 64 = 0 := by
  by_cases hi : i < 64
  · rw [Nat.mod_eq_of_lt (Nat.pow_lt_pow_right (by omega) hi)]
    by_contra hc
    rcases (and_ne_zero_iff_testBit' x (2 ^ i)).mp hc with ⟨j, hj1, hj2⟩
    rw [Nat.testBit_two_pow] at hj2
    have : i = j := by simpa using hj2
    rw [← this] at hj1
    rw [h] at hj1
    exact Bool.noConfusion hj1
  · have hdvd : (2 : Nat) ^ 64 ∣ 2 ^ i := Nat.pow_dvd_pow 2 (by omega)
    have hmod : 2 ^ i % 2 ^ 64 = 0 := Nat.mod_eq_zero_of_dvd hdvd
    rw [hmod, Nat.and_zero]

/-- The piece-specific tail of `is_pseudo_legal`, split out so the
per-segment soundness lemmas can discharge it piecewise. -/
def pieceRuleOk (T : MagicTables) (b : Board) (mv : Move) : Bool :=
  let color := b.sideToMove
  let fromBB := 2 ^ mv.from_sq % 2 ^ 64
  let toBB := 2 ^ mv.to_sq % 2 ^ 64
  match mv.piece with
  | Piece.Pawn =>
    let pawnAtt := pawnAttacksBB mv.from_sq color
    let pawnOk : Bool :=
      if mv.isEnPassant then
        match b.enPassant with
        | some ep =>
          decide (mv.to_sq = ep) && decide (pawnAtt &&& toBB ≠ 0)
        | none => false
      else if mv.isCapture then decide (pawnAtt &&& toBB ≠ 0)
      else
        let empty := compl64 b.occupied
        let pushDelta : Int := if color = Color.White then 8 else -8
        let doubleRank : Nat :=
          if color = Color.White then 0xFF00 else 0x00FF000000000000
        let doubleDelta : Int := if color = Color.White then 16 else -16
        if mv.isDoublePawnPush then
          decide (fromBB &&& doubleRank ≠ 0) &&
          decide ((mv.to_sq : Int) = (mv.from_sq : Int) + doubleDelta) &&
          decide (empty &&&
            2 ^ ((mv.from_sq : Int) + pushDelta).toNat % 2 ^ 64 ≠ 0) &&
          decide (empty &&& toBB ≠ 0)
        else
          decide ((mv.to_sq : Int) = (mv.from_sq : Int) + pushDelta) &&
          decide (empty &&& toBB ≠ 0)
    if !pawnOk then false
    else if mv.isPromotion then
      decide (mv.to_sq / 8 = if color = Color.White then 7 else 0)
    else true
  | Piece.Knight => decide (knightAttacksBB mv.from_sq &&& toBB ≠ 0)
  | Piece.Bishop =>
    decide (T.bishopAtt mv.from_sq b.occupied &&& toBB ≠ 0)
  | Piece.Rook => decide (T.rookAtt mv.from_sq b.occupied &&& toBB ≠ 0)
  | Piece.Queen =>
    decide ((T.bishopAtt mv.from_sq b.occupied |||
      T.rookAtt mv.from_sq b.occupied) &&& toBB ≠ 0)
  | Piece.King =>
    if mv.isCastling then
      if mv.isKingsideCastle then
        (if color = Color.White then
          decide (b.castlingRights &&& CASTLE_WK ≠ 0)
        else decide (b.castlingRights &&& CASTLE_BK ≠ 0)) &&
        decide (b.occupied &&&
          (if color = Color.White then 0x60
           else 0x6000000000000000) = 0)
      else
        (if color = Color.White then
          decide (b.castlingRights &&& CASTLE_WQ ≠ 0)
        else decide (b.castlingRights &&& CASTLE_BQ ≠ 0)) &&
        decide (b.occupied &&&
          (if color = Color.White then 0xE
           else 0x0E00000000000000) = 0)
    else decide (kingAttacksBB mv.from_sq &&& toBB ≠ 0)

theorem isPseudoLegal_reduce (T : MagicTables) (b : Board) (m : Move)
    (hfrom64 : m.from_sq < 64) (hto64 : m.to_sq < 64)
    (h1 : (b.pieces m.piece b.sideToMove).testBit m.from_sq = true)
    (h2 : (b.occupancy b.sideToMove).testBit m.to_sq = false)
    (h3 : m.isCapture = true → m.isEnPassant = false →
      (b.opponentOccupancy b.sideToMove).testBit m.to_sq = true)
    (h4 : (b.pieces Piece.King b.sideToMove.opposite).testBit m.to_sq =
      false) :
    isPseudoLegal T b m = pieceRuleOk T b m := by
  have hcapn : ¬((m.isCapture && !m.isEnPassant &&
      decide (b.opponentOccupancy b.sideToMove &&&
        2 ^ m.to_sq % 2 ^ 64 = 0)) = true) := by
    intro hc
    rcases (Bool.and_eq_true _ _).mp hc with ⟨hc1, hc2⟩
    rcases (Bool.and_eq_true _ _).mp hc1 with ⟨hcap, hnep⟩
    have hnep' : m.isEnPassant = false := by
      cases hmep : m.isEnPassant
      · rfl
      · rw [hmep] at hnep
        exact Bool.noConfusion hnep
    have hopp := h3 hcap hnep'
    rw [decide_eq_true_eq] at hc2
    exact and_pow_mod_ne_zero _ _ hto64 hopp hc2
  unfold isPseudoLegal pieceRuleOk
  dsimp only
  rw [if_neg (and_pow_mod_ne_zero _ _ hfrom64 h1),
    if_neg (show ¬(b.occupancy b.sideToMove &&&
        2 ^ m.to_sq % 2 ^ 64 ≠ 0) from
      fun hc => hc (and_pow_mod_eq_zero _ _ h2)),
    if_neg hcapn,
    if_neg (show ¬(b.pieces Piece.King b.sideToMove.opposite &&&
        2 ^ m.to_sq % 2 ^ 64 ≠ 0) from
      fun hc => hc (and_pow_mod_eq_zero _ _ h4))]

theorem pushPieceMoves_shape (fromSq targets enemy : Nat) (pc : Piece)
    (ht : targets < 2 ^ 64) :
    ∀ m ∈ pushPieceMoves fromSq targets enemy pc,
      m.from_sq = fromSq ∧ m.piece = pc ∧ m.promotion = none ∧
      targets.testBit m.to_sq = true ∧
      m.flags = (if enemy.testBit m.to_sq then CAPTURE
        else QUIET_MOVE) := by
  intro m hm
  unfold pushPieceMoves at hm
  rcases List.mem_map.mp hm with ⟨i, hi, rfl⟩
  have hbit := (popBits_mem targets ht i).mp hi
  exact ⟨rfl, rfl, rfl, hbit, flag_shift_eq enemy i⟩

theorem pushCapturesOnly_shape (fromSq targets enemy : Nat) (pc : Piece)
    (ht : targets < 2 ^ 64) :
    ∀ m ∈ pushCapturesOnly fromSq targets enemy pc,
      m.from_sq = fromSq ∧ m.piece = pc ∧ m.promotion = none ∧
      targets.testBit m.to_sq = true ∧ enemy.testBit m.to_sq = true ∧
      m.flags = CAPTURE := by
  intro m hm
  unfold pushCapturesOnly at hm
  rcases List.mem_map.mp hm with ⟨i, hi, rfl⟩
  have hbit := (popBits_mem (targets &&& enemy)
    (lt_of_le_of_lt Nat.and_le_left ht) i).mp hi
  rw [Nat.testBit_and] at hbit
  rcases (Bool.and_eq_true _ _).mp hbit with ⟨h1, h2⟩
  exact ⟨rfl, rfl, rfl, h1, h2, rfl⟩

theorem pushQuietsOnly_shape (fromSq targets empty : Nat) (pc : Piece)
    (ht : targets < 2 ^ 64) :
    ∀ m ∈ pushQuietsOnly fromSq targets empty pc,
      m.from_sq = fromSq ∧ m.piece = pc ∧ m.promotion = none ∧
      targets.testBit m.to_sq = true ∧ empty.testBit m.to_sq = true ∧
      m.flags = QUIET_MOVE := by
  intro m hm
  unfold pushQuietsOnly at hm
  rcases List.mem_map.mp hm with ⟨i, hi, rfl⟩
  have hbit := (popBits_mem (targets &&& empty)
    (lt_of_le_of_lt Nat.and_le_left ht) i).mp hi
  rw [Nat.testBit_and] at hbit
  rcases (Bool.and_eq_true _ _).mp hbit with ⟨h1, h2⟩
  exact ⟨rfl, rfl, rfl, h1, h2, rfl⟩

/-- Structural facts a board must satisfy for soundness of the
generator/validator pair (all derivable from the occupancy unions and
piece-bitboard disjointness of a well-formed board). -/
structure SoundFacts (b : Board) : Prop where
  bbLt : ∀ c p, b.pieceBB c p < 2 ^ 64
  occAllBit : ∀ i, b.occupied.testBit i =
    ((b.occupancy b.sideToMove).testBit i ||
      (b.opponentOccupancy b.sideToMove).testBit i)
  ekSub : ∀ i, (b.pieces Piece.King b.sideToMove.opposite).testBit i =
    true → (b.opponentOccupancy b.sideToMove).testBit i = true
  oppFriendly : ∀ i, (b.opponentOccupancy b.sideToMove).testBit i =
    true → (b.occupancy b.sideToMove).testBit i = false
  occLt : b.occupied < 2 ^ 64
  castleWK : hasKingsideCastle b b.sideToMove = true →
    b.pieces Piece.King b.sideToMove =
      (if b.sideToMove = Color.White then 2 ^ 4 else 2 ^ 60)
  castleWQ : hasQueensideCastle b b.sideToMove = true →
    b.pieces Piece.King b.sideToMove =
      (if b.sideToMove = Color.White then 2 ^ 4 else 2 ^ 60)

theorem empty_not_friendly (b : Board) (hf : SoundFacts b) (i : Nat)
    (hi : i < 64) (h : (compl64 b.occupied).testBit i = true) :
    (b.occupancy b.sideToMove).testBit i = false ∧
      (b.opponentOccupancy b.sideToMove).testBit i = false ∧
      (b.pieces Piece.King b.sideToMove.opposite).testBit i = false := by
  rw [compl64_testBit, decide_eq_true hi, Bool.true_xor,
    Bool.not_eq_true', hf.occAllBit i] at h
  rcases Bool.or_eq_false_iff.mp h with ⟨h1, h2⟩
  refine ⟨h1, h2, ?_⟩
  cases hek : (b.pieces Piece.King b.sideToMove.opposite).testBit i
  · rfl
  · rw [hf.ekSub i hek] at h2
    exact Bool.noConfusion h2

theorem sound_genPieceMoves (b : Board) (T : MagicTables) (pc : Piece)
    (att : Nat → Nat) (hf : SoundFacts b)
    (hatt : ∀ sq, att sq < 2 ^ 64)
    (hbranch : ∀ m : Move, m.piece = pc →
      (att m.from_sq).testBit m.to_sq = true →
      (m.flags = CAPTURE ∨ m.flags = QUIET_MOVE) →
      pieceRuleOk T b m = true) :
    ∀ m ∈ genPieceMoves b pc att, isPseudoLegal T b m = true := by
  intro m hm
  unfold genPieceMoves at hm
  dsimp only at hm
  rcases List.mem_flatMap.mp hm with ⟨i, hi, hmem⟩
  have hpbit := (popBits_mem _ (hf.bbLt b.sideToMove pc) i).mp hi
  have htg : att i &&& compl64 (b.occupancy b.sideToMove) &&&
      compl64 (b.pieces Piece.King b.sideToMove.opposite) < 2 ^ 64 :=
    lt_of_le_of_lt (le_trans Nat.and_le_left Nat.and_le_left) (hatt i)
  obtain ⟨hfrom, hpc, hprom, hbit, hflags⟩ :=
    pushPieceMoves_shape _ _ _ _ htg m hmem
  rw [Nat.testBit_and, Nat.testBit_and] at hbit
  rcases (Bool.and_eq_true _ _).mp hbit with ⟨hbit1, hek⟩
  rcases (Bool.and_eq_true _ _).mp hbit1 with ⟨hA, hFr⟩
  have hto64 : m.to_sq < 64 := testBit_true_lt _ _ (hatt i) hA
  have hfrom64 : i < 64 :=
    testBit_true_lt _ _ (hf.bbLt b.sideToMove pc) hpbit
  have hFr' : (b.occupancy b.sideToMove).testBit m.to_sq = false := by
    rw [compl64_testBit, decide_eq_true hto64, Bool.true_xor,
      Bool.not_eq_true'] at hFr
    exact hFr
  have hek' : (b.pieces Piece.King b.sideToMove.opposite).testBit
      m.to_sq = false := by
    rw [compl64_testBit, decide_eq_true hto64, Bool.true_xor,
      Bool.not_eq_true'] at hek
    exact hek
  rw [isPseudoLegal_reduce T b m (by rw [hfrom]; exact hfrom64) hto64
    (by rw [hpc, hfrom]; exact hpbit) hFr' ?hcap hek']
  · exact hbranch m hpc (by rw [hfrom]; exact hA) (by
      rw [hflags]
      by_cases hE : (b.opponentOccupancy b.sideToMove &&&
          compl64 (b.pieces Piece.King b.sideToMove.opposite)).testBit
          m.to_sq
      · rw [if_pos hE]
        exact Or.inl rfl
      · rw [if_neg hE]
        exact Or.inr rfl)
  case hcap =>
    intro hcap _
    simp only [Move.isCapture] at hcap
    rw [hflags] at hcap
    by_cases hE : (b.opponentOccupancy b.sideToMove &&&
        compl64 (b.pieces Piece.King b.sideToMove.opposite)).testBit
        m.to_sq
    · rw [Nat.testBit_and] at hE
      exact ((Bool.and_eq_true _ _).mp hE).1
    · rw [if_neg hE] at hcap
      exact absurd hcap (by decide)

theorem and_pow_mod_ge (x i : Nat) (hi : 64 ≤ i) :
    x &&& 2 ^ i % 2 ^ 64 = 0 := by
  have hdvd : (2 : Nat) ^ 64 ∣ 2 ^ i := Nat.pow_dvd_pow 2 hi
  rw [Nat.mod_eq_zero_of_dvd hdvd, Nat.and_zero]

theorem lt64_of_and_pow_mod_ne (x i : Nat)
    (h : x &&& 2 ^ i % 2 ^ 64 ≠ 0) : i < 64 := by
  by_contra hge
  exact h (and_pow_mod_ge x i (by omega))

theorem testBit_of_and_pow_mod_ne (x i : Nat)
    (h : x &&& 2 ^ i % 2 ^ 64 ≠ 0) : x.testBit i = true := by
  cases hx : x.testBit i
  · exact absurd (and_pow_mod_eq_zero x i hx) h
  · rfl

theorem and_eq_zero_testBit (x y k : Nat) (h : x &&& y = 0)
    (hy : y.testBit k = true) : x.testBit k = false := by
  cases hx : x.testBit k
  · rfl
  · exfalso
    have hb : (x &&& y).testBit k = true := by
      rw [Nat.testBit_and, hx, hy]
      rfl
    rw [h, Nat.zero_testBit] at hb
    exact Bool.noConfusion hb

theorem rank2_div : ∀ j, j < 64 → RANK2.testBit j = true → j / 8 = 1 := by
  decide

theorem rank7_div : ∀ j, j < 64 → RANK7.testBit j = true → j / 8 = 6 := by
  decide

theorem branch_nonpawn (T : MagicTables) (b : Board) (pc : Piece)
    (att : Nat → Nat) (hatt : ∀ sq, att sq < 2 ^ 64)
    (hmatch : ∀ m : Move, m.piece = pc → pieceRuleOk T b m =
      decide (att m.from_sq &&& 2 ^ m.to_sq % 2 ^ 64 ≠ 0)) :
    ∀ m : Move, m.piece = pc →
      (att m.from_sq).testBit m.to_sq = true →
      (m.flags = CAPTURE ∨ m.flags = QUIET_MOVE) →
      pieceRuleOk T b m = true := by
  intro m hpc hbit _
  rw [hmatch m hpc]
  exact decide_eq_true (and_pow_mod_ne_zero _ _
    (testBit_true_lt _ _ (hatt m.from_sq) hbit) hbit)

theorem pieceRuleOk_knight (T : MagicTables) (b : Board) (m : Move)
    (hpc : m.piece = Piece.Knight) :
    pieceRuleOk T b m =
      decide (knightAttacksBB m.from_sq &&& 2 ^ m.to_sq % 2 ^ 64 ≠ 0) := by
  unfold pieceRuleOk
  rw [hpc]

theorem pieceRuleOk_bishop (T : MagicTables) (b : Board) (m : Move)
    (hpc : m.piece = Piece.Bishop) :
    pieceRuleOk T b m =
      decide (T.bishopAtt m.from_sq b.occupied &&&
        2 ^ m.to_sq % 2 ^ 64 ≠ 0) := by
  unfold pieceRuleOk
  rw [hpc]

theorem pieceRuleOk_rook (T : MagicTables) (b : Board) (m : Move)
    (hpc : m.piece = Piece.Rook) :
    pieceRuleOk T b m =
      decide (T.rookAtt m.from_sq b.occupied &&&
        2 ^ m.to_sq % 2 ^ 64 ≠ 0) := by
  unfold pieceRuleOk
  rw [hpc]

theorem pieceRuleOk_queen (T : MagicTables) (b : Board) (m : Move)
    (hpc : m.piece = Piece.Queen) :
    pieceRuleOk T b m =
      decide ((T.bishopAtt m.from_sq b.occupied |||
        T.rookAtt m.from_sq b.occupied) &&&
        2 ^ m.to_sq % 2 ^ 64 ≠ 0) := by
  unfold pieceRuleOk
  rw [hpc]

/-- Validator acceptance of a White pawn push (quiet or promotion). -/
theorem pawn_push_ok_white (T : MagicTables) (b : Board)
    (hf : SoundFacts b) (hside : b.sideToMove = Color.White)
    (toSq : Nat) (pr : Option Piece) (flg : Nat)
    (hflg : flg = QUIET_MOVE ∨ flg = PROMOTION)
    (hge : 8 ≤ toSq) (h64 : toSq < 64)
    (hpb : (b.pieceBB Color.White Piece.Pawn).testBit (toSq - 8) = true)
    (hemp : (compl64 b.occupied).testBit toSq = true)
    (hpromo : flg = PROMOTION → toSq / 8 = 7) :
    isPseudoLegal T b
      { from_sq := toSq - 8, to_sq := toSq, piece := Piece.Pawn,
        promotion := pr, flags := flg } = true := by
  obtain ⟨hfr, hopp, hek⟩ := empty_not_friendly b hf toSq h64 hemp
  rw [isPseudoLegal_reduce T b _ (by show toSq - 8 < 64; omega) h64
    (by rw [hside]; exact hpb) hfr
    (by
      intro hcap _
      simp only [Move.isCapture] at hcap
      rcases hflg with h | h <;> rw [h] at hcap <;>
        exact absurd hcap (by decide))
    hek]
  unfold pieceRuleOk
  dsimp only
  have ha : ((toSq : Int) = ((toSq - 8 : Nat) : Int) + 8) := by omega
  have hb := and_pow_mod_ne_zero (compl64 b.occupied) toSq h64 hemp
  rcases hflg with h | h
  · rw [h]
    simp only [Move.isEnPassant, Move.isCapture, Move.isDoublePawnPush,
      Move.isPromotion, QUIET_MOVE, EN_PASSANT, CAPTURE,
      DOUBLE_PAWN_PUSH, PROMOTION, hside, ha]
    simpa using hb
  · rw [h]
    simp only [Move.isEnPassant, Move.isCapture, Move.isDoublePawnPush,
      Move.isPromotion, QUIET_MOVE, EN_PASSANT, CAPTURE,
      DOUBLE_PAWN_PUSH, PROMOTION, hside, ha, hpromo h]
    simpa using hb

theorem pow_and_ne_of_testBit (y i : Nat) (hi : i < 64)
    (hy : y.testBit i = true) : 2 ^ i % 2 ^ 64 &&& y ≠ 0 := by
  rw [Nat.mod_eq_of_lt (Nat.pow_lt_pow_right (by omega) hi)]
  exact (and_ne_zero_iff_testBit' (2 ^ i) y).mpr
    ⟨i, by simp [Nat.testBit_two_pow], hy⟩

/-- Validator acceptance of a Black pawn push (quiet or promotion). -/
theorem pawn_push_ok_black (T : MagicTables) (b : Board)
    (hf : SoundFacts b) (hside : b.sideToMove = Color.Black)
    (toSq : Nat) (pr : Option Piece) (flg : Nat)
    (hflg : flg = QUIET_MOVE ∨ flg = PROMOTION)
    (h64 : toSq + 8 < 64)
    (hpb : (b.pieceBB Color.Black Piece.Pawn).testBit (toSq + 8) = true)
    (hemp : (compl64 b.occupied).testBit toSq = true)
    (hpromo : flg = PROMOTION → toSq / 8 = 0) :
    isPseudoLegal T b
      { from_sq := toSq + 8, to_sq := toSq, piece := Piece.Pawn,
        promotion := pr, flags := flg } = true := by
  obtain ⟨hfr, hopp, hek⟩ := empty_not_friendly b hf toSq (by omega) hemp
  rw [isPseudoLegal_reduce T b _ (by show toSq + 8 < 64; omega)
    (by show toSq < 64; omega) (by rw [hside]; exact hpb) hfr
    (by
      intro hcap _
      simp only [Move.isCapture] at hcap
      rcases hflg with h | h <;> rw [h] at hcap <;>
        exact absurd hcap (by decide))
    hek]
  unfold pieceRuleOk
  dsimp only
  have ha : ((toSq : Int) = ((toSq + 8 : Nat) : Int) + (-8)) := by omega
  have hb := and_pow_mod_ne_zero (compl64 b.occupied) toSq (by omega) hemp
  rcases hflg with h | h
  · rw [h]
    simp only [Move.isEnPassant, Move.isCapture, Move.isDoublePawnPush,
      Move.isPromotion, QUIET_MOVE, EN_PASSANT, CAPTURE,
      DOUBLE_PAWN_PUSH, PROMOTION, hside, ha]
    simpa using hb
  · rw [h]
    simp only [Move.isEnPassant, Move.isCapture, Move.isDoublePawnPush,
      Move.isPromotion, QUIET_MOVE, EN_PASSANT, CAPTURE,
      DOUBLE_PAWN_PUSH, PROMOTION, hside, ha, hpromo h]
    simpa using hb

/-- Validator acceptance of a White double pawn push. -/
theorem pawn_double_ok_white (T : MagicTables) (b : Board)
    (hf : SoundFacts b) (hside : b.sideToMove = Color.White)
    (toSq : Nat) (hge : 16 ≤ toSq) (h64 : toSq < 64)
    (hpb : (b.pieceBB Color.White Piece.Pawn).testBit (toSq - 16) = true)
    (hr2 : RANK2.testBit (toSq - 16) = true)
    (hmid : (compl64 b.occupied).testBit (toSq - 8) = true)
    (hemp : (compl64 b.occupied).testBit toSq = true) :
    isPseudoLegal T b
      { from_sq := toSq - 16, to_sq := toSq, piece := Piece.Pawn,
        promotion := none, flags := DOUBLE_PAWN_PUSH } = true := by
  obtain ⟨hfr, hopp, hek⟩ := empty_not_friendly b hf toSq h64 hemp
  rw [isPseudoLegal_reduce T b _ (by show toSq - 16 < 64; omega) h64
    (by rw [hside]; exact hpb) hfr
    (by
      intro hcap _
      simp only [Move.isCapture] at hcap
      exact absurd hcap (by decide))
    hek]
  unfold pieceRuleOk
  dsimp only
  have ha : ((toSq : Int) = ((toSq - 16 : Nat) : Int) + 16) := by omega
  have hb := and_pow_mod_ne_zero (compl64 b.occupied) toSq h64 hemp
  have hdr : 2 ^ (toSq - 16) % 2 ^ 64 &&& (0xFF00 : Nat) ≠ 0 :=
    pow_and_ne_of_testBit _ _ (by omega) hr2
  have hmida : (((toSq - 16 : Nat) : Int) + 8).toNat = toSq - 8 := by
    omega
  have hmidb := and_pow_mod_ne_zero (compl64 b.occupied) (toSq - 8)
    (by omega) hmid
  simp only [Move.isEnPassant, Move.isCapture, Move.isDoublePawnPush,
    Move.isPromotion, QUIET_MOVE, EN_PASSANT, CAPTURE,
    DOUBLE_PAWN_PUSH, PROMOTION, hside, ha]
  simp [-Nat.reducePow, hmida, hb, hdr, hmidb]

/-- Validator acceptance of a Black double pawn push. -/
theorem pawn_double_ok_black (T : MagicTables) (b : Board)
    (hf : SoundFacts b) (hside : b.sideToMove = Color.Black)
    (toSq : Nat) (h64 : toSq + 16 < 64)
    (hpb : (b.pieceBB Color.Black Piece.Pawn).testBit (toSq + 16) = true)
    (hr7 : RANK7.testBit (toSq + 16) = true)
    (hmid : (compl64 b.occupied).testBit (toSq + 8) = true)
    (hemp : (compl64 b.occupied).testBit toSq = true) :
    isPseudoLegal T b
      { from_sq := toSq + 16, to_sq := toSq, piece := Piece.Pawn,
        promotion := none, flags := DOUBLE_PAWN_PUSH } = true := by
  obtain ⟨hfr, hopp, hek⟩ := empty_not_friendly b hf toSq (by omega) hemp
  rw [isPseudoLegal_reduce T b _ (by show toSq + 16 < 64; omega)
    (by show toSq < 64; omega) (by rw [hside]; exact hpb) hfr
    (by
      intro hcap _
      simp only [Move.isCapture] at hcap
      exact absurd hcap (by decide))
    hek]
  unfold pieceRuleOk
  dsimp only
  have ha : ((toSq : Int) = ((toSq + 16 : Nat) : Int) + (-16)) := by
    omega
  have hb := and_pow_mod_ne_zero (compl64 b.occupied) toSq (by omega) hemp
  have hdr : 2 ^ (toSq + 16) % 2 ^ 64 &&&
      (0x00FF000000000000 : Nat) ≠ 0 :=
    pow_and_ne_of_testBit _ _ (by omega) hr7
  have hmida : (((toSq + 16 : Nat) : Int) + (-8)).toNat = toSq + 8 := by
    omega
  have hmida2 : (((toSq : Nat) : Int) + 16 + (-8)).toNat = toSq + 8 := by
    omega
  have hmidb := and_pow_mod_ne_zero (compl64 b.occupied) (toSq + 8)
    (by omega) hmid
  simp only [Move.isEnPassant, Move.isCapture, Move.isDoublePawnPush,
    Move.isPromotion, QUIET_MOVE, EN_PASSANT, CAPTURE,
    DOUBLE_PAWN_PUSH, PROMOTION, hside, ha]
  simp [-Nat.reducePow, hmida, hmida2, hb, hdr, hmidb]

/-- Validator acceptance of a pawn capture (plain or promotion),
either color. -/
theorem pawn_capture_ok (T : MagicTables) (b : Board)
    (hf : SoundFacts b) (fromSq toSq : Nat) (pr : Option Piece)
    (flg : Nat) (hflg : flg = CAPTURE ∨ flg = PROMOTION_CAPTURE)
    (hfrom64 : fromSq < 64) (hto64 : toSq < 64)
    (hpb : (b.pieces Piece.Pawn b.sideToMove).testBit fromSq = true)
    (hatt : (pawnAttacksBB fromSq b.sideToMove).testBit toSq = true)
    (hoppb : (b.opponentOccupancy b.sideToMove).testBit toSq = true)
    (hekb : (b.pieces Piece.King b.sideToMove.opposite).testBit toSq =
      false)
    (hpromo : flg = PROMOTION_CAPTURE →
      toSq / 8 = (if b.sideToMove = Color.White then 7 else 0)) :
    isPseudoLegal T b
      { from_sq := fromSq, to_sq := toSq, piece := Piece.Pawn,
        promotion := pr, flags := flg } = true := by
  rw [isPseudoLegal_reduce T b _ hfrom64 hto64 hpb
    (hf.oppFriendly toSq hoppb)
    (fun _ _ => hoppb) hekb]
  unfold pieceRuleOk
  dsimp only
  have hb := and_pow_mod_ne_zero (pawnAttacksBB fromSq b.sideToMove)
    toSq hto64 hatt
  rcases hflg with h | h
  · rw [h]
    simp only [Move.isEnPassant, Move.isCapture, Move.isDoublePawnPush,
      Move.isPromotion, QUIET_MOVE, EN_PASSANT, CAPTURE,
      DOUBLE_PAWN_PUSH, PROMOTION]
    simp [-Nat.reducePow, hb]
    exact Or.inl (by decide)
  · rw [h]
    simp only [Move.isEnPassant, Move.isCapture, Move.isDoublePawnPush,
      Move.isPromotion, QUIET_MOVE, EN_PASSANT, CAPTURE,
      DOUBLE_PAWN_PUSH, PROMOTION, PROMOTION_CAPTURE]
    simp [-Nat.reducePow, hb, hpromo h]

/-- Validator acceptance of an en-passant capture. -/
theorem pawn_ep_ok (T : MagicTables) (b : Board) (hf : SoundFacts b)
    (fromSq ep : Nat) (hfrom64 : fromSq < 64) (hto64 : ep < 64)
    (hep : b.enPassant = some ep)
    (hpb : (b.pieces Piece.Pawn b.sideToMove).testBit fromSq = true)
    (hatt : (pawnAttacksBB fromSq b.sideToMove).testBit ep = true)
    (hemp : (compl64 b.occupied).testBit ep = true) :
    isPseudoLegal T b
      { from_sq := fromSq, to_sq := ep, piece := Piece.Pawn,
        promotion := none, flags := EN_PASSANT } = true := by
  obtain ⟨hfr, hopp, hek⟩ := empty_not_friendly b hf ep hto64 hemp
  rw [isPseudoLegal_reduce T b _ hfrom64 hto64 hpb hfr
    (by
      intro _ hnep
      simp [Move.isEnPassant] at hnep)
    hek]
  unfold pieceRuleOk
  dsimp only
  have hb := and_pow_mod_ne_zero (pawnAttacksBB fromSq b.sideToMove) ep
    hto64 hatt
  rw [hep]
  simp only [Move.isEnPassant, Move.isCapture, Move.isDoublePawnPush,
    Move.isPromotion, QUIET_MOVE, EN_PASSANT, CAPTURE,
    DOUBLE_PAWN_PUSH, PROMOTION]
  simp [-Nat.reducePow, hb]
  exact Or.inl (by decide)

theorem shiftRight_le' (x i : Nat) : x >>> i ≤ x := by
  rw [Nat.shiftRight_eq_div_pow]
  exact Nat.div_le_self _ _

theorem sound_pawnSinglePushes (T : MagicTables) (b : Board)
    (hf : SoundFacts b) :
    ∀ m ∈ pawnSinglePushes b, isPseudoLegal T b m = true := by
  intro m hm
  unfold pawnSinglePushes at hm
  dsimp only at hm
  cases hside : b.sideToMove with
  | White =>
    rw [hside] at hm
    simp only [reduceCtorEq, if_true, if_false, eq_self_iff_true,
      ite_true, ite_false] at hm
    rcases List.mem_map.mp hm with ⟨toSq, hts, rfl⟩
    have hbit := (popBits_mem _
      (lt_of_le_of_lt Nat.and_le_left
        (lt_of_le_of_lt Nat.and_le_left (Nat.mod_lt _ (by decide))))
      toSq).mp hts
    rw [Nat.testBit_and, Nat.testBit_and] at hbit
    rcases (Bool.and_eq_true _ _).mp hbit with ⟨h1, _⟩
    rcases (Bool.and_eq_true _ _).mp h1 with ⟨hsh, hemp⟩
    rw [Nat.testBit_mod_two_pow] at hsh
    rcases (Bool.and_eq_true _ _).mp hsh with ⟨h64, hsl⟩
    rw [Nat.testBit_shiftLeft] at hsl
    rcases (Bool.and_eq_true _ _).mp hsl with ⟨hge, hpb⟩
    rw [decide_eq_true_eq] at h64 hge
    exact pawn_push_ok_white T b hf hside toSq none QUIET_MOVE
      (Or.inl rfl) hge h64 hpb hemp (fun hc => absurd hc (by decide))
  | Black =>
    rw [hside] at hm
    simp only [reduceCtorEq, if_true, if_false, eq_self_iff_true,
      ite_true, ite_false] at hm
    rcases List.mem_map.mp hm with ⟨toSq, hts, rfl⟩
    have hbit := (popBits_mem _
      (lt_of_le_of_lt Nat.and_le_left
        (lt_of_le_of_lt Nat.and_le_left (by
          exact lt_of_le_of_lt (shiftRight_le' _ _)
            (hf.bbLt Color.Black Piece.Pawn)))) toSq).mp hts
    rw [Nat.testBit_and, Nat.testBit_and] at hbit
    rcases (Bool.and_eq_true _ _).mp hbit with ⟨h1, _⟩
    rcases (Bool.and_eq_true _ _).mp h1 with ⟨hsh, hemp⟩
    rw [Nat.testBit_shiftRight] at hsh
    have h64 : 8 + toSq < 64 :=
      testBit_true_lt _ _ (hf.bbLt Color.Black Piece.Pawn) hsh
    have hpb : (b.pieceBB Color.Black Piece.Pawn).testBit (toSq + 8) =
        true := by
      rw [Nat.add_comm toSq 8]
      exact hsh
    exact pawn_push_ok_black T b hf hside toSq none QUIET_MOVE
      (Or.inl rfl) (by omega) hpb hemp (fun hc => absurd hc (by decide))

theorem sound_pawnDoublePushes (T : MagicTables) (b : Board)
    (hf : SoundFacts b) :
    ∀ m ∈ pawnDoublePushes b, isPseudoLegal T b m = true := by
  intro m hm
  unfold pawnDoublePushes at hm
  dsimp only at hm
  cases hside : b.sideToMove with
  | White =>
    rw [hside] at hm
    simp only [reduceCtorEq, if_true, if_false, eq_self_iff_true,
      ite_true, ite_false] at hm
    rcases List.mem_map.mp hm with ⟨toSq, hts, rfl⟩
    have hbit := (popBits_mem _
      (lt_of_le_of_lt Nat.and_le_left (Nat.mod_lt _ (by decide)))
      toSq).mp hts
    rw [Nat.testBit_and, Nat.testBit_mod_two_pow] at hbit
    rcases (Bool.and_eq_true _ _).mp hbit with ⟨hmod, hemp⟩
    rcases (Bool.and_eq_true _ _).mp hmod with ⟨h64, hsl⟩
    rw [Nat.testBit_shiftLeft] at hsl
    rcases (Bool.and_eq_true _ _).mp hsl with ⟨hge8, hin⟩
    rw [Nat.testBit_and] at hin
    rcases (Bool.and_eq_true _ _).mp hin with ⟨hsl2, hmid⟩
    rw [Nat.testBit_mod_two_pow] at hsl2
    rcases (Bool.and_eq_true _ _).mp hsl2 with ⟨_, hsl3⟩
    rw [Nat.testBit_shiftLeft] at hsl3
    rcases (Bool.and_eq_true _ _).mp hsl3 with ⟨hge16, hpr⟩
    rw [Nat.testBit_and] at hpr
    rcases (Bool.and_eq_true _ _).mp hpr with ⟨hpb, hr2⟩
    rw [decide_eq_true_eq] at h64 hge8 hge16
    have hge : 16 ≤ toSq := by omega
    have he1 : toSq - 8 - 8 = toSq - 16 := by omega
    rw [he1] at hpb hr2
    exact pawn_double_ok_white T b hf hside toSq hge h64 hpb hr2
      (by
        have : toSq - 8 < 64 := by omega
        exact hmid) hemp
  | Black =>
    rw [hside] at hm
    simp only [reduceCtorEq, if_true, if_false, eq_self_iff_true,
      ite_true, ite_false] at hm
    rcases List.mem_map.mp hm with ⟨toSq, hts, rfl⟩
    have hb1 : b.pieces Piece.Pawn Color.Black &&& RANK7 < 2 ^ 64 :=
      lt_of_le_of_lt Nat.and_le_left (hf.bbLt Color.Black Piece.Pawn)
    have hbit := (popBits_mem _
      (lt_of_le_of_lt Nat.and_le_left
        (lt_of_le_of_lt (shiftRight_le' _ _)
          (lt_of_le_of_lt Nat.and_le_left
            (lt_of_le_of_lt (shiftRight_le' _ _) hb1)))) toSq).mp hts
    rw [Nat.testBit_and, Nat.testBit_shiftRight] at hbit
    rcases (Bool.and_eq_true _ _).mp hbit with ⟨hsh, hemp⟩
    rw [Nat.testBit_and, Nat.testBit_shiftRight] at hsh
    rcases (Bool.and_eq_true _ _).mp hsh with ⟨hin, hmid⟩
    rw [Nat.testBit_and] at hin
    rcases (Bool.and_eq_true _ _).mp hin with ⟨hpb, hr7⟩
    have h64 : 8 + (8 + toSq) < 64 :=
      testBit_true_lt _ _ hb1 (by
        rw [Nat.testBit_and, hpb, hr7]
        rfl)
    have he1 : 8 + (8 + toSq) = toSq + 16 := by omega
    have he2 : 8 + toSq = toSq + 8 := by omega
    rw [he1] at hpb hr7
    rw [he2] at hmid
    exact pawn_double_ok_black T b hf hside toSq (by omega) hpb hr7
      hmid hemp

theorem sound_pawnNormalCaptures (T : MagicTables) (b : Board)
    (hf : SoundFacts b) :
    ∀ m ∈ pawnNormalCaptures b (b.pieces Piece.Pawn b.sideToMove),
      isPseudoLegal T b m = true := by
  intro m hm
  unfold pawnNormalCaptures at hm
  dsimp only at hm
  rcases List.mem_flatMap.mp hm with ⟨fromSq, hfs, hmem⟩
  have hpb := (popBits_mem _ (hf.bbLt b.sideToMove Piece.Pawn)
    fromSq).mp hfs
  have hfrom64 : fromSq < 64 :=
    testBit_true_lt _ _ (hf.bbLt b.sideToMove Piece.Pawn) hpb
  rcases List.mem_map.mp hmem with ⟨toSq, hts, rfl⟩
  have hbit := (popBits_mem _
    (lt_of_le_of_lt Nat.and_le_left
      (lt_of_le_of_lt Nat.and_le_left (pawnAttacksBB_lt _ _)))
    toSq).mp hts
  rw [Nat.testBit_and, Nat.testBit_and] at hbit
  rcases (Bool.and_eq_true _ _).mp hbit with ⟨h1, _⟩
  rcases (Bool.and_eq_true _ _).mp h1 with ⟨hatt, hwok⟩
  have hto64 : toSq < 64 :=
    testBit_true_lt _ _ (pawnAttacksBB_lt _ _) hatt
  rw [Nat.testBit_and] at hwok
  rcases (Bool.and_eq_true _ _).mp hwok with ⟨hopp, hekc⟩
  have hekb : (b.pieces Piece.King b.sideToMove.opposite).testBit toSq =
      false := by
    rw [compl64_testBit, decide_eq_true hto64, Bool.true_xor,
      Bool.not_eq_true'] at hekc
    exact hekc
  exact pawn_capture_ok T b hf fromSq toSq none CAPTURE (Or.inl rfl)
    hfrom64 hto64 hpb hatt hopp hekb (fun hc => absurd hc (by decide))

theorem rank8_div : ∀ j, j < 64 → RANK8.testBit j = true → j / 8 = 7 := by
  decide

theorem rank1_div : ∀ j, j < 64 → RANK1.testBit j = true → j / 8 = 0 := by
  decide

theorem sound_pawnPromoPushes (T : MagicTables) (b : Board)
    (hf : SoundFacts b) :
    ∀ m ∈ pawnPromoPushes b, isPseudoLegal T b m = true := by
  intro m hm
  unfold pawnPromoPushes at hm
  dsimp only at hm
  cases hside : b.sideToMove with
  | White =>
    rw [hside] at hm
    simp only [reduceCtorEq, if_true, if_false, eq_self_iff_true,
      ite_true, ite_false] at hm
    rcases List.mem_flatMap.mp hm with ⟨toSq, hts, hmem⟩
    rcases List.mem_map.mp hmem with ⟨promo, _, rfl⟩
    have hbit := (popBits_mem _
      (lt_of_le_of_lt Nat.and_le_left (Nat.mod_lt _ (by decide)))
      toSq).mp hts
    rw [Nat.testBit_and, Nat.testBit_mod_two_pow] at hbit
    rcases (Bool.and_eq_true _ _).mp hbit with ⟨hmod, hemp⟩
    rcases (Bool.and_eq_true _ _).mp hmod with ⟨h64, hsl⟩
    rw [Nat.testBit_shiftLeft] at hsl
    rcases (Bool.and_eq_true _ _).mp hsl with ⟨hge, hpr⟩
    rw [Nat.testBit_and] at hpr
    rcases (Bool.and_eq_true _ _).mp hpr with ⟨hpb, hr7⟩
    rw [decide_eq_true_eq] at h64 hge
    have hdiv : toSq / 8 = 7 := by
      have := rank7_div (toSq - 8) (by omega) hr7
      omega
    exact pawn_push_ok_white T b hf hside toSq (some promo) PROMOTION
      (Or.inr rfl) hge h64 hpb hemp (fun _ => hdiv)
  | Black =>
    rw [hside] at hm
    simp only [reduceCtorEq, if_true, if_false, eq_self_iff_true,
      ite_true, ite_false] at hm
    rcases List.mem_flatMap.mp hm with ⟨toSq, hts, hmem⟩
    rcases List.mem_map.mp hmem with ⟨promo, _, rfl⟩
    have hb1 : b.pieces Piece.Pawn Color.Black &&& RANK2 < 2 ^ 64 :=
      lt_of_le_of_lt Nat.and_le_left (hf.bbLt Color.Black Piece.Pawn)
    have hbit := (popBits_mem _
      (lt_of_le_of_lt Nat.and_le_left
        (lt_of_le_of_lt (shiftRight_le' _ _) hb1)) toSq).mp hts
    rw [Nat.testBit_and, Nat.testBit_shiftRight] at hbit
    rcases (Bool.and_eq_true _ _).mp hbit with ⟨hsh, hemp⟩
    rw [Nat.testBit_and] at hsh
    rcases (Bool.and_eq_true _ _).mp hsh with ⟨hpb, hr2⟩
    have h64 : 8 + toSq < 64 := testBit_true_lt _ _ hb1 (by
      rw [Nat.testBit_and, hpb, hr2]
      rfl)
    have he : 8 + toSq = toSq + 8 := by omega
    rw [he] at hpb hr2
    have hdiv : toSq / 8 = 0 := by
      have := rank2_div (toSq + 8) (by omega) hr2
      omega
    exact pawn_push_ok_black T b hf hside toSq (some promo) PROMOTION
      (Or.inr rfl) (by omega) hpb hemp (fun _ => hdiv)

theorem sound_pawnPromoCaptures (T : MagicTables) (b : Board)
    (hf : SoundFacts b) :
    ∀ m ∈ pawnPromoCaptures b, isPseudoLegal T b m = true := by
  intro m hm
  unfold pawnPromoCaptures at hm
  dsimp only at hm
  rcases List.mem_flatMap.mp hm with ⟨fromSq, hfs, hmem⟩
  have hb1 : b.pieces Piece.Pawn b.sideToMove &&&
      (if b.sideToMove = Color.White then RANK7 else RANK2) < 2 ^ 64 :=
    lt_of_le_of_lt Nat.and_le_left (hf.bbLt b.sideToMove Piece.Pawn)
  have hpr := (popBits_mem _ hb1 fromSq).mp hfs
  rw [Nat.testBit_and] at hpr
  rcases (Bool.and_eq_true _ _).mp hpr with ⟨hpb, _⟩
  have hfrom64 : fromSq < 64 :=
    testBit_true_lt _ _ (hf.bbLt b.sideToMove Piece.Pawn) hpb
  rcases List.mem_flatMap.mp hmem with ⟨toSq, hts, hmem2⟩
  rcases List.mem_map.mp hmem2 with ⟨promo, _, rfl⟩
  have hbit := (popBits_mem _
    (lt_of_le_of_lt Nat.and_le_left
      (lt_of_le_of_lt Nat.and_le_left (pawnAttacksBB_lt _ _)))
    toSq).mp hts
  rw [Nat.testBit_and, Nat.testBit_and] at hbit
  rcases (Bool.and_eq_true _ _).mp hbit with ⟨h1, hpromo⟩
  rcases (Bool.and_eq_true _ _).mp h1 with ⟨hatt, hwok⟩
  have hto64 : toSq < 64 :=
    testBit_true_lt _ _ (pawnAttacksBB_lt _ _) hatt
  rw [Nat.testBit_and] at hwok
  rcases (Bool.and_eq_true _ _).mp hwok with ⟨hopp, hekc⟩
  have hekb : (b.pieces Piece.King b.sideToMove.opposite).testBit toSq =
      false := by
    rw [compl64_testBit, decide_eq_true hto64, Bool.true_xor,
      Bool.not_eq_true'] at hekc
    exact hekc
  refine pawn_capture_ok T b hf fromSq toSq (some promo)
    PROMOTION_CAPTURE (Or.inr rfl) hfrom64 hto64 hpb hatt hopp hekb ?_
  intro _
  cases hside : b.sideToMove with
  | White =>
    rw [hside] at hpromo
    simp only [reduceCtorEq, if_true, if_false, eq_self_iff_true,
      ite_true, ite_false] at hpromo ⊢
    exact rank8_div toSq hto64 hpromo
  | Black =>
    rw [hside] at hpromo
    simp only [reduceCtorEq, if_true, if_false, eq_self_iff_true,
      ite_true, ite_false] at hpromo ⊢
    exact rank1_div toSq hto64 hpromo

theorem sound_pawnEnPassantMoves (T : MagicTables) (b : Board)
    (hf : SoundFacts b) :
    ∀ m ∈ pawnEnPassantMoves b, isPseudoLegal T b m = true := by
  intro m hm
  unfold pawnEnPassantMoves at hm
  dsimp only at hm
  cases hep : b.enPassant with
  | none =>
    rw [hep] at hm
    cases hm
  | some ep =>
    rw [hep] at hm
    dsimp only at hm
    by_cases hempc : compl64 b.occupied &&& 2 ^ ep % 2 ^ 64 ≠ 0
    · rw [if_pos hempc] at hm
      by_cases hcapc : b.pieces Piece.Pawn b.sideToMove.opposite &&&
          2 ^ (if b.sideToMove = Color.White then ep - 8 else ep + 8) %
            2 ^ 64 ≠ 0
      · rw [if_pos hcapc] at hm
        rcases List.mem_map.mp hm with ⟨fromSq, hfs, rfl⟩
        rcases List.mem_filter.mp hfs with ⟨hfs2, hattc⟩
        have hpb := (popBits_mem _
          (hf.bbLt b.sideToMove Piece.Pawn) fromSq).mp hfs2
        have hfrom64 : fromSq < 64 :=
          testBit_true_lt _ _ (hf.bbLt b.sideToMove Piece.Pawn) hpb
        have hattc' : pawnAttacksBB fromSq b.sideToMove &&&
            2 ^ ep % 2 ^ 64 ≠ 0 := by
          simpa using hattc
        have hto64 : ep < 64 := lt64_of_and_pow_mod_ne _ _ hattc'
        have hatt := testBit_of_and_pow_mod_ne _ _ hattc'
        have hemp := testBit_of_and_pow_mod_ne _ _ hempc
        exact pawn_ep_ok T b hf fromSq ep hfrom64 hto64 hep hpb hatt
          hemp
      · rw [if_neg hcapc] at hm
        cases hm
    · rw [if_neg hempc] at hm
      cases hm

theorem occ_bit_false_parts (b : Board) (hf : SoundFacts b) (i : Nat)
    (h : b.occupied.testBit i = false) :
    (b.occupancy b.sideToMove).testBit i = false ∧
      (b.opponentOccupancy b.sideToMove).testBit i = false ∧
      (b.pieces Piece.King b.sideToMove.opposite).testBit i = false := by
  rw [hf.occAllBit i] at h
  rcases Bool.or_eq_false_iff.mp h with ⟨h1, h2⟩
  refine ⟨h1, h2, ?_⟩
  cases hek : (b.pieces Piece.King b.sideToMove.opposite).testBit i
  · rfl
  · rw [hf.ekSub i hek] at h2
    exact Bool.noConfusion h2

theorem castle_validator_ok (T : MagicTables) (b : Board)
    (hf : SoundFacts b) (fromSq toSq flg mask : Nat)
    (hflg : flg = KINGSIDE_CASTLE ∨ flg = QUEENSIDE_CASTLE)
    (hfrom64 : fromSq < 64) (hto64 : toSq < 64)
    (hkb : (b.pieces Piece.King b.sideToMove).testBit fromSq = true)
    (hoccz : b.occupied &&& mask = 0)
    (hmaskbit : mask.testBit toSq = true)
    (hrule : pieceRuleOk T b
      { from_sq := fromSq, to_sq := toSq, piece := Piece.King,
        promotion := none, flags := flg } = true) :
    isPseudoLegal T b
      { from_sq := fromSq, to_sq := toSq, piece := Piece.King,
        promotion := none, flags := flg } = true := by
  obtain ⟨hfr, hopp, hek⟩ := occ_bit_false_parts b hf toSq
    (and_eq_zero_testBit _ _ _ hoccz hmaskbit)
  rw [isPseudoLegal_reduce T b _ hfrom64 hto64 hkb hfr
    (by
      intro hcap _
      simp only [Move.isCapture] at hcap
      rcases hflg with h | h <;> rw [h] at hcap <;>
        exact absurd hcap (by decide))
    hek]
  exact hrule

theorem sound_kingCastleMoves (T : MagicTables) (b : Board)
    (hf : SoundFacts b) :
    ∀ m ∈ kingCastleMoves b T
        (lsb64 (b.pieces Piece.King b.sideToMove)),
      isPseudoLegal T b m = true := by
  intro m hm
  unfold kingCastleMoves at hm
  dsimp only at hm
  rcases List.mem_append.mp hm with hmk | hmq
  · by_cases hc : (hasKingsideCastle b b.sideToMove &&
        (b.occupied &&& kingsideBetween b.sideToMove == 0)) = true
    · rw [if_pos hc] at hmk
      rcases (Bool.and_eq_true _ _).mp hc with ⟨hrights, hocc⟩
      have hoccz : b.occupied &&& kingsideBetween b.sideToMove = 0 :=
        beq_iff_eq.mp hocc
      by_cases hlc : isLegalCastling T b
          { from_sq := lsb64 (b.pieces Piece.King b.sideToMove),
            to_sq := lsb64 (b.pieces Piece.King b.sideToMove) + 2,
            piece := Piece.King, promotion := none,
            flags := KINGSIDE_CASTLE }
      · rw [if_pos hlc] at hmk
        rw [List.mem_singleton] at hmk
        subst hmk
        cases hside : b.sideToMove with
        | White =>
          have hkbe : b.pieces Piece.King Color.White = 2 ^ 4 := by
            have h := hf.castleWK hrights
            rw [hside] at h
            simpa using h
          have hlsb : lsb64 (b.pieces Piece.King Color.White) = 4 := by
            rw [hkbe]
            decide
          rw [hlsb]
          rw [hside] at hoccz
          refine castle_validator_ok T b hf 4 (4 + 2) KINGSIDE_CASTLE
            (kingsideBetween Color.White) (Or.inl rfl) (by omega)
            (by omega) (by rw [hside, hkbe]; decide) hoccz
            (by decide) ?_
          have hr : b.castlingRights &&& CASTLE_WK ≠ 0 := by
            have h := hrights
            rw [hside] at h
            exact bne_iff_ne.mp h
          have hoccz' : b.occupied &&& 0x60 = 0 := hoccz
          unfold pieceRuleOk
          simp [Move.isCastling, Move.isKingsideCastle, hside, hr,
            hoccz']
        | Black =>
          have hkbe : b.pieces Piece.King Color.Black = 2 ^ 60 := by
            have h := hf.castleWK hrights
            rw [hside] at h
            simpa using h
          have hlsb : lsb64 (b.pieces Piece.King Color.Black) = 60 := by
            rw [hkbe]
            decide
          rw [hlsb]
          rw [hside] at hoccz
          refine castle_validator_ok T b hf 60 (60 + 2) KINGSIDE_CASTLE
            (kingsideBetween Color.Black) (Or.inl rfl) (by omega)
            (by omega) (by rw [hside, hkbe]; decide) hoccz
            (by decide) ?_
          have hr : b.castlingRights &&& CASTLE_BK ≠ 0 := by
            have h := hrights
            rw [hside] at h
            exact bne_iff_ne.mp h
          have hoccz' : b.occupied &&& 0x6000000000000000 = 0 := hoccz
          unfold pieceRuleOk
          simp [Move.isCastling, Move.isKingsideCastle, hside, hr,
            hoccz']
      · rw [if_neg hlc] at hmk
        cases hmk
    · rw [if_neg hc] at hmk
      cases hmk
  · by_cases hc : (hasQueensideCastle b b.sideToMove &&
        (b.occupied &&& queensideBetween b.sideToMove == 0)) = true
    · rw [if_pos hc] at hmq
      rcases (Bool.and_eq_true _ _).mp hc with ⟨hrights, hocc⟩
      have hoccz : b.occupied &&& queensideBetween b.sideToMove = 0 :=
        beq_iff_eq.mp hocc
      rw [List.mem_singleton] at hmq
      subst hmq
      cases hside : b.sideToMove with
      | White =>
        have hkbe : b.pieces Piece.King Color.White = 2 ^ 4 := by
          have h := hf.castleWQ hrights
          rw [hside] at h
          simpa using h
        have hlsb : lsb64 (b.pieces Piece.King Color.White) = 4 := by
          rw [hkbe]
          decide
        rw [hlsb]
        rw [hside] at hoccz
        refine castle_validator_ok T b hf 4 (4 - 2) QUEENSIDE_CASTLE
          (queensideBetween Color.White) (Or.inr rfl) (by omega)
          (by omega) (by rw [hside, hkbe]; decide) hoccz (by decide) ?_
        have hr : b.castlingRights &&& CASTLE_WQ ≠ 0 := by
          have h := hrights
          rw [hside] at h
          exact bne_iff_ne.mp h
        have hoccz' : b.occupied &&& 0xE = 0 := hoccz
        unfold pieceRuleOk
        simp [Move.isCastling, Move.isKingsideCastle, hside, hr, hoccz']
        exact Or.inl (by decide)
      | Black =>
        have hkbe : b.pieces Piece.King Color.Black = 2 ^ 60 := by
          have h := hf.castleWQ hrights
          rw [hside] at h
          simpa using h
        have hlsb : lsb64 (b.pieces Piece.King Color.Black) = 60 := by
          rw [hkbe]
          decide
        rw [hlsb]
        rw [hside] at hoccz
        refine castle_validator_ok T b hf 60 (60 - 2) QUEENSIDE_CASTLE
          (queensideBetween Color.Black) (Or.inr rfl) (by omega)
          (by omega) (by rw [hside, hkbe]; decide) hoccz (by decide) ?_
        have hr : b.castlingRights &&& CASTLE_BQ ≠ 0 := by
          have h := hrights
          rw [hside] at h
          exact bne_iff_ne.mp h
        have hoccz' : b.occupied &&& 0x0E00000000000000 = 0 := hoccz
        unfold pieceRuleOk
        simp [Move.isCastling, Move.isKingsideCastle, hside, hr, hoccz']
        exact Or.inl (by decide)
    · rw [if_neg hc] at hmq
      cases hmq

/-- Validator acceptance of every generated king move: the normal moves
carry the king-attack bit of their destination, the castles go through
`sound_kingCastleMoves`. -/
theorem pieceRuleOk_king_normal (T : MagicTables) (b : Board) (m : Move)
    (hpc : m.piece = Piece.King) (hnc : m.isCastling = false) :
    pieceRuleOk T b m =
      decide (kingAttacksBB m.from_sq &&& 2 ^ m.to_sq % 2 ^ 64 ≠ 0) := by
  unfold pieceRuleOk
  rw [hpc]
  dsimp only
  rw [hnc]
  simp

theorem sound_generateKingMoves (T : MagicTables) (b : Board)
    (hf : SoundFacts b) :
    ∀ m ∈ generateKingMoves b T, isPseudoLegal T b m = true := by
  intro m hm
  unfold generateKingMoves at hm
  dsimp only at hm
  by_cases hkz : b.pieces Piece.King b.sideToMove = 0
  · rw [if_pos hkz] at hm
    cases hm
  · rw [if_neg hkz] at hm
    rcases List.mem_append.mp hm with hmn | hmc
    · obtain ⟨hfrom64, hfromBit⟩ :=
        lsb64_spec _ hkz (hf.bbLt b.sideToMove Piece.King)
      have htg : kingAttacksBB (lsb64 (b.pieces Piece.King b.sideToMove))
          &&& compl64 (b.occupancy b.sideToMove) &&&
          compl64 (b.pieces Piece.King b.sideToMove.opposite) < 2 ^ 64 :=
        lt_of_le_of_lt (le_trans Nat.and_le_left Nat.and_le_left)
          (kingAttacksBB_lt _)
      obtain ⟨hfrom, hpc, hprom, hbit, hflags⟩ :=
        pushPieceMoves_shape _ _ _ _ htg m hmn
      rw [Nat.testBit_and, Nat.testBit_and] at hbit
      rcases (Bool.and_eq_true _ _).mp hbit with ⟨hbit1, hek⟩
      rcases (Bool.and_eq_true _ _).mp hbit1 with ⟨hA, hFr⟩
      have hto64 : m.to_sq < 64 :=
        testBit_true_lt _ _ (kingAttacksBB_lt _) hA
      have hFr' : (b.occupancy b.sideToMove).testBit m.to_sq = false := by
        rw [compl64_testBit, decide_eq_true hto64, Bool.true_xor,
          Bool.not_eq_true'] at hFr
        exact hFr
      have hek' : (b.pieces Piece.King b.sideToMove.opposite).testBit
          m.to_sq = false := by
        rw [compl64_testBit, decide_eq_true hto64, Bool.true_xor,
          Bool.not_eq_true'] at hek
        exact hek
      have hflag2 : m.flags = CAPTURE ∨ m.flags = QUIET_MOVE := by
        rw [hflags]
        by_cases hE : (b.opponentOccupancy b.sideToMove).testBit m.to_sq
        · rw [if_pos hE]
          exact Or.inl rfl
        · rw [if_neg hE]
          exact Or.inr rfl
      rw [isPseudoLegal_reduce T b m (by rw [hfrom]; exact hfrom64) hto64
        (by rw [hpc, hfrom]; exact hfromBit) hFr' ?hcap hek']
      · have hnc : m.isCastling = false := by
          rcases hflag2 with h | h <;>
            simp [Move.isCastling, h, KINGSIDE_CASTLE, QUEENSIDE_CASTLE,
              CAPTURE, QUIET_MOVE]
        rw [pieceRuleOk_king_normal T b m hpc hnc]
        exact decide_eq_true (and_pow_mod_ne_zero _ _ hto64
          (by rw [hfrom]; exact hA))
      case hcap =>
        intro hcap _
        simp only [Move.isCapture] at hcap
        rw [hflags] at hcap
        by_cases hE : (b.opponentOccupancy b.sideToMove).testBit m.to_sq
        · exact hE
        · rw [if_neg hE] at hcap
          exact absurd hcap (by decide)
    · exact sound_kingCastleMoves T b hf m hmc

/-- Validator acceptance of every generated pawn move. -/
theorem sound_generatePawnMoves (T : MagicTables) (b : Board)
    (hf : SoundFacts b) :
    ∀ m ∈ generatePawnMoves b, isPseudoLegal T b m = true := by
  intro m hm
  unfold generatePawnMoves at hm
  rcases List.mem_append.mp hm with hm | h6
  rotate_left
  · exact sound_pawnEnPassantMoves T b hf m h6
  rcases List.mem_append.mp hm with hm | h5
  rotate_left
  · exact sound_pawnPromoCaptures T b hf m h5
  rcases List.mem_append.mp hm with hm | h4
  rotate_left
  · exact sound_pawnPromoPushes T b hf m h4
  rcases List.mem_append.mp hm with hm | h3
  rotate_left
  · exact sound_pawnNormalCaptures T b hf m h3
  rcases List.mem_append.mp hm with h1 | h2
  · exact sound_pawnSinglePushes T b hf m h1
  · exact sound_pawnDoublePushes T b hf m h2

/-- Validator acceptance of every move of `generate_pseudo_legal`: the
generator is sound for `is_pseudo_legal`. -/
theorem sound_generatePseudoLegal (T : MagicTables) (b : Board)
    (hT : TablesWf T) (hf : SoundFacts b) :
    ∀ m ∈ generatePseudoLegal b T, isPseudoLegal T b m = true := by
  intro m hm
  unfold generatePseudoLegal at hm
  rcases List.mem_append.mp hm with hm | h6
  rotate_left
  · exact sound_generateKingMoves T b hf m h6
  rcases List.mem_append.mp hm with hm | h5
  rotate_left
  · exact sound_genPieceMoves b T Piece.Queen
      (fun sq => T.bishopAtt sq b.occupied ||| T.rookAtt sq b.occupied) hf
      (fun sq => Nat.or_lt_two_pow (hT sq b.occupied).1
        (hT sq b.occupied).2)
      (branch_nonpawn T b Piece.Queen _
        (fun sq => Nat.or_lt_two_pow (hT sq b.occupied).1
          (hT sq b.occupied).2)
        (fun mv hpc => pieceRuleOk_queen T b mv hpc)) m h5
  rcases List.mem_append.mp hm with hm | h4
  rotate_left
  · exact sound_genPieceMoves b T Piece.Rook
      (fun sq => T.rookAtt sq b.occupied) hf
      (fun sq => (hT sq b.occupied).2)
      (branch_nonpawn T b Piece.Rook _ (fun sq => (hT sq b.occupied).2)
        (fun mv hpc => pieceRuleOk_rook T b mv hpc)) m h4
  rcases List.mem_append.mp hm with hm | h3
  rotate_left
  · exact sound_genPieceMoves b T Piece.Bishop
      (fun sq => T.bishopAtt sq b.occupied) hf
      (fun sq => (hT sq b.occupied).1)
      (branch_nonpawn T b Piece.Bishop _ (fun sq => (hT sq b.occupied).1)
        (fun mv hpc => pieceRuleOk_bishop T b mv hpc)) m h3
  rcases List.mem_append.mp hm with h1 | h2
  · exact sound_generatePawnMoves T b hf m h1
  · exact sound_genPieceMoves b T Piece.Knight knightAttacksBB hf
      knightAttacksBB_lt
      (branch_nonpawn T b Piece.Knight knightAttacksBB knightAttacksBB_lt
        (fun mv hpc => pieceRuleOk_knight T b mv hpc)) m h2

-- ===== triple-uniqueness of the generator output =====

/-- The (origin, destination, promotion) triple that `is_hash_move` and
`is_duplicate` compare moves by. -/
structure Trip where
  fromSq : Nat
  toSq : Nat
  promo : Option Piece
deriving DecidableEq

def moveTriple (m : Move) : Trip :=
  ⟨m.from_sq, m.to_sq, m.promotion⟩

theorem map_flatMap' {α β γ : Type} (l : List α) (g : α → List β)
    (h : β → γ) : (l.flatMap g).map h = l.flatMap (fun a => (g a).map h) := by
  induction l with
  | nil => rfl
  | cons hd tl ih => simp [List.flatMap_cons, List.map_append, ih]

theorem ite_le_ite_of_imp {P Q : Prop} [Decidable P] [Decidable Q]
    (h : P → Q) : (if P then 1 else 0) ≤ (if Q then (1 : Nat) else 0) := by
  split_ifs with h1 h2
  · exact le_refl 1
  · exact absurd (h h1) h2
  · exact Nat.zero_le 1
  · exact le_refl 0

theorem le_ite_of_le_ite_imp {P Q : Prop} [Decidable P] [Decidable Q]
    (n : Nat) (hn : n ≤ if P then 1 else 0) (h : P → Q) :
    n ≤ if Q then 1 else 0 :=
  le_trans hn (ite_le_ite_of_imp h)

/-- Trip count of a one-destination-loop segment (single/double pushes):
builder `toSq ↦ (F toSq, toSq, none)` over the set bits of `tg`. -/
theorem trip_count_push (tg : Nat) (htg : tg < 2 ^ 64) (F : Nat → Nat)
    (pc : Piece) (flg : Nat → Nat) (f toSq : Nat) (pr : Option Piece) :
    (((popBits 64 tg).map (fun j =>
        ({ from_sq := F j, to_sq := j, piece := pc,
           promotion := none, flags := flg j } : Move))).map
      moveTriple).count ⟨f, toSq, pr⟩ =
      if f = F toSq ∧ pr = none ∧ tg.testBit toSq then 1 else 0 := by
  have hcm := count_map_proj (popBits 64 tg)
    (fun j => moveTriple
      { from_sq := F j, to_sq := j, piece := pc,
        promotion := none, flags := flg j })
    (fun tr => tr.toSq) (fun i => rfl) ⟨f, toSq, pr⟩
  rw [List.map_map]
  refine Eq.trans (by exact hcm) ?_
  dsimp only [moveTriple]
  by_cases he : (⟨F toSq, toSq, none⟩ : Trip) = ⟨f, toSq, pr⟩
  · have h1 : f = F toSq := by
      injection he with ha _
      exact ha.symm
    have h2 : pr = none := by
      injection he with _ _ hc
      exact hc.symm
    rw [if_pos he, popBits_count tg htg]
    by_cases hb : tg.testBit toSq
    · rw [if_pos hb, if_pos ⟨h1, h2, hb⟩]
    · rw [if_neg hb, if_neg (by rintro ⟨_, _, hh⟩; exact hb hh)]
  · rw [if_neg he, if_neg ?_]
    rintro ⟨h1, h2, _⟩
    exact he (by rw [h1, h2])

/-- Trip count of a from/to double-loop segment (the non-pawn pieces and
the normal pawn captures): builder `(i, j) ↦ (i, j, none)`. -/
theorem trip_count_loop2 (bbF : Nat) (hbbF : bbF < 2 ^ 64)
    (A : Nat → Nat) (hA : ∀ i, A i < 2 ^ 64) (pc : Piece)
    (flg : Nat → Nat → Nat) (f toSq : Nat) (pr : Option Piece) :
    (((popBits 64 bbF).flatMap (fun i => (popBits 64 (A i)).map (fun j =>
        ({ from_sq := i, to_sq := j, piece := pc,
           promotion := none, flags := flg i j } : Move)))).map
      moveTriple).count ⟨f, toSq, pr⟩ =
      if bbF.testBit f ∧ (A f).testBit toSq ∧ pr = none then 1 else 0 := by
  rw [map_flatMap']
  have hproj : ∀ (i : Nat) (m : Trip),
      m ∈ ((popBits 64 (A i)).map (fun j =>
        ({ from_sq := i, to_sq := j, piece := pc,
           promotion := none, flags := flg i j } : Move))).map moveTriple →
      m.fromSq = i := by
    intro i m hm
    rw [List.map_map] at hm
    rcases List.mem_map.mp hm with ⟨j, _, rfl⟩
    rfl
  have hcfm := count_flatMap_proj (popBits 64 bbF)
    (fun i => ((popBits 64 (A i)).map (fun j =>
        ({ from_sq := i, to_sq := j, piece := pc,
           promotion := none, flags := flg i j } : Move))).map moveTriple)
    (fun tr => tr.fromSq) hproj ⟨f, toSq, pr⟩
  refine Eq.trans (by exact hcfm) ?_
  dsimp only
  rw [popBits_count bbF hbbF, List.map_map]
  have hcm := count_map_proj (popBits 64 (A f))
    (fun j => moveTriple
      { from_sq := f, to_sq := j, piece := pc,
        promotion := none, flags := flg f j })
    (fun tr => tr.toSq) (fun i => rfl) ⟨f, toSq, pr⟩
  have hcm2 : ((popBits 64 (A f)).map (moveTriple ∘ (fun j =>
      ({ from_sq := f, to_sq := j, piece := pc,
         promotion := none, flags := flg f j } : Move)))).count
      ⟨f, toSq, pr⟩ =
      if (A f).testBit toSq ∧ pr = none then 1 else 0 := by
    refine Eq.trans (by exact hcm) ?_
    dsimp only [moveTriple]
    by_cases he : (⟨f, toSq, none⟩ : Trip) = ⟨f, toSq, pr⟩
    · have h2 : pr = none := by
        injection he with _ _ hc
        exact hc.symm
      rw [if_pos he, popBits_count _ (hA f)]
      by_cases hb : (A f).testBit toSq
      · rw [if_pos hb, if_pos ⟨hb, h2⟩]
      · rw [if_neg hb, if_neg (by rintro ⟨hh, _⟩; exact hb hh)]
    · rw [if_neg he, if_neg ?_]
      rintro ⟨_, h2⟩
      exact he (by rw [h2])
  rw [hcm2]
  by_cases hbf : bbF.testBit f
  · rw [if_pos hbf, Nat.one_mul]
    by_cases hrest : (A f).testBit toSq ∧ pr = none
    · rw [if_pos hrest, if_pos ⟨hbf, hrest.1, hrest.2⟩]
    · rw [if_neg hrest,
        if_neg (by rintro ⟨_, hh1, hh2⟩; exact hrest ⟨hh1, hh2⟩)]
  · rw [if_neg hbf, Nat.zero_mul,
      if_neg (by rintro ⟨hh, _, _⟩; exact hbf hh)]

-- a filter-count helper (specialisation of count_filter')
theorem count_filter'' {α : Type} [DecidableEq α] (p : α → Bool) (x : α)
    (l : List α) :
    (l.filter p).count x = if p x then l.count x else 0 := by
  by_cases hpx : p x
  · rw [if_pos hpx]
    induction l with
    | nil => rfl
    | cons hd tl ih =>
      rw [List.count_cons, List.filter_cons]
      by_cases hp : p hd
      · rw [if_pos hp, List.count_cons, ih]
      · rw [if_neg hp, ih]
        have hne : (hd == x) = false :=
          beq_eq_false_iff_ne.mpr fun he => hp (he ▸ hpx)
        rw [hne]
        simp
  · rw [if_neg hpx]
    exact List.count_eq_zero.mpr fun hmem => hpx (List.of_mem_filter hmem)

theorem count_map_le_one_of_inj {α γ : Type} [DecidableEq γ]
    (S : List α) (g : α → γ)
    (hinj : ∀ a ∈ S, ∀ b ∈ S, g a = g b → a = b) (hS : S.Nodup)
    (tr : γ) : (S.map g).count tr ≤ 1 :=
  List.nodup_iff_count_le_one.mp (hS.map_on hinj) tr

/-- Trip count of a promotion-push block: destinations from `tg`, four
promotion pieces each. -/
theorem trip_count_promo_push (tg : Nat) (htg : tg < 2 ^ 64)
    (F : Nat → Nat) (flg : Nat) (f toSq : Nat) (pr : Option Piece) :
    (((popBits 64 tg).flatMap (fun j => PROMOS.map (fun q =>
        ({ from_sq := F j, to_sq := j, piece := Piece.Pawn,
           promotion := some q, flags := flg } : Move)))).map
      moveTriple).count ⟨f, toSq, pr⟩ ≤
      if f = F toSq ∧ pr ≠ none ∧ tg.testBit toSq then 1 else 0 := by
  rw [map_flatMap']
  have hproj : ∀ (i : Nat) (m : Trip),
      m ∈ (PROMOS.map (fun q =>
        ({ from_sq := F i, to_sq := i, piece := Piece.Pawn,
           promotion := some q, flags := flg } : Move))).map moveTriple →
      m.toSq = i := by
    intro i m hm
    rw [List.map_map] at hm
    rcases List.mem_map.mp hm with ⟨q, _, rfl⟩
    rfl
  have hcfm := count_flatMap_proj (popBits 64 tg)
    (fun i => (PROMOS.map (fun q =>
        ({ from_sq := F i, to_sq := i, piece := Piece.Pawn,
           promotion := some q, flags := flg } : Move))).map moveTriple)
    (fun tr => tr.toSq) hproj ⟨f, toSq, pr⟩
  refine le_trans (le_of_eq (by exact hcfm)) ?_
  dsimp only
  rw [popBits_count tg htg]
  by_cases hcond : f = F toSq ∧ pr ≠ none ∧ tg.testBit toSq
  · rw [if_pos hcond, if_pos hcond.2.2, Nat.one_mul, List.map_map]
    refine count_map_le_one_of_inj PROMOS _ ?_ (by decide) _
    intro a _ b _ hab
    exact Option.some.inj
      (show some a = some b from congrArg Trip.promo hab)
  · rw [if_neg hcond]
    by_cases hbit : tg.testBit toSq
    · rw [if_pos hbit, Nat.one_mul, List.map_map]
      have hz : ∀ q ∈ PROMOS, (moveTriple ∘ fun el =>
          ({ from_sq := F toSq, to_sq := toSq, piece := Piece.Pawn,
             promotion := some el, flags := flg } : Move)) q ≠
          (⟨f, toSq, pr⟩ : Trip) := by
        intro q _ hq
        have h1 : F toSq = f := congrArg Trip.fromSq hq
        have h3 : some q = pr := congrArg Trip.promo hq
        exact hcond ⟨h1.symm, (by rw [← h3]; intro hh; cases hh), hbit⟩
      exact le_of_eq (by exact count_map_eq_zero PROMOS _ _ hz)
    · rw [if_neg hbit, Nat.zero_mul]

/-- Trip count of the promotion-capture block: from-squares, attacked
destinations, four promotion pieces. -/
theorem trip_count_promo_cap (bbF : Nat) (hbbF : bbF < 2 ^ 64)
    (A : Nat → Nat) (hA : ∀ i, A i < 2 ^ 64) (flg : Nat)
    (f toSq : Nat) (pr : Option Piece) :
    (((popBits 64 bbF).flatMap (fun i => (popBits 64 (A i)).flatMap
        (fun j => PROMOS.map (fun q =>
        ({ from_sq := i, to_sq := j, piece := Piece.Pawn,
           promotion := some q, flags := flg } : Move))))).map
      moveTriple).count ⟨f, toSq, pr⟩ ≤
      if bbF.testBit f ∧ (A f).testBit toSq ∧ pr ≠ none then 1 else 0 := by
  rw [map_flatMap']
  have hproj : ∀ (i : Nat) (m : Trip),
      m ∈ ((popBits 64 (A i)).flatMap (fun j => PROMOS.map (fun q =>
        ({ from_sq := i, to_sq := j, piece := Piece.Pawn,
           promotion := some q, flags := flg } : Move)))).map moveTriple →
      m.fromSq = i := by
    intro i m hm
    rw [map_flatMap'] at hm
    rcases List.mem_flatMap.mp hm with ⟨j, _, hmem⟩
    rw [List.map_map] at hmem
    rcases List.mem_map.mp hmem with ⟨q, _, rfl⟩
    rfl
  have hcfm := count_flatMap_proj (popBits 64 bbF)
    (fun i => ((popBits 64 (A i)).flatMap (fun j => PROMOS.map (fun q =>
        ({ from_sq := i, to_sq := j, piece := Piece.Pawn,
           promotion := some q, flags := flg } : Move)))).map moveTriple)
    (fun tr => tr.fromSq) hproj ⟨f, toSq, pr⟩
  refine le_trans (le_of_eq (by exact hcfm)) ?_
  dsimp only
  rw [popBits_count bbF hbbF]
  have hinner := trip_count_promo_push (A f) (hA f) (fun _ => f) flg
    f toSq pr
  by_cases hbf : bbF.testBit f
  · rw [if_pos hbf, Nat.one_mul]
    refine le_trans (le_of_eq (by rfl)) (le_trans (by exact hinner) ?_)
    refine ite_le_ite_of_imp ?_
    rintro ⟨_, h2, h3⟩
    exact ⟨hbf, h3, h2⟩
  · rw [if_neg hbf, Nat.zero_mul]
    exact Nat.zero_le _

-- geometry facts: a pawn never attacks the square straight ahead of it
theorem pawn_attack_not_push_white : ∀ f, f < 64 → f + 8 < 64 →
    (pawnAttacksBB f Color.White).testBit (f + 8) = false := by
  decide

theorem pawn_attack_not_double_white : ∀ f, f < 64 → f + 16 < 64 →
    (pawnAttacksBB f Color.White).testBit (f + 16) = false := by
  decide

theorem pawn_attack_not_push_black : ∀ j, j < 64 → j + 8 < 64 →
    (pawnAttacksBB (j + 8) Color.Black).testBit j = false := by
  decide

theorem pawn_attack_not_double_black : ∀ j, j < 64 → j + 16 < 64 →
    (pawnAttacksBB (j + 16) Color.Black).testBit j = false := by
  decide

-- the king-attack set never reaches the castling destinations
theorem king_attack_not_castle :
    (kingAttacksBB 4).testBit 6 = false ∧
    (kingAttacksBB 60).testBit 62 = false ∧
    (kingAttacksBB 4).testBit 2 = false ∧
    (kingAttacksBB 60).testBit 58 = false := by
  decide

theorem lsb64_pow4 : lsb64 (2 ^ 4) = 4 := by decide

theorem lsb64_pow60 : lsb64 (2 ^ 60) = 60 := by decide

-- ===== per-segment trip-count bounds for the pawn block =====

theorem trip_bound_singles_white (b : Board)
    (hside : b.sideToMove = Color.White)
    (f toSq : Nat) (pr : Option Piece) :
    ((pawnSinglePushes b).map moveTriple).count ⟨f, toSq, pr⟩ ≤
      if (b.pieces Piece.Pawn Color.White).testBit f ∧ pr = none ∧
          toSq = f + 8 ∧ toSq < 64 then 1 else 0 := by
  unfold pawnSinglePushes
  dsimp only
  rw [hside]
  simp only [reduceCtorEq, if_true, if_false, eq_self_iff_true, ite_true,
    ite_false]
  have htg : ((b.pieces Piece.Pawn Color.White <<< 8) % 2 ^ 64 &&&
      compl64 b.occupied) &&& compl64 RANK8 < 2 ^ 64 :=
    lt_of_le_of_lt (le_trans Nat.and_le_left Nat.and_le_left)
      (Nat.mod_lt _ (by norm_num))
  have hpush := trip_count_push _ htg (fun j => j - 8) Piece.Pawn
    (fun _ => QUIET_MOVE) f toSq pr
  refine le_trans (le_of_eq (by exact hpush)) (ite_le_ite_of_imp ?_)
  rintro ⟨h1, h2, h3⟩
  simp only [Nat.testBit_and, Bool.and_eq_true] at h3
  obtain ⟨⟨hs, _⟩, _⟩ := h3
  rw [Nat.testBit_mod_two_pow] at hs
  rcases (Bool.and_eq_true _ _).mp hs with ⟨h64, hsh⟩
  rw [Nat.testBit_shiftLeft] at hsh
  rcases (Bool.and_eq_true _ _).mp hsh with ⟨hge, hpb⟩
  have hge' : 8 ≤ toSq := of_decide_eq_true hge
  have h64' : toSq < 64 := of_decide_eq_true h64
  refine ⟨?_, h2, by omega, h64'⟩
  rw [h1]
  exact hpb

theorem trip_bound_singles_black (b : Board)
    (hside : b.sideToMove = Color.Black)
    (hp : b.pieces Piece.Pawn Color.Black < 2 ^ 64)
    (f toSq : Nat) (pr : Option Piece) :
    ((pawnSinglePushes b).map moveTriple).count ⟨f, toSq, pr⟩ ≤
      if (b.pieces Piece.Pawn Color.Black).testBit f ∧ pr = none ∧
          f = toSq + 8 ∧ f < 64 then 1 else 0 := by
  unfold pawnSinglePushes
  dsimp only
  rw [hside]
  simp only [reduceCtorEq, if_true, if_false, eq_self_iff_true, ite_true,
    ite_false]
  have htg : ((b.pieces Piece.Pawn Color.Black >>> 8) &&&
      compl64 b.occupied) &&& compl64 RANK1 < 2 ^ 64 :=
    lt_of_le_of_lt (le_trans Nat.and_le_left Nat.and_le_left)
      (lt_of_le_of_lt (shiftRight_le' _ _) hp)
  have hpush := trip_count_push _ htg (fun j => j + 8) Piece.Pawn
    (fun _ => QUIET_MOVE) f toSq pr
  refine le_trans (le_of_eq (by exact hpush)) (ite_le_ite_of_imp ?_)
  rintro ⟨h1, h2, h3⟩
  simp only [Nat.testBit_and, Bool.and_eq_true] at h3
  obtain ⟨⟨hs, _⟩, _⟩ := h3
  rw [Nat.testBit_shiftRight] at hs
  have hlt : 8 + toSq < 64 := testBit_true_lt _ _ hp hs
  refine ⟨?_, h2, h1, by omega⟩
  rw [h1, show toSq + 8 = 8 + toSq from by omega]
  exact hs

theorem trip_bound_doubles_white (b : Board)
    (hside : b.sideToMove = Color.White)
    (f toSq : Nat) (pr : Option Piece) :
    ((pawnDoublePushes b).map moveTriple).count ⟨f, toSq, pr⟩ ≤
      if (b.pieces Piece.Pawn Color.White).testBit f ∧ pr = none ∧
          toSq = f + 16 ∧ toSq < 64 then 1 else 0 := by
  unfold pawnDoublePushes
  dsimp only
  rw [hside]
  simp only [reduceCtorEq, if_true, if_false, eq_self_iff_true, ite_true,
    ite_false]
  have htg : ((((b.pieces Piece.Pawn Color.White &&& RANK2) <<< 8) %
      2 ^ 64 &&& compl64 b.occupied) <<< 8) % 2 ^ 64 &&&
      compl64 b.occupied < 2 ^ 64 :=
    lt_of_le_of_lt Nat.and_le_left (Nat.mod_lt _ (by norm_num))
  have hpush := trip_count_push _ htg (fun j => j - 16) Piece.Pawn
    (fun _ => DOUBLE_PAWN_PUSH) f toSq pr
  refine le_trans (le_of_eq (by exact hpush)) (ite_le_ite_of_imp ?_)
  rintro ⟨h1, h2, h3⟩
  simp only [Nat.testBit_and, Bool.and_eq_true] at h3
  obtain ⟨hs, _⟩ := h3
  rw [Nat.testBit_mod_two_pow] at hs
  rcases (Bool.and_eq_true _ _).mp hs with ⟨h64, hsh⟩
  rw [Nat.testBit_shiftLeft] at hsh
  rcases (Bool.and_eq_true _ _).mp hsh with ⟨hge, hz⟩
  have hge' : 8 ≤ toSq := of_decide_eq_true hge
  have h64' : toSq < 64 := of_decide_eq_true h64
  simp only [Nat.testBit_and, Bool.and_eq_true] at hz
  obtain ⟨hz1, _⟩ := hz
  rw [Nat.testBit_mod_two_pow] at hz1
  rcases (Bool.and_eq_true _ _).mp hz1 with ⟨_, hz2⟩
  rw [Nat.testBit_shiftLeft] at hz2
  rcases (Bool.and_eq_true _ _).mp hz2 with ⟨hge2, hz3⟩
  have hge2' : 8 ≤ toSq - 8 := of_decide_eq_true hge2
  simp only [Nat.testBit_and, Bool.and_eq_true] at hz3
  obtain ⟨hpb, _⟩ := hz3
  have heq : toSq - 8 - 8 = toSq - 16 := by omega
  rw [heq] at hpb
  refine ⟨?_, h2, by omega, h64'⟩
  rw [h1]
  exact hpb

theorem trip_bound_doubles_black (b : Board)
    (hside : b.sideToMove = Color.Black)
    (hp : b.pieces Piece.Pawn Color.Black < 2 ^ 64)
    (f toSq : Nat) (pr : Option Piece) :
    ((pawnDoublePushes b).map moveTriple).count ⟨f, toSq, pr⟩ ≤
      if (b.pieces Piece.Pawn Color.Black).testBit f ∧ pr = none ∧
          f = toSq + 16 ∧ f < 64 then 1 else 0 := by
  unfold pawnDoublePushes
  dsimp only
  rw [hside]
  simp only [reduceCtorEq, if_true, if_false, eq_self_iff_true, ite_true,
    ite_false]
  have htg : (((b.pieces Piece.Pawn Color.Black &&& RANK7) >>> 8) &&&
      compl64 b.occupied) >>> 8 &&& compl64 b.occupied < 2 ^ 64 :=
    lt_of_le_of_lt Nat.and_le_left (lt_of_le_of_lt (shiftRight_le' _ _)
      (lt_of_le_of_lt Nat.and_le_left (lt_of_le_of_lt
        (shiftRight_le' _ _) (lt_of_le_of_lt Nat.and_le_left hp))))
  have hpush := trip_count_push _ htg (fun j => j + 16) Piece.Pawn
    (fun _ => DOUBLE_PAWN_PUSH) f toSq pr
  refine le_trans (le_of_eq (by exact hpush)) (ite_le_ite_of_imp ?_)
  rintro ⟨h1, h2, h3⟩
  simp only [Nat.testBit_and, Bool.and_eq_true] at h3
  obtain ⟨hs, _⟩ := h3
  rw [Nat.testBit_shiftRight] at hs
  simp only [Nat.testBit_and, Bool.and_eq_true] at hs
  obtain ⟨hz, _⟩ := hs
  rw [Nat.testBit_shiftRight] at hz
  simp only [Nat.testBit_and, Bool.and_eq_true] at hz
  obtain ⟨hpb, _⟩ := hz
  have hlt : 8 + (8 + toSq) < 64 := testBit_true_lt _ _ hp hpb
  have heq : 8 + (8 + toSq) = toSq + 16 := by omega
  rw [heq] at hpb
  refine ⟨?_, h2, h1, by omega⟩
  rw [h1]
  exact hpb

theorem trip_bound_pawn_caps (b : Board)
    (hp : b.pieces Piece.Pawn b.sideToMove < 2 ^ 64)
    (f toSq : Nat) (pr : Option Piece) :
    ((pawnNormalCaptures b (b.pieces Piece.Pawn b.sideToMove)).map
      moveTriple).count ⟨f, toSq, pr⟩ ≤
      if (b.pieces Piece.Pawn b.sideToMove).testBit f ∧ pr = none ∧
          toSq < 64 ∧ (pawnAttacksBB f b.sideToMove).testBit toSq ∧
          (b.opponentOccupancy b.sideToMove).testBit toSq
      then 1 else 0 := by
  unfold pawnNormalCaptures
  dsimp only
  have hA : ∀ i, pawnAttacksBB i b.sideToMove &&&
      (b.opponentOccupancy b.sideToMove &&&
        compl64 (b.pieces Piece.King b.sideToMove.opposite)) &&&
      compl64 (if b.sideToMove = Color.White then RANK8 else RANK1) <
      2 ^ 64 := fun i =>
    lt_of_le_of_lt (le_trans Nat.and_le_left Nat.and_le_left)
      (pawnAttacksBB_lt _ _)
  have hl2 := trip_count_loop2 _ hp _ hA Piece.Pawn (fun _ _ => CAPTURE)
    f toSq pr
  refine le_trans (le_of_eq (by exact hl2)) (ite_le_ite_of_imp ?_)
  rintro ⟨h1, h2, h3⟩
  simp only [Nat.testBit_and, Bool.and_eq_true] at h2
  obtain ⟨⟨hatt, hopp⟩, _⟩ := h2
  exact ⟨h1, h3, testBit_true_lt _ _ (pawnAttacksBB_lt _ _) hatt,
    hatt, hopp.1⟩

theorem trip_bound_promo_push_white (b : Board)
    (hside : b.sideToMove = Color.White)
    (f toSq : Nat) (pr : Option Piece) :
    ((pawnPromoPushes b).map moveTriple).count ⟨f, toSq, pr⟩ ≤
      if (b.pieces Piece.Pawn Color.White).testBit f ∧ pr ≠ none ∧
          toSq = f + 8 ∧ toSq < 64 then 1 else 0 := by
  unfold pawnPromoPushes
  dsimp only
  rw [hside]
  simp only [reduceCtorEq, if_true, if_false, eq_self_iff_true, ite_true,
    ite_false]
  have htg : ((b.pieces Piece.Pawn Color.White &&& RANK7) <<< 8) %
      2 ^ 64 &&& compl64 b.occupied < 2 ^ 64 :=
    lt_of_le_of_lt Nat.and_le_left (Nat.mod_lt _ (by norm_num))
  have hpp := trip_count_promo_push _ htg (fun j => j - 8) PROMOTION
    f toSq pr
  refine le_trans (by exact hpp) (ite_le_ite_of_imp ?_)
  rintro ⟨h1, h2, h3⟩
  simp only [Nat.testBit_and, Bool.and_eq_true] at h3
  obtain ⟨hs, _⟩ := h3
  rw [Nat.testBit_mod_two_pow] at hs
  rcases (Bool.and_eq_true _ _).mp hs with ⟨h64, hsh⟩
  rw [Nat.testBit_shiftLeft] at hsh
  rcases (Bool.and_eq_true _ _).mp hsh with ⟨hge, hz⟩
  have hge' : 8 ≤ toSq := of_decide_eq_true hge
  have h64' : toSq < 64 := of_decide_eq_true h64
  simp only [Nat.testBit_and, Bool.and_eq_true] at hz
  refine ⟨?_, h2, by omega, h64'⟩
  rw [h1]
  exact hz.1

theorem trip_bound_promo_push_black (b : Board)
    (hside : b.sideToMove = Color.Black)
    (hp : b.pieces Piece.Pawn Color.Black < 2 ^ 64)
    (f toSq : Nat) (pr : Option Piece) :
    ((pawnPromoPushes b).map moveTriple).count ⟨f, toSq, pr⟩ ≤
      if (b.pieces Piece.Pawn Color.Black).testBit f ∧ pr ≠ none ∧
          f = toSq + 8 ∧ f < 64 then 1 else 0 := by
  unfold pawnPromoPushes
  dsimp only
  rw [hside]
  simp only [reduceCtorEq, if_true, if_false, eq_self_iff_true, ite_true,
    ite_false]
  have htg : (b.pieces Piece.Pawn Color.Black &&& RANK2) >>> 8 &&&
      compl64 b.occupied < 2 ^ 64 :=
    lt_of_le_of_lt Nat.and_le_left (lt_of_le_of_lt (shiftRight_le' _ _)
      (lt_of_le_of_lt Nat.and_le_left hp))
  have hpp := trip_count_promo_push _ htg (fun j => j + 8) PROMOTION
    f toSq pr
  refine le_trans (by exact hpp) (ite_le_ite_of_imp ?_)
  rintro ⟨h1, h2, h3⟩
  simp only [Nat.testBit_and, Bool.and_eq_true] at h3
  obtain ⟨hs, _⟩ := h3
  rw [Nat.testBit_shiftRight] at hs
  simp only [Nat.testBit_and, Bool.and_eq_true] at hs
  obtain ⟨hpb, _⟩ := hs
  have hlt : 8 + toSq < 64 := testBit_true_lt _ _ hp hpb
  refine ⟨?_, h2, h1, by omega⟩
  rw [h1, show toSq + 8 = 8 + toSq from by omega]
  exact hpb

theorem trip_bound_promo_caps (b : Board)
    (hp : b.pieces Piece.Pawn b.sideToMove < 2 ^ 64)
    (f toSq : Nat) (pr : Option Piece) :
    ((pawnPromoCaptures b).map moveTriple).count ⟨f, toSq, pr⟩ ≤
      if (b.pieces Piece.Pawn b.sideToMove).testBit f ∧ pr ≠ none ∧
          toSq < 64 ∧ (pawnAttacksBB f b.sideToMove).testBit toSq
      then 1 else 0 := by
  unfold pawnPromoCaptures
  dsimp only
  have hbbF : b.pieces Piece.Pawn b.sideToMove &&&
      (if b.sideToMove = Color.White then RANK7 else RANK2) < 2 ^ 64 :=
    lt_of_le_of_lt Nat.and_le_left hp
  have hA : ∀ i, pawnAttacksBB i b.sideToMove &&&
      (b.opponentOccupancy b.sideToMove &&&
        compl64 (b.pieces Piece.King b.sideToMove.opposite)) &&&
      (if b.sideToMove = Color.White then RANK8 else RANK1) <
      2 ^ 64 := fun i =>
    lt_of_le_of_lt (le_trans Nat.and_le_left Nat.and_le_left)
      (pawnAttacksBB_lt _ _)
  have hpc := trip_count_promo_cap _ hbbF _ hA PROMOTION_CAPTURE
    f toSq pr
  refine le_trans (by exact hpc) (ite_le_ite_of_imp ?_)
  rintro ⟨h1, h2, h3⟩
  simp only [Nat.testBit_and, Bool.and_eq_true] at h1 h2
  exact ⟨h1.1, h3,
    testBit_true_lt _ _ (pawnAttacksBB_lt _ _) h2.1.1, h2.1.1⟩

theorem trip_bound_ep (b : Board)
    (hp : b.pieces Piece.Pawn b.sideToMove < 2 ^ 64)
    (f toSq : Nat) (pr : Option Piece) :
    ((pawnEnPassantMoves b).map moveTriple).count ⟨f, toSq, pr⟩ ≤
      if (b.pieces Piece.Pawn b.sideToMove).testBit f ∧ pr = none ∧
          toSq < 64 ∧ (pawnAttacksBB f b.sideToMove).testBit toSq ∧
          (compl64 b.occupied).testBit toSq then 1 else 0 := by
  unfold pawnEnPassantMoves
  dsimp only
  cases hep : b.enPassant with
  | none => simp
  | some ep =>
    dsimp only
    by_cases hg1 : compl64 b.occupied &&& 2 ^ ep % 2 ^ 64 ≠ 0
    · rw [if_pos hg1]
      by_cases hg2 : b.pieces Piece.Pawn b.sideToMove.opposite &&&
          2 ^ (if b.sideToMove = Color.White then ep - 8 else ep + 8) %
          2 ^ 64 ≠ 0
      · rw [if_pos hg2]
        have hcm := count_map_proj
          ((popBits 64 (b.pieces Piece.Pawn b.sideToMove)).filter
            (fun fromSq => decide (pawnAttacksBB fromSq b.sideToMove &&&
              2 ^ ep % 2 ^ 64 ≠ 0)))
          (fun fromSq => moveTriple
            { from_sq := fromSq, to_sq := ep, piece := Piece.Pawn,
              promotion := none, flags := EN_PASSANT })
          (fun tr => tr.fromSq) (fun i => rfl) ⟨f, toSq, pr⟩
        rw [List.map_map]
        refine le_trans (le_of_eq (by exact hcm)) ?_
        dsimp only [moveTriple]
        by_cases he : (⟨f, ep, none⟩ : Trip) = (⟨f, toSq, pr⟩ : Trip)
        · have hto : ep = toSq := congrArg Trip.toSq he
          have hpr : (none : Option Piece) = pr :=
            congrArg Trip.promo he
          rw [if_pos he]
          have hcf := count_filter''
            (fun fromSq => decide (pawnAttacksBB fromSq b.sideToMove &&&
              2 ^ ep % 2 ^ 64 ≠ 0)) f
            (popBits 64 (b.pieces Piece.Pawn b.sideToMove))
          refine le_trans (le_of_eq (by exact hcf)) ?_
          by_cases hpred : pawnAttacksBB f b.sideToMove &&&
              2 ^ ep % 2 ^ 64 ≠ 0
          · rw [if_pos (decide_eq_true hpred), popBits_count _ hp]
            refine ite_le_ite_of_imp ?_
            intro hbit
            refine ⟨hbit, hpr.symm, ?_, ?_, ?_⟩
            · rw [← hto]
              exact lt64_of_and_pow_mod_ne _ _ hg1
            · rw [← hto]
              exact testBit_of_and_pow_mod_ne _ _ hpred
            · rw [← hto]
              exact testBit_of_and_pow_mod_ne _ _ hg1
          · rw [if_neg (by simpa using hpred)]
            exact Nat.zero_le _
        · rw [if_neg he]
          exact Nat.zero_le _
      · rw [if_neg hg2]
        simp
    · rw [if_neg hg1]
      simp

theorem ite_pair_le_one (P Q : Prop) [Decidable P] [Decidable Q]
    (h : ¬(P ∧ Q)) :
    (if P then 1 else 0) + (if Q then (1 : Nat) else 0) ≤ 1 := by
  split_ifs with a b b
  · exact absurd ⟨a, b⟩ h
  · omega
  · omega
  · omega


theorem ite_ind_le_one (P : Prop) [Decidable P] :
    (if P then (1 : Nat) else 0) ≤ 1 := by
  split_ifs <;> omega

set_option maxHeartbeats 1600000 in
/-- At most one generated pawn move carries any given
(origin, destination, promotion) triple. -/
theorem trip_bound_pawn_block (b : Board)
    (hp : b.pieces Piece.Pawn b.sideToMove < 2 ^ 64)
    (hsub : ∀ i, (b.opponentOccupancy b.sideToMove).testBit i = true →
      b.occupied.testBit i = true)
    (f toSq : Nat) (pr : Option Piece) :
    ((generatePawnMoves b).map moveTriple).count ⟨f, toSq, pr⟩ ≤
      if (b.pieces Piece.Pawn b.sideToMove).testBit f then 1 else 0 := by
  unfold generatePawnMoves
  simp only [List.map_append, List.count_append]
  cases hside : b.sideToMove with
  | White =>
    rw [hside] at hp hsub
    have h1 := trip_bound_singles_white b hside f toSq pr
    have h2 := trip_bound_doubles_white b hside f toSq pr
    have h4 := trip_bound_promo_push_white b hside f toSq pr
    have h3 := trip_bound_pawn_caps b (by rw [hside]; exact hp) f toSq pr
    have h5 := trip_bound_promo_caps b (by rw [hside]; exact hp) f toSq pr
    have h6 := trip_bound_ep b (by rw [hside]; exact hp) f toSq pr
    rw [hside] at h3 h5 h6
    have hf64 : (b.pieces Piece.Pawn Color.White).testBit f = true →
        f < 64 := fun hb => testBit_true_lt _ _ hp hb
    have k12 := ite_pair_le_one
      ((b.pieces Piece.Pawn Color.White).testBit f = true ∧ pr = none ∧ toSq = f + 8 ∧ toSq < 64)
      ((b.pieces Piece.Pawn Color.White).testBit f = true ∧ pr = none ∧ toSq = f + 16 ∧ toSq < 64)
      (by
      rintro ⟨⟨_, _, ha, _⟩, ⟨_, _, hb, _⟩⟩
      omega)
    have k13 := ite_pair_le_one
      ((b.pieces Piece.Pawn Color.White).testBit f = true ∧ pr = none ∧ toSq = f + 8 ∧ toSq < 64)
      ((b.pieces Piece.Pawn Color.White).testBit f = true ∧ pr = none ∧ toSq < 64 ∧ (pawnAttacksBB f Color.White).testBit toSq = true ∧ (b.opponentOccupancy Color.White).testBit toSq = true)
      (by
      rintro ⟨⟨hb1, _, ha, hl⟩, ⟨_, _, _, hatt, _⟩⟩
      subst ha
      have hgeo := pawn_attack_not_push_white f (hf64 hb1) hl
      rw [hgeo] at hatt
      exact Bool.noConfusion hatt)
    have k14 := ite_pair_le_one
      ((b.pieces Piece.Pawn Color.White).testBit f = true ∧ pr = none ∧ toSq = f + 8 ∧ toSq < 64)
      ((b.pieces Piece.Pawn Color.White).testBit f = true ∧ pr ≠ none ∧ toSq = f + 8 ∧ toSq < 64)
      (by
      rintro ⟨⟨_, hn, _, _⟩, ⟨_, hs, _, _⟩⟩
      exact hs hn)
    have k15 := ite_pair_le_one
      ((b.pieces Piece.Pawn Color.White).testBit f = true ∧ pr = none ∧ toSq = f + 8 ∧ toSq < 64)
      ((b.pieces Piece.Pawn Color.White).testBit f = true ∧ pr ≠ none ∧ toSq < 64 ∧ (pawnAttacksBB f Color.White).testBit toSq = true)
      (by
      rintro ⟨⟨_, hn, _, _⟩, ⟨_, hs, _, _⟩⟩
      exact hs hn)
    have k16 := ite_pair_le_one
      ((b.pieces Piece.Pawn Color.White).testBit f = true ∧ pr = none ∧ toSq = f + 8 ∧ toSq < 64)
      ((b.pieces Piece.Pawn Color.White).testBit f = true ∧ pr = none ∧ toSq < 64 ∧ (pawnAttacksBB f Color.White).testBit toSq = true ∧ (compl64 b.occupied).testBit toSq = true)
      (by
      rintro ⟨⟨hb1, _, ha, hl⟩, ⟨_, _, _, hatt, _⟩⟩
      subst ha
      have hgeo := pawn_attack_not_push_white f (hf64 hb1) hl
      rw [hgeo] at hatt
      exact Bool.noConfusion hatt)
    have k23 := ite_pair_le_one
      ((b.pieces Piece.Pawn Color.White).testBit f = true ∧ pr = none ∧ toSq = f + 16 ∧ toSq < 64)
      ((b.pieces Piece.Pawn Color.White).testBit f = true ∧ pr = none ∧ toSq < 64 ∧ (pawnAttacksBB f Color.White).testBit toSq = true ∧ (b.opponentOccupancy Color.White).testBit toSq = true)
      (by
      rintro ⟨⟨hb1, _, ha, hl⟩, ⟨_, _, _, hatt, _⟩⟩
      subst ha
      have hgeo := pawn_attack_not_double_white f (hf64 hb1) hl
      rw [hgeo] at hatt
      exact Bool.noConfusion hatt)
    have k24 := ite_pair_le_one
      ((b.pieces Piece.Pawn Color.White).testBit f = true ∧ pr = none ∧ toSq = f + 16 ∧ toSq < 64)
      ((b.pieces Piece.Pawn Color.White).testBit f = true ∧ pr ≠ none ∧ toSq = f + 8 ∧ toSq < 64)
      (by
      rintro ⟨⟨_, hn, _, _⟩, ⟨_, hs, _, _⟩⟩
      exact hs hn)
    have k25 := ite_pair_le_one
      ((b.pieces Piece.Pawn Color.White).testBit f = true ∧ pr = none ∧ toSq = f + 16 ∧ toSq < 64)
      ((b.pieces Piece.Pawn Color.White).testBit f = true ∧ pr ≠ none ∧ toSq < 64 ∧ (pawnAttacksBB f Color.White).testBit toSq = true)
      (by
      rintro ⟨⟨_, hn, _, _⟩, ⟨_, hs, _, _⟩⟩
      exact hs hn)
    have k26 := ite_pair_le_one
      ((b.pieces Piece.Pawn Color.White).testBit f = true ∧ pr = none ∧ toSq = f + 16 ∧ toSq < 64)
      ((b.pieces Piece.Pawn Color.White).testBit f = true ∧ pr = none ∧ toSq < 64 ∧ (pawnAttacksBB f Color.White).testBit toSq = true ∧ (compl64 b.occupied).testBit toSq = true)
      (by
      rintro ⟨⟨hb1, _, ha, hl⟩, ⟨_, _, _, hatt, _⟩⟩
      subst ha
      have hgeo := pawn_attack_not_double_white f (hf64 hb1) hl
      rw [hgeo] at hatt
      exact Bool.noConfusion hatt)
    have k34 := ite_pair_le_one
      ((b.pieces Piece.Pawn Color.White).testBit f = true ∧ pr = none ∧ toSq < 64 ∧ (pawnAttacksBB f Color.White).testBit toSq = true ∧ (b.opponentOccupancy Color.White).testBit toSq = true)
      ((b.pieces Piece.Pawn Color.White).testBit f = true ∧ pr ≠ none ∧ toSq = f + 8 ∧ toSq < 64)
      (by
      rintro ⟨⟨_, hn, _, _, _⟩, ⟨_, hs, _, _⟩⟩
      exact hs hn)
    have k35 := ite_pair_le_one
      ((b.pieces Piece.Pawn Color.White).testBit f = true ∧ pr = none ∧ toSq < 64 ∧ (pawnAttacksBB f Color.White).testBit toSq = true ∧ (b.opponentOccupancy Color.White).testBit toSq = true)
      ((b.pieces Piece.Pawn Color.White).testBit f = true ∧ pr ≠ none ∧ toSq < 64 ∧ (pawnAttacksBB f Color.White).testBit toSq = true)
      (by
      rintro ⟨⟨_, hn, _, _, _⟩, ⟨_, hs, _, _⟩⟩
      exact hs hn)
    have k36 := ite_pair_le_one
      ((b.pieces Piece.Pawn Color.White).testBit f = true ∧ pr = none ∧ toSq < 64 ∧ (pawnAttacksBB f Color.White).testBit toSq = true ∧ (b.opponentOccupancy Color.White).testBit toSq = true)
      ((b.pieces Piece.Pawn Color.White).testBit f = true ∧ pr = none ∧ toSq < 64 ∧ (pawnAttacksBB f Color.White).testBit toSq = true ∧ (compl64 b.occupied).testBit toSq = true)
      (by
      rintro ⟨⟨_, _, hl, _, hopp⟩, ⟨_, _, _, _, hemp⟩⟩
      have hocc := hsub toSq hopp
      rw [compl64_testBit, decide_eq_true hl, hocc] at hemp
      exact Bool.noConfusion hemp)
    have k45 := ite_pair_le_one
      ((b.pieces Piece.Pawn Color.White).testBit f = true ∧ pr ≠ none ∧ toSq = f + 8 ∧ toSq < 64)
      ((b.pieces Piece.Pawn Color.White).testBit f = true ∧ pr ≠ none ∧ toSq < 64 ∧ (pawnAttacksBB f Color.White).testBit toSq = true)
      (by
      rintro ⟨⟨hb1, _, ha, hl⟩, ⟨_, _, _, hatt⟩⟩
      subst ha
      have hgeo := pawn_attack_not_push_white f (hf64 hb1) hl
      rw [hgeo] at hatt
      exact Bool.noConfusion hatt)
    have k46 := ite_pair_le_one
      ((b.pieces Piece.Pawn Color.White).testBit f = true ∧ pr ≠ none ∧ toSq = f + 8 ∧ toSq < 64)
      ((b.pieces Piece.Pawn Color.White).testBit f = true ∧ pr = none ∧ toSq < 64 ∧ (pawnAttacksBB f Color.White).testBit toSq = true ∧ (compl64 b.occupied).testBit toSq = true)
      (by
      rintro ⟨⟨_, hs, _, _⟩, ⟨_, hn, _, _, _⟩⟩
      exact hs hn)
    have k56 := ite_pair_le_one
      ((b.pieces Piece.Pawn Color.White).testBit f = true ∧ pr ≠ none ∧ toSq < 64 ∧ (pawnAttacksBB f Color.White).testBit toSq = true)
      ((b.pieces Piece.Pawn Color.White).testBit f = true ∧ pr = none ∧ toSq < 64 ∧ (pawnAttacksBB f Color.White).testBit toSq = true ∧ (compl64 b.occupied).testBit toSq = true)
      (by
      rintro ⟨⟨_, hs, _, _⟩, ⟨_, hn, _, _, _⟩⟩
      exact hs hn)
    have m1 := ite_le_ite_of_imp
      (P := (b.pieces Piece.Pawn Color.White).testBit f = true ∧ pr = none ∧ toSq = f + 8 ∧ toSq < 64)
      (Q := (b.pieces Piece.Pawn Color.White).testBit f = true)
      (fun hh => hh.1)
    have m2 := ite_le_ite_of_imp
      (P := (b.pieces Piece.Pawn Color.White).testBit f = true ∧ pr = none ∧ toSq = f + 16 ∧ toSq < 64)
      (Q := (b.pieces Piece.Pawn Color.White).testBit f = true)
      (fun hh => hh.1)
    have m3 := ite_le_ite_of_imp
      (P := (b.pieces Piece.Pawn Color.White).testBit f = true ∧ pr = none ∧ toSq < 64 ∧ (pawnAttacksBB f Color.White).testBit toSq = true ∧ (b.opponentOccupancy Color.White).testBit toSq = true)
      (Q := (b.pieces Piece.Pawn Color.White).testBit f = true)
      (fun hh => hh.1)
    have m4 := ite_le_ite_of_imp
      (P := (b.pieces Piece.Pawn Color.White).testBit f = true ∧ pr ≠ none ∧ toSq = f + 8 ∧ toSq < 64)
      (Q := (b.pieces Piece.Pawn Color.White).testBit f = true)
      (fun hh => hh.1)
    have m5 := ite_le_ite_of_imp
      (P := (b.pieces Piece.Pawn Color.White).testBit f = true ∧ pr ≠ none ∧ toSq < 64 ∧ (pawnAttacksBB f Color.White).testBit toSq = true)
      (Q := (b.pieces Piece.Pawn Color.White).testBit f = true)
      (fun hh => hh.1)
    have m6 := ite_le_ite_of_imp
      (P := (b.pieces Piece.Pawn Color.White).testBit f = true ∧ pr = none ∧ toSq < 64 ∧ (pawnAttacksBB f Color.White).testBit toSq = true ∧ (compl64 b.occupied).testBit toSq = true)
      (Q := (b.pieces Piece.Pawn Color.White).testBit f = true)
      (fun hh => hh.1)
    have hy := ite_ind_le_one ((b.pieces Piece.Pawn Color.White).testBit f = true)
    omega
  | Black =>
    rw [hside] at hp hsub
    have h1 := trip_bound_singles_black b hside hp f toSq pr
    have h2 := trip_bound_doubles_black b hside hp f toSq pr
    have h4 := trip_bound_promo_push_black b hside hp f toSq pr
    have h3 := trip_bound_pawn_caps b (by rw [hside]; exact hp) f toSq pr
    have h5 := trip_bound_promo_caps b (by rw [hside]; exact hp) f toSq pr
    have h6 := trip_bound_ep b (by rw [hside]; exact hp) f toSq pr
    rw [hside] at h3 h5 h6
    have hf64 : (b.pieces Piece.Pawn Color.Black).testBit f = true →
        f < 64 := fun hb => testBit_true_lt _ _ hp hb
    have k12 := ite_pair_le_one
      ((b.pieces Piece.Pawn Color.Black).testBit f = true ∧ pr = none ∧ f = toSq + 8 ∧ f < 64)
      ((b.pieces Piece.Pawn Color.Black).testBit f = true ∧ pr = none ∧ f = toSq + 16 ∧ f < 64)
      (by
      rintro ⟨⟨_, _, ha, _⟩, ⟨_, _, hb, _⟩⟩
      omega)
    have k13 := ite_pair_le_one
      ((b.pieces Piece.Pawn Color.Black).testBit f = true ∧ pr = none ∧ f = toSq + 8 ∧ f < 64)
      ((b.pieces Piece.Pawn Color.Black).testBit f = true ∧ pr = none ∧ toSq < 64 ∧ (pawnAttacksBB f Color.Black).testBit toSq = true ∧ (b.opponentOccupancy Color.Black).testBit toSq = true)
      (by
      rintro ⟨⟨hb1, _, ha, hl⟩, ⟨_, _, h64, hatt, _⟩⟩
      have hgeo := pawn_attack_not_push_black toSq h64 (by omega)
      rw [ha] at hatt
      rw [hgeo] at hatt
      exact Bool.noConfusion hatt)
    have k14 := ite_pair_le_one
      ((b.pieces Piece.Pawn Color.Black).testBit f = true ∧ pr = none ∧ f = toSq + 8 ∧ f < 64)
      ((b.pieces Piece.Pawn Color.Black).testBit f = true ∧ pr ≠ none ∧ f = toSq + 8 ∧ f < 64)
      (by
      rintro ⟨⟨_, hn, _, _⟩, ⟨_, hs, _, _⟩⟩
      exact hs hn)
    have k15 := ite_pair_le_one
      ((b.pieces Piece.Pawn Color.Black).testBit f = true ∧ pr = none ∧ f = toSq + 8 ∧ f < 64)
      ((b.pieces Piece.Pawn Color.Black).testBit f = true ∧ pr ≠ none ∧ toSq < 64 ∧ (pawnAttacksBB f Color.Black).testBit toSq = true)
      (by
      rintro ⟨⟨_, hn, _, _⟩, ⟨_, hs, _, _⟩⟩
      exact hs hn)
    have k16 := ite_pair_le_one
      ((b.pieces Piece.Pawn Color.Black).testBit f = true ∧ pr = none ∧ f = toSq + 8 ∧ f < 64)
      ((b.pieces Piece.Pawn Color.Black).testBit f = true ∧ pr = none ∧ toSq < 64 ∧ (pawnAttacksBB f Color.Black).testBit toSq = true ∧ (compl64 b.occupied).testBit toSq = true)
      (by
      rintro ⟨⟨hb1, _, ha, hl⟩, ⟨_, _, h64, hatt, _⟩⟩
      have hgeo := pawn_attack_not_push_black toSq h64 (by omega)
      rw [ha] at hatt
      rw [hgeo] at hatt
      exact Bool.noConfusion hatt)
    have k23 := ite_pair_le_one
      ((b.pieces Piece.Pawn Color.Black).testBit f = true ∧ pr = none ∧ f = toSq + 16 ∧ f < 64)
      ((b.pieces Piece.Pawn Color.Black).testBit f = true ∧ pr = none ∧ toSq < 64 ∧ (pawnAttacksBB f Color.Black).testBit toSq = true ∧ (b.opponentOccupancy Color.Black).testBit toSq = true)
      (by
      rintro ⟨⟨hb1, _, ha, hl⟩, ⟨_, _, h64, hatt, _⟩⟩
      have hgeo := pawn_attack_not_double_black toSq h64 (by omega)
      rw [ha] at hatt
      rw [hgeo] at hatt
      exact Bool.noConfusion hatt)
    have k24 := ite_pair_le_one
      ((b.pieces Piece.Pawn Color.Black).testBit f = true ∧ pr = none ∧ f = toSq + 16 ∧ f < 64)
      ((b.pieces Piece.Pawn Color.Black).testBit f = true ∧ pr ≠ none ∧ f = toSq + 8 ∧ f < 64)
      (by
      rintro ⟨⟨_, hn, _, _⟩, ⟨_, hs, _, _⟩⟩
      exact hs hn)
    have k25 := ite_pair_le_one
      ((b.pieces Piece.Pawn Color.Black).testBit f = true ∧ pr = none ∧ f = toSq + 16 ∧ f < 64)
      ((b.pieces Piece.Pawn Color.Black).testBit f = true ∧ pr ≠ none ∧ toSq < 64 ∧ (pawnAttacksBB f Color.Black).testBit toSq = true)
      (by
      rintro ⟨⟨_, hn, _, _⟩, ⟨_, hs, _, _⟩⟩
      exact hs hn)
    have k26 := ite_pair_le_one
      ((b.pieces Piece.Pawn Color.Black).testBit f = true ∧ pr = none ∧ f = toSq + 16 ∧ f < 64)
      ((b.pieces Piece.Pawn Color.Black).testBit f = true ∧ pr = none ∧ toSq < 64 ∧ (pawnAttacksBB f Color.Black).testBit toSq = true ∧ (compl64 b.occupied).testBit toSq = true)
      (by
      rintro ⟨⟨hb1, _, ha, hl⟩, ⟨_, _, h64, hatt, _⟩⟩
      have hgeo := pawn_attack_not_double_black toSq h64 (by omega)
      rw [ha] at hatt
      rw [hgeo] at hatt
      exact Bool.noConfusion hatt)
    have k34 := ite_pair_le_one
      ((b.pieces Piece.Pawn Color.Black).testBit f = true ∧ pr = none ∧ toSq < 64 ∧ (pawnAttacksBB f Color.Black).testBit toSq = true ∧ (b.opponentOccupancy Color.Black).testBit toSq = true)
      ((b.pieces Piece.Pawn Color.Black).testBit f = true ∧ pr ≠ none ∧ f = toSq + 8 ∧ f < 64)
      (by
      rintro ⟨⟨_, hn, _, _, _⟩, ⟨_, hs, _, _⟩⟩
      exact hs hn)
    have k35 := ite_pair_le_one
      ((b.pieces Piece.Pawn Color.Black).testBit f = true ∧ pr = none ∧ toSq < 64 ∧ (pawnAttacksBB f Color.Black).testBit toSq = true ∧ (b.opponentOccupancy Color.Black).testBit toSq = true)
      ((b.pieces Piece.Pawn Color.Black).testBit f = true ∧ pr ≠ none ∧ toSq < 64 ∧ (pawnAttacksBB f Color.Black).testBit toSq = true)
      (by
      rintro ⟨⟨_, hn, _, _, _⟩, ⟨_, hs, _, _⟩⟩
      exact hs hn)
    have k36 := ite_pair_le_one
      ((b.pieces Piece.Pawn Color.Black).testBit f = true ∧ pr = none ∧ toSq < 64 ∧ (pawnAttacksBB f Color.Black).testBit toSq = true ∧ (b.opponentOccupancy Color.Black).testBit toSq = true)
      ((b.pieces Piece.Pawn Color.Black).testBit f = true ∧ pr = none ∧ toSq < 64 ∧ (pawnAttacksBB f Color.Black).testBit toSq = true ∧ (compl64 b.occupied).testBit toSq = true)
      (by
      rintro ⟨⟨_, _, hl, _, hopp⟩, ⟨_, _, _, _, hemp⟩⟩
      have hocc := hsub toSq hopp
      rw [compl64_testBit, decide_eq_true hl, hocc] at hemp
      exact Bool.noConfusion hemp)
    have k45 := ite_pair_le_one
      ((b.pieces Piece.Pawn Color.Black).testBit f = true ∧ pr ≠ none ∧ f = toSq + 8 ∧ f < 64)
      ((b.pieces Piece.Pawn Color.Black).testBit f = true ∧ pr ≠ none ∧ toSq < 64 ∧ (pawnAttacksBB f Color.Black).testBit toSq = true)
      (by
      rintro ⟨⟨hb1, _, ha, hl⟩, ⟨_, _, h64, hatt⟩⟩
      have hgeo := pawn_attack_not_push_black toSq h64 (by omega)
      rw [ha] at hatt
      rw [hgeo] at hatt
      exact Bool.noConfusion hatt)
    have k46 := ite_pair_le_one
      ((b.pieces Piece.Pawn Color.Black).testBit f = true ∧ pr ≠ none ∧ f = toSq + 8 ∧ f < 64)
      ((b.pieces Piece.Pawn Color.Black).testBit f = true ∧ pr = none ∧ toSq < 64 ∧ (pawnAttacksBB f Color.Black).testBit toSq = true ∧ (compl64 b.occupied).testBit toSq = true)
      (by
      rintro ⟨⟨_, hs, _, _⟩, ⟨_, hn, _, _, _⟩⟩
      exact hs hn)
    have k56 := ite_pair_le_one
      ((b.pieces Piece.Pawn Color.Black).testBit f = true ∧ pr ≠ none ∧ toSq < 64 ∧ (pawnAttacksBB f Color.Black).testBit toSq = true)
      ((b.pieces Piece.Pawn Color.Black).testBit f = true ∧ pr = none ∧ toSq < 64 ∧ (pawnAttacksBB f Color.Black).testBit toSq = true ∧ (compl64 b.occupied).testBit toSq = true)
      (by
      rintro ⟨⟨_, hs, _, _⟩, ⟨_, hn, _, _, _⟩⟩
      exact hs hn)
    have m1 := ite_le_ite_of_imp
      (P := (b.pieces Piece.Pawn Color.Black).testBit f = true ∧ pr = none ∧ f = toSq + 8 ∧ f < 64)
      (Q := (b.pieces Piece.Pawn Color.Black).testBit f = true)
      (fun hh => hh.1)
    have m2 := ite_le_ite_of_imp
      (P := (b.pieces Piece.Pawn Color.Black).testBit f = true ∧ pr = none ∧ f = toSq + 16 ∧ f < 64)
      (Q := (b.pieces Piece.Pawn Color.Black).testBit f = true)
      (fun hh => hh.1)
    have m3 := ite_le_ite_of_imp
      (P := (b.pieces Piece.Pawn Color.Black).testBit f = true ∧ pr = none ∧ toSq < 64 ∧ (pawnAttacksBB f Color.Black).testBit toSq = true ∧ (b.opponentOccupancy Color.Black).testBit toSq = true)
      (Q := (b.pieces Piece.Pawn Color.Black).testBit f = true)
      (fun hh => hh.1)
    have m4 := ite_le_ite_of_imp
      (P := (b.pieces Piece.Pawn Color.Black).testBit f = true ∧ pr ≠ none ∧ f = toSq + 8 ∧ f < 64)
      (Q := (b.pieces Piece.Pawn Color.Black).testBit f = true)
      (fun hh => hh.1)
    have m5 := ite_le_ite_of_imp
      (P := (b.pieces Piece.Pawn Color.Black).testBit f = true ∧ pr ≠ none ∧ toSq < 64 ∧ (pawnAttacksBB f Color.Black).testBit toSq = true)
      (Q := (b.pieces Piece.Pawn Color.Black).testBit f = true)
      (fun hh => hh.1)
    have m6 := ite_le_ite_of_imp
      (P := (b.pieces Piece.Pawn Color.Black).testBit f = true ∧ pr = none ∧ toSq < 64 ∧ (pawnAttacksBB f Color.Black).testBit toSq = true ∧ (compl64 b.occupied).testBit toSq = true)
      (Q := (b.pieces Piece.Pawn Color.Black).testBit f = true)
      (fun hh => hh.1)
    have hy := ite_ind_le_one ((b.pieces Piece.Pawn Color.Black).testBit f = true)
    omega

/-- At most one generated move of a non-pawn, non-king piece carries any
given triple. -/
theorem trip_bound_genPiece (b : Board) (pc : Piece) (att : Nat → Nat)
    (hbb : b.pieces pc b.sideToMove < 2 ^ 64)
    (hatt : ∀ i, att i < 2 ^ 64)
    (f toSq : Nat) (pr : Option Piece) :
    ((genPieceMoves b pc att).map moveTriple).count ⟨f, toSq, pr⟩ ≤
      if (b.pieces pc b.sideToMove).testBit f then 1 else 0 := by
  unfold genPieceMoves pushPieceMoves
  dsimp only
  have hA : ∀ i, att i &&& compl64 (b.occupancy b.sideToMove) &&&
      compl64 (b.pieces Piece.King b.sideToMove.opposite) < 2 ^ 64 :=
    fun i => lt_of_le_of_lt (le_trans Nat.and_le_left Nat.and_le_left)
      (hatt i)
  have hl2 := trip_count_loop2 _ hbb _ hA pc
    (fun i j => if ((b.opponentOccupancy b.sideToMove &&&
        compl64 (b.pieces Piece.King b.sideToMove.opposite)) >>> j) &&&
        1 ≠ 0 then CAPTURE else QUIET_MOVE) f toSq pr
  refine le_trans (le_of_eq (by exact hl2)) (ite_le_ite_of_imp
    (P := (b.pieces pc b.sideToMove).testBit f = true ∧
      (att f &&& compl64 (b.occupancy b.sideToMove) &&&
        compl64 (b.pieces Piece.King b.sideToMove.opposite)).testBit
        toSq = true ∧ pr = none)
    (Q := (b.pieces pc b.sideToMove).testBit f = true)
    (fun hh => hh.1))

/-- At most one generated king move carries any given triple. -/
theorem trip_bound_king (b : Board) (T : MagicTables)
    (hbb : b.pieces Piece.King b.sideToMove < 2 ^ 64)
    (hcWK : hasKingsideCastle b b.sideToMove = true →
      b.pieces Piece.King b.sideToMove =
        (if b.sideToMove = Color.White then 2 ^ 4 else 2 ^ 60))
    (hcWQ : hasQueensideCastle b b.sideToMove = true →
      b.pieces Piece.King b.sideToMove =
        (if b.sideToMove = Color.White then 2 ^ 4 else 2 ^ 60))
    (f toSq : Nat) (pr : Option Piece) :
    ((generateKingMoves b T).map moveTriple).count ⟨f, toSq, pr⟩ ≤
      if (b.pieces Piece.King b.sideToMove).testBit f then 1 else 0 := by
  unfold generateKingMoves
  dsimp only
  by_cases hkz : b.pieces Piece.King b.sideToMove = 0
  · rw [if_pos hkz]
    simp
  · rw [if_neg hkz]
    unfold pushPieceMoves
    simp only [List.map_append, List.count_append]
    obtain ⟨hlsb64, hlsbbit⟩ := lsb64_spec _ hkz hbb
    have htg : kingAttacksBB (lsb64 (b.pieces Piece.King b.sideToMove))
        &&& compl64 (b.occupancy b.sideToMove) &&&
        compl64 (b.pieces Piece.King b.sideToMove.opposite) < 2 ^ 64 :=
      lt_of_le_of_lt (le_trans Nat.and_le_left Nat.and_le_left)
        (kingAttacksBB_lt _)
    have hnr0 := trip_count_push _ htg
      (fun _ => lsb64 (b.pieces Piece.King b.sideToMove)) Piece.King
      (fun j => if (b.opponentOccupancy b.sideToMove >>> j) &&& 1 ≠ 0
        then CAPTURE else QUIET_MOVE) f toSq pr
    have hnr : (((popBits 64
        (kingAttacksBB (lsb64 (b.pieces Piece.King b.sideToMove)) &&&
          compl64 (b.occupancy b.sideToMove) &&&
          compl64 (b.pieces Piece.King b.sideToMove.opposite))).map
        (fun j =>
          ({ from_sq := lsb64 (b.pieces Piece.King b.sideToMove),
             to_sq := j, piece := Piece.King, promotion := none,
             flags := if (b.opponentOccupancy b.sideToMove >>> j) &&&
               1 ≠ 0 then CAPTURE else QUIET_MOVE } : Move))).map
        moveTriple).count ⟨f, toSq, pr⟩ ≤
        if f = lsb64 (b.pieces Piece.King b.sideToMove) ∧ pr = none ∧
          (kingAttacksBB
            (lsb64 (b.pieces Piece.King b.sideToMove))).testBit toSq
        then 1 else 0 := by
      refine le_trans (le_of_eq (by exact hnr0)) (ite_le_ite_of_imp ?_)
      rintro ⟨ha, hb, hc⟩
      simp only [Nat.testBit_and, Bool.and_eq_true] at hc
      exact ⟨ha, hb, hc.1.1⟩
    have hck : ((kingCastleMoves b T
        (lsb64 (b.pieces Piece.King b.sideToMove))).map
        moveTriple).count ⟨f, toSq, pr⟩ ≤
        (if f = lsb64 (b.pieces Piece.King b.sideToMove) ∧ pr = none ∧
           toSq = lsb64 (b.pieces Piece.King b.sideToMove) + 2 ∧
           hasKingsideCastle b b.sideToMove = true then 1 else 0) +
        (if f = lsb64 (b.pieces Piece.King b.sideToMove) ∧ pr = none ∧
           toSq = lsb64 (b.pieces Piece.King b.sideToMove) - 2 ∧
           hasQueensideCastle b b.sideToMove = true then 1 else 0) := by
      unfold kingCastleMoves
      dsimp only
      simp only [List.map_append, List.count_append]
      have hbk : ∀ L1 L2 : Nat, L1 ≤ L2 → ∀ M1 M2 : Nat, M1 ≤ M2 →
          L1 + M1 ≤ L2 + M2 := fun _ _ h1 _ _ h2 => Nat.add_le_add h1 h2
      refine hbk _ _ ?_ _ _ ?_
      · by_cases hc : (hasKingsideCastle b b.sideToMove &&
            (b.occupied &&& kingsideBetween b.sideToMove == 0)) = true
        · rw [if_pos hc]
          by_cases hlc : isLegalCastling T b
              { from_sq := lsb64 (b.pieces Piece.King b.sideToMove),
                to_sq := lsb64 (b.pieces Piece.King b.sideToMove) + 2,
                piece := Piece.King, promotion := none,
                flags := KINGSIDE_CASTLE } = true
          · rw [if_pos hlc]
            simp only [List.map_cons, List.map_nil, List.count_cons,
              List.count_nil, moveTriple]
            by_cases he : (⟨lsb64 (b.pieces Piece.King b.sideToMove),
                lsb64 (b.pieces Piece.King b.sideToMove) + 2, none⟩ :
                Trip) = ⟨f, toSq, pr⟩
            · have h1 : lsb64 (b.pieces Piece.King b.sideToMove) = f :=
                congrArg Trip.fromSq he
              have h2 : lsb64 (b.pieces Piece.King b.sideToMove) + 2 =
                  toSq := congrArg Trip.toSq he
              have h3 : (none : Option Piece) = pr :=
                congrArg Trip.promo he
              have hcond : f = lsb64 (b.pieces Piece.King b.sideToMove) ∧
                  pr = none ∧
                  toSq = lsb64 (b.pieces Piece.King b.sideToMove) + 2 ∧
                  hasKingsideCastle b b.sideToMove = true :=
                ⟨h1.symm, h3.symm, h2.symm,
                  ((Bool.and_eq_true _ _).mp hc).1⟩
              rw [if_pos hcond]
              split_ifs <;> omega
            · have hne : ((⟨lsb64 (b.pieces Piece.King b.sideToMove),
                  lsb64 (b.pieces Piece.King b.sideToMove) + 2, none⟩ :
                  Trip) == ⟨f, toSq, pr⟩) = false :=
                beq_eq_false_iff_ne.mpr (by exact he)
              rw [hne]
              simp
          · rw [if_neg hlc]
            simp
        · rw [if_neg hc]
          simp
      · by_cases hc : (hasQueensideCastle b b.sideToMove &&
            (b.occupied &&& queensideBetween b.sideToMove == 0)) = true
        · rw [if_pos hc]
          simp only [List.map_cons, List.map_nil, List.count_cons,
            List.count_nil, moveTriple]
          by_cases he : (⟨lsb64 (b.pieces Piece.King b.sideToMove),
              lsb64 (b.pieces Piece.King b.sideToMove) - 2, none⟩ :
              Trip) = ⟨f, toSq, pr⟩
          · have h1 : lsb64 (b.pieces Piece.King b.sideToMove) = f :=
              congrArg Trip.fromSq he
            have h2 : lsb64 (b.pieces Piece.King b.sideToMove) - 2 =
                toSq := congrArg Trip.toSq he
            have h3 : (none : Option Piece) = pr :=
              congrArg Trip.promo he
            have hcond : f = lsb64 (b.pieces Piece.King b.sideToMove) ∧
                pr = none ∧
                toSq = lsb64 (b.pieces Piece.King b.sideToMove) - 2 ∧
                hasQueensideCastle b b.sideToMove = true :=
              ⟨h1.symm, h3.symm, h2.symm,
                ((Bool.and_eq_true _ _).mp hc).1⟩
            rw [if_pos hcond]
            split_ifs <;> omega
          · have hne : ((⟨lsb64 (b.pieces Piece.King b.sideToMove),
                lsb64 (b.pieces Piece.King b.sideToMove) - 2, none⟩ :
                Trip) == ⟨f, toSq, pr⟩) = false :=
              beq_eq_false_iff_ne.mpr (by exact he)
            rw [hne]
            simp
        · rw [if_neg hc]
          simp
    have hf0 : lsb64 (b.pieces Piece.King b.sideToMove) = 4 ∨
        lsb64 (b.pieces Piece.King b.sideToMove) = 60 ∨
        (hasKingsideCastle b b.sideToMove = false ∧
          hasQueensideCastle b b.sideToMove = false) := by
      by_cases hk : hasKingsideCastle b b.sideToMove = true
      · have := hcWK hk
        cases hsd : b.sideToMove with
        | White =>
          rw [hsd] at this
          rw [if_pos rfl] at this
          rw [this, lsb64_pow4]
          exact Or.inl rfl
        | Black =>
          rw [hsd] at this
          rw [if_neg (by decide)] at this
          rw [this, lsb64_pow60]
          exact Or.inr (Or.inl rfl)
      · by_cases hq : hasQueensideCastle b b.sideToMove = true
        · have := hcWQ hq
          cases hsd : b.sideToMove with
          | White =>
            rw [hsd] at this
            rw [if_pos rfl] at this
            rw [this, lsb64_pow4]
            exact Or.inl rfl
          | Black =>
            rw [hsd] at this
            rw [if_neg (by decide)] at this
            rw [this, lsb64_pow60]
            exact Or.inr (Or.inl rfl)
        · exact Or.inr (Or.inr ⟨Bool.not_eq_true _ ▸ hk,
            Bool.not_eq_true _ ▸ hq⟩)
    have kNK := ite_pair_le_one
      (f = lsb64 (b.pieces Piece.King b.sideToMove) ∧ pr = none ∧
        (kingAttacksBB
          (lsb64 (b.pieces Piece.King b.sideToMove))).testBit toSq = true)
      (f = lsb64 (b.pieces Piece.King b.sideToMove) ∧ pr = none ∧
        toSq = lsb64 (b.pieces Piece.King b.sideToMove) + 2 ∧
        hasKingsideCastle b b.sideToMove = true)
      (by
        rintro ⟨⟨_, _, hatt⟩, ⟨_, _, hto, hk⟩⟩
        subst hto
        rcases hf0 with h4 | h60 | ⟨hfk, _⟩
        · rw [h4] at hatt
          rw [king_attack_not_castle.1] at hatt
          exact Bool.noConfusion hatt
        · rw [h60] at hatt
          rw [king_attack_not_castle.2.1] at hatt
          exact Bool.noConfusion hatt
        · rw [hfk] at hk
          exact Bool.noConfusion hk)
    have kNQ := ite_pair_le_one
      (f = lsb64 (b.pieces Piece.King b.sideToMove) ∧ pr = none ∧
        (kingAttacksBB
          (lsb64 (b.pieces Piece.King b.sideToMove))).testBit toSq = true)
      (f = lsb64 (b.pieces Piece.King b.sideToMove) ∧ pr = none ∧
        toSq = lsb64 (b.pieces Piece.King b.sideToMove) - 2 ∧
        hasQueensideCastle b b.sideToMove = true)
      (by
        rintro ⟨⟨_, _, hatt⟩, ⟨_, _, hto, hq⟩⟩
        subst hto
        rcases hf0 with h4 | h60 | ⟨_, hfq⟩
        · rw [h4] at hatt
          rw [show (4 : Nat) - 2 = 2 from rfl] at hatt
          rw [king_attack_not_castle.2.2.1] at hatt
          exact Bool.noConfusion hatt
        · rw [h60] at hatt
          rw [show (60 : Nat) - 2 = 58 from rfl] at hatt
          rw [king_attack_not_castle.2.2.2] at hatt
          exact Bool.noConfusion hatt
        · rw [hfq] at hq
          exact Bool.noConfusion hq)
    have kKQ := ite_pair_le_one
      (f = lsb64 (b.pieces Piece.King b.sideToMove) ∧ pr = none ∧
        toSq = lsb64 (b.pieces Piece.King b.sideToMove) + 2 ∧
        hasKingsideCastle b b.sideToMove = true)
      (f = lsb64 (b.pieces Piece.King b.sideToMove) ∧ pr = none ∧
        toSq = lsb64 (b.pieces Piece.King b.sideToMove) - 2 ∧
        hasQueensideCastle b b.sideToMove = true)
      (by
        rintro ⟨⟨_, _, h1, _⟩, ⟨_, _, h2, _⟩⟩
        omega)
    have mN := ite_le_ite_of_imp
      (P := f = lsb64 (b.pieces Piece.King b.sideToMove) ∧ pr = none ∧
        (kingAttacksBB
          (lsb64 (b.pieces Piece.King b.sideToMove))).testBit toSq = true)
      (Q := (b.pieces Piece.King b.sideToMove).testBit f = true)
      (fun hh => by rw [hh.1]; exact hlsbbit)
    have mK := ite_le_ite_of_imp
      (P := f = lsb64 (b.pieces Piece.King b.sideToMove) ∧ pr = none ∧
        toSq = lsb64 (b.pieces Piece.King b.sideToMove) + 2 ∧
        hasKingsideCastle b b.sideToMove = true)
      (Q := (b.pieces Piece.King b.sideToMove).testBit f = true)
      (fun hh => by rw [hh.1]; exact hlsbbit)
    have mQ := ite_le_ite_of_imp
      (P := f = lsb64 (b.pieces Piece.King b.sideToMove) ∧ pr = none ∧
        toSq = lsb64 (b.pieces Piece.King b.sideToMove) - 2 ∧
        hasQueensideCastle b b.sideToMove = true)
      (Q := (b.pieces Piece.King b.sideToMove).testBit f = true)
      (fun hh => by rw [hh.1]; exact hlsbbit)
    have hy := ite_ind_le_one
      ((b.pieces Piece.King b.sideToMove).testBit f = true)
    omega

set_option maxHeartbeats 1600000 in
/-- Triple-uniqueness of `generate_pseudo_legal`: on a board whose piece
bitboards are in range, whose opponent occupancy lies inside the occupied
set, which has at most one piece per square, and whose castling rights
imply the king is on its start square, no two generated moves share an
(origin, destination, promotion) triple. -/
theorem trip_bound_generatePseudoLegal (b : Board) (T : MagicTables)
    (hT : TablesWf T)
    (hbb : ∀ c p, b.pieceBB c p < 2 ^ 64)
    (hsub : ∀ i, (b.opponentOccupancy b.sideToMove).testBit i = true →
      b.occupied.testBit i = true)
    (hx : ∀ i, ∀ p q : Piece, p ≠ q →
      (b.pieces p b.sideToMove).testBit i = true →
      (b.pieces q b.sideToMove).testBit i = true → False)
    (hcK : hasKingsideCastle b b.sideToMove = true →
      b.pieces Piece.King b.sideToMove =
        (if b.sideToMove = Color.White then 2 ^ 4 else 2 ^ 60))
    (hcQ : hasQueensideCastle b b.sideToMove = true →
      b.pieces Piece.King b.sideToMove =
        (if b.sideToMove = Color.White then 2 ^ 4 else 2 ^ 60))
    (tr : Trip) :
    ((generatePseudoLegal b T).map moveTriple).count tr ≤ 1 := by
  obtain ⟨f, toSq, pr⟩ := tr
  unfold generatePseudoLegal generateKnightMoves generateBishopMoves
    generateRookMoves generateQueenMoves
  simp only [List.map_append, List.count_append]
  have hP := trip_bound_pawn_block b (hbb b.sideToMove Piece.Pawn) hsub
    f toSq pr
  have hN := trip_bound_genPiece b Piece.Knight knightAttacksBB
    (hbb b.sideToMove Piece.Knight) knightAttacksBB_lt f toSq pr
  have hB := trip_bound_genPiece b Piece.Bishop
    (fun sq => T.bishopAtt sq b.occupied)
    (hbb b.sideToMove Piece.Bishop)
    (fun sq => (hT sq b.occupied).1) f toSq pr
  have hR := trip_bound_genPiece b Piece.Rook
    (fun sq => T.rookAtt sq b.occupied)
    (hbb b.sideToMove Piece.Rook)
    (fun sq => (hT sq b.occupied).2) f toSq pr
  have hQ := trip_bound_genPiece b Piece.Queen
    (fun sq => T.bishopAtt sq b.occupied ||| T.rookAtt sq b.occupied)
    (hbb b.sideToMove Piece.Queen)
    (fun sq => Nat.or_lt_two_pow (hT sq b.occupied).1
      (hT sq b.occupied).2) f toSq pr
  have hK := trip_bound_king b T (hbb b.sideToMove Piece.King) hcK hcQ
    f toSq pr
  have kPawnKnight := ite_pair_le_one
    ((b.pieces Piece.Pawn b.sideToMove).testBit f = true)
    ((b.pieces Piece.Knight b.sideToMove).testBit f = true)
    (fun hh => hx f Piece.Pawn Piece.Knight (by decide) hh.1 hh.2)
  have kPawnBishop := ite_pair_le_one
    ((b.pieces Piece.Pawn b.sideToMove).testBit f = true)
    ((b.pieces Piece.Bishop b.sideToMove).testBit f = true)
    (fun hh => hx f Piece.Pawn Piece.Bishop (by decide) hh.1 hh.2)
  have kPawnRook := ite_pair_le_one
    ((b.pieces Piece.Pawn b.sideToMove).testBit f = true)
    ((b.pieces Piece.Rook b.sideToMove).testBit f = true)
    (fun hh => hx f Piece.Pawn Piece.Rook (by decide) hh.1 hh.2)
  have kPawnQueen := ite_pair_le_one
    ((b.pieces Piece.Pawn b.sideToMove).testBit f = true)
    ((b.pieces Piece.Queen b.sideToMove).testBit f = true)
    (fun hh => hx f Piece.Pawn Piece.Queen (by decide) hh.1 hh.2)
  have kPawnKing := ite_pair_le_one
    ((b.pieces Piece.Pawn b.sideToMove).testBit f = true)
    ((b.pieces Piece.King b.sideToMove).testBit f = true)
    (fun hh => hx f Piece.Pawn Piece.King (by decide) hh.1 hh.2)
  have kKnightBishop := ite_pair_le_one
    ((b.pieces Piece.Knight b.sideToMove).testBit f = true)
    ((b.pieces Piece.Bishop b.sideToMove).testBit f = true)
    (fun hh => hx f Piece.Knight Piece.Bishop (by decide) hh.1 hh.2)
  have kKnightRook := ite_pair_le_one
    ((b.pieces Piece.Knight b.sideToMove).testBit f = true)
    ((b.pieces Piece.Rook b.sideToMove).testBit f = true)
    (fun hh => hx f Piece.Knight Piece.Rook (by decide) hh.1 hh.2)
  have kKnightQueen := ite_pair_le_one
    ((b.pieces Piece.Knight b.sideToMove).testBit f = true)
    ((b.pieces Piece.Queen b.sideToMove).testBit f = true)
    (fun hh => hx f Piece.Knight Piece.Queen (by decide) hh.1 hh.2)
  have kKnightKing := ite_pair_le_one
    ((b.pieces Piece.Knight b.sideToMove).testBit f = true)
    ((b.pieces Piece.King b.sideToMove).testBit f = true)
    (fun hh => hx f Piece.Knight Piece.King (by decide) hh.1 hh.2)
  have kBishopRook := ite_pair_le_one
    ((b.pieces Piece.Bishop b.sideToMove).testBit f = true)
    ((b.pieces Piece.Rook b.sideToMove).testBit f = true)
    (fun hh => hx f Piece.Bishop Piece.Rook (by decide) hh.1 hh.2)
  have kBishopQueen := ite_pair_le_one
    ((b.pieces Piece.Bishop b.sideToMove).testBit f = true)
    ((b.pieces Piece.Queen b.sideToMove).testBit f = true)
    (fun hh => hx f Piece.Bishop Piece.Queen (by decide) hh.1 hh.2)
  have kBishopKing := ite_pair_le_one
    ((b.pieces Piece.Bishop b.sideToMove).testBit f = true)
    ((b.pieces Piece.King b.sideToMove).testBit f = true)
    (fun hh => hx f Piece.Bishop Piece.King (by decide) hh.1 hh.2)
  have kRookQueen := ite_pair_le_one
    ((b.pieces Piece.Rook b.sideToMove).testBit f = true)
    ((b.pieces Piece.Queen b.sideToMove).testBit f = true)
    (fun hh => hx f Piece.Rook Piece.Queen (by decide) hh.1 hh.2)
  have kRookKing := ite_pair_le_one
    ((b.pieces Piece.Rook b.sideToMove).testBit f = true)
    ((b.pieces Piece.King b.sideToMove).testBit f = true)
    (fun hh => hx f Piece.Rook Piece.King (by decide) hh.1 hh.2)
  have kQueenKing := ite_pair_le_one
    ((b.pieces Piece.Queen b.sideToMove).testBit f = true)
    ((b.pieces Piece.King b.sideToMove).testBit f = true)
    (fun hh => hx f Piece.Queen Piece.King (by decide) hh.1 hh.2)
  have jPawn := ite_ind_le_one ((b.pieces Piece.Pawn b.sideToMove).testBit f = true)
  have jKnight := ite_ind_le_one ((b.pieces Piece.Knight b.sideToMove).testBit f = true)
  have jBishop := ite_ind_le_one ((b.pieces Piece.Bishop b.sideToMove).testBit f = true)
  have jRook := ite_ind_le_one ((b.pieces Piece.Rook b.sideToMove).testBit f = true)
  have jQueen := ite_ind_le_one ((b.pieces Piece.Queen b.sideToMove).testBit f = true)
  have jKing := ite_ind_le_one ((b.pieces Piece.King b.sideToMove).testBit f = true)
  omega

theorem pushCapturesOnly_flags (fromSq targets enemy : Nat) (pc : Piece) :
    ∀ m ∈ pushCapturesOnly fromSq targets enemy pc,
      (m.isCapture || m.isPromotion) = true := by
  intro m hm
  unfold pushCapturesOnly at hm
  rcases List.mem_map.mp hm with ⟨i, _, rfl⟩
  simp only [Move.isCapture, Move.isPromotion]
  decide

theorem pushQuietsOnly_flags (fromSq targets empty : Nat) (pc : Piece) :
    ∀ m ∈ pushQuietsOnly fromSq targets empty pc,
      m.isCapture = false ∧ m.isPromotion = false := by
  intro m hm
  unfold pushQuietsOnly at hm
  rcases List.mem_map.mp hm with ⟨i, _, rfl⟩
  constructor
  · simp only [Move.isCapture]
    decide
  · simp only [Move.isPromotion]
    decide

theorem genPieceCaptures_flags (b : Board) (pc : Piece) (att : Nat → Nat) :
    ∀ m ∈ genPieceCaptures b pc att,
      (m.isCapture || m.isPromotion) = true := by
  intro m hm
  unfold genPieceCaptures at hm
  dsimp only at hm
  rcases List.mem_flatMap.mp hm with ⟨i, _, hmem⟩
  exact pushCapturesOnly_flags _ _ _ _ m hmem

theorem genPieceQuiets_flags (b : Board) (pc : Piece) (att : Nat → Nat) :
    ∀ m ∈ genPieceQuiets b pc att,
      m.isCapture = false ∧ m.isPromotion = false := by
  intro m hm
  unfold genPieceQuiets at hm
  rcases List.mem_flatMap.mp hm with ⟨i, _, hmem⟩
  exact pushQuietsOnly_flags _ _ _ _ m hmem

/-- Every move of the split capture generator is a capture or a
promotion. -/
theorem capgen_shape (b : Board) (T : MagicTables) :
    ∀ m ∈ generatePseudoLegalCaptures b T,
      (m.isCapture || m.isPromotion) = true := by
  intro m hm
  unfold generatePseudoLegalCaptures at hm
  rcases List.mem_append.mp hm with hm | h6
  rotate_left
  · unfold generateKingCaptures at h6
    try dsimp only at h6
    by_cases hkz : b.pieces Piece.King b.sideToMove = 0
    · rw [if_pos hkz] at h6
      cases h6
    · rw [if_neg hkz] at h6
      exact pushCapturesOnly_flags _ _ _ _ m h6
  rcases List.mem_append.mp hm with hm | h5
  rotate_left
  · exact genPieceCaptures_flags b Piece.Queen _ m h5
  rcases List.mem_append.mp hm with hm | h4
  rotate_left
  · exact genPieceCaptures_flags b Piece.Rook _ m h4
  rcases List.mem_append.mp hm with hm | h3
  rotate_left
  · exact genPieceCaptures_flags b Piece.Bishop _ m h3
  rcases List.mem_append.mp hm with h1 | h2
  rotate_left
  · exact genPieceCaptures_flags b Piece.Knight _ m h2
  unfold generatePawnCaptures at h1
  rcases List.mem_append.mp h1 with h1 | hep
  rotate_left
  · unfold pawnEnPassantMoves at hep
    try dsimp only at hep
    cases hepv : b.enPassant with
    | none =>
      rw [hepv] at hep
      cases hep
    | some ep =>
      rw [hepv] at hep
      try dsimp only at hep
      by_cases hg1 : compl64 b.occupied &&& 2 ^ ep % 2 ^ 64 ≠ 0
      · rw [if_pos hg1] at hep
        by_cases hg2 : b.pieces Piece.Pawn b.sideToMove.opposite &&&
            2 ^ (if b.sideToMove = Color.White then ep - 8 else ep + 8) %
            2 ^ 64 ≠ 0
        · rw [if_pos hg2] at hep
          rcases List.mem_map.mp hep with ⟨i, _, rfl⟩
          simp only [Move.isCapture, Move.isPromotion]
          decide
        · rw [if_neg hg2] at hep
          cases hep
      · rw [if_neg hg1] at hep
        cases hep
  rcases List.mem_append.mp h1 with h1 | hpc
  rotate_left
  · unfold pawnPromoCaptures at hpc
    dsimp only at hpc
    rcases List.mem_flatMap.mp hpc with ⟨i, _, hmem⟩
    rcases List.mem_flatMap.mp hmem with ⟨j, _, hmem2⟩
    rcases List.mem_map.mp hmem2 with ⟨q, _, rfl⟩
    simp only [Move.isCapture, Move.isPromotion]
    decide
  rcases List.mem_append.mp h1 with hnc | hpp
  · unfold pawnNormalCaptures at hnc
    dsimp only at hnc
    rcases List.mem_flatMap.mp hnc with ⟨i, _, hmem⟩
    rcases List.mem_map.mp hmem with ⟨j, _, rfl⟩
    simp only [Move.isCapture, Move.isPromotion]
    decide
  · unfold pawnPromoPushes at hpp
    dsimp only at hpp
    rcases List.mem_flatMap.mp hpp with ⟨i, _, hmem⟩
    rcases List.mem_map.mp hmem with ⟨q, _, rfl⟩
    simp only [Move.isCapture, Move.isPromotion]
    decide

/-- Every move of the split quiet generator is neither a capture nor a
promotion. -/
theorem quietgen_shape (b : Board) (T : MagicTables) :
    ∀ m ∈ generatePseudoLegalQuiets b T,
      m.isCapture = false ∧ m.isPromotion = false := by
  intro m hm
  unfold generatePseudoLegalQuiets at hm
  rcases List.mem_append.mp hm with hm | h6
  rotate_left
  · unfold generateKingQuiets at h6
    try dsimp only at h6
    by_cases hkz : b.pieces Piece.King b.sideToMove = 0
    · rw [if_pos hkz] at h6
      cases h6
    · rw [if_neg hkz] at h6
      rcases List.mem_append.mp h6 with hq | hcst
      · exact pushQuietsOnly_flags _ _ _ _ m hq
      · unfold kingCastleMoves at hcst
        dsimp only at hcst
        rcases List.mem_append.mp hcst with hk | hq
        · by_cases hc : (hasKingsideCastle b b.sideToMove &&
              (b.occupied &&& kingsideBetween b.sideToMove == 0)) = true
          · rw [if_pos hc] at hk
            by_cases hlc : isLegalCastling T b
                { from_sq := lsb64 (b.pieces Piece.King b.sideToMove),
                  to_sq := lsb64 (b.pieces Piece.King b.sideToMove) + 2,
                  piece := Piece.King, promotion := none,
                  flags := KINGSIDE_CASTLE } = true
            · rw [if_pos hlc] at hk
              rw [List.mem_singleton] at hk
              subst hk
              constructor
              · simp only [Move.isCapture]
                decide
              · simp only [Move.isPromotion]
                decide
            · rw [if_neg hlc] at hk
              cases hk
          · rw [if_neg hc] at hk
            cases hk
        · by_cases hc : (hasQueensideCastle b b.sideToMove &&
              (b.occupied &&& queensideBetween b.sideToMove == 0)) = true
          · rw [if_pos hc] at hq
            rw [List.mem_singleton] at hq
            subst hq
            constructor
            · simp only [Move.isCapture]
              decide
            · simp only [Move.isPromotion]
              decide
          · rw [if_neg hc] at hq
            cases hq
  rcases List.mem_append.mp hm with hm | h5
  rotate_left
  · exact genPieceQuiets_flags b Piece.Queen _ m h5
  rcases List.mem_append.mp hm with hm | h4
  rotate_left
  · exact genPieceQuiets_flags b Piece.Rook _ m h4
  rcases List.mem_append.mp hm with hm | h3
  rotate_left
  · exact genPieceQuiets_flags b Piece.Bishop _ m h3
  rcases List.mem_append.mp hm with h1 | h2
  rotate_left
  · exact genPieceQuiets_flags b Piece.Knight _ m h2
  unfold generatePawnQuiets at h1
  rcases List.mem_append.mp h1 with hs | hd
  · unfold pawnSinglePushes at hs
    dsimp only at hs
    rcases List.mem_map.mp hs with ⟨i, _, rfl⟩
    constructor
    · simp only [Move.isCapture]
      decide
    · simp only [Move.isPromotion]
      decide
  · unfold pawnDoublePushes at hd
    dsimp only at hd
    rcases List.mem_map.mp hd with ⟨i, _, rfl⟩
    constructor
    · simp only [Move.isCapture]
      decide
    · simp only [Move.isPromotion]
      decide

-- ===== counting helpers for the yield accounting =====

theorem count_map_countP {α β : Type} [DecidableEq β] (f : α → β)
    (l : List α) (t : β) :
    (l.map f).count t = l.countP (fun m => f m == t) := by
  induction l with
  | nil => rfl
  | cons hd tl ih =>
    rw [List.map_cons, List.count_cons, List.countP_cons, ih]

theorem countP_filter_conj {α : Type} (q p : α → Bool) (l : List α) :
    (l.filter q).countP p = l.countP (fun m => q m && p m) := by
  induction l with
  | nil => rfl
  | cons hd tl ih =>
    rw [List.filter_cons, List.countP_cons]
    by_cases hq : q hd
    · rw [if_pos hq, List.countP_cons, ih, hq, Bool.true_and]
    · rw [if_neg hq, ih, Bool.not_eq_true] at *
      rw [ih, hq, Bool.false_and]
      simp

theorem countP_and_split {α : Type} (p q : α → Bool) (l : List α) :
    l.countP p = l.countP (fun m => p m && q m) +
      l.countP (fun m => p m && !q m) := by
  induction l with
  | nil => rfl
  | cons hd tl ih =>
    simp only [List.countP_cons]
    cases hp : p hd <;> cases hq : q hd <;>
      simp only [hp, hq, Bool.true_and, Bool.false_and, Bool.not_true,
        Bool.not_false, Bool.and_true, Bool.and_false, eq_self_iff_true,
        if_true, Bool.false_eq_true, if_false] <;>
      omega

theorem countP_zero_of_false {α : Type} (p : α → Bool) (l : List α)
    (h : ∀ m ∈ l, p m = false) : l.countP p = 0 := by
  induction l with
  | nil => rfl
  | cons hd tl ih =>
    rw [List.countP_cons, h hd (List.mem_cons_self hd tl),
      ih (fun m hm => h m (List.mem_cons_of_mem hd hm))]
    simp

theorem countP_singleton' {α : Type} (p : α → Bool) (c : α) :
    [c].countP p = if p c then 1 else 0 := by
  rw [List.countP_cons, List.countP_nil]
  omega

theorem countP_le_of_imp {α : Type} (p q : α → Bool) (l : List α)
    (h : ∀ m ∈ l, p m = true → q m = true) :
    l.countP p ≤ l.countP q := by
  induction l with
  | nil => exact le_refl 0
  | cons hd tl ih =>
    rw [List.countP_cons, List.countP_cons]
    have ih' := ih (fun m hm => h m (List.mem_cons_of_mem hd hm))
    by_cases hp : p hd
    · rw [h hd (List.mem_cons_self hd tl) hp, if_pos hp,
        if_pos rfl]
      omega
    · rw [Bool.not_eq_true] at hp
      rw [hp]
      simp only [Bool.false_eq_true, if_false]
      split_ifs <;> omega

theorem countP_one_le_of_mem {α : Type} (p : α → Bool) (l : List α)
    (c : α) (hc : c ∈ l) (hp : p c = true) : 1 ≤ l.countP p := by
  induction l with
  | nil => cases hc
  | cons hd tl ih =>
    rw [List.countP_cons]
    rcases List.mem_cons.mp hc with rfl | hmem
    · simp [hp]
    · have h2 := ih hmem
      omega

/-- If a list holds exactly one move with the triple of `c`, and `c` is a
member, the `p`-and-triple count is the indicator of `p c`. -/
theorem countP_unique_trip (t : Trip) (l : List Move) (c : Move)
    (p : Move → Bool) (hc : c ∈ l) (htr : moveTriple c = t)
    (hone : l.countP (fun m => moveTriple m == t) = 1) :
    l.countP (fun m => p m && (moveTriple m == t)) =
      if p c then 1 else 0 := by
  induction l with
  | nil => cases hc
  | cons hd tl ih =>
    rw [List.countP_cons] at hone ⊢
    by_cases hhd : moveTriple hd = t
    · have hbe : (moveTriple hd == t) = true := beq_iff_eq.mpr hhd
      rw [hbe] at hone
      simp only [eq_self_iff_true, if_true] at hone
      have htl0 : tl.countP (fun m => moveTriple m == t) = 0 := by omega
      have hceq : c = hd := by
        rcases List.mem_cons.mp hc with rfl | hmem
        · rfl
        · exfalso
          have h1 := countP_one_le_of_mem
            (fun m => moveTriple m == t) tl c hmem
            (beq_iff_eq.mpr htr)
          omega
      subst hceq
      have hz : tl.countP (fun m => p m && (moveTriple m == t)) = 0 := by
        have hle := countP_le_of_imp
          (fun m => p m && (moveTriple m == t))
          (fun m => moveTriple m == t) tl
          (fun m _ hpm => ((Bool.and_eq_true _ _).mp hpm).2)
        omega
      rw [hz, hbe, Bool.and_true]
      by_cases hpc : p c
      · simp [hpc]
      · rw [Bool.not_eq_true] at hpc
        simp [hpc]
    · have hbe : (moveTriple hd == t) = false :=
        beq_eq_false_iff_ne.mpr hhd
      rw [hbe] at hone
      simp only [Bool.false_eq_true, if_false] at hone
      have hcm : c ∈ tl := by
        rcases List.mem_cons.mp hc with rfl | hmem
        · exact absurd htr hhd
        · exact hmem
      rw [hbe, Bool.and_false]
      simp only [Bool.false_eq_true, if_false]
      rw [ih hcm (by omega)]
      omega

theorem isHashMoveB_trip (h m : Move) :
    isHashMoveB (some h) m = (moveTriple m == moveTriple h) := by
  unfold isHashMoveB moveTriple
  by_cases h1 : m.from_sq = h.from_sq <;>
    by_cases h2 : m.to_sq = h.to_sq <;>
    by_cases h3 : m.promotion = h.promotion <;>
    simp [h1, h2, h3, Trip.mk.injEq]

/-- The hash-move stage yield, with the two validity checks abstracted. -/
def hashYieldOf (pseudo L : Move → Bool) (hm : Option Move) : List Move :=
  match hm with
  | some h => if pseudo h && L h then [h] else []
  | none => []

/-- The `Killer1` stage yield. -/
def killer1YieldOf (pseudo L : Move → Bool) (hm k1 : Option Move) :
    List Move :=
  match k1 with
  | some k =>
    if !k.isCapture && !isHashMoveB hm k && pseudo k && L k then [k]
    else []
  | none => []

/-- The `Killer2` stage yield. -/
def killer2YieldOf (pseudo L : Move → Bool) (hm k1 k2 : Option Move) :
    List Move :=
  match k2 with
  | some k =>
    if !k.isCapture && !isHashMoveB hm k then
      if !isHashMoveB k1 k && pseudo k && L k then [k] else []
    else []
  | none => []

theorem countP_congr' {α : Type} (p q : α → Bool) (l : List α)
    (h : ∀ m ∈ l, p m = q m) : l.countP p = l.countP q := by
  induction l with
  | nil => rfl
  | cons hd tl ih =>
    rw [List.countP_cons, List.countP_cons,
      h hd (List.mem_cons_self hd tl),
      ih (fun m hm => h m (List.mem_cons_of_mem hd hm))]

theorem perm_CQ_P (P C Q : List Move)
    (hsplit : ∀ m : Move, P.count m = C.count m + Q.count m) :
    (C ++ Q).Perm P :=
  List.perm_iff_count.mpr (fun m => by
    rw [List.count_append]
    exact (hsplit m).symm)

theorem countP_CQ (P C Q : List Move)
    (hsplit : ∀ m : Move, P.count m = C.count m + Q.count m)
    (p : Move → Bool) :
    C.countP p + Q.countP p = P.countP p := by
  have h := (perm_CQ_P P C Q hsplit).countP_eq p
  rw [List.countP_append] at h
  exact h

theorem memP_iff (P C Q : List Move)
    (hsplit : ∀ m : Move, P.count m = C.count m + Q.count m)
    (m : Move) : m ∈ P ↔ (m ∈ C ∨ m ∈ Q) := by
  rw [← List.mem_append]
  exact (perm_CQ_P P C Q hsplit).mem_iff.symm

/-- The hash stage yields a triple exactly as often as the two generator
lists hold a legal move both matching the hash move and carrying the
triple. -/
theorem hash_stage_balance (t : Trip) (P C Q : List Move)
    (hsplit : ∀ m : Move, P.count m = C.count m + Q.count m)
    (hnodup : P.countP (fun m => moveTriple m == t) ≤ 1)
    (L pseudo : Move → Bool)
    (hsound : ∀ m ∈ P, pseudo m = true)
    (hm : Option Move)
    (hHash : ∀ h, hm = some h → h ∈ P) :
    (hashYieldOf pseudo L hm).countP (fun m => moveTriple m == t) =
      C.countP (fun m =>
        (L m && (moveTriple m == t)) && isHashMoveB hm m) +
      Q.countP (fun m =>
        (L m && (moveTriple m == t)) && isHashMoveB hm m) := by
  cases hm with
  | none =>
    have hz : ∀ X : List Move, X.countP (fun m =>
        (L m && (moveTriple m == t)) && isHashMoveB none m) = 0 :=
      fun X => countP_zero_of_false _ _ (fun m _ => by
        simp [isHashMoveB])
    rw [hz C, hz Q]
    rfl
  | some h =>
    have hhP : h ∈ P := hHash h rfl
    have hps : pseudo h = true := hsound h hhP
    by_cases htr : moveTriple h = t
    · have h1 : P.countP (fun m => moveTriple m == t) = 1 := by
        have hge := countP_one_le_of_mem (fun m => moveTriple m == t)
          P h hhP (beq_iff_eq.mpr htr)
        omega
      have hcongr : ∀ X : List Move, X.countP (fun m =>
          (L m && (moveTriple m == t)) && isHashMoveB (some h) m) =
          X.countP (fun m => L m && (moveTriple m == t)) := fun X =>
        countP_congr' _ _ X (fun m _ => by
          rw [isHashMoveB_trip, htr]
          cases hL : L m <;> cases hT : (moveTriple m == t) <;>
            simp [hL, hT])
      rw [hcongr C, hcongr Q, countP_CQ P C Q hsplit]
      rw [countP_unique_trip t P h L hhP htr h1]
      simp only [hashYieldOf]
      rw [hps, Bool.true_and]
      by_cases hL : L h
      · rw [if_pos hL, if_pos hL, countP_singleton',
          if_pos (beq_iff_eq.mpr htr)]
      · rw [Bool.not_eq_true] at hL
        rw [hL]
        simp
    · have hz : ∀ X : List Move, X.countP (fun m =>
          (L m && (moveTriple m == t)) && isHashMoveB (some h) m) = 0 :=
        fun X => countP_zero_of_false _ _ (fun m _ => by
          rw [isHashMoveB_trip]
          cases hT : (moveTriple m == t)
          · simp
          · have heq : moveTriple m = t := beq_iff_eq.mp hT
            have hne : (moveTriple m == moveTriple h) = false := by
              refine beq_eq_false_iff_ne.mpr ?_
              rw [heq]
              intro hh
              exact htr hh.symm
            rw [hne]
            simp)
      rw [hz C, hz Q]
      simp only [hashYieldOf]
      rw [hps, Bool.true_and]
      have hbne : (moveTriple h == t) = false :=
        beq_eq_false_iff_ne.mpr htr
      by_cases hL : L h
      · rw [if_pos hL, countP_singleton', hbne]
        simp
      · rw [Bool.not_eq_true] at hL
        rw [hL]
        simp

/-- The `Killer1` stage yields a triple exactly as often as the quiet
generator holds a legal non-hash move matching the killer and the
triple. -/
theorem killer1_stage_balance (t : Trip) (P C Q : List Move)
    (hsplit : ∀ m : Move, P.count m = C.count m + Q.count m)
    (hnodup : P.countP (fun m => moveTriple m == t) ≤ 1)
    (L pseudo : Move → Bool)
    (hsound : ∀ m ∈ P, pseudo m = true)
    (hQshape : ∀ m ∈ Q, m.isCapture = false)
    (hm k1 : Option Move)
    (hK1 : ∀ k, k1 = some k → k ∈ Q) :
    (killer1YieldOf pseudo L hm k1).countP
      (fun m => moveTriple m == t) =
      Q.countP (fun m =>
        ((L m && (moveTriple m == t)) && !isHashMoveB hm m) &&
          isHashMoveB k1 m) := by
  cases k1 with
  | none =>
    have hz : Q.countP (fun m =>
        ((L m && (moveTriple m == t)) && !isHashMoveB hm m) &&
          isHashMoveB none m) = 0 :=
      countP_zero_of_false _ _ (fun m _ => by simp [isHashMoveB])
    rw [hz]
    rfl
  | some k =>
    have hkQ : k ∈ Q := hK1 k rfl
    have hkP : k ∈ P := (memP_iff P C Q hsplit k).mpr (Or.inr hkQ)
    have hps : pseudo k = true := hsound k hkP
    have hkc : k.isCapture = false := hQshape k hkQ
    by_cases htr : moveTriple k = t
    · by_cases hh : isHashMoveB hm k = true
      · have hz : Q.countP (fun m =>
            ((L m && (moveTriple m == t)) && !isHashMoveB hm m) &&
              isHashMoveB (some k) m) = 0 := by
          refine countP_zero_of_false _ _ (fun m _ => ?_)
          rw [isHashMoveB_trip]
          cases hT : (moveTriple m == t)
          · simp
          · cases hhm : hm with
            | none =>
              rw [hhm] at hh
              exact absurd hh (by simp [isHashMoveB])
            | some h0 =>
              have heqm : moveTriple m = t := beq_iff_eq.mp hT
              rw [hhm] at hh
              rw [isHashMoveB_trip] at hh
              have hkh : moveTriple k = moveTriple h0 := beq_iff_eq.mp hh
              have hmh : isHashMoveB (some h0) m = true := by
                rw [isHashMoveB_trip]
                exact beq_iff_eq.mpr (by rw [heqm, ← htr, hkh])
              rw [hmh]
              simp
        rw [hz]
        simp only [killer1YieldOf]
        rw [hh]
        simp
      · rw [Bool.not_eq_true] at hh
        have h1 : Q.countP (fun m => moveTriple m == t) = 1 := by
          have hge := countP_one_le_of_mem
            (fun m => moveTriple m == t) Q k hkQ (beq_iff_eq.mpr htr)
          have hCQ := countP_CQ P C Q hsplit
            (fun m => moveTriple m == t)
          omega
        have hcongr : Q.countP (fun m =>
            ((L m && (moveTriple m == t)) && !isHashMoveB hm m) &&
              isHashMoveB (some k) m) =
            Q.countP (fun m =>
              (L m && !isHashMoveB hm m) && (moveTriple m == t)) := by
          refine countP_congr' _ _ _ (fun m _ => ?_)
          rw [isHashMoveB_trip, htr]
          cases hL : L m <;> cases hT : (moveTriple m == t) <;>
            cases hH : isHashMoveB hm m <;> simp [hL, hT, hH]
        rw [hcongr,
          countP_unique_trip t Q k
            (fun m => L m && !isHashMoveB hm m) hkQ htr h1]
        simp only [killer1YieldOf]
        rw [hkc, hps, hh]
        simp only [Bool.not_false, Bool.true_and, Bool.and_true]
        by_cases hL : L k
        · rw [hL]
          simp only [Bool.true_and, Bool.and_true, if_true,
            eq_self_iff_true]
          rw [countP_singleton', if_pos (beq_iff_eq.mpr htr)]
        · rw [Bool.not_eq_true] at hL
          rw [hL]
          simp
    · have hz : Q.countP (fun m =>
          ((L m && (moveTriple m == t)) && !isHashMoveB hm m) &&
            isHashMoveB (some k) m) = 0 := by
        refine countP_zero_of_false _ _ (fun m _ => ?_)
        rw [isHashMoveB_trip]
        cases hT : (moveTriple m == t)
        · simp
        · have heqm : moveTriple m = t := beq_iff_eq.mp hT
          have hne : (moveTriple m == moveTriple k) = false := by
            refine beq_eq_false_iff_ne.mpr ?_
            rw [heqm]
            intro hhh
            exact htr hhh.symm
          rw [hne]
          simp
      rw [hz]
      simp only [killer1YieldOf]
      by_cases hcnd : (!k.isCapture && !isHashMoveB hm k && pseudo k &&
          L k) = true
      · rw [if_pos hcnd, countP_singleton',
          if_neg (fun hbe => htr (beq_iff_eq.mp hbe))]
      · rw [if_neg hcnd]
        rfl

/-- The `Killer2` stage yields a triple exactly as often as the quiet
generator holds a legal move matching the second killer and the triple
while matching neither the hash move nor the first killer. -/
theorem killer2_stage_balance (t : Trip) (P C Q : List Move)
    (hsplit : ∀ m : Move, P.count m = C.count m + Q.count m)
    (hnodup : P.countP (fun m => moveTriple m == t) ≤ 1)
    (L pseudo : Move → Bool)
    (hsound : ∀ m ∈ P, pseudo m = true)
    (hQshape : ∀ m ∈ Q, m.isCapture = false)
    (hm k1 k2 : Option Move)
    (hK2 : ∀ k, k2 = some k → k ∈ Q) :
    (killer2YieldOf pseudo L hm k1 k2).countP
      (fun m => moveTriple m == t) =
      Q.countP (fun m =>
        (((L m && (moveTriple m == t)) && !isHashMoveB hm m) &&
          !isHashMoveB k1 m) && isHashMoveB k2 m) := by
  cases k2 with
  | none =>
    have hz : Q.countP (fun m =>
        (((L m && (moveTriple m == t)) && !isHashMoveB hm m) &&
          !isHashMoveB k1 m) && isHashMoveB none m) = 0 :=
      countP_zero_of_false _ _ (fun m _ => by simp [isHashMoveB])
    rw [hz]
    rfl
  | some k =>
    have hkQ : k ∈ Q := hK2 k rfl
    have hkP : k ∈ P := (memP_iff P C Q hsplit k).mpr (Or.inr hkQ)
    have hps : pseudo k = true := hsound k hkP
    have hkc : k.isCapture = false := hQshape k hkQ
    by_cases htr : moveTriple k = t
    · by_cases hh : isHashMoveB hm k = true
      · have hz : Q.countP (fun m =>
            (((L m && (moveTriple m == t)) && !isHashMoveB hm m) &&
              !isHashMoveB k1 m) && isHashMoveB (some k) m) = 0 := by
          refine countP_zero_of_false _ _ (fun m _ => ?_)
          rw [isHashMoveB_trip]
          cases hT : (moveTriple m == t)
          · simp
          · cases hhm : hm with
            | none =>
              rw [hhm] at hh
              exact absurd hh (by simp [isHashMoveB])
            | some h0 =>
              have heqm : moveTriple m = t := beq_iff_eq.mp hT
              rw [hhm] at hh
              rw [isHashMoveB_trip] at hh
              have hkh : moveTriple k = moveTriple h0 := beq_iff_eq.mp hh
              have hmh : isHashMoveB (some h0) m = true := by
                rw [isHashMoveB_trip]
                exact beq_iff_eq.mpr (by rw [heqm, ← htr, hkh])
              rw [hmh]
              simp
        rw [hz]
        simp only [killer2YieldOf]
        rw [hkc, hh]
        simp
      · rw [Bool.not_eq_true] at hh
        by_cases hk1 : isHashMoveB k1 k = true
        · have hz : Q.countP (fun m =>
              (((L m && (moveTriple m == t)) && !isHashMoveB hm m) &&
                !isHashMoveB k1 m) && isHashMoveB (some k) m) = 0 := by
            refine countP_zero_of_false _ _ (fun m _ => ?_)
            rw [isHashMoveB_trip]
            cases hT : (moveTriple m == t)
            · simp
            · cases hk1m : k1 with
              | none =>
                rw [hk1m] at hk1
                exact absurd hk1 (by simp [isHashMoveB])
              | some q1 =>
                have heqm : moveTriple m = t := beq_iff_eq.mp hT
                rw [hk1m] at hk1
                rw [isHashMoveB_trip] at hk1
                have hkh : moveTriple k = moveTriple q1 :=
                  beq_iff_eq.mp hk1
                have hmh : isHashMoveB (some q1) m = true := by
                  rw [isHashMoveB_trip]
                  exact beq_iff_eq.mpr (by rw [heqm, ← htr, hkh])
                rw [hmh]
                simp
          rw [hz]
          simp only [killer2YieldOf]
          rw [hkc, hps, hh, hk1]
          simp
        · rw [Bool.not_eq_true] at hk1
          have h1 : Q.countP (fun m => moveTriple m == t) = 1 := by
            have hge := countP_one_le_of_mem
              (fun m => moveTriple m == t) Q k hkQ (beq_iff_eq.mpr htr)
            have hCQ := countP_CQ P C Q hsplit
              (fun m => moveTriple m == t)
            omega
          have hcongr : Q.countP (fun m =>
              (((L m && (moveTriple m == t)) && !isHashMoveB hm m) &&
                !isHashMoveB k1 m) && isHashMoveB (some k) m) =
              Q.countP (fun m =>
                ((L m && !isHashMoveB hm m) && !isHashMoveB k1 m) &&
                  (moveTriple m == t)) := by
            refine countP_congr' _ _ _ (fun m _ => ?_)
            rw [isHashMoveB_trip, htr]
            cases hL : L m <;> cases hT : (moveTriple m == t) <;>
              cases hH : isHashMoveB hm m <;>
              cases hK : isHashMoveB k1 m <;> simp [hL, hT, hH, hK]
          rw [hcongr,
            countP_unique_trip t Q k
              (fun m => (L m && !isHashMoveB hm m) && !isHashMoveB k1 m)
              hkQ htr h1]
          simp only [killer2YieldOf]
          rw [hkc, hps, hh, hk1]
          simp only [Bool.not_false, Bool.true_and, Bool.and_true,
            if_true, eq_self_iff_true]
          by_cases hL : L k
          · rw [hL]
            simp only [Bool.true_and, Bool.and_true, if_true,
              eq_self_iff_true]
            rw [countP_singleton', if_pos (beq_iff_eq.mpr htr)]
          · rw [Bool.not_eq_true] at hL
            rw [hL]
            simp
    · have hz : Q.countP (fun m =>
          (((L m && (moveTriple m == t)) && !isHashMoveB hm m) &&
            !isHashMoveB k1 m) && isHashMoveB (some k) m) = 0 := by
        refine countP_zero_of_false _ _ (fun m _ => ?_)
        rw [isHashMoveB_trip]
        cases hT : (moveTriple m == t)
        · simp
        · have heqm : moveTriple m = t := beq_iff_eq.mp hT
          have hne : (moveTriple m == moveTriple k) = false := by
            refine beq_eq_false_iff_ne.mpr ?_
            rw [heqm]
            intro hhh
            exact htr hhh.symm
          rw [hne]
          simp
      rw [hz]
      simp only [killer2YieldOf]
      by_cases hcnd : (!k.isCapture && !isHashMoveB hm k) = true
      · rw [if_pos hcnd]
        by_cases hcnd2 : (!isHashMoveB k1 k && pseudo k && L k) = true
        · rw [if_pos hcnd2, countP_singleton',
            if_neg (fun hbe => htr (beq_iff_eq.mp hbe))]
        · rw [if_neg hcnd2]
          rfl
      · rw [if_neg hcnd]
        rfl

set_option maxHeartbeats 1000000 in
/-- Full-mode yield accounting: hash yield, non-hash legal captures,
killer yields and non-duplicate legal quiets together hit every triple
exactly as often as the `G`-filtered move list does. -/
theorem picker_balance_full (t : Trip) (P C Q : List Move)
    (hsplit : ∀ m : Move, P.count m = C.count m + Q.count m)
    (hnodup : P.countP (fun m => moveTriple m == t) ≤ 1)
    (L G pseudo : Move → Bool)
    (hLG : ∀ m ∈ P, L m = G m)
    (hsound : ∀ m ∈ P, pseudo m = true)
    (hQshape : ∀ m ∈ Q, m.isCapture = false)
    (hm k1 k2 : Option Move)
    (hHash : ∀ h, hm = some h → h ∈ P)
    (hK1 : ∀ k, k1 = some k → k ∈ Q)
    (hK2 : ∀ k, k2 = some k → k ∈ Q) :
    ((hashYieldOf pseudo L hm).map moveTriple).count t +
      ((C.filter (fun m => !isHashMoveB hm m && L m)).map
        moveTriple).count t +
      ((killer1YieldOf pseudo L hm k1).map moveTriple).count t +
      ((killer2YieldOf pseudo L hm k1 k2).map moveTriple).count t +
      ((Q.filter (fun m => !isDuplicateB hm k1 k2 m && L m)).map
        moveTriple).count t =
      ((P.filter G).map moveTriple).count t := by
  rw [count_map_countP, count_map_countP, count_map_countP,
    count_map_countP, count_map_countP, count_map_countP,
    countP_filter_conj, countP_filter_conj, countP_filter_conj]
  have hR : P.countP (fun m => G m && (moveTriple m == t)) =
      P.countP (fun m => L m && (moveTriple m == t)) :=
    countP_congr' _ _ _ (fun m hmem => by rw [hLG m hmem])
  have hCQ := countP_CQ P C Q hsplit
    (fun m => L m && (moveTriple m == t))
  have hCsp := countP_and_split (fun m => L m && (moveTriple m == t))
    (fun m => isHashMoveB hm m) C
  have hQsp := countP_and_split (fun m => L m && (moveTriple m == t))
    (fun m => isDuplicateB hm k1 k2 m) Q
  have hQsp2 := countP_and_split
    (fun m => (L m && (moveTriple m == t)) && isDuplicateB hm k1 k2 m)
    (fun m => isHashMoveB hm m) Q
  have hQsp3 := countP_and_split
    (fun m => ((L m && (moveTriple m == t)) &&
      isDuplicateB hm k1 k2 m) && !isHashMoveB hm m)
    (fun m => isHashMoveB k1 m) Q
  have hA1 : Q.countP (fun m =>
      ((L m && (moveTriple m == t)) && isDuplicateB hm k1 k2 m) &&
        isHashMoveB hm m) =
      Q.countP (fun m =>
        (L m && (moveTriple m == t)) && isHashMoveB hm m) :=
    countP_congr' _ _ _ (fun m _ => by
      unfold isDuplicateB isKillerB
      cases hL : L m <;> cases hT : (moveTriple m == t) <;>
        cases h1 : isHashMoveB hm m <;> simp [hL, hT, h1])
  have hA2 : Q.countP (fun m =>
      (((L m && (moveTriple m == t)) && isDuplicateB hm k1 k2 m) &&
        !isHashMoveB hm m) && isHashMoveB k1 m) =
      Q.countP (fun m =>
        ((L m && (moveTriple m == t)) && !isHashMoveB hm m) &&
          isHashMoveB k1 m) :=
    countP_congr' _ _ _ (fun m _ => by
      unfold isDuplicateB isKillerB
      cases hL : L m <;> cases hT : (moveTriple m == t) <;>
        cases h1 : isHashMoveB hm m <;> cases h2 : isHashMoveB k1 m <;>
        simp [hL, hT, h1, h2])
  have hA3 : Q.countP (fun m =>
      (((L m && (moveTriple m == t)) && isDuplicateB hm k1 k2 m) &&
        !isHashMoveB hm m) && !isHashMoveB k1 m) =
      Q.countP (fun m =>
        (((L m && (moveTriple m == t)) && !isHashMoveB hm m) &&
          !isHashMoveB k1 m) && isHashMoveB k2 m) :=
    countP_congr' _ _ _ (fun m _ => by
      unfold isDuplicateB isKillerB
      cases hL : L m <;> cases hT : (moveTriple m == t) <;>
        cases h1 : isHashMoveB hm m <;> cases h2 : isHashMoveB k1 m <;>
        cases h3 : isHashMoveB k2 m <;> simp [hL, hT, h1, h2, h3])
  have hB : C.countP (fun m =>
      (!isHashMoveB hm m && L m) && (moveTriple m == t)) =
      C.countP (fun m =>
        (L m && (moveTriple m == t)) && !isHashMoveB hm m) :=
    countP_congr' _ _ _ (fun m _ => by
      cases hL : L m <;> cases hT : (moveTriple m == t) <;>
        cases h1 : isHashMoveB hm m <;> simp [hL, hT, h1])
  have hD : Q.countP (fun m =>
      (!isDuplicateB hm k1 k2 m && L m) && (moveTriple m == t)) =
      Q.countP (fun m =>
        (L m && (moveTriple m == t)) && !isDuplicateB hm k1 k2 m) :=
    countP_congr' _ _ _ (fun m _ => by
      cases hL : L m <;> cases hT : (moveTriple m == t) <;>
        cases h1 : isDuplicateB hm k1 k2 m <;> simp [hL, hT, h1])
  have hH := hash_stage_balance t P C Q hsplit hnodup L pseudo hsound
    hm hHash
  have hK1b := killer1_stage_balance t P C Q hsplit hnodup L pseudo
    hsound hQshape hm k1 hK1
  have hK2b := killer2_stage_balance t P C Q hsplit hnodup L pseudo
    hsound hQshape hm k1 k2 hK2
  omega

set_option maxHeartbeats 1000000 in
/-- Captures-only accounting: the hash yield plus the non-hash legal
captures hit every triple exactly as often as the capture-or-promotion
moves of the `G`-filtered list do — plus the non-capture, non-promotion
part of the hash yield, which the hash stage emits anyway. -/
theorem picker_balance_captures (t : Trip) (P C Q : List Move)
    (hsplit : ∀ m : Move, P.count m = C.count m + Q.count m)
    (hnodup : P.countP (fun m => moveTriple m == t) ≤ 1)
    (L G pseudo : Move → Bool)
    (hLG : ∀ m ∈ P, L m = G m)
    (hsound : ∀ m ∈ P, pseudo m = true)
    (hCshape : ∀ m ∈ C, (m.isCapture || m.isPromotion) = true)
    (hQshape : ∀ m ∈ Q, m.isCapture = false ∧ m.isPromotion = false)
    (hm : Option Move)
    (hHash : ∀ h, hm = some h → h ∈ P) :
    ((hashYieldOf pseudo L hm).map moveTriple).count t +
      ((C.filter (fun m => !isHashMoveB hm m && L m)).map
        moveTriple).count t =
      ((P.filter (fun m =>
        G m && (m.isCapture || m.isPromotion))).map moveTriple).count t +
      (((hashYieldOf pseudo L hm).filter (fun m =>
        !(m.isCapture || m.isPromotion))).map moveTriple).count t := by
  rw [count_map_countP, count_map_countP, count_map_countP,
    count_map_countP, countP_filter_conj, countP_filter_conj,
    countP_filter_conj]
  have hR : P.countP (fun m =>
      (G m && (m.isCapture || m.isPromotion)) &&
        (moveTriple m == t)) =
      P.countP (fun m =>
        (L m && (m.isCapture || m.isPromotion)) &&
          (moveTriple m == t)) :=
    countP_congr' _ _ _ (fun m hmem => by rw [hLG m hmem])
  have hCQ := countP_CQ P C Q hsplit
    (fun m => (L m && (m.isCapture || m.isPromotion)) &&
      (moveTriple m == t))
  have hQz : Q.countP (fun m =>
      (L m && (m.isCapture || m.isPromotion)) &&
        (moveTriple m == t)) = 0 := by
    refine countP_zero_of_false _ _ (fun m hmem => ?_)
    obtain ⟨h1, h2⟩ := hQshape m hmem
    rw [h1, h2]
    simp
  have hCc : C.countP (fun m =>
      (L m && (m.isCapture || m.isPromotion)) &&
        (moveTriple m == t)) =
      C.countP (fun m => L m && (moveTriple m == t)) :=
    countP_congr' _ _ _ (fun m hmem => by
      rw [hCshape m hmem, Bool.and_true])
  have hCsp := countP_and_split (fun m => L m && (moveTriple m == t))
    (fun m => isHashMoveB hm m) C
  have hB : C.countP (fun m =>
      (!isHashMoveB hm m && L m) && (moveTriple m == t)) =
      C.countP (fun m =>
        (L m && (moveTriple m == t)) && !isHashMoveB hm m) :=
    countP_congr' _ _ _ (fun m _ => by
      cases hL : L m <;> cases hT : (moveTriple m == t) <;>
        cases h1 : isHashMoveB hm m <;> simp [hL, hT, h1])
  have hano : (hashYieldOf pseudo L hm).countP
      (fun m => moveTriple m == t) =
      C.countP (fun m =>
        (L m && (moveTriple m == t)) && isHashMoveB hm m) +
      (hashYieldOf pseudo L hm).countP (fun m =>
        !(m.isCapture || m.isPromotion) && (moveTriple m == t)) := by
    cases hm with
    | none =>
      have hz : C.countP (fun m =>
          (L m && (moveTriple m == t)) && isHashMoveB none m) = 0 :=
        countP_zero_of_false _ _ (fun m _ => by simp [isHashMoveB])
      rw [hz]
      rfl
    | some h =>
      have hhP : h ∈ P := hHash h rfl
      have hps : pseudo h = true := hsound h hhP
      by_cases htr : moveTriple h = t
      · have h1 : P.countP (fun m => moveTriple m == t) = 1 := by
          have hge := countP_one_le_of_mem
            (fun m => moveTriple m == t) P h hhP (beq_iff_eq.mpr htr)
          omega
        have hcongr : C.countP (fun m =>
            (L m && (moveTriple m == t)) && isHashMoveB (some h) m) =
            C.countP (fun m => L m && (moveTriple m == t)) :=
          countP_congr' _ _ _ (fun m _ => by
            rw [isHashMoveB_trip, htr]
            cases hL : L m <;> cases hT : (moveTriple m == t) <;>
              simp [hL, hT])
        rw [hcongr]
        have hNT := countP_CQ P C Q hsplit
          (fun m => moveTriple m == t)
        by_cases hcap : (h.isCapture || h.isPromotion) = true
        · have hhC : h ∈ C := by
            rcases (memP_iff P C Q hsplit h).mp hhP with hc | hq
            · exact hc
            · obtain ⟨e1, e2⟩ := hQshape h hq
              rw [e1, e2] at hcap
              exact absurd hcap (by decide)
          have honeC : C.countP (fun m => moveTriple m == t) = 1 := by
            have hge := countP_one_le_of_mem
              (fun m => moveTriple m == t) C h hhC
              (beq_iff_eq.mpr htr)
            omega
          rw [countP_unique_trip t C h L hhC htr honeC]
          simp only [hashYieldOf]
          rw [hps, Bool.true_and]
          by_cases hL : L h
          · rw [if_pos hL, countP_singleton', countP_singleton']
            rw [if_pos (beq_iff_eq.mpr htr), hcap]
            simp [beq_iff_eq.mpr htr, hL]
          · rw [Bool.not_eq_true] at hL
            rw [hL]
            simp
        · rw [Bool.not_eq_true] at hcap
          have hhQ : h ∈ Q := by
            rcases (memP_iff P C Q hsplit h).mp hhP with hc | hq
            · rw [hCshape h hc] at hcap
              exact absurd hcap (by decide)
            · exact hq
          have hzeroC : C.countP (fun m => moveTriple m == t) = 0 := by
            have hge := countP_one_le_of_mem
              (fun m => moveTriple m == t) Q h hhQ
              (beq_iff_eq.mpr htr)
            omega
          have hCle := countP_le_of_imp
            (fun m => L m && (moveTriple m == t))
            (fun m => moveTriple m == t) C
            (fun m _ hp => ((Bool.and_eq_true _ _).mp hp).2)
          simp only [hashYieldOf]
          rw [hps, Bool.true_and]
          by_cases hL : L h
          · rw [if_pos hL, countP_singleton', countP_singleton']
            rw [if_pos (beq_iff_eq.mpr htr), hcap]
            simp only [Bool.not_false, Bool.true_and]
            rw [if_pos (beq_iff_eq.mpr htr)]
            omega
          · rw [Bool.not_eq_true] at hL
            rw [hL]
            simp
            omega
      · have hz : C.countP (fun m =>
            (L m && (moveTriple m == t)) && isHashMoveB (some h) m) =
            0 := by
          refine countP_zero_of_false _ _ (fun m _ => ?_)
          rw [isHashMoveB_trip]
          cases hT : (moveTriple m == t)
          · simp
          · have heqm : moveTriple m = t := beq_iff_eq.mp hT
            have hne : (moveTriple m == moveTriple h) = false := by
              refine beq_eq_false_iff_ne.mpr ?_
              rw [heqm]
              intro hhh
              exact htr hhh.symm
            rw [hne]
            simp
        rw [hz]
        simp only [hashYieldOf]
        rw [hps, Bool.true_and]
        have hbne : (moveTriple h == t) = false :=
          beq_eq_false_iff_ne.mpr htr
        by_cases hL : L h
        · rw [if_pos hL, countP_singleton', countP_singleton', hbne]
          simp
        · rw [Bool.not_eq_true] at hL
          rw [hL]
          simp
  have hanoR : ((hashYieldOf pseudo L hm).filter (fun m =>
      !(m.isCapture || m.isPromotion))).countP
      (fun m => moveTriple m == t) =
      (hashYieldOf pseudo L hm).countP (fun m =>
        !(m.isCapture || m.isPromotion) && (moveTriple m == t)) := by
    rw [countP_filter_conj]
  rw [hanoR] at *
  omega


theorem scanRay_lt (blockers : Nat) (dr df : Int) :
    ∀ (fuel : Nat) (r f : Int),
      scanRay blockers dr df fuel r f < 2 ^ 64 := by
  intro fuel
  induction fuel with
  | zero =>
    intro r f
    rw [scanRay]
    norm_num
  | succ n ih =>
    intro r f
    rw [scanRay]
    by_cases hg : 0 ≤ r ∧ r ≤ 7 ∧ 0 ≤ f ∧ f ≤ 7
    · rw [if_pos hg]
      dsimp only
      have hpow : (2 : Nat) ^ (r * 8 + f).toNat < 2 ^ 64 :=
        Nat.pow_lt_pow_right (by omega) (by omega)
      by_cases hb : (blockers >>> (r * 8 + f).toNat) &&& 1 = 0
      · rw [if_pos hb]
        exact Nat.or_lt_two_pow hpow (ih _ _)
      · rw [if_neg hb]
        exact hpow
    · rw [if_neg hg]
      norm_num

/-- The ray-scan tables produce in-range attack sets. -/
theorem rayTables_wf : TablesWf rayTables := by
  intro sq occ
  constructor
  · exact Nat.or_lt_two_pow (Nat.or_lt_two_pow (Nat.or_lt_two_pow
      (scanRay_lt _ _ _ _ _ _) (scanRay_lt _ _ _ _ _ _))
      (scanRay_lt _ _ _ _ _ _)) (scanRay_lt _ _ _ _ _ _)
  · exact Nat.or_lt_two_pow (Nat.or_lt_two_pow (Nat.or_lt_two_pow
      (scanRay_lt _ _ _ _ _ _) (scanRay_lt _ _ _ _ _ _))
      (scanRay_lt _ _ _ _ _ _)) (scanRay_lt _ _ _ _ _ _)

-- ===== decidable board well-formedness for the move-picker claim =====

/-- All (color, piece) pairs. -/
def wfPairs : List (Color × Piece) :=
  allColors.flatMap (fun c => allPieces.map (fun p => (c, p)))

theorem mem_wfPairs : ∀ (c : Color) (p : Piece), (c, p) ∈ wfPairs := by
  intro c p
  cases c <;> cases p <;> decide

/-- Decidable well-formedness of a board: bitboards in range, occupancy
fields the unions of the piece bitboards, the two sides disjoint, at most
one piece per square, and castling rights only with the king on its start
square. -/
def boardWfB (b : Board) : Bool :=
  allColors.all (fun c => allPieces.all (fun p =>
    decide (b.pieceBB c p < 2 ^ 64))) &&
  decide (b.occWhite =
    (b.pieceBB Color.White Piece.Pawn |||
     b.pieceBB Color.White Piece.Knight |||
     b.pieceBB Color.White Piece.Bishop |||
     b.pieceBB Color.White Piece.Rook |||
     b.pieceBB Color.White Piece.Queen |||
     b.pieceBB Color.White Piece.King)) &&
  decide (b.occBlack =
    (b.pieceBB Color.Black Piece.Pawn |||
     b.pieceBB Color.Black Piece.Knight |||
     b.pieceBB Color.Black Piece.Bishop |||
     b.pieceBB Color.Black Piece.Rook |||
     b.pieceBB Color.Black Piece.Queen |||
     b.pieceBB Color.Black Piece.King)) &&
  decide (b.occAll = (b.occWhite ||| b.occBlack)) &&
  decide (b.occWhite &&& b.occBlack = 0) &&
  decide (b.occAll < 2 ^ 64) &&
  (List.range 64).all (fun i =>
    decide (wfPairs.countP (fun cp =>
      (b.pieceBB cp.1 cp.2).testBit i) ≤ 1)) &&
  (decide (b.castlingRights &&& CASTLE_WK = 0) ||
    decide (b.pieceBB Color.White Piece.King = 2 ^ 4)) &&
  (decide (b.castlingRights &&& CASTLE_WQ = 0) ||
    decide (b.pieceBB Color.White Piece.King = 2 ^ 4)) &&
  (decide (b.castlingRights &&& CASTLE_BK = 0) ||
    decide (b.pieceBB Color.Black Piece.King = 2 ^ 60)) &&
  (decide (b.castlingRights &&& CASTLE_BQ = 0) ||
    decide (b.pieceBB Color.Black Piece.King = 2 ^ 60))

theorem boardWf_bbLt (b : Board) (hwf : boardWfB b = true) :
    ∀ c p, b.pieceBB c p < 2 ^ 64 := by
  intro c p
  unfold boardWfB at hwf
  simp only [Bool.and_eq_true] at hwf
  have h1 := hwf.1.1.1.1.1.1.1.1.1.1
  rw [List.all_eq_true] at h1
  have hc : c ∈ allColors := by cases c <;> decide
  have h2 := h1 c hc
  rw [List.all_eq_true] at h2
  have hp : p ∈ allPieces := by cases p <;> decide
  exact of_decide_eq_true (h2 p hp)

theorem boardWf_occW (b : Board) (hwf : boardWfB b = true) :
    b.occWhite =
      (b.pieceBB Color.White Piece.Pawn |||
       b.pieceBB Color.White Piece.Knight |||
       b.pieceBB Color.White Piece.Bishop |||
       b.pieceBB Color.White Piece.Rook |||
       b.pieceBB Color.White Piece.Queen |||
       b.pieceBB Color.White Piece.King) := by
  unfold boardWfB at hwf
  simp only [Bool.and_eq_true] at hwf
  exact of_decide_eq_true hwf.1.1.1.1.1.1.1.1.1.2

theorem boardWf_occB (b : Board) (hwf : boardWfB b = true) :
    b.occBlack =
      (b.pieceBB Color.Black Piece.Pawn |||
       b.pieceBB Color.Black Piece.Knight |||
       b.pieceBB Color.Black Piece.Bishop |||
       b.pieceBB Color.Black Piece.Rook |||
       b.pieceBB Color.Black Piece.Queen |||
       b.pieceBB Color.Black Piece.King) := by
  unfold boardWfB at hwf
  simp only [Bool.and_eq_true] at hwf
  exact of_decide_eq_true hwf.1.1.1.1.1.1.1.1.2

theorem boardWf_occAll (b : Board) (hwf : boardWfB b = true) :
    b.occAll = (b.occWhite ||| b.occBlack) := by
  unfold boardWfB at hwf
  simp only [Bool.and_eq_true] at hwf
  exact of_decide_eq_true hwf.1.1.1.1.1.1.1.2

theorem boardWf_disj (b : Board) (hwf : boardWfB b = true) :
    b.occWhite &&& b.occBlack = 0 := by
  unfold boardWfB at hwf
  simp only [Bool.and_eq_true] at hwf
  exact of_decide_eq_true hwf.1.1.1.1.1.1.2

theorem boardWf_occLt (b : Board) (hwf : boardWfB b = true) :
    b.occAll < 2 ^ 64 := by
  unfold boardWfB at hwf
  simp only [Bool.and_eq_true] at hwf
  exact of_decide_eq_true hwf.1.1.1.1.1.2

theorem boardWf_persq (b : Board) (hwf : boardWfB b = true) :
    ∀ i, i < 64 → wfPairs.countP (fun cp =>
      (b.pieceBB cp.1 cp.2).testBit i) ≤ 1 := by
  intro i hi
  unfold boardWfB at hwf
  simp only [Bool.and_eq_true] at hwf
  have h1 := hwf.1.1.1.1.2
  rw [List.all_eq_true] at h1
  exact of_decide_eq_true (h1 i (List.mem_range.mpr hi))

theorem boardWf_castles (b : Board) (hwf : boardWfB b = true) :
    (b.castlingRights &&& CASTLE_WK ≠ 0 →
      b.pieceBB Color.White Piece.King = 2 ^ 4) ∧
    (b.castlingRights &&& CASTLE_WQ ≠ 0 →
      b.pieceBB Color.White Piece.King = 2 ^ 4) ∧
    (b.castlingRights &&& CASTLE_BK ≠ 0 →
      b.pieceBB Color.Black Piece.King = 2 ^ 60) ∧
    (b.castlingRights &&& CASTLE_BQ ≠ 0 →
      b.pieceBB Color.Black Piece.King = 2 ^ 60) := by
  unfold boardWfB at hwf
  simp only [Bool.and_eq_true, Bool.or_eq_true] at hwf
  refine ⟨fun hne => ?_, fun hne => ?_, fun hne => ?_, fun hne => ?_⟩
  · rcases hwf.1.1.1.2 with h | h
    · exact absurd (of_decide_eq_true h) hne
    · exact of_decide_eq_true h
  · rcases hwf.1.1.2 with h | h
    · exact absurd (of_decide_eq_true h) hne
    · exact of_decide_eq_true h
  · rcases hwf.1.2 with h | h
    · exact absurd (of_decide_eq_true h) hne
    · exact of_decide_eq_true h
  · rcases hwf.2 with h | h
    · exact absurd (of_decide_eq_true h) hne
    · exact of_decide_eq_true h

theorem boardWf_occAllBit (b : Board) (hwf : boardWfB b = true) :
    ∀ i, b.occupied.testBit i =
      ((b.occupancy b.sideToMove).testBit i ||
        (b.opponentOccupancy b.sideToMove).testBit i) := by
  intro i
  have hall := boardWf_occAll b hwf
  show b.occAll.testBit i = _
  rw [hall, Nat.testBit_or]
  cases hside : b.sideToMove with
  | White =>
    rfl
  | Black =>
    exact Bool.or_comm _ _

theorem boardWf_ekSub (b : Board) (hwf : boardWfB b = true) :
    ∀ i, (b.pieces Piece.King b.sideToMove.opposite).testBit i = true →
      (b.opponentOccupancy b.sideToMove).testBit i = true := by
  intro i h
  cases hside : b.sideToMove with
  | White =>
    rw [hside] at h
    show b.occBlack.testBit i = true
    rw [boardWf_occB b hwf]
    simp only [Nat.testBit_or]
    rw [show (b.pieces Piece.King Color.White.opposite).testBit i =
      (b.pieceBB Color.Black Piece.King).testBit i from rfl] at h
    rw [h]
    simp
  | Black =>
    rw [hside] at h
    show b.occWhite.testBit i = true
    rw [boardWf_occW b hwf]
    simp only [Nat.testBit_or]
    rw [show (b.pieces Piece.King Color.Black.opposite).testBit i =
      (b.pieceBB Color.White Piece.King).testBit i from rfl] at h
    rw [h]
    simp

theorem boardWf_oppFriendly (b : Board) (hwf : boardWfB b = true) :
    ∀ i, (b.opponentOccupancy b.sideToMove).testBit i = true →
      (b.occupancy b.sideToMove).testBit i = false := by
  intro i h
  have hdisj := boardWf_disj b hwf
  cases hside : b.sideToMove with
  | White =>
    rw [hside] at h
    exact and_eq_zero_testBit b.occWhite b.occBlack i hdisj h
  | Black =>
    rw [hside] at h
    have hdisj' : b.occBlack &&& b.occWhite = 0 := by
      rw [Nat.land_comm]
      exact hdisj
    exact and_eq_zero_testBit b.occBlack b.occWhite i hdisj' h

theorem boardWf_hsub (b : Board) (hwf : boardWfB b = true) :
    ∀ i, (b.opponentOccupancy b.sideToMove).testBit i = true →
      b.occupied.testBit i = true := by
  intro i h
  rw [boardWf_occAllBit b hwf i, h]
  simp

theorem boardWf_castleK (b : Board) (hwf : boardWfB b = true) :
    hasKingsideCastle b b.sideToMove = true →
      b.pieces Piece.King b.sideToMove =
        (if b.sideToMove = Color.White then 2 ^ 4 else 2 ^ 60) := by
  intro h
  obtain ⟨hWK, _, hBK, _⟩ := boardWf_castles b hwf
  cases hside : b.sideToMove with
  | White =>
    rw [hside] at h
    rw [if_pos rfl]
    exact hWK (bne_iff_ne.mp h)
  | Black =>
    rw [hside] at h
    rw [if_neg (by decide)]
    exact hBK (bne_iff_ne.mp h)

theorem boardWf_castleQ (b : Board) (hwf : boardWfB b = true) :
    hasQueensideCastle b b.sideToMove = true →
      b.pieces Piece.King b.sideToMove =
        (if b.sideToMove = Color.White then 2 ^ 4 else 2 ^ 60) := by
  intro h
  obtain ⟨_, hWQ, _, hBQ⟩ := boardWf_castles b hwf
  cases hside : b.sideToMove with
  | White =>
    rw [hside] at h
    rw [if_pos rfl]
    exact hWQ (bne_iff_ne.mp h)
  | Black =>
    rw [hside] at h
    rw [if_neg (by decide)]
    exact hBQ (bne_iff_ne.mp h)

theorem boardWf_soundFacts (b : Board) (hwf : boardWfB b = true) :
    SoundFacts b := by
  refine ⟨boardWf_bbLt b hwf, boardWf_occAllBit b hwf,
    boardWf_ekSub b hwf, boardWf_oppFriendly b hwf,
    boardWf_occLt b hwf, boardWf_castleK b hwf, boardWf_castleQ b hwf⟩

theorem boardWf_hx (b : Board) (hwf : boardWfB b = true) :
    ∀ i, ∀ p q : Piece, p ≠ q →
      (b.pieces p b.sideToMove).testBit i = true →
      (b.pieces q b.sideToMove).testBit i = true → False := by
  intro i p q hne h1 h2
  have hi : i < 64 :=
    testBit_true_lt _ _ (boardWf_bbLt b hwf b.sideToMove p) h1
  have hcnt := boardWf_persq b hwf i hi
  rw [List.countP_eq_length_filter] at hcnt
  have hm1 : (b.sideToMove, p) ∈ wfPairs.filter (fun cp =>
      (b.pieceBB cp.1 cp.2).testBit i) :=
    List.mem_filter.mpr ⟨mem_wfPairs _ _, h1⟩
  have hm2 : (b.sideToMove, q) ∈ wfPairs.filter (fun cp =>
      (b.pieceBB cp.1 cp.2).testBit i) :=
    List.mem_filter.mpr ⟨mem_wfPairs _ _, h2⟩
  have hnepair : (b.sideToMove, p) ≠ (b.sideToMove, q) := by
    intro hcontr
    exact hne (congrArg Prod.snd hcontr)
  have := two_le_length_of_two_mem _ _ _ hm1 hm2 hnepair
  omega

/-- Net effect of the push loop of `generate_and_classify_captures`: the
good captures (SEE ≥ 0) among the generated captures, hash move excluded,
in generation order. -/
def goodCapturesOf (T : MagicTables) (b : Board)
    (hm : Option Move) (CL : List Move) : List Move :=
  CL.filter (fun mv => !isHashMoveB hm mv && staticExchangeEval b T mv 0)

/-- Net effect of the push loop of `generate_and_classify_captures`: the
bad captures (SEE < 0), hash move excluded, in generation order. -/
def badCapturesOf (T : MagicTables) (b : Board)
    (hm : Option Move) (CL : List Move) : List Move :=
  CL.filter (fun mv => !isHashMoveB hm mv && !staticExchangeEval b T mv 0)

/-- The yield of the `HashMove` stage. -/
def hashYieldList (keys : ZobristKeys) (T : MagicTables) (b : Board)
    (hm : Option Move) : List Move :=
  match hm with
  | some h =>
    if isPseudoLegal T b h && isLegalMove keys T b h then [h] else []
  | none => []

/-- The yield of the `Killer1` stage. -/
def killer1Yield (keys : ZobristKeys) (T : MagicTables) (b : Board)
    (hm k1 : Option Move) : List Move :=
  match k1 with
  | some k =>
    if !k.isCapture && !isHashMoveB hm k && isPseudoLegal T b k &&
        isLegalMove keys T b k then [k] else []
  | none => []

/-- The yield of the `Killer2` stage. -/
def killer2Yield (keys : ZobristKeys) (T : MagicTables) (b : Board)
    (hm k1 k2 : Option Move) : List Move :=
  match k2 with
  | some k =>
    if !k.isCapture && !isHashMoveB hm k then
      if !isHashMoveB k1 k && isPseudoLegal T b k &&
          isLegalMove keys T b k then [k] else []
    else []
  | none => []

/-- The yield sequence of `MovePicker::next` iterated to exhaustion: the
stage field only advances, so the iterated calls produce the concatenation
of the stage yields — hash move, good captures by descending MVV-LVA, then
(outside captures-only mode) the killers and the quiets by descending
history score, and finally the bad captures in generation order; each
buffer loop skips duplicates and illegal moves. The capture and quiet
buffers are filled by `generate_pseudo_legal_captures` and
`generate_pseudo_legal_quiets` exactly as in
`MovePicker::generate_and_classify_captures` / `generate_quiets`. -/
def pickerRun (keys : ZobristKeys) (T : MagicTables) (b : Board)
    (hm k1 k2 : Option Move) (hist : Nat → Nat → Int)
    (capturesOnly : Bool) : List Move :=
  let CL := generatePseudoLegalCaptures b T
  let QL := generatePseudoLegalQuiets b T
  let good := goodCapturesOf T b hm CL
  let gscores := good.map (fun mv => mvvLvaScore mv b)
  let bad := badCapturesOf T b hm CL
  let goodYields := (selectionStream good.length good gscores 0).filter
    (fun mv => !isHashMoveB hm mv && isLegalMove keys T b mv)
  let badYields := bad.filter
    (fun mv => !isHashMoveB hm mv && isLegalMove keys T b mv)
  let qscores := QL.map (quietScore hist b)
  let quietYields := (selectionStream QL.length QL qscores 0).filter
    (fun mv => !isDuplicateB hm k1 k2 mv && isLegalMove keys T b mv)
  hashYieldList keys T b hm ++ goodYields ++
    (if capturesOnly then badYields
     else killer1Yield keys T b hm k1 ++ killer2Yield keys T b hm k1 k2 ++
       quietYields ++ badYields)

theorem selection_filter_count (arr : List Move) (scores : List Int)
    (p : Move → Bool) (x : Move) (hlen : scores.length = arr.length) :
    ((selectionStream arr.length arr scores 0).filter p).count x =
      (arr.filter p).count x := by
  rw [count_filter', count_filter']
  by_cases hp : p x
  · rw [if_pos hp, if_pos hp,
      selectionStream_count arr.length arr scores 0 x (by omega) hlen,
      List.drop_zero]
  · rw [if_neg hp, if_neg hp]

set_option maxHeartbeats 800000 in
/-- Per-move yield count of the exhausted picker: the hash move whenever
it passes the pseudo-legality and legality checks; every legal capture
from the capture generator not sharing the hash move's
(origin, destination, promotion) triple; and, outside captures-only mode,
the killers passing their quiet/legality checks and the legal generated
quiets not matching the hash move or a killer by triple. -/
theorem pickerRun_count (keys : ZobristKeys)
    (T : MagicTables) (b : Board) (hm k1 k2 : Option Move)
    (hist : Nat → Nat → Int) (capturesOnly : Bool) (mv : Move) :
    (pickerRun keys T b hm k1 k2 hist capturesOnly).count mv =
      (hashYieldList keys T b hm).count mv +
      ((generatePseudoLegalCaptures b T).filter
        (fun m => !isHashMoveB hm m &&
          isLegalMove keys T b m)).count mv +
      (if capturesOnly then 0 else
        (killer1Yield keys T b hm k1).count mv +
        (killer2Yield keys T b hm k1 k2).count mv +
        ((generatePseudoLegalQuiets b T).filter
          (fun m => !isDuplicateB hm k1 k2 m &&
            isLegalMove keys T b m)).count mv) := by
  unfold pickerRun goodCapturesOf badCapturesOf
  dsimp only
  have hg := selection_filter_count
    ((generatePseudoLegalCaptures b T).filter
      (fun m => !isHashMoveB hm m && staticExchangeEval b T m 0))
    (((generatePseudoLegalCaptures b T).filter
      (fun m => !isHashMoveB hm m &&
        staticExchangeEval b T m 0)).map (fun m => mvvLvaScore m b))
    (fun m => !isHashMoveB hm m && isLegalMove keys T b m) mv
    (List.length_map _ _)
  have hq := selection_filter_count (generatePseudoLegalQuiets b T)
    ((generatePseudoLegalQuiets b T).map (quietScore hist b))
    (fun m => !isDuplicateB hm k1 k2 m && isLegalMove keys T b m) mv
    (List.length_map _ _)
  cases capturesOnly with
  | true =>
    rw [if_pos rfl, if_pos rfl, List.count_append, List.count_append, hg]
    simp only [count_filter']
    by_cases hh : isHashMoveB hm mv <;>
      by_cases hsee : staticExchangeEval b T mv 0 <;>
      by_cases hl : isLegalMove keys T b mv <;>
      simp [hh, hsee, hl]
  | false =>
    rw [if_neg (by simp), if_neg (by simp), List.count_append,
      List.count_append, List.count_append, List.count_append,
      List.count_append, hg, hq]
    simp only [count_filter']
    by_cases hh : isHashMoveB hm mv <;>
      by_cases hsee : staticExchangeEval b T mv 0 <;>
      by_cases hl : isLegalMove keys T b mv <;>
      by_cases hd : isKillerB k1 k2 mv <;>
      simp [hh, hsee, hl, hd, isDuplicateB] <;> omega

theorem hashYieldList_eq (keys : ZobristKeys) (T : MagicTables)
    (b : Board) (hm : Option Move) :
    hashYieldList keys T b hm =
      hashYieldOf (isPseudoLegal T b) (isLegalMove keys T b) hm := by
  cases hm <;> rfl

theorem killer1Yield_eq (keys : ZobristKeys) (T : MagicTables)
    (b : Board) (hm k1 : Option Move) :
    killer1Yield keys T b hm k1 =
      killer1YieldOf (isPseudoLegal T b) (isLegalMove keys T b) hm k1 := by
  cases k1 <;> rfl

theorem killer2Yield_eq (keys : ZobristKeys) (T : MagicTables)
    (b : Board) (hm k1 k2 : Option Move) :
    killer2Yield keys T b hm k1 k2 =
      killer2YieldOf (isPseudoLegal T b) (isLegalMove keys T b)
        hm k1 k2 := by
  cases k2 <;> rfl

/-- Embedding of `generate_legal` from `src/moves/execute.rs`: filter the
pseudo-legal moves, dropping castles that fail `is_legal_castling` and any
move that leaves the mover's king in check after `make_move_basic`. -/
def generateLegal (keys : ZobristKeys) (T : MagicTables) (b : Board) :
    List Move :=
  (generatePseudoLegal b T).filter (fun mv =>
    (!mv.isCastling || isLegalCastling T b mv) &&
      !inCheck T (makeMoveBasic keys b mv).1 b.sideToMove)

/-- On generated moves whose legal castles never leave the king in check
after the move is made (`is_legal_castling` already verifies the king's
path, so this holds for the concrete geometry), `is_legal_move` agrees
with the filter of `generate_legal`. -/
theorem isLegalMove_eq_glPred (keys : ZobristKeys) (T : MagicTables)
    (b : Board)
    (hCastle : ∀ m ∈ generatePseudoLegal b T, m.isCastling = true →
      isLegalCastling T b m = true →
      inCheck T (makeMoveBasic keys b m).1 b.sideToMove = false) :
    ∀ m ∈ generatePseudoLegal b T, isLegalMove keys T b m =
      ((!m.isCastling || isLegalCastling T b m) &&
        !inCheck T (makeMoveBasic keys b m).1 b.sideToMove) := by
  intro m hmem
  unfold isLegalMove
  by_cases hc : m.isCastling = true
  · simp only [hc, if_true, Bool.not_true, Bool.false_or,
      eq_self_iff_true]
    by_cases hlc : isLegalCastling T b m = true
    · rw [hlc, hCastle m hmem hc hlc]
      simp
    · rw [Bool.not_eq_true] at hlc
      rw [hlc]
      simp
  · rw [Bool.not_eq_true] at hc
    simp [hc]

/-- Each triple appears at most once in `generate_legal`'s output. -/
theorem generateLegal_trip_bound (keys : ZobristKeys) (T : MagicTables)
    (b : Board) (hwf : boardWfB b = true) (hT : TablesWf T) (t : Trip) :
    ((generateLegal keys T b).map moveTriple).count t ≤ 1 := by
  have hP := trip_bound_generatePseudoLegal b T hT
    (boardWf_bbLt b hwf) (boardWf_hsub b hwf) (boardWf_hx b hwf)
    (boardWf_castleK b hwf) (boardWf_castleQ b hwf) t
  rw [count_map_countP] at hP
  unfold generateLegal
  rw [count_map_countP, countP_filter_conj]
  refine le_trans (countP_le_of_imp _ _ _ (fun m _ hp => ?_)) hP
  exact ((Bool.and_eq_true _ _).mp hp).2

set_option maxHeartbeats 1600000 in
/-- C3 (amended): on a well-formed board, with slider tables in range,
with generated legal castles never leaving the mover in check, and with
the hash move drawn from `generate_pseudo_legal` and the killers from
`generate_pseudo_legal_quiets` (as the engine supplies them), the
exhausted picker yields exactly the (origin, destination, promotion)
multiset of `generate_legal`, each triple at most once; in captures-only
mode it yields exactly the legal captures and promotions plus the
non-capture, non-promotion part of the hash yield (the hash stage never
consults `captures_only`), again each triple at most once. -/
theorem move_picker_matches_generate_legal (keys : ZobristKeys)
    (T : MagicTables) (b : Board) (hm k1 k2 : Option Move)
    (hist : Nat → Nat → Int) (t : Trip)
    (hwf : boardWfB b = true) (hT : TablesWf T)
    (hCastle : ∀ m ∈ generatePseudoLegal b T, m.isCastling = true →
      isLegalCastling T b m = true →
      inCheck T (makeMoveBasic keys b m).1 b.sideToMove = false)
    (hHash : ∀ h, hm = some h → h ∈ generatePseudoLegal b T)
    (hK1 : ∀ k, k1 = some k → k ∈ generatePseudoLegalQuiets b T)
    (hK2 : ∀ k, k2 = some k → k ∈ generatePseudoLegalQuiets b T) :
    ((pickerRun keys T b hm k1 k2 hist false).map moveTriple).count t =
      ((generateLegal keys T b).map moveTriple).count t ∧
    ((pickerRun keys T b hm k1 k2 hist true).map moveTriple).count t =
      (((generateLegal keys T b).filter (fun m =>
        m.isCapture || m.isPromotion)).map moveTriple).count t +
      (((hashYieldList keys T b hm).filter (fun m =>
        !(m.isCapture || m.isPromotion))).map moveTriple).count t ∧
    ((pickerRun keys T b hm k1 k2 hist false).map
      moveTriple).count t ≤ 1 ∧
    ((pickerRun keys T b hm k1 k2 hist true).map moveTriple).count t ≤ 1 := by
  have hsplitc : ∀ m : Move, (generatePseudoLegal b T).count m =
      (generatePseudoLegalCaptures b T).count m +
      (generatePseudoLegalQuiets b T).count m :=
    fun m => generate_split b T hT
      (boardWf_bbLt b hwf b.sideToMove Piece.Pawn)
      (boardWf_occAllBit b hwf) (boardWf_ekSub b hwf) m
  have hsf := boardWf_soundFacts b hwf
  have hnodupP : (generatePseudoLegal b T).countP
      (fun m => moveTriple m == t) ≤ 1 := by
    have h := trip_bound_generatePseudoLegal b T hT
      (boardWf_bbLt b hwf) (boardWf_hsub b hwf) (boardWf_hx b hwf)
      (boardWf_castleK b hwf) (boardWf_castleQ b hwf) t
    rw [count_map_countP] at h
    exact h
  have hsound := sound_generatePseudoLegal T b hT hsf
  have hLG := isLegalMove_eq_glPred keys T b hCastle
  have hQsh1 : ∀ m ∈ generatePseudoLegalQuiets b T,
      m.isCapture = false := fun m hmq => (quietgen_shape b T m hmq).1
  have hfull := picker_balance_full t (generatePseudoLegal b T)
    (generatePseudoLegalCaptures b T) (generatePseudoLegalQuiets b T)
    hsplitc hnodupP (isLegalMove keys T b)
    (fun mv => (!mv.isCastling || isLegalCastling T b mv) &&
      !inCheck T (makeMoveBasic keys b mv).1 b.sideToMove)
    (isPseudoLegal T b) hLG hsound hQsh1 hm k1 k2 hHash hK1 hK2
  have hcap := picker_balance_captures t (generatePseudoLegal b T)
    (generatePseudoLegalCaptures b T) (generatePseudoLegalQuiets b T)
    hsplitc hnodupP (isLegalMove keys T b)
    (fun mv => (!mv.isCastling || isLegalCastling T b mv) &&
      !inCheck T (makeMoveBasic keys b mv).1 b.sideToMove)
    (isPseudoLegal T b) hLG hsound (capgen_shape b T)
    (quietgen_shape b T) hm hHash
  have hpermF : (pickerRun keys T b hm k1 k2 hist false).Perm
      (hashYieldList keys T b hm ++
        ((generatePseudoLegalCaptures b T).filter (fun m =>
          !isHashMoveB hm m && isLegalMove keys T b m)) ++
        (killer1Yield keys T b hm k1 ++
          killer2Yield keys T b hm k1 k2 ++
          ((generatePseudoLegalQuiets b T).filter (fun m =>
            !isDuplicateB hm k1 k2 m && isLegalMove keys T b m)))) :=
    List.perm_iff_count.mpr (fun mv => by
      rw [pickerRun_count keys T b hm k1 k2 hist false mv]
      simp [List.count_append]
      omega)
  have hpermC : (pickerRun keys T b hm k1 k2 hist true).Perm
      (hashYieldList keys T b hm ++
        ((generatePseudoLegalCaptures b T).filter (fun m =>
          !isHashMoveB hm m && isLegalMove keys T b m))) :=
    List.perm_iff_count.mpr (fun mv => by
      rw [pickerRun_count keys T b hm k1 k2 hist true mv]
      simp [List.count_append])
  have hcF : ((pickerRun keys T b hm k1 k2 hist false).map
      moveTriple).count t =
      ((hashYieldList keys T b hm).map moveTriple).count t +
      (((generatePseudoLegalCaptures b T).filter (fun m =>
        !isHashMoveB hm m && isLegalMove keys T b m)).map
        moveTriple).count t +
      ((killer1Yield keys T b hm k1).map moveTriple).count t +
      ((killer2Yield keys T b hm k1 k2).map moveTriple).count t +
      (((generatePseudoLegalQuiets b T).filter (fun m =>
        !isDuplicateB hm k1 k2 m && isLegalMove keys T b m)).map
        moveTriple).count t := by
    rw [count_map_countP, hpermF.countP_eq]
    simp only [List.countP_append]
    rw [count_map_countP, count_map_countP, count_map_countP,
      count_map_countP, count_map_countP]
    omega
  have hcC : ((pickerRun keys T b hm k1 k2 hist true).map
      moveTriple).count t =
      ((hashYieldList keys T b hm).map moveTriple).count t +
      (((generatePseudoLegalCaptures b T).filter (fun m =>
        !isHashMoveB hm m && isLegalMove keys T b m)).map
        moveTriple).count t := by
    rw [count_map_countP, hpermC.countP_eq]
    simp only [List.countP_append]
    rw [count_map_countP, count_map_countP]
  have hGL : ((generateLegal keys T b).map moveTriple).count t =
      (((generatePseudoLegal b T).filter (fun mv =>
        (!mv.isCastling || isLegalCastling T b mv) &&
          !inCheck T (makeMoveBasic keys b mv).1 b.sideToMove)).map
        moveTriple).count t := rfl
  have hGLcap : (((generateLegal keys T b).filter (fun m =>
      m.isCapture || m.isPromotion)).map moveTriple).count t =
      (((generatePseudoLegal b T).filter (fun m =>
        ((!m.isCastling || isLegalCastling T b m) &&
          !inCheck T (makeMoveBasic keys b m).1 b.sideToMove) &&
        (m.isCapture || m.isPromotion))).map moveTriple).count t := by
    unfold generateLegal
    rw [count_map_countP, count_map_countP, countP_filter_conj,
      countP_filter_conj, countP_filter_conj]
    refine countP_congr' _ _ _ (fun m _ => ?_)
    cases h1 : ((!m.isCastling || isLegalCastling T b m) &&
        !inCheck T (makeMoveBasic keys b m).1 b.sideToMove) <;>
      cases h2 : (m.isCapture || m.isPromotion) <;>
      cases h3 : (moveTriple m == t) <;> simp [h1, h2, h3]
  have hrwF := hfull
  rw [← hashYieldList_eq keys T b hm, ← killer1Yield_eq keys T b hm k1,
    ← killer2Yield_eq keys T b hm k1 k2] at hrwF
  have hrwC := hcap
  rw [← hashYieldList_eq keys T b hm] at hrwC
  have hGLbound := generateLegal_trip_bound keys T b hwf hT t
  refine ⟨?_, ?_, ?_, ?_⟩
  · rw [hcF, hGL]
    exact hrwF
  · rw [hcC, hGLcap]
    exact hrwC
  · rw [hcF, hrwF]
    rw [hGL] at hGLbound
    exact hGLbound
  · have h1 : ((pickerRun keys T b hm k1 k2 hist false).map
        moveTriple).count t ≤ 1 := by
      rw [hcF]
      rw [hGL] at hGLbound
      rw [hrwF]
      exact hGLbound
    rw [hcF] at h1
    rw [hcC]
    omega

/-- All-zero key table for the concrete C3 run. -/
def c3Keys : ZobristKeys :=
  { piece := fun _ _ _ => 0, sideToMove := 0, castling := fun _ => 0,
    epFile := fun _ => 0 }

/-- White pawn e2, White king e1, Black king e8, White to move. -/
def c3Board : Board :=
  { pieceBB := fun c p =>
      match c, p with
      | Color.White, Piece.Pawn => 2 ^ 12
      | Color.White, Piece.King => 2 ^ 4
      | Color.Black, Piece.King => 2 ^ 60
      | _, _ => 0,
    occWhite := 2 ^ 12 ||| 2 ^ 4, occBlack := 2 ^ 60,
    occAll := 2 ^ 12 ||| 2 ^ 4 ||| 2 ^ 60,
    pieceOnSq := fun sq =>
      if sq = 12 then mailboxCode Color.White Piece.Pawn
      else if sq = 4 then mailboxCode Color.White Piece.King
      else if sq = 60 then mailboxCode Color.Black Piece.King
      else EMPTY_SQ,
    sideToMove := Color.White,
    castlingRights := 0, enPassant := none, halfmoveClock := 0,
    fullmoveNumber := 1, zobrist := 0, history := [] }

/-- The quiet pawn push e2e3, supplied as the hash move. -/
def c3Hash : Move :=
  { from_sq := 12, to_sq := 20, piece := Piece.Pawn, promotion := none,
    flags := QUIET_MOVE }

/-- Counterexample to C3 as stated: in captures-only mode with the legal
quiet push e2e3 supplied as hash move, the exhausted picker yields exactly
that move — a non-capture, non-promotion — although the legal captures and
promotions of the position form the empty set (the capture generator has
nothing to produce). The hash-move stage never consults `captures_only`. -/
theorem picker_captures_only_yields_quiet_hash_move :
    pickerRun c3Keys rayTables c3Board (some c3Hash) none none
        (fun _ _ => 0) true = [c3Hash] ∧
    c3Hash.isCapture = false ∧ c3Hash.isPromotion = false := by
  refine ⟨by decide, rfl, rfl⟩

/-- The C3 theorem at the concrete position, hash move e2e3 and no
killers: the full-mode picker yield of the hash triple matches
`generate_legal`. -/
theorem move_picker_matches_generate_legal_witness :
    boardWfB c3Board = true ∧
    ((pickerRun c3Keys rayTables c3Board (some c3Hash) none none
        (fun _ _ => 0) false).map moveTriple).count
        (moveTriple c3Hash) =
      ((generateLegal c3Keys rayTables c3Board).map moveTriple).count
        (moveTriple c3Hash) :=
  ⟨by decide,
    (move_picker_matches_generate_legal c3Keys rayTables c3Board
      (some c3Hash) none none (fun _ _ => 0) (moveTriple c3Hash)
      (by decide) rayTables_wf (by decide)
      (fun h hh => by
        injection hh with he
        rw [← he]
        decide)
      (fun k hk => Option.noConfusion hk)
      (fun k hk => Option.noConfusion hk)).1⟩

end Vantage
